import Mathlib

/-!
# Zakaranda: theme application engine

A shallow embedding of the configuration merge and backup engine
(`internal/integrations`) and of the apply controller (`internal/ui/tui.go`),
followed by the properties established about them.

Conventions of the embedding.

* File contents and JSON text are `String`s; the comment scanner works on the
  character list. The scanner compares characters with ASCII delimiters only,
  so scanning characters and scanning UTF-8 bytes give the same result.
* Go maps (`map[string]interface{}`) are association lists with the lookup
  `Doc.get`, the assignment `Doc.set` and the removal `Doc.delete`.
* The file system is an explicit state; `os.ReadFile` and `os.WriteFile` are
  functions on it that can fail.
* The JSON, TOML and YAML libraries and the external tools are parameters.
* A `float64` value is the rational number it stands for; every operation is
  the exact operation followed by a rounding, which is a parameter.
-/

namespace Zakaranda

/-! ## Comment scanner (`stripJSONComments`) -/

/-- The four loop variables of `stripJSONComments`. -/
structure ScanState where
  inString : Bool
  inSingleLineComment : Bool
  inMultiLineComment : Bool
  escaped : Bool
deriving DecidableEq, Repr

/-- The initial values of the loop variables: all four are `false`. -/
def ScanState.init : ScanState := ⟨false, false, false, false⟩

/-- Double quote, the string delimiter. -/
def chQuote : Char := Char.ofNat 34

/-- Backslash, the escape character inside strings. -/
def chBackslash : Char := Char.ofNat 92

/-- Slash, first character of both comment openers. -/
def chSlash : Char := Char.ofNat 47

/-- Star, second character of the block comment opener. -/
def chStar : Char := Char.ofNat 42

/-- Line feed. -/
def chLF : Char := Char.ofNat 10

/-- Carriage return. -/
def chCR : Char := Char.ofNat 13

/-- The loop of `stripJSONComments` in `vscode.go`, one iteration per
character. `skip = true` stands for a pending `i++` of the previous iteration:
the character is consumed without being looked at. `rest.head?` is the
lookahead `jsonStr[i+1]`, guarded by `i+1 < len(jsonStr)`. The result is the
content of the `strings.Builder`. -/
def vscodeScan : ScanState → Bool → List Char → List Char
  | _, _, [] => []
  | st, true, _ :: rest => vscodeScan st false rest
  | st, false, ch :: rest =>
    if st.inString then
      -- Handle escape sequences in strings
      if st.escaped then
        ch :: vscodeScan { st with escaped := false } false rest
      else if ch = chBackslash then
        ch :: vscodeScan { st with escaped := true } false rest
      else if ch = chQuote then
        ch :: vscodeScan { st with inString := false } false rest
      else
        ch :: vscodeScan st false rest
    else if ch = chQuote ∧ ¬ st.inSingleLineComment ∧ ¬ st.inMultiLineComment then
      -- Check for string start
      ch :: vscodeScan { st with inString := true } false rest
    else if st.inMultiLineComment then
      -- Handle multi-line comment end
      if ch = chStar ∧ rest.head? = some chSlash then
        vscodeScan { st with inMultiLineComment := false } true rest
      else
        vscodeScan st false rest
    else if st.inSingleLineComment then
      -- Handle single-line comment end
      if ch = chLF ∨ ch = chCR then
        ch :: vscodeScan { st with inSingleLineComment := false } false rest
      else
        vscodeScan st false rest
    else if ch = chSlash ∧ rest.head? = some chSlash then
      vscodeScan { st with inSingleLineComment := true } true rest
    else if ch = chSlash ∧ rest.head? = some chStar then
      vscodeScan { st with inMultiLineComment := true } true rest
    else
      -- Regular character
      ch :: vscodeScan st false rest

/-- The function `stripJSONComments` of `vscode.go`. -/
def stripJSONComments (jsonStr : String) : String :=
  String.mk (vscodeScan ScanState.init false jsonStr.data)

/-- The loop of `(*ZedIntegration).stripJSONComments` in `zed.go`. It differs
from the VS Code loop in two places: the comment checks come before the string
start check, and a line comment ends at a line feed only. -/
def zedScan : ScanState → Bool → List Char → List Char
  | _, _, [] => []
  | st, true, _ :: rest => zedScan st false rest
  | st, false, ch :: rest =>
    if st.inString then
      -- Handle escape sequences in strings
      if st.escaped then
        ch :: zedScan { st with escaped := false } false rest
      else if ch = chBackslash then
        ch :: zedScan { st with escaped := true } false rest
      else if ch = chQuote then
        ch :: zedScan { st with inString := false } false rest
      else
        ch :: zedScan st false rest
    else if st.inMultiLineComment then
      -- Handle multi-line comments
      if ch = chStar ∧ rest.head? = some chSlash then
        zedScan { st with inMultiLineComment := false } true rest
      else
        zedScan st false rest
    else if st.inSingleLineComment then
      -- Handle single-line comments
      if ch = chLF then
        ch :: zedScan { st with inSingleLineComment := false } false rest
      else
        zedScan st false rest
    else if ch = chSlash ∧ rest.head? = some chSlash then
      zedScan { st with inSingleLineComment := true } true rest
    else if ch = chSlash ∧ rest.head? = some chStar then
      zedScan { st with inMultiLineComment := true } true rest
    else if ch = chQuote then
      -- Check for string start
      ch :: zedScan { st with inString := true } false rest
    else
      ch :: zedScan st false rest

/-- The method `stripJSONComments` of `zed.go`. -/
def zedStripJSONComments (jsonc : String) : String :=
  String.mk (zedScan ScanState.init false jsonc.data)

/-- The loop variables with the two comment flags cleared: the state in which
a second scan meets what a first scan wrote from this state on. -/
def ScanState.outsideComment (st : ScanState) : ScanState :=
  { st with inSingleLineComment := false, inMultiLineComment := false }

/-! ## Theme model (`internal/theme/theme.go`) -/

/-- The struct `ColorPalette`: the 18 colour slots of a theme. -/
structure ColorPalette where
  Background : String
  Foreground : String
  Black : String
  Red : String
  Green : String
  Yellow : String
  Blue : String
  Magenta : String
  Cyan : String
  White : String
  BrightBlack : String
  BrightRed : String
  BrightGreen : String
  BrightYellow : String
  BrightBlue : String
  BrightMagenta : String
  BrightCyan : String
  BrightWhite : String
deriving DecidableEq, Repr, Inhabited

/-- The struct `Theme`. -/
structure Theme where
  Name : String
  Description : String
  Colors : ColorPalette
deriving DecidableEq, Repr, Inhabited

/-- A hexadecimal digit. -/
def isHexDigit (c : Char) : Bool :=
  ('0' ≤ c && c ≤ '9') || ('a' ≤ c && c ≤ 'f') || ('A' ≤ c && c ≤ 'F')

/-- A well-formed hex RGB string: `#` followed by exactly six hexadecimal
digits. -/
def isHexColor (s : String) : Bool :=
  match s.data with
  | [] => false
  | c :: digits => c == '#' && digits.length == 6 && digits.all isHexDigit

/-- The 18 slots of a palette, in the order of the struct. -/
def ColorPalette.slots (p : ColorPalette) : List String :=
  [p.Background, p.Foreground, p.Black, p.Red, p.Green, p.Yellow, p.Blue, p.Magenta, p.Cyan,
    p.White, p.BrightBlack, p.BrightRed, p.BrightGreen, p.BrightYellow, p.BrightBlue,
    p.BrightMagenta, p.BrightCyan, p.BrightWhite]

/-- The function `SanitizeFileName` of `internal/theme/utils.go`, one step of
its loop: what the character appends to `result`. -/
def sanitizeChar (char : Char) : List Char :=
  if (Char.ofNat 97 ≤ char ∧ char ≤ Char.ofNat 122) ∨ (Char.ofNat 65 ≤ char ∧ char ≤ Char.ofNat 90)
      ∨ (Char.ofNat 48 ≤ char ∧ char ≤ Char.ofNat 57) ∨ char = Char.ofNat 45 ∨ char = Char.ofNat 95 then
    [char]
  else if char = Char.ofNat 32 then
    [Char.ofNat 95]
  else
    []

/-- The function `SanitizeFileName` of `internal/theme/utils.go`. -/
def SanitizeFileName (name : String) : String :=
  String.mk (name.data.flatMap sanitizeChar)

/-- The character class `[A-Za-z0-9_-]`. -/
def inFileNameClass (c : Char) : Bool :=
  ('a' ≤ c && c ≤ 'z') || ('A' ≤ c && c ≤ 'Z') || ('0' ≤ c && c ≤ '9') || c == '-' || c == '_'

/-! ## Decoded documents (`map[string]interface{}`) -/

/-- A decoded configuration value, the `interface{}` that the JSON, TOML and
YAML decoders produce. Numbers and dates are carried by their text: the merge
code never looks inside them. -/
inductive Value where
  | null : Value
  | bool (b : Bool) : Value
  | num (text : String) : Value
  | str (s : String) : Value
  | arr (items : List Value) : Value
  | obj (fields : List (String × Value)) : Value

/-- A decoded document or table: a Go `map[string]interface{}`. -/
abbrev Doc := List (String × Value)

/-- The type assertion `v.(map[string]interface{})`, applied to a looked-up
entry: `none` when the assertion reports `ok == false`. -/
def Value.asObj? : Value → Option Doc
  | Value.obj fields => some fields
  | _ => none

/-- Map lookup `m[k]`: the value bound to `k`, `none` when `k` is not a key. -/
def Doc.get : Doc → String → Option Value
  | [], _ => none
  | (k', v') :: rest, k => if k' = k then some v' else Doc.get rest k

/-- Map assignment `m[k] = v`. -/
def Doc.set : Doc → String → Value → Doc
  | [], k, v => [(k, v)]
  | (k', v') :: rest, k, v => if k' = k then (k, v) :: rest else (k', v') :: Doc.set rest k v

/-- Map removal `delete(m, k)`. -/
def Doc.delete (m : Doc) (k : String) : Doc :=
  m.filter (fun e => decide (e.1 ≠ k))

/-- The loop `for k, v := range src { dst[k] = v }`. Go fixes no order for
the loop and the keys of `src` are distinct; the entries are taken from the
last to the first, so that the binding `Doc.get` reads in `src` is the one
assigned last. -/
def Doc.assignAll (dst : Doc) (src : Doc) : Doc :=
  src.foldr (fun e acc => acc.set e.1 e.2) dst

/-- A Go `map[string]string` literal used as a value. -/
def Value.ofStrings (entries : List (String × String)) : Value :=
  Value.obj (entries.map (fun e => (e.1, Value.str e.2)))

/-- The loop `for k, v := range src { dst[k] = v }` with `src` a
`map[string]string`, in the same order as `Doc.assignAll`. -/
def Doc.assignStrings (dst : Doc) (src : List (String × String)) : Doc :=
  src.foldr (fun e acc => acc.set e.1 (Value.str e.2)) dst

/-- The same value as a Go value: two maps are the same when they bind the
same keys to the same values, whatever the order the model lists them in. -/
inductive Value.Same : Value → Value → Prop
  | refl (v : Value) : Value.Same v v
  | arr (l l' : List Value) (hlen : l.length = l'.length)
      (h : ∀ (i : Nat) (v v' : Value), l[i]? = some v → l'[i]? = some v' → Value.Same v v') :
      Value.Same (Value.arr l) (Value.arr l')
  | obj (d d' : List (String × Value))
      (hkeys : ∀ k : String, Doc.get d k = none ↔ Doc.get d' k = none)
      (h : ∀ (k : String) (v v' : Value), Doc.get d k = some v → Doc.get d' k = some v' →
        Value.Same v v') :
      Value.Same (Value.obj d) (Value.obj d')

/-- The same map. -/
def Doc.Same (d d' : Doc) : Prop := Value.Same (Value.obj d) (Value.obj d')

/-! ## Libraries and file system -/

/-- The library functions the adapters call, as parameters. A decoder into a
`map[string]interface{}` variable returns an error text, or the map it left in
the variable: `none` is the nil map (the variable was not assigned, as for the
JSON text `null`). An encoder returns an error text or the encoded bytes.
`filepathJoin`, `filepathDir` and `toLower` are `filepath.Join`,
`filepath.Dir` and `strings.ToLower`. -/
structure Libs where
  jsonUnmarshal : String → Except String (Option Doc)
  jsonMarshalIndent : Doc → Except String String
  tomlUnmarshal : String → Except String (Option Doc)
  tomlEncode : Doc → Except String String
  yamlUnmarshal : String → Except String (Option Doc)
  yamlMarshal : Doc → Except String String
  filepathJoin : List String → String
  filepathDir : String → String
  toLower : String → String

/-- A regular file: its bytes, and whether the process may read it. -/
structure File where
  data : String
  readable : Bool
deriving DecidableEq, Repr

/-- The part of the file system the adapters see. `file` gives the regular
files, `dir` the directories and application bundles, `writable p` tells
whether `os.WriteFile` on `p` succeeds, `mkdirOk p` whether `os.MkdirAll` on
`p` succeeds. -/
structure FS where
  file : String → Option File
  dir : String → Bool
  writable : String → Bool
  mkdirOk : String → Bool

/-- Outcome of `os.ReadFile`. -/
inductive ReadResult where
  | ok (data : String) : ReadResult
  | notExist : ReadResult
  | failed (msg : String) : ReadResult
deriving DecidableEq, Repr

/-- The call `os.ReadFile(path)`. -/
def FS.readFile (fs : FS) (path : String) : ReadResult :=
  match fs.file path with
  | none => ReadResult.notExist
  | some f => if f.readable then ReadResult.ok f.data else ReadResult.failed "permission denied"

/-- The call `os.WriteFile(path, data, 0644)`: `none` on error. The file is
created readable when it did not exist and keeps its mode when it did. -/
def FS.writeFile (fs : FS) (path : String) (data : String) : Option FS :=
  if fs.writable path then
    let mode := match fs.file path with
      | some f => f.readable
      | none => true
    some { fs with file := fun p => if p = path then some ⟨data, mode⟩ else fs.file p }
  else
    none

/-- The call `os.Stat(path)` reporting `err == nil`. -/
def FS.stat (fs : FS) (path : String) : Bool :=
  (fs.file path).isSome || fs.dir path

/-- The call `os.MkdirAll(path, 0755)`: `none` on error. -/
def FS.mkdirAll (fs : FS) (path : String) : Option FS :=
  if fs.mkdirOk path then
    some { fs with dir := fun p => if p = path then true else fs.dir p }
  else
    none

/-- What one call of an adapter's `Apply` did: the returned error (`none` for
`nil`), the file system afterwards, and the paths handed to a successful
`os.WriteFile`, in call order. -/
structure ApplyResult where
  err : Option String
  fs : FS
  writes : List String

/-- The text Go gives a run-time panic on a write into a nil map. An `Apply`
that panics is reported with this text as its error. -/
def nilMapPanic : String := "panic: assignment to entry in nil map"

/-- The external programs the adapters run, as parameters. `gitClone dest` is
`git clone` of the Alacritty theme repository into `dest`: an error text, or
the entries below `dest` that `os.Stat` finds afterwards. `plistImport path`
is `importTheme` of `iterm2.go`, which edits the iTerm2 preference store with
PlistBuddy: the error it returns. -/
structure Tools where
  gitClone : String → Except String (String → Bool)
  plistImport : String → Option String

/-! ## VS Code adapter (`internal/integrations/vscode.go`) -/

/-- The struct `VSCodeThemeExtension`. -/
structure VSCodeThemeExtension where
  ExtensionID : String
  ThemeName : String
  IconTheme : String
  ProductIconTheme : String
deriving DecidableEq, Repr

/-- The entries of the map `vscodeThemeExtensions`. -/
def vscodeThemeExtensionsTable : List (String × VSCodeThemeExtension) :=
  [ ("Nord", ⟨"arcticicestudio.nord-visual-studio-code", "Nord", "charmed-light", "fluent-icons"⟩),
    ("Catppuccin Latte", ⟨"catppuccin.catppuccin-vsc", "Catppuccin Latte", "catppuccin-latte", "catppuccin-latte"⟩),
    ("Catppuccin Frappe", ⟨"catppuccin.catppuccin-vsc", "Catppuccin Frappé", "catppuccin-frappe", "catppuccin-frappe"⟩),
    ("Catppuccin Macchiato", ⟨"catppuccin.catppuccin-vsc", "Catppuccin Macchiato", "catppuccin-macchiato", "catppuccin-macchiato"⟩),
    ("Catppuccin Mocha", ⟨"catppuccin.catppuccin-vsc", "Catppuccin Mocha", "catppuccin-mocha", "catppuccin-mocha"⟩),
    ("Rose Pine", ⟨"mvllow.rose-pine", "Rosé Pine", "rose-pine-icons", "fluent-icons"⟩),
    ("Rose Pine Moon", ⟨"mvllow.rose-pine", "Rosé Pine Moon", "rose-pine-moon-icons", "fluent-icons"⟩),
    ("Rose Pine Dawn", ⟨"mvllow.rose-pine", "Rosé Pine Dawn", "rose-pine-dawn-icons", "fluent-icons"⟩) ]

/-- The lookup `themeExt, hasExtension := vscodeThemeExtensions[name]`. -/
def vscodeThemeExtensions (name : String) : Option VSCodeThemeExtension :=
  vscodeThemeExtensionsTable.lookup name

/-- The method `generateVSCodeColors`. -/
def generateVSCodeColors (t : Theme) : List (String × String) :=
  [ -- Editor
    ("editor.background", t.Colors.Background),
    ("editor.foreground", t.Colors.Foreground),
    ("editorCursor.foreground", t.Colors.Blue),
    ("editor.lineHighlightBackground", t.Colors.Black),
    ("editor.selectionBackground", t.Colors.BrightBlack),
    -- Sidebar
    ("sideBar.background", t.Colors.Black),
    ("sideBar.foreground", t.Colors.Foreground),
    ("sideBarSectionHeader.background", t.Colors.Background),
    -- Activity Bar
    ("activityBar.background", t.Colors.Black),
    ("activityBar.foreground", t.Colors.Blue),
    ("activityBar.inactiveForeground", t.Colors.BrightBlack),
    -- Status Bar
    ("statusBar.background", t.Colors.Black),
    ("statusBar.foreground", t.Colors.Foreground),
    ("statusBar.noFolderBackground", t.Colors.Background),
    -- Title Bar
    ("titleBar.activeBackground", t.Colors.Black),
    ("titleBar.activeForeground", t.Colors.Foreground),
    ("titleBar.inactiveBackground", t.Colors.Background),
    -- Tabs
    ("tab.activeBackground", t.Colors.Background),
    ("tab.inactiveBackground", t.Colors.Black),
    ("tab.activeForeground", t.Colors.Foreground),
    ("tab.border", t.Colors.Black),
    -- Panel
    ("panel.background", t.Colors.Background),
    ("panel.border", t.Colors.Black),
    ("panelTitle.activeForeground", t.Colors.Foreground),
    ("panelTitle.inactiveForeground", t.Colors.BrightBlack) ]

/-- The method `generateTerminalColors`. -/
def generateTerminalColors (t : Theme) : List (String × String) :=
  [ ("terminal.background", t.Colors.Background),
    ("terminal.foreground", t.Colors.Foreground),
    ("terminal.ansiBlack", t.Colors.Black),
    ("terminal.ansiRed", t.Colors.Red),
    ("terminal.ansiGreen", t.Colors.Green),
    ("terminal.ansiYellow", t.Colors.Yellow),
    ("terminal.ansiBlue", t.Colors.Blue),
    ("terminal.ansiMagenta", t.Colors.Magenta),
    ("terminal.ansiCyan", t.Colors.Cyan),
    ("terminal.ansiWhite", t.Colors.White),
    ("terminal.ansiBrightBlack", t.Colors.BrightBlack),
    ("terminal.ansiBrightRed", t.Colors.BrightRed),
    ("terminal.ansiBrightGreen", t.Colors.BrightGreen),
    ("terminal.ansiBrightYellow", t.Colors.BrightYellow),
    ("terminal.ansiBrightBlue", t.Colors.BrightBlue),
    ("terminal.ansiBrightMagenta", t.Colors.BrightMagenta),
    ("terminal.ansiBrightCyan", t.Colors.BrightCyan),
    ("terminal.ansiBrightWhite", t.Colors.BrightWhite) ]

/-- The key `workbench.colorCustomizations`. -/
def keyColorCustomizations : String := "workbench.colorCustomizations"

/-- The merge step of `VSCodeIntegration.Apply` (from the comment "If official
extension exists, set theme preferences" down to the assignment of
`workbench.colorCustomizations`), on a non-nil `settings` map. -/
def vscodeMerge (t : Theme) (settings : Doc) : Doc :=
  match vscodeThemeExtensions t.Name with
  | some themeExt =>
    let settings := settings.set "workbench.colorTheme" (Value.str themeExt.ThemeName)
    let settings := settings.set "workbench.iconTheme" (Value.str themeExt.IconTheme)
    let settings := settings.set "workbench.productIconTheme" (Value.str themeExt.ProductIconTheme)
    -- Don't clear color customizations - user may have custom overrides
    -- Only remove if it's empty or doesn't exist
    match (settings.get keyColorCustomizations).bind Value.asObj? with
    | some existingCustomizations =>
      if existingCustomizations.length = 0 then settings.delete keyColorCustomizations else settings
    | none => settings
  | none =>
    -- Fallback to custom color customizations
    let colors : Doc := []
    let colors := colors.assignStrings (generateVSCodeColors t)
    let colors := colors.assignStrings (generateTerminalColors t)
    -- User customizations override theme colors
    let colors := match (settings.get keyColorCustomizations).bind Value.asObj? with
      | some existingCustomizations => colors.assignAll existingCustomizations
      | none => colors
    settings.set keyColorCustomizations (Value.obj colors)

/-- The tail of the three JSON and TOML adapters: marshal the merged map with
`encode` and write it to `configPath`. `writes` are the writes done so far. -/
def encodeAndWrite (encode : Doc → Except String String) (what : String) (configPath : String)
    (merged : Doc) (fs : FS) (writes : List String) : ApplyResult :=
  match encode merged with
  | Except.error e => ⟨some ("failed to marshal " ++ what ++ ": " ++ e), fs, writes⟩
  | Except.ok newData =>
    match fs.writeFile configPath newData with
    | none => ⟨some ("failed to write " ++ what), fs, writes⟩
    | some fs2 => ⟨none, fs2, writes ++ [configPath]⟩

/-- The method `VSCodeIntegration.Apply`, from "Create backup" on: `data` is
what `os.ReadFile` returned (empty when the file does not exist) and
`settings` the decoded map, `none` being the nil map. -/
def vscodeBackupMergeWrite (libs : Libs) (configPath : String) (t : Theme) (fs : FS)
    (data : String) (settings : Option Doc) : ApplyResult :=
  -- Create backup
  let backed : Option (FS × List String) :=
    if data.length > 0 then
      (fs.writeFile (configPath ++ ".backup") data).map (fun fs1 => (fs1, [configPath ++ ".backup"]))
    else
      some (fs, [])
  match backed with
  | none => ⟨some "failed to create backup", fs, []⟩
  | some (fs1, writes) =>
    match settings with
    | none => ⟨some nilMapPanic, fs1, writes⟩
    | some settings =>
      encodeAndWrite libs.jsonMarshalIndent "settings" configPath (vscodeMerge t settings) fs1 writes

/-- The method `VSCodeIntegration.Apply` with the receiver's `configPath`. The
extension installation at its start runs an external command and only prints a
warning when it fails, so it does not appear in the result. -/
def VSCodeIntegration.Apply (libs : Libs) (configPath : String) (t : Theme) (fs : FS) : ApplyResult :=
  -- Read existing settings
  match fs.readFile configPath with
  | ReadResult.failed msg => ⟨some ("failed to read settings: " ++ msg), fs, []⟩
  | ReadResult.notExist => vscodeBackupMergeWrite libs configPath t fs "" (some [])
  | ReadResult.ok data =>
    -- Strip comments from JSON (VS Code allows comments in settings.json)
    match libs.jsonUnmarshal (stripJSONComments data) with
    | Except.error e => ⟨some ("failed to parse settings: " ++ e), fs, []⟩
    | Except.ok settings => vscodeBackupMergeWrite libs configPath t fs data settings

/-! ## Zed adapter (`internal/integrations/zed.go`) -/

/-- The struct `ZedExtension`. -/
structure ZedExtension where
  ExtensionID : String
  ThemeName : String
  IsLight : Bool
deriving DecidableEq, Repr

/-- The entries of the map `zedThemeExtensions`. -/
def zedThemeExtensionsTable : List (String × ZedExtension) :=
  [ ("Nord", ⟨"nord", "Nord Dark", false⟩),
    ("Catppuccin Latte", ⟨"catppuccin", "Catppuccin Latte", true⟩),
    ("Catppuccin Frappe", ⟨"catppuccin", "Catppuccin Frappé", false⟩),
    ("Catppuccin Macchiato", ⟨"catppuccin", "Catppuccin Macchiato", false⟩),
    ("Catppuccin Mocha", ⟨"catppuccin", "Catppuccin Mocha", false⟩),
    ("Rose Pine", ⟨"rose-pine-theme", "Rosé Pine", false⟩),
    ("Rose Pine Moon", ⟨"rose-pine-theme", "Rosé Pine Moon", false⟩),
    ("Rose Pine Dawn", ⟨"rose-pine-theme", "Rosé Pine Dawn", true⟩) ]

/-- The lookup `themeExt, hasExtension := zedThemeExtensions[name]`. -/
def zedThemeExtensions (name : String) : Option ZedExtension :=
  zedThemeExtensionsTable.lookup name

/-- The struct `ZedIntegration`. -/
structure ZedIntegration where
  configPath : String
  extensionsPath : String
deriving DecidableEq, Repr

/-- The method `IsExtensionInstalled`. -/
def ZedIntegration.IsExtensionInstalled (z : ZedIntegration) (libs : Libs) (fs : FS)
    (extensionID : String) : Bool :=
  fs.stat (libs.filepathJoin [z.extensionsPath, extensionID])

/-- The merge step of `ZedIntegration.Apply` ("Update theme configuration"),
on a non-nil `settings` map. -/
def zedMerge (themeExt : ZedExtension) (settings : Doc) : Doc :=
  let themeConfig : Doc := [("mode", Value.str "system")]
  -- Set both light and dark to the same theme
  let themeConfig := themeConfig.set "light" (Value.str themeExt.ThemeName)
  let themeConfig := themeConfig.set "dark" (Value.str themeExt.ThemeName)
  settings.set "theme" (Value.obj themeConfig)

/-- The method `ZedIntegration.Apply`, from "Create backup" on. -/
def zedBackupMergeWrite (libs : Libs) (configPath : String) (themeExt : ZedExtension) (fs : FS)
    (data : String) (settings : Option Doc) : ApplyResult :=
  -- Create backup
  let backed : Option (FS × List String) :=
    if data.length > 0 then
      (fs.writeFile (configPath ++ ".backup") data).map (fun fs1 => (fs1, [configPath ++ ".backup"]))
    else
      some (fs, [])
  match backed with
  | none => ⟨some "failed to create backup", fs, []⟩
  | some (fs1, writes) =>
    match settings with
    | none => ⟨some nilMapPanic, fs1, writes⟩
    | some settings =>
      encodeAndWrite libs.jsonMarshalIndent "settings" configPath (zedMerge themeExt settings) fs1 writes

/-- The method `ZedIntegration.Apply`. -/
def ZedIntegration.Apply (z : ZedIntegration) (libs : Libs) (t : Theme) (fs : FS) : ApplyResult :=
  -- Check if theme has official Zed extension
  match zedThemeExtensions t.Name with
  | none => ⟨some ("no Zed extension available for theme: " ++ t.Name), fs, []⟩
  | some themeExt =>
    -- Check if extension is installed
    if ¬ z.IsExtensionInstalled libs fs themeExt.ExtensionID then
      ⟨some "extension not installed", fs, []⟩
    else
      -- Read existing settings
      match fs.readFile z.configPath with
      | ReadResult.failed msg => ⟨some ("failed to read settings: " ++ msg), fs, []⟩
      | ReadResult.notExist => zedBackupMergeWrite libs z.configPath themeExt fs "" (some [])
      | ReadResult.ok data =>
        -- Strip comments from JSONC
        match libs.jsonUnmarshal (zedStripJSONComments data) with
        | Except.error e => ⟨some ("failed to parse settings: " ++ e), fs, []⟩
        | Except.ok settings => zedBackupMergeWrite libs z.configPath themeExt fs data settings

/-! ## Alacritty adapter (`internal/integrations/alacritty.go`) -/

/-- The struct `AlacrittyIntegration`. -/
structure AlacrittyIntegration where
  configPath : String
  themesPath : String
deriving DecidableEq, Repr

/-- The entries of the map `alacrittyThemeMap`. -/
def alacrittyThemeMapTable : List (String × String) :=
  [ ("Nord", "nord.toml"),
    ("Catppuccin Latte", "catppuccin_latte.toml"),
    ("Catppuccin Frappe", "catppuccin_frappe.toml"),
    ("Catppuccin Macchiato", "catppuccin_macchiato.toml"),
    ("Catppuccin Mocha", "catppuccin_mocha.toml"),
    ("Rose Pine", "rose_pine.toml"),
    ("Rose Pine Moon", "rose_pine_moon.toml"),
    ("Rose Pine Dawn", "rose_pine_dawn.toml") ]

/-- The lookup `officialTheme, hasOfficial := alacrittyThemeMap[name]`. -/
def alacrittyThemeMap (name : String) : Option String :=
  alacrittyThemeMapTable.lookup name

/-- The method `generateAlacrittyColors`. -/
def generateAlacrittyColors (t : Theme) : Doc :=
  [ ("primary", Value.ofStrings
      [ ("background", t.Colors.Background),
        ("foreground", t.Colors.Foreground) ]),
    ("cursor", Value.ofStrings
      [ ("text", t.Colors.Background),
        ("cursor", t.Colors.Foreground) ]),
    ("normal", Value.ofStrings
      [ ("black", t.Colors.Black),
        ("red", t.Colors.Red),
        ("green", t.Colors.Green),
        ("yellow", t.Colors.Yellow),
        ("blue", t.Colors.Blue),
        ("magenta", t.Colors.Magenta),
        ("cyan", t.Colors.Cyan),
        ("white", t.Colors.White) ]),
    ("bright", Value.ofStrings
      [ ("black", t.Colors.BrightBlack),
        ("red", t.Colors.BrightRed),
        ("green", t.Colors.BrightGreen),
        ("yellow", t.Colors.BrightYellow),
        ("blue", t.Colors.BrightBlue),
        ("magenta", t.Colors.BrightMagenta),
        ("cyan", t.Colors.BrightCyan),
        ("white", t.Colors.BrightWhite) ]),
    ("selection", Value.ofStrings
      [ ("text", t.Colors.Foreground),
        ("background", t.Colors.BrightBlack) ]) ]

/-- The test `strings.HasSuffix(lowered, ".toml")` on the lowered path. -/
def hasTomlSuffix (lowered : String) : Bool :=
  (".toml".data).isSuffixOf lowered.data

/-- The merge step of `AlacrittyIntegration.Apply` (from "Use import method if
official theme exists and config is TOML" to the end of the YAML branch of the
encoding), on a non-nil `config` map. `officialTheme` is the result of the
lookup in `alacrittyThemeMap`, `themeFileExists` the result of the method of
that name on the official theme path. A table reached through
`config["general"]` is the table stored in `config`, so a change to it is a
change to the entry of `config`. -/
def alacrittyMerge (t : Theme) (officialTheme : Option String) (isTOML : Bool)
    (themeFileExists : Bool) (config : Doc) : Doc :=
  let config :=
    if officialTheme.isSome ∧ isTOML ∧ themeFileExists then
      -- Use import directive
      let (general, config) := match (config.get "general").bind Value.asObj? with
        | some general => (general, config)
        | none => (([] : Doc), config.set "general" (Value.obj []))
      -- Set import path
      let importPath := "~/.config/alacritty/themes/alacritty/themes/" ++ officialTheme.getD ""
      let general := general.set "import" (Value.arr [Value.str importPath])
      let config := config.set "general" (Value.obj general)
      -- Remove colors section if it exists (let import handle it)
      config.delete "colors"
    else
      -- Fallback to manual color palette
      let colors := generateAlacrittyColors t
      let config := config.set "colors" (Value.obj colors)
      -- Remove import if it exists
      match (config.get "general").bind Value.asObj? with
      | some general => config.set "general" (Value.obj (general.delete "import"))
      | none => config
  if isTOML then
    config
  else
    -- For YAML, use manual colors (import not supported in YAML)
    config.set "colors" (Value.obj (generateAlacrittyColors t))

/-- The method `cloneThemeRepo`: the error it returns and the file system
afterwards. -/
def AlacrittyIntegration.cloneThemeRepo (a : AlacrittyIntegration) (libs : Libs) (tools : Tools)
    (fs : FS) : Option String × FS :=
  -- Create themes directory
  match fs.mkdirAll a.themesPath with
  | none => (some "failed to create themes directory", fs)
  | some fs1 =>
    match tools.gitClone (libs.filepathJoin [a.themesPath, "alacritty"]) with
    | Except.error e => (some ("failed to clone theme repository: " ++ e), fs1)
    | Except.ok entries => (none, { fs1 with dir := fun p => entries p || fs1.dir p })

/-- The method `ensureThemeRepo`. -/
def AlacrittyIntegration.ensureThemeRepo (a : AlacrittyIntegration) (libs : Libs) (tools : Tools)
    (fs : FS) : Option String × FS :=
  -- Check if theme repository already exists
  let repoPath := libs.filepathJoin [a.themesPath, "alacritty"]
  if fs.stat repoPath then
    (none, fs)
  else
    a.cloneThemeRepo libs tools fs

/-- The method `themeFileExists`. -/
def AlacrittyIntegration.themeFileExists (fs : FS) (path : String) : Bool :=
  fs.stat path

/-- The method `AlacrittyIntegration.Apply`, from "Create backup" on. -/
def alacrittyBackupMergeWrite (a : AlacrittyIntegration) (libs : Libs) (t : Theme) (fs : FS)
    (data : String) (config : Option Doc) : ApplyResult :=
  let officialTheme := alacrittyThemeMap t.Name
  let officialThemePath :=
    libs.filepathJoin [a.themesPath, "alacritty", "themes", officialTheme.getD ""]
  -- Create backup
  let backed : Option (FS × List String) :=
    if data.length > 0 then
      (fs.writeFile (a.configPath ++ ".backup") data).map
        (fun fs1 => (fs1, [a.configPath ++ ".backup"]))
    else
      some (fs, [])
  match backed with
  | none => ⟨some "failed to create backup", fs, []⟩
  | some (fs1, writes) =>
    -- Determine file format
    let isTOML := hasTomlSuffix (libs.toLower a.configPath)
    match config with
    | none => ⟨some nilMapPanic, fs1, writes⟩
    | some config =>
      let merged := alacrittyMerge t officialTheme isTOML
        (AlacrittyIntegration.themeFileExists fs1 officialThemePath) config
      if isTOML then
        encodeAndWrite libs.tomlEncode "TOML config" a.configPath merged fs1 writes
      else
        encodeAndWrite libs.yamlMarshal "YAML config" a.configPath merged fs1 writes

/-- The method `AlacrittyIntegration.Apply`. -/
def AlacrittyIntegration.Apply (a : AlacrittyIntegration) (libs : Libs) (tools : Tools)
    (t : Theme) (fs : FS) : ApplyResult :=
  -- Ensure theme repository is cloned
  match a.ensureThemeRepo libs tools fs with
  | (some e, fs0) => ⟨some ("failed to setup theme repository: " ++ e), fs0, []⟩
  | (none, fs0) =>
    -- Read existing config
    match fs0.readFile a.configPath with
    | ReadResult.failed msg => ⟨some ("failed to read config: " ++ msg), fs0, []⟩
    | ReadResult.notExist => alacrittyBackupMergeWrite a libs t fs0 "" (some [])
    | ReadResult.ok data =>
      -- Determine file format based on extension
      let isTOML := hasTomlSuffix (libs.toLower a.configPath)
      let decoded := if isTOML then libs.tomlUnmarshal data else libs.yamlUnmarshal data
      match decoded with
      | Except.error e =>
        ⟨some ((if isTOML then "failed to parse TOML config: " else "failed to parse YAML config: ") ++ e),
          fs0, []⟩
      | Except.ok config => alacrittyBackupMergeWrite a libs t fs0 data config

/-! ## Starship adapter (`internal/integrations/starship.go`) -/

/-- The method `getNordConfig`: the full Starship configuration of Nord. -/
def getNordConfig : String :=
  "\"$schema\" = \x27https://starship.rs/config-schema.json\x27\n\ncommand_timeout = 3000\n\nformat = \"\"\"\n[](frost_blue)\\\n$os\\\n$username\\\n[](bg:frost_light fg:frost_blue)\\\n$directory\\\n[](bg:frost_cyan fg:frost_light)\\\n$git_branch\\\n$git_status\\\n[](fg:frost_cyan bg:frost_green)\\\n$c\\\n$rust\\\n$golang\\\n$nodejs\\\n$php\\\n$java\\\n$kotlin\\\n$haskell\\\n$python\\\n[](fg:frost_green bg:snow_2)\\\n$conda\\\n[](fg:snow_2 bg:snow_3)\\\n$time\\\n[ ](fg:snow_3)\\\n$line_break\\\n$character\"\"\"\n\npalette = \x27nord\x27\n\n[os]\ndisabled = false\nstyle = \"bg:frost_blue fg:polar_0\"\n\n[os.symbols]\nWindows = \"\"\nUbuntu = \"󰕈\"\nSUSE = \"\"\nRaspbian = \"󰐿\"\nMint = \"󰣭\"\nMacos = \"󰀵\"\nManjaro = \"\"\nLinux = \"󰌽\"\nGentoo = \"󰣨\"\nFedora = \"󰣛\"\nAlpine = \"\"\nAmazon = \"\"\nAndroid = \"\"\nArch = \"󰣇\"\nArtix = \"󰣇\"\nCentOS = \"\"\nDebian = \"󰣚\"\nRedhat = \"󱄛\"\nRedHatEnterprise = \"󱄛\"\n\n[username]\nshow_always = true\nstyle_user = \"bg:frost_blue fg:polar_0\"\nstyle_root = \"bg:frost_blue fg:polar_0\"\nformat = \x27[ $user]($style)\x27\n\n[directory]\nstyle = \"bg:frost_light fg:polar_0\"\nformat = \"[ $path ]($style)\"\ntruncation_length = 3\ntruncation_symbol = \"…/\"\n\n[directory.substitutions]\n\"Documents\" = \"󰈙 \"\n\"Downloads\" = \" \"\n\"Music\" = \"󰝚 \"\n\"Pictures\" = \" \"\n\"Developer\" = \"󰲋 \"\n\n[git_branch]\nsymbol = \"\"\nstyle = \"bg:frost_cyan\"\nformat = \x27[[ $symbol $branch ](fg:polar_0 bg:frost_cyan)]($style)\x27\n\n[git_status]\nstyle = \"bg:frost_cyan\"\nformat = \x27[[($all_status$ahead_behind )](fg:polar_0 bg:frost_cyan)]($style)\x27\n\n[nodejs]\nsymbol = \"\"\nstyle = \"bg:frost_green\"\nformat = \x27[[ $symbol( $version) ](fg:polar_0 bg:frost_green)]($style)\x27\n\n[c]\nsymbol = \" \"\nstyle = \"bg:frost_green\"\nformat = \x27[[ $symbol( $version) ](fg:polar_0 bg:frost_green)]($style)\x27\n\n[rust]\nsymbol = \"\"\nstyle = \"bg:frost_green\"\nformat = \x27[[ $symbol( $version) ](fg:polar_0 bg:frost_green)]($style)\x27\n\n[golang]\nsymbol = \"\"\nstyle = \"bg:frost_green\"\nformat = \x27[[ $symbol( $version) ](fg:polar_0 bg:frost_green)]($style)\x27\n\n[php]\nsymbol = \"\"\nstyle = \"bg:frost_green\"\nformat = \x27[[ $symbol( $version) ](fg:polar_0 bg:frost_green)]($style)\x27\ndetect_extensions = [\x27php\x27]\ndetect_files = [\x27composer.json\x27, \x27.php-version\x27]\ndetect_folders = [\x27vendor\x27]\n\n[java]\nsymbol = \" \"\nstyle = \"bg:frost_green\"\nformat = \x27[[ $symbol( $version) ](fg:polar_0 bg:frost_green)]($style)\x27\n\n[kotlin]\nsymbol = \"\"\nstyle = \"bg:frost_green\"\nformat = \x27[[ $symbol( $version) ](fg:polar_0 bg:frost_green)]($style)\x27\n\n[haskell]\nsymbol = \"\"\nstyle = \"bg:frost_green\"\nformat = \x27[[ $symbol( $version) ](fg:polar_0 bg:frost_green)]($style)\x27\n\n[python]\nsymbol = \"\"\nstyle = \"bg:frost_green\"\nformat = \x27[[ $symbol( $version)(\\(#$virtualenv\\)) ](fg:polar_0 bg:frost_green)]($style)\x27\n\n[docker_context]\nsymbol = \"\"\nstyle = \"bg:snow_2\"\nformat = \x27[[ $symbol( $context) ](fg:polar_0 bg:snow_2)]($style)\x27\n\n[conda]\nsymbol = \"  \"\nstyle = \"fg:polar_0 bg:snow_2\"\nformat = \x27[$symbol$environment ]($style)\x27\nignore_base = false\n\n[time]\ndisabled = false\ntime_format = \"%R\"\nstyle = \"bg:snow_3\"\nformat = \x27[[  $time ](fg:polar_0 bg:snow_3)]($style)\x27\n\n[line_break]\ndisabled = true\n\n[character]\ndisabled = false\nsuccess_symbol = \x27[❯](bold fg:frost_green)\x27\nerror_symbol = \x27[❯](bold fg:frost_cyan)\x27\nvimcmd_symbol = \x27[❮](bold fg:frost_green)\x27\nvimcmd_replace_one_symbol = \x27[❮](bold fg:snow_2)\x27\nvimcmd_replace_symbol = \x27[❮](bold fg:snow_2)\x27\nvimcmd_visual_symbol = \x27[❮](bold fg:frost_blue)\x27\n\n[cmd_duration]\nshow_milliseconds = true\nformat = \" in $duration \"\nstyle = \"bg:snow_3\"\ndisabled = false\nshow_notifications = true\nmin_time_to_notify = 45000\n\n[palettes.nord]\n# Polar Night\npolar_0 = \"#2e3440\"\npolar_1 = \"#3b4252\"\npolar_2 = \"#434c5e\"\npolar_3 = \"#4c566a\"\n\n# Snow Storm\nsnow_0 = \"#d8dee9\"\nsnow_1 = \"#e5e9f0\"\nsnow_2 = \"#eceff4\"\n\n# Frost\nfrost_green = \"#8fbcbb\"\nfrost_cyan = \"#88c0d0\"\nfrost_light = \"#81a1c1\"\nfrost_blue = \"#5e81ac\"\n\n# Extra convenience mapping\nsnow_3 = \"#e5e9f0\"\n"

/-- The raw text of `getCatppuccinConfig` before the palette name. -/
def catppuccinConfigHead : String :=
  "\"$schema\" = \x27https://starship.rs/config-schema.json\x27\n\n# Global command timeout (in milliseconds)\n# Increased to accommodate Lando PHP wrapper script\ncommand_timeout = 3000\n\nformat = \"\"\"\n[](red)\\\n$os\\\n$username\\\n[](bg:peach fg:red)\\\n$directory\\\n[](bg:yellow fg:peach)\\\n$git_branch\\\n$git_status\\\n[](fg:yellow bg:green)\\\n$c\\\n$rust\\\n$golang\\\n$nodejs\\\n$php\\\n$java\\\n$kotlin\\\n$haskell\\\n$python\\\n[](fg:green bg:sapphire)\\\n$conda\\\n[](fg:sapphire bg:lavender)\\\n$time\\\n[ ](fg:lavender)\\\n$line_break\\\n$character\"\"\"\n\npalette = \x27"

/-- The raw text of `getCatppuccinConfig` after the palette name. -/
def catppuccinConfigTail : String :=
  "\x27\n\n[os]\ndisabled = false\nstyle = \"bg:red fg:crust\"\n\n[os.symbols]\nWindows = \"\"\nUbuntu = \"󰕈\"\nSUSE = \"\"\nRaspbian = \"󰐿\"\nMint = \"󰣭\"\nMacos = \"󰀵\"\nManjaro = \"\"\nLinux = \"󰌽\"\nGentoo = \"󰣨\"\nFedora = \"󰣛\"\nAlpine = \"\"\nAmazon = \"\"\nAndroid = \"\"\nArch = \"󰣇\"\nArtix = \"󰣇\"\nCentOS = \"\"\nDebian = \"󰣚\"\nRedhat = \"󱄛\"\nRedHatEnterprise = \"󱄛\"\n\n[username]\nshow_always = true\nstyle_user = \"bg:red fg:crust\"\nstyle_root = \"bg:red fg:crust\"\nformat = \x27[ $user]($style)\x27\n\n[directory]\nstyle = \"bg:peach fg:crust\"\nformat = \"[ $path ]($style)\"\ntruncation_length = 3\ntruncation_symbol = \"…/\"\n\n[directory.substitutions]\n\"Documents\" = \"󰈙 \"\n\"Downloads\" = \" \"\n\"Music\" = \"󰝚 \"\n\"Pictures\" = \" \"\n\"Developer\" = \"󰲋 \"\n\n[git_branch]\nsymbol = \"\"\nstyle = \"bg:yellow\"\nformat = \x27[[ $symbol $branch ](fg:crust bg:yellow)]($style)\x27\n\n[git_status]\nstyle = \"bg:yellow\"\nformat = \x27[[($all_status$ahead_behind )](fg:crust bg:yellow)]($style)\x27\n\n[nodejs]\nsymbol = \"\"\nstyle = \"bg:green\"\nformat = \x27[[ $symbol( $version) ](fg:crust bg:green)]($style)\x27\n\n[c]\nsymbol = \" \"\nstyle = \"bg:green\"\nformat = \x27[[ $symbol( $version) ](fg:crust bg:green)]($style)\x27\n\n[rust]\nsymbol = \"\"\nstyle = \"bg:green\"\nformat = \x27[[ $symbol( $version) ](fg:crust bg:green)]($style)\x27\n\n[golang]\nsymbol = \"\"\nstyle = \"bg:green\"\nformat = \x27[[ $symbol( $version) ](fg:crust bg:green)]($style)\x27\n\n[php]\nsymbol = \"\"\nstyle = \"bg:green\"\nformat = \x27[[ $symbol( $version) ](fg:crust bg:green)]($style)\x27\n# Only detect PHP in directories with PHP files to avoid unnecessary checks\ndetect_extensions = [\x27php\x27]\ndetect_files = [\x27composer.json\x27, \x27.php-version\x27]\ndetect_folders = [\x27vendor\x27]\n\n[java]\nsymbol = \" \"\nstyle = \"bg:green\"\nformat = \x27[[ $symbol( $version) ](fg:crust bg:green)]($style)\x27\n\n[kotlin]\nsymbol = \"\"\nstyle = \"bg:green\"\nformat = \x27[[ $symbol( $version) ](fg:crust bg:green)]($style)\x27\n\n[haskell]\nsymbol = \"\"\nstyle = \"bg:green\"\nformat = \x27[[ $symbol( $version) ](fg:crust bg:green)]($style)\x27\n\n[python]\nsymbol = \"\"\nstyle = \"bg:green\"\nformat = \x27[[ $symbol( $version)(\\(#$virtualenv\\)) ](fg:crust bg:green)]($style)\x27\n\n[docker_context]\nsymbol = \"\"\nstyle = \"bg:sapphire\"\nformat = \x27[[ $symbol( $context) ](fg:crust bg:sapphire)]($style)\x27\n\n[conda]\nsymbol = \"  \"\nstyle = \"fg:crust bg:sapphire\"\nformat = \x27[$symbol$environment ]($style)\x27\nignore_base = false\n\n[time]\ndisabled = false\ntime_format = \"%R\"\nstyle = \"bg:lavender\"\nformat = \x27[[  $time ](fg:crust bg:lavender)]($style)\x27\n\n[line_break]\ndisabled = true\n\n[character]\ndisabled = false\nsuccess_symbol = \x27[❯](bold fg:green)\x27\nerror_symbol = \x27[❯](bold fg:red)\x27\nvimcmd_symbol = \x27[❮](bold fg:green)\x27\nvimcmd_replace_one_symbol = \x27[❮](bold fg:lavender)\x27\nvimcmd_replace_symbol = \x27[❮](bold fg:lavender)\x27\nvimcmd_visual_symbol = \x27[❮](bold fg:yellow)\x27\n\n[cmd_duration]\nshow_milliseconds = true\nformat = \" in $duration \"\nstyle = \"bg:lavender\"\ndisabled = false\nshow_notifications = true\nmin_time_to_notify = 45000\n\n[palettes.catppuccin_mocha]\nrosewater = \"#f5e0dc\"\nflamingo = \"#f2cdcd\"\npink = \"#f5c2e7\"\nmauve = \"#cba6f7\"\nred = \"#f38ba8\"\nmaroon = \"#eba0ac\"\npeach = \"#fab387\"\nyellow = \"#f9e2af\"\ngreen = \"#a6e3a1\"\nteal = \"#94e2d5\"\nsky = \"#89dceb\"\nsapphire = \"#74c7ec\"\nblue = \"#89b4fa\"\nlavender = \"#b4befe\"\ntext = \"#cdd6f4\"\nsubtext1 = \"#bac2de\"\nsubtext0 = \"#a6adc8\"\noverlay2 = \"#9399b2\"\noverlay1 = \"#7f849c\"\noverlay0 = \"#6c7086\"\nsurface2 = \"#585b70\"\nsurface1 = \"#45475a\"\nsurface0 = \"#313244\"\nbase = \"#1e1e2e\"\nmantle = \"#181825\"\ncrust = \"#11111b\"\n\n[palettes.catppuccin_frappe]\nrosewater = \"#f2d5cf\"\nflamingo = \"#eebebe\"\npink = \"#f4b8e4\"\nmauve = \"#ca9ee6\"\nred = \"#e78284\"\nmaroon = \"#ea999c\"\npeach = \"#ef9f76\"\nyellow = \"#e5c890\"\ngreen = \"#a6d189\"\nteal = \"#81c8be\"\nsky = \"#99d1db\"\nsapphire = \"#85c1dc\"\nblue = \"#8caaee\"\nlavender = \"#babbf1\"\ntext = \"#c6d0f5\"\nsubtext1 = \"#b5bfe2\"\nsubtext0 = \"#a5adce\"\noverlay2 = \"#949cbb\"\noverlay1 = \"#838ba7\"\noverlay0 = \"#737994\"\nsurface2 = \"#626880\"\nsurface1 = \"#51576d\"\nsurface0 = \"#414559\"\nbase = \"#303446\"\nmantle = \"#292c3c\"\ncrust = \"#232634\"\n\n[palettes.catppuccin_latte]\nrosewater = \"#dc8a78\"\nflamingo = \"#dd7878\"\npink = \"#ea76cb\"\nmauve = \"#8839ef\"\nred = \"#d20f39\"\nmaroon = \"#e64553\"\npeach = \"#fe640b\"\nyellow = \"#df8e1d\"\ngreen = \"#40a02b\"\nteal = \"#179299\"\nsky = \"#04a5e5\"\nsapphire = \"#209fb5\"\nblue = \"#1e66f5\"\nlavender = \"#7287fd\"\ntext = \"#4c4f69\"\nsubtext1 = \"#5c5f77\"\nsubtext0 = \"#6c6f85\"\noverlay2 = \"#7c7f93\"\noverlay1 = \"#8c8fa1\"\noverlay0 = \"#9ca0b0\"\nsurface2 = \"#acb0be\"\nsurface1 = \"#bcc0cc\"\nsurface0 = \"#ccd0da\"\nbase = \"#eff1f5\"\nmantle = \"#e6e9ef\"\ncrust = \"#dce0e8\"\n\n[palettes.catppuccin_macchiato]\nrosewater = \"#f4dbd6\"\nflamingo = \"#f0c6c6\"\npink = \"#f5bde6\"\nmauve = \"#c6a0f6\"\nred = \"#ed8796\"\nmaroon = \"#ee99a0\"\npeach = \"#f5a97f\"\nyellow = \"#eed49f\"\ngreen = \"#a6da95\"\nteal = \"#8bd5ca\"\nsky = \"#91d7e3\"\nsapphire = \"#7dc4e4\"\nblue = \"#8aadf4\"\nlavender = \"#b7bdf8\"\ntext = \"#cad3f5\"\nsubtext1 = \"#b8c0e0\"\nsubtext0 = \"#a5adcb\"\noverlay2 = \"#939ab7\"\noverlay1 = \"#8087a2\"\noverlay0 = \"#6e738d\"\nsurface2 = \"#5b6078\"\nsurface1 = \"#494d64\"\nsurface0 = \"#363a4f\"\nbase = \"#24273a\"\nmantle = \"#1e2030\"\ncrust = \"#181926\"\n"

/-- The method `getCatppuccinConfig`. -/
def getCatppuccinConfig (variant : String) : String :=
  -- Default to mocha if no variant specified
  let variant := if variant = "" then "mocha" else variant
  let paletteName := "catppuccin_" ++ variant
  catppuccinConfigHead ++ paletteName ++ catppuccinConfigTail

/-- The raw text of `getRosePineConfig` before the palette name. -/
def rosePineConfigHead : String :=
  "# 🌹 Rosé Pine Starship Configuration (All Variants)\n\"$schema\" = \x27https://starship.rs/config-schema.json\x27\n\ncommand_timeout = 3000\n\nformat = \"\"\"\n[](love)\\\n$os\\\n$username\\\n[](bg:gold fg:love)\\\n$directory\\\n[](bg:foam fg:gold)\\\n$git_branch\\\n$git_status\\\n[](fg:foam bg:pine)\\\n$c\\\n$rust\\\n$golang\\\n$nodejs\\\n$php\\\n$java\\\n$kotlin\\\n$haskell\\\n$python\\\n[](fg:pine bg:iris)\\\n$conda\\\n[](fg:iris bg:rose)\\\n$time\\\n[ ](fg:rose)\\\n$line_break\\\n$character\"\"\"\n\npalette = \x27"

/-- The raw text of `getRosePineConfig` after the palette name. -/
def rosePineConfigTail : String :=
  "\x27\n\n[os]\ndisabled = false\nstyle = \"bg:love fg:base\"\n\n[os.symbols]\nWindows = \"\"\nUbuntu = \"󰕈\"\nMacos = \"󰀵\"\nLinux = \"󰌽\"\nDebian = \"󰣚\"\nRedhat = \"󱄛\"\n\n[username]\nshow_always = true\nstyle_user = \"bg:love fg:base\"\nstyle_root = \"bg:love fg:base\"\nformat = \x27[ $user]($style)\x27\n\n[directory]\nstyle = \"bg:gold fg:base\"\nformat = \"[ $path ]($style)\"\ntruncation_length = 3\ntruncation_symbol = \"…/\"\n\n[git_branch]\nsymbol = \"\"\nstyle = \"bg:foam\"\nformat = \x27[[ $symbol $branch ](fg:base bg:foam)]($style)\x27\n\n[git_status]\nstyle = \"bg:foam\"\nformat = \x27[[($all_status$ahead_behind )](fg:base bg:foam)]($style)\x27\n\n[nodejs]\nsymbol = \"\"\nstyle = \"bg:pine\"\nformat = \x27[[ $symbol( $version) ](fg:base bg:pine)]($style)\x27\n\n[c]\nsymbol = \" \"\nstyle = \"bg:pine\"\nformat = \x27[[ $symbol( $version) ](fg:base bg:pine)]($style)\x27\n\n[rust]\nsymbol = \"\"\nstyle = \"bg:pine\"\nformat = \x27[[ $symbol( $version) ](fg:base bg:pine)]($style)\x27\n\n[golang]\nsymbol = \"\"\nstyle = \"bg:pine\"\nformat = \x27[[ $symbol( $version) ](fg:base bg:pine)]($style)\x27\n\n[php]\nsymbol = \"\"\nstyle = \"bg:pine\"\nformat = \x27[[ $symbol( $version) ](fg:base bg:pine)]($style)\x27\ndetect_extensions = [\x27php\x27]\ndetect_files = [\x27composer.json\x27, \x27.php-version\x27]\ndetect_folders = [\x27vendor\x27]\n\n[java]\nsymbol = \" \"\nstyle = \"bg:pine\"\nformat = \x27[[ $symbol( $version) ](fg:base bg:pine)]($style)\x27\n\n[kotlin]\nsymbol = \"\"\nstyle = \"bg:pine\"\nformat = \x27[[ $symbol( $version) ](fg:base bg:pine)]($style)\x27\n\n[haskell]\nsymbol = \"\"\nstyle = \"bg:pine\"\nformat = \x27[[ $symbol( $version) ](fg:base bg:pine)]($style)\x27\n\n[python]\nsymbol = \"\"\nstyle = \"bg:pine\"\nformat = \x27[[ $symbol( $version)(\\(#$virtualenv\\)) ](fg:base bg:pine)]($style)\x27\n\n[docker_context]\nsymbol = \"\"\nstyle = \"bg:iris\"\nformat = \x27[[ $symbol( $context) ](fg:base bg:iris)]($style)\x27\n\n[conda]\nsymbol = \"  \"\nstyle = \"fg:base bg:iris\"\nformat = \x27[$symbol$environment ]($style)\x27\nignore_base = false\n\n[time]\ndisabled = false\ntime_format = \"%R\"\nstyle = \"bg:rose\"\nformat = \x27[[  $time ](fg:base bg:rose)]($style)\x27\n\n[line_break]\ndisabled = true\n\n[character]\ndisabled = false\nsuccess_symbol = \x27[❯](bold fg:foam)\x27\nerror_symbol = \x27[❯](bold fg:love)\x27\nvimcmd_symbol = \x27[❮](bold fg:foam)\x27\nvimcmd_replace_one_symbol = \x27[❮](bold fg:rose)\x27\nvimcmd_replace_symbol = \x27[❮](bold fg:rose)\x27\nvimcmd_visual_symbol = \x27[❮](bold fg:gold)\x27\n\n[cmd_duration]\nshow_milliseconds = true\nformat = \" in $duration \"\nstyle = \"bg:rose\"\ndisabled = false\nshow_notifications = true\nmin_time_to_notify = 45000\n\n\n# 🌑 Rosé Pine\n[palettes.rose_pine]\nbase = \"#191724\"\nsurface = \"#1f1d2e\"\noverlay = \"#26233a\"\nmuted = \"#6e6a86\"\nsubtle = \"#908caa\"\ntext = \"#e0def4\"\nlove = \"#eb6f92\"\ngold = \"#f6c177\"\nrose = \"#ebbcba\"\npine = \"#31748f\"\nfoam = \"#9ccfd8\"\niris = \"#c4a7e7\"\nhighlight_low = \"#21202e\"\nhighlight_med = \"#403d52\"\nhighlight_high = \"#524f67\"\n\n\n# 🌙 Rosé Pine Moon\n[palettes.rose_pine_moon]\nbase = \"#232136\"\nsurface = \"#2a273f\"\noverlay = \"#393552\"\nmuted = \"#6e6a86\"\nsubtle = \"#908caa\"\ntext = \"#e0def4\"\nlove = \"#eb6f92\"\ngold = \"#f6c177\"\nrose = \"#ea9a97\"\npine = \"#3e8fb0\"\nfoam = \"#9ccfd8\"\niris = \"#c4a7e7\"\nhighlight_low = \"#2a283e\"\nhighlight_med = \"#44415a\"\nhighlight_high = \"#56526e\"\n\n\n# 🌅 Rosé Pine Dawn\n[palettes.rose_pine_dawn]\nbase = \"#faf4ed\"\nsurface = \"#fffaf3\"\noverlay = \"#f2e9e1\"\nmuted = \"#9893a5\"\nsubtle = \"#797593\"\ntext = \"#575279\"\nlove = \"#b4637a\"\ngold = \"#ea9d34\"\nrose = \"#d7827e\"\npine = \"#286983\"\nfoam = \"#56949f\"\niris = \"#907aa9\"\nhighlight_low = \"#f4ede8\"\nhighlight_med = \"#dfdad9\"\nhighlight_high = \"#cecacd\"\n"

/-- The method `getRosePineConfig`. -/
def getRosePineConfig (variant : String) : String :=
  -- Default to rose_pine if no variant specified
  let variant := if variant = "" then "default" else variant
  let paletteName := if variant ≠ "default" then "rose_pine_" ++ variant else "rose_pine"
  rosePineConfigHead ++ paletteName ++ rosePineConfigTail

/-- The `switch t.Name` of `StarshipIntegration.Apply`: the full official
configuration of the theme, `none` in the `default` case. -/
def starshipConfigContent (name : String) : Option String :=
  if name = "Nord" then some getNordConfig
  else if name = "Catppuccin Latte" then some (getCatppuccinConfig "latte")
  else if name = "Catppuccin Frappe" then some (getCatppuccinConfig "frappe")
  else if name = "Catppuccin Macchiato" then some (getCatppuccinConfig "macchiato")
  else if name = "Catppuccin Mocha" then some (getCatppuccinConfig "mocha")
  else if name = "Rose Pine" then some (getRosePineConfig "default")
  else if name = "Rose Pine Moon" then some (getRosePineConfig "moon")
  else if name = "Rose Pine Dawn" then some (getRosePineConfig "dawn")
  else none

/-- The line of a Starship configuration that selects the palette `name`. -/
def paletteSelection (name : String) : String :=
  "\npalette = \x27" ++ name ++ "\x27\n"

/-- The line of a Starship configuration that opens the definition of the
palette `name`. -/
def paletteDefinition (name : String) : String :=
  "\n[palettes." ++ name ++ "]\n"

/-- The step shared by the Starship, Warp and iTerm2 adapters, written out in
each of them as `if data, err := os.ReadFile(path); err == nil && len(data) > 0`
followed by the write of `path + ".backup"`: `none` when that write fails. -/
def backupIfReadable (fs : FS) (path : String) : Option (FS × List String) :=
  match fs.readFile path with
  | ReadResult.ok data =>
    if data.length > 0 then
      (fs.writeFile (path ++ ".backup") data).map (fun fs1 => (fs1, [path ++ ".backup"]))
    else
      some (fs, [])
  | _ => some (fs, [])

/-- The method `StarshipIntegration.Apply` with the receiver's `configPath`. -/
def StarshipIntegration.Apply (libs : Libs) (configPath : String) (t : Theme) (fs : FS) : ApplyResult :=
  -- Create config directory if it doesn't exist
  match fs.mkdirAll (libs.filepathDir configPath) with
  | none => ⟨some "failed to create config directory", fs, []⟩
  | some fs0 =>
    -- Create backup if config exists
    match backupIfReadable fs0 configPath with
    | none => ⟨some "failed to create backup", fs0, []⟩
    | some (fs1, writes) =>
      -- Get the full official configuration based on theme name
      match starshipConfigContent t.Name with
      | none => ⟨some ("unsupported theme: " ++ t.Name), fs1, writes⟩
      | some configContent =>
        -- Write the full configuration
        match fs1.writeFile configPath configContent with
        | none => ⟨some "failed to write config", fs1, writes⟩
        | some fs2 => ⟨none, fs2, writes ++ [configPath]⟩

/-! ## Warp adapter (`internal/integrations/warp.go`) -/

/-- The method `generateWarpTheme`; `details` is the result of
`determineThemeDetails` on the background colour. -/
def generateWarpTheme (t : Theme) (details : String) : Doc :=
  [ ("name", Value.str t.Name),
    ("accent", Value.str t.Colors.Blue),
    ("cursor", Value.str t.Colors.Green),
    ("background", Value.str t.Colors.Background),
    ("foreground", Value.str t.Colors.Foreground),
    ("details", Value.str details),
    ("terminal_colors", Value.obj
      [ ("bright", Value.ofStrings
          [ ("black", t.Colors.BrightBlack),
            ("blue", t.Colors.BrightBlue),
            ("cyan", t.Colors.BrightCyan),
            ("green", t.Colors.BrightGreen),
            ("magenta", t.Colors.BrightMagenta),
            ("red", t.Colors.BrightRed),
            ("white", t.Colors.BrightWhite),
            ("yellow", t.Colors.BrightYellow) ]),
        ("normal", Value.ofStrings
          [ ("black", t.Colors.Black),
            ("blue", t.Colors.Blue),
            ("cyan", t.Colors.Cyan),
            ("green", t.Colors.Green),
            ("magenta", t.Colors.Magenta),
            ("red", t.Colors.Red),
            ("white", t.Colors.White),
            ("yellow", t.Colors.Yellow) ]) ]) ]

/-- The method `WarpIntegration.Apply` with the receiver's `themesPath`.
`details` is `determineThemeDetails`, which is modelled on its own below. -/
def WarpIntegration.Apply (libs : Libs) (details : String → String) (themesPath : String)
    (t : Theme) (fs : FS) : ApplyResult :=
  -- Create themes directory if it doesn't exist
  match fs.mkdirAll themesPath with
  | none => ⟨some "failed to create themes directory", fs, []⟩
  | some fs0 =>
    -- Write theme file
    let themeFileName := SanitizeFileName t.Name ++ ".yaml"
    let themePath := libs.filepathJoin [themesPath, themeFileName]
    -- Create backup if file exists
    match backupIfReadable fs0 themePath with
    | none => ⟨some "failed to create backup", fs0, []⟩
    | some (fs1, writes) =>
      -- Generate Warp theme
      let warpTheme := generateWarpTheme t (details t.Colors.Background)
      match libs.yamlMarshal warpTheme with
      | Except.error e => ⟨some ("failed to marshal theme: " ++ e), fs1, writes⟩
      | Except.ok data =>
        match fs1.writeFile themePath data with
        | none => ⟨some "failed to write theme file", fs1, writes⟩
        | some fs2 => ⟨none, fs2, writes ++ [themePath]⟩

/-! ### `determineThemeDetails` and its `float64` arithmetic

A `float64` value is the rational it stands for; every operation is the exact
operation followed by a rounding, which is a parameter `rnd` of the
definitions. `roundF64` is the rounding to nearest of binary64. -/

/-- Rounding of a rational to the nearest integer, a tie going to the even
one. -/
def roundHalfEven (x : ℚ) : ℤ :=
  if x - ⌊x⌋ < 1 / 2 then ⌊x⌋
  else if 1 / 2 < x - ⌊x⌋ then ⌊x⌋ + 1
  else if ⌊x⌋ % 2 = 0 then ⌊x⌋
  else ⌊x⌋ + 1

/-- The binary exponent of a rational that is not zero: the `e` with
`2 ^ e ≤ |x| < 2 ^ (e + 1)`. -/
def binaryExponent (x : ℚ) : ℤ :=
  if (2 : ℚ) ^ ((x.num.natAbs.log2 : ℤ) - (x.den.log2 : ℤ)) ≤ |x| then
    (x.num.natAbs.log2 : ℤ) - (x.den.log2 : ℤ)
  else
    (x.num.natAbs.log2 : ℤ) - (x.den.log2 : ℤ) - 1

/-- The rounding of `float64` arithmetic (IEEE 754 binary64, round to nearest,
ties to even) on the rationals: the nearest rational with a significand of 53
bits. The range of the exponent is not modelled; every value met in
`determineThemeDetails` is zero or lies between `2 ^ (-13)` and `16`. -/
def roundF64 (x : ℚ) : ℚ :=
  if x = 0 then 0
  else roundHalfEven (x * (2 : ℚ) ^ (52 - binaryExponent x)) * (2 : ℚ) ^ (binaryExponent x - 52)

/-- The standard model of `float64` arithmetic: a rounding whose relative
error is at most `2 ^ (-53)`, as the rounding to nearest of a significand of 53
bits is. -/
def IsBinary64Rounding (rnd : ℚ → ℚ) : Prop :=
  ∀ x, |rnd x - x| ≤ |x| / 2 ^ 53

/-- The value of a hexadecimal digit, `none` for any other character. -/
def hexDigitValue (c : Char) : Option Nat :=
  if '0' ≤ c ∧ c ≤ '9' then some (c.toNat - 48)
  else if 'a' ≤ c ∧ c ≤ 'f' then some (c.toNat - 87)
  else if 'A' ≤ c ∧ c ≤ 'F' then some (c.toNat - 55)
  else none

/-- The call `fmt.Sscanf(hex, "%02x%02x%02x", &r, &g, &b)` on a text of six
hexadecimal digits: each verb reads two digits as one byte. The result is
`none` on any other text: what the library does with white space, signs and
short fields is not part of this model. -/
def sscanfHexBytes : List Char → Option (Nat × Nat × Nat)
  | [r1, r2, g1, g2, b1, b2] =>
    match hexDigitValue r1, hexDigitValue r2, hexDigitValue g1, hexDigitValue g2,
        hexDigitValue b1, hexDigitValue b2 with
    | some r1, some r2, some g1, some g2, some b1, some b2 =>
      some (16 * r1 + r2, 16 * g1 + g2, 16 * b1 + b2)
    | _, _, _, _, _, _ => none
  | _ => none

/-- The statement "Apply gamma correction" of `determineThemeDetails`, which
the source writes out for each of `rLinear`, `gLinear` and `bLinear`: the new
value of the variable. `rnd` is the rounding of `float64` arithmetic, applied
to every constant that is no binary fraction and to the result of every
operation. -/
def gammaCorrection (rnd : ℚ → ℚ) (cLinear : ℚ) : ℚ :=
  if cLinear ≤ rnd 0.03928 then
    rnd (cLinear / rnd 12.92)
  else
    let cLinear := rnd (rnd (cLinear + rnd 0.055) / rnd 1.055)
    rnd (cLinear * cLinear) -- Simplified power of 2.4

/-- The variable `luminance` of `determineThemeDetails` for the bytes `r`,
`g`, `b`. -/
def relativeLuminance (rnd : ℚ → ℚ) (r g b : Nat) : ℚ :=
  -- Calculate relative luminance using the formula from WCAG
  let rLinear := rnd ((r : ℚ) / 255.0)
  let gLinear := rnd ((g : ℚ) / 255.0)
  let bLinear := rnd ((b : ℚ) / 255.0)
  -- Apply gamma correction
  let rLinear := gammaCorrection rnd rLinear
  let gLinear := gammaCorrection rnd gLinear
  let bLinear := gammaCorrection rnd bLinear
  -- Calculate luminance
  rnd (rnd (rnd (rnd 0.2126 * rLinear) + rnd (rnd 0.7152 * gLinear))
    + rnd (rnd 0.0722 * bLinear))

/-- The method `determineThemeDetails` of `warp.go`, with the rounding `rnd`
of `float64` arithmetic. The result is `none` when `Sscanf` is called on a
text that `sscanfHexBytes` does not cover. -/
def determineThemeDetails (rnd : ℚ → ℚ) (bgColor : String) : Option String :=
  -- Remove # if present
  let hex : String := if bgColor.data.head? = some '#' then String.mk bgColor.data.tail else bgColor
  -- Parse hex to RGB
  let rgb : Option (Nat × Nat × Nat) :=
    if hex.utf8ByteSize = 6 then sscanfHexBytes hex.data else some (0, 0, 0)
  rgb.map fun rgb =>
    -- If luminance is less than 0.5, it's a dark theme
    if relativeLuminance rnd rgb.1 rgb.2.1 rgb.2.2 < 0.5 then "darker" else "lighter"

/-! ## iTerm2 adapter (`internal/integrations/iterm2.go`) -/

/-- The method `ITerm2Integration.Apply` with the receiver's `themesPath`.
`preset` is `generateITerm2Preset`, which formats floating point numbers and
is not part of this model. -/
def ITerm2Integration.Apply (libs : Libs) (tools : Tools) (preset : Theme → String)
    (themesPath : String) (t : Theme) (fs : FS) : ApplyResult :=
  -- Create themes directory if it doesn't exist
  match fs.mkdirAll themesPath with
  | none => ⟨some "failed to create themes directory", fs, []⟩
  | some fs0 =>
    -- Generate iTerm2 color preset
    let presetFileName := SanitizeFileName t.Name ++ ".itermcolors"
    let presetPath := libs.filepathJoin [themesPath, presetFileName]
    -- Create backup if file exists
    match backupIfReadable fs0 presetPath with
    | none => ⟨some "failed to create backup", fs0, []⟩
    | some (fs1, writes) =>
      match fs1.writeFile presetPath (preset t) with
      | none => ⟨some "failed to write preset file", fs1, writes⟩
      | some fs2 =>
        -- Try to import the theme using PlistBuddy (official method)
        match tools.plistImport presetPath with
        | some e => ⟨some ("theme saved to " ++ presetPath ++ ", but auto-import failed: " ++ e),
            fs2, writes ++ [presetPath]⟩
        | none => ⟨none, fs2, writes ++ [presetPath]⟩

/-! ## Controller (`internal/ui/tui.go`) -/

/-- The struct `ThemeVariant` of `internal/theme/loader.go`. -/
structure ThemeVariant where
  Name : String
  DisplayName : String
  FullName : String
  Colors : ColorPalette
deriving DecidableEq, Repr

/-- The struct `BaseTheme` of `internal/theme/loader.go`. -/
structure BaseTheme where
  Name : String
  Description : String
  Variants : List ThemeVariant
deriving DecidableEq, Repr

/-- The struct `VSCodeVariant` of `vscode.go`. -/
structure VSCodeVariant where
  Name : String
  ConfigDir : String
  CLICommand : String
  AppPath : String
deriving DecidableEq, Repr

/-- The interface `Integration`, over a world `W` that holds everything the
adapters read and change (file system, clipboard, the adapter objects
themselves). `Apply` gives the returned error (`none` for `nil`) and the world
afterwards. `SetVariant` is present on the value whose dynamic type is
`*integrations.VSCodeIntegration` and absent on all others. -/
structure AppIntegration (W : Type) where
  Name : W → String
  IsInstalled : W → Bool
  Apply : Theme → W → Option String × W
  ConfigPath : W → String
  SetVariant : Option (VSCodeVariant → W → W)

/-- The type `state`. -/
inductive State where
  | selectingTheme
  | selectingVariant
  | previewingTheme
  | selectingApps
  | selectingVSCodeVariant
  | applying
  | complete
deriving DecidableEq, Repr

/-- The struct `model`. The map `selectedApps` is a list of entries with
distinct keys. -/
structure model (W : Type) where
  baseThemes : List BaseTheme
  themes : List Theme
  selectedBaseTheme : Nat
  selectedVariant : Nat
  selectedTheme : Nat
  apps : List (AppIntegration W)
  selectedApps : List (Nat × Bool)
  cursor : Nat
  state : State
  err : Option String
  results : List String
  vscodeVariants : List VSCodeVariant
  selectedVSCVariant : Nat

/-- The read `m.selectedApps[idx]`: `false` for a missing key. -/
def selectedGet : List (Nat × Bool) → Nat → Bool
  | [], _ => false
  | (k, v) :: rest, idx => if k = idx then v else selectedGet rest idx

/-- The assignment `m.selectedApps[idx] = v`. -/
def selectedSet : List (Nat × Bool) → Nat → Bool → List (Nat × Bool)
  | [], idx, v => [(idx, v)]
  | (k, v') :: rest, idx, v => if k = idx then (idx, v) :: rest else (k, v') :: selectedSet rest idx v

/-- The messages `Update` distinguishes: a key press with its `String()`, the
completion message of the apply command, and any other message. -/
inductive Msg where
  | key (s : String)
  | applyCompleteMsg (results : List String) (err : Option String)
  | other
deriving DecidableEq, Repr

/-- The commands `Update` returns: `nil`, `tea.Quit`, and the closure built by
`applyThemes`, which holds the model it was built from. -/
inductive Cmd (W : Type) where
  | none
  | quit
  | applyThemes (m : model W)

/-- A call of an adapter method made while the apply command runs. -/
inductive Call where
  | isInstalled (idx : Nat)
  | apply (idx : Nat)
deriving DecidableEq, Repr

/-- The report line of a target that is not installed. -/
def notInstalledLine (name : String) : String :=
  "\u00e2\u0161\u00a0\u00ef\u00b8  " ++ name ++ ": Not installed or not found"

/-- The report line of a target whose `Apply` returned an error. -/
def failedLine (name : String) (err : String) : String :=
  "\u00e2\u0152 " ++ name ++ ": " ++ err

/-- The report line of a target whose `Apply` returned `nil`. -/
def successLine (name : String) : String :=
  "\u00e2\u0153\u2026 " ++ name ++ ": Theme applied successfully"

/-- The loop `for idx, selected := range m.selectedApps` of `applyThemes`, over
the entries in the order the `range` yields them. The result is `none` when an
index is out of range (a run-time panic); otherwise it holds the report lines,
each with the index of the target it was appended for, the adapter calls made,
in order, and the world afterwards. -/
def applyLoop {W : Type} (apps : List (AppIntegration W)) (theme : Theme) :
    List (Nat × Bool) → W → Option (List (Nat × String) × List Call × W)
  | [], w => some ([], [], w)
  | (idx, selected) :: rest, w =>
    if selected then
      match apps[idx]? with
      | Option.none => Option.none
      | some app =>
        if ¬ app.IsInstalled w then
          (applyLoop apps theme rest w).map fun r =>
            ((idx, notInstalledLine (app.Name w)) :: r.1, Call.isInstalled idx :: r.2.1, r.2.2)
        else
          let applied := app.Apply theme w
          let line := match applied.1 with
            | some err => failedLine (app.Name applied.2) err
            | Option.none => successLine (app.Name applied.2)
          (applyLoop apps theme rest applied.2).map fun r =>
            ((idx, line) :: r.1, Call.isInstalled idx :: Call.apply idx :: r.2.1, r.2.2)
    else
      applyLoop apps theme rest w

/-- The closure returned by `applyThemes`, run on the world `w`. `entries` is
the sequence in which the `range` statement yields the entries of
`m.selectedApps` (Go fixes no order). The result is `none` on an index out of
range; otherwise the message sent, the adapter calls made and the world. -/
def applyThemes {W : Type} (m : model W) (entries : List (Nat × Bool)) (w : W) :
    Option (Msg × List Call × W) :=
  match m.themes[m.selectedTheme]? with
  | Option.none => Option.none
  | some theme =>
    (applyLoop m.apps theme entries w).map fun r =>
      (Msg.applyCompleteMsg (r.1.map Prod.snd) Option.none, r.2.1, r.2.2)

/-- The method `calculateThemeIndex`: `none` when the loop indexes
`m.baseThemes` out of range. -/
def calculateThemeIndex {W : Type} (m : model W) : Option Nat :=
  if m.selectedBaseTheme ≤ m.baseThemes.length then
    some (((m.baseThemes.take m.selectedBaseTheme).map fun b => b.Variants.length).sum
      + m.selectedVariant)
  else
    Option.none

/-- The method `updateVSCodeVariant`: the world after `SetVariant`, `none` on
an index out of range. -/
def updateVSCodeVariant {W : Type} (m : model W) (appIdx : Nat) (w : W) : Option W :=
  match m.apps[appIdx]? with
  | Option.none => Option.none
  | some app =>
    match app.SetVariant with
    | some setVariant =>
      match m.vscodeVariants[m.selectedVSCVariant]? with
      | Option.none => Option.none
      | some variant => some (setVariant variant w)
    | Option.none => some w

/-- The search loop of the `enter` case in the target-selection state: the
index of the first selected entry whose target is named "VS Code" (`none`
inside when there is none), `none` outside on an index out of range. -/
def findVSCodeSelected {W : Type} (apps : List (AppIntegration W)) (w : W) :
    List (Nat × Bool) → Option (Option Nat)
  | [] => some Option.none
  | (idx, selected) :: rest =>
    if selected then
      match apps[idx]? with
      | Option.none => Option.none
      | some app => if app.Name w = "VS Code" then some (some idx) else findVSCodeSelected apps w rest
    else
      findVSCodeSelected apps w rest

/-- The search loop of the `enter` case in the variant-selection state of VS
Code: the first index `idx` with `app.Name() == "VS Code"` and
`m.selectedApps[idx]`. -/
def findVSCodeApp {W : Type} (selectedApps : List (Nat × Bool)) (w : W) :
    List (AppIntegration W) → Nat → Option Nat
  | [], _ => Option.none
  | app :: rest, idx =>
    if app.Name w = "VS Code" ∧ selectedGet selectedApps idx then some idx
    else findVSCodeApp selectedApps w rest (idx + 1)

/-- The `enter` case of `Update`. -/
def updateEnter {W : Type} (m : model W) (entries : List (Nat × Bool)) (w : W) :
    Option (model W × Cmd W × W) :=
  match m.state with
  | State.selectingTheme =>
    let m := { m with selectedBaseTheme := m.cursor }
    match m.baseThemes[m.selectedBaseTheme]? with
    | Option.none => Option.none
    | some baseTheme =>
      -- If theme has only one variant, skip variant selection
      if baseTheme.Variants.length = 1 then
        let m := { m with selectedVariant := 0 }
        -- Calculate the theme index in the flattened themes list
        (calculateThemeIndex m).map fun i =>
          ({ m with selectedTheme := i, state := State.previewingTheme }, Cmd.none, w)
      else
        -- Show variant selection
        some ({ m with cursor := 0, state := State.selectingVariant }, Cmd.none, w)
  | State.selectingVariant =>
    let m := { m with selectedVariant := m.cursor }
    (calculateThemeIndex m).map fun i =>
      ({ m with selectedTheme := i, state := State.previewingTheme }, Cmd.none, w)
  | State.previewingTheme =>
    some ({ m with cursor := 0, state := State.selectingApps }, Cmd.none, w)
  | State.selectingApps =>
    -- Check if VS Code is selected
    match findVSCodeSelected m.apps w entries with
    | Option.none => Option.none
    | some (some vscodeIdx) =>
      -- Use cached VS Code variants
      if m.vscodeVariants.length > 1 then
        -- Multiple variants available, show selection
        some ({ m with cursor := 0, state := State.selectingVSCodeVariant }, Cmd.none, w)
      else if m.vscodeVariants.length = 1 then
        -- Only one variant, use it directly
        let m := { m with selectedVSCVariant := 0 }
        (updateVSCodeVariant m vscodeIdx w).map fun w1 => (m, Cmd.applyThemes m, w1)
      else
        -- No variants found, proceed to apply themes
        some (m, Cmd.applyThemes m, w)
    | some Option.none =>
      -- VS Code not selected, proceed to apply themes
      some (m, Cmd.applyThemes m, w)
  | State.selectingVSCodeVariant =>
    let m := { m with selectedVSCVariant := m.cursor }
    -- Find VS Code integration and update it
    match findVSCodeApp m.selectedApps w m.apps 0 with
    | some idx => (updateVSCodeVariant m idx w).map fun w1 => (m, Cmd.applyThemes m, w1)
    | Option.none => some (m, Cmd.applyThemes m, w)
  | State.complete => some (m, Cmd.quit, w)
  | State.applying => some (m, Cmd.none, w)

/-- The method `Update`. `entries` is the sequence in which a `range` over
`m.selectedApps` yields its entries. The result is `none` on an index out of
range; otherwise the model and command returned, and the world. -/
def Update {W : Type} (m : model W) (msg : Msg) (entries : List (Nat × Bool)) (w : W) :
    Option (model W × Cmd W × W) :=
  match msg with
  | Msg.key s =>
    if s = "ctrl+c" ∨ s = "q" then
      some (m, Cmd.quit, w)
    else if s = "up" ∨ s = "k" then
      if m.state = State.selectingTheme ∨ m.state = State.selectingVariant
          ∨ m.state = State.selectingApps ∨ m.state = State.selectingVSCodeVariant then
        some ((if m.cursor > 0 then { m with cursor := m.cursor - 1 } else m), Cmd.none, w)
      else
        some (m, Cmd.none, w)
    else if s = "down" ∨ s = "j" then
      if m.state = State.selectingTheme then
        some ((if (m.cursor : Int) < (m.baseThemes.length : Int) - 1 then
          { m with cursor := m.cursor + 1 } else m), Cmd.none, w)
      else if m.state = State.selectingVariant then
        match m.baseThemes[m.selectedBaseTheme]? with
        | Option.none => Option.none
        | some baseTheme =>
          some ((if (m.cursor : Int) < (baseTheme.Variants.length : Int) - 1 then
            { m with cursor := m.cursor + 1 } else m), Cmd.none, w)
      else if m.state = State.selectingApps then
        some ((if (m.cursor : Int) < (m.apps.length : Int) - 1 then
          { m with cursor := m.cursor + 1 } else m), Cmd.none, w)
      else if m.state = State.selectingVSCodeVariant then
        some ((if (m.cursor : Int) < (m.vscodeVariants.length : Int) - 1 then
          { m with cursor := m.cursor + 1 } else m), Cmd.none, w)
      else
        some (m, Cmd.none, w)
    else if s = "enter" then
      updateEnter m entries w
    else if s = " " then
      if m.state = State.selectingApps then
        let toggled := selectedSet m.selectedApps m.cursor (!(selectedGet m.selectedApps m.cursor))
        some ({ m with selectedApps := toggled }, Cmd.none, w)
      else
        some (m, Cmd.none, w)
    else if s = "p" then
      -- Toggle preview from theme selection
      if m.state = State.selectingTheme then
        some ({ m with selectedTheme := m.cursor, state := State.previewingTheme }, Cmd.none, w)
      else
        some (m, Cmd.none, w)
    else if s = "esc" then
      if m.state = State.selectingVariant then
        some ({ m with state := State.selectingTheme, cursor := m.selectedBaseTheme }, Cmd.none, w)
      else if m.state = State.previewingTheme then
        -- Go back to variant selection if theme has multiple variants
        match m.baseThemes[m.selectedBaseTheme]? with
        | Option.none => Option.none
        | some baseTheme =>
          if baseTheme.Variants.length > 1 then
            some ({ m with state := State.selectingVariant, cursor := m.selectedVariant }, Cmd.none, w)
          else
            some ({ m with state := State.selectingTheme, cursor := m.selectedBaseTheme }, Cmd.none, w)
      else if m.state = State.selectingApps then
        some ({ m with state := State.previewingTheme, cursor := 0, selectedApps := [] }, Cmd.none, w)
      else if m.state = State.selectingVSCodeVariant then
        some ({ m with cursor := 0, state := State.selectingApps }, Cmd.none, w)
      else
        some (m, Cmd.none, w)
    else
      some (m, Cmd.none, w)
  | Msg.applyCompleteMsg results err =>
    some ({ m with state := State.complete, results := results, err := err }, Cmd.none, w)
  | Msg.other => some (m, Cmd.none, w)

/-- The struct `VSCodeIntegration` of `vscode.go`. -/
structure VSCodeIntegration where
  configPath : String
  variant : VSCodeVariant
deriving DecidableEq, Repr

/-- The method `SetVariant`. -/
def VSCodeIntegration.SetVariant (libs : Libs) (v : VSCodeIntegration) (variant : VSCodeVariant) :
    VSCodeIntegration :=
  { v with variant := variant,
           configPath := libs.filepathJoin [variant.ConfigDir, "User", "settings.json"] }

/-- The function `GetVSCodeVariants`; `home` is the result of
`os.UserHomeDir`, `none` when it returns an error. -/
def GetVSCodeVariants (libs : Libs) (home : Option String) (fs : FS) : List VSCodeVariant :=
  match home with
  | none => []
  | some home =>
    let variants : List VSCodeVariant :=
      [ { Name := "VS Code",
          ConfigDir := libs.filepathJoin [home, "Library", "Application Support", "Code"],
          CLICommand := "code",
          AppPath := "/Applications/Visual Studio Code.app" },
        { Name := "VS Code Insiders",
          ConfigDir := libs.filepathJoin [home, "Library", "Application Support", "Code - Insiders"],
          CLICommand := "code-insiders",
          AppPath := "/Applications/Visual Studio Code - Insiders.app" },
        { Name := "Cursor",
          ConfigDir := libs.filepathJoin [home, "Library", "Application Support", "Cursor"],
          CLICommand := "cursor",
          AppPath := "/Applications/Cursor.app" } ]
    -- Filter to only installed variants
    variants.filter fun variant =>
      -- Check if config directory exists OR app is installed
      fs.stat variant.ConfigDir || fs.stat variant.AppPath

/-- The VS Code adapter as a value of the interface `Integration`, over the
world made of the adapter object and the file system. -/
def vscodeApp (libs : Libs) (home : Option String) : AppIntegration (VSCodeIntegration × FS) :=
  { Name := fun _ => "VS Code",
    IsInstalled := fun w => (GetVSCodeVariants libs home w.2).length > 0,
    Apply := fun t w =>
      ((VSCodeIntegration.Apply libs w.1.configPath t w.2).err,
        (w.1, (VSCodeIntegration.Apply libs w.1.configPath t w.2).fs)),
    -- Don't show config path since we have variant selection
    ConfigPath := fun _ => "",
    SetVariant := some fun variant w => (w.1.SetVariant libs variant, w.2) }

/-- The report line `applyThemes` appends for a target when the loop reaches
it in the world `w`. -/
def reportLine {W : Type} (app : AppIntegration W) (theme : Theme) (w : W) : String :=
  if ¬ app.IsInstalled w then
    notInstalledLine (app.Name w)
  else
    match (app.Apply theme w).1 with
    | some err => failedLine (app.Name (app.Apply theme w).2) err
    | none => successLine (app.Name (app.Apply theme w).2)

/-- The outcomes of the targets are fixed: what `IsInstalled`, `Name` and
`Apply` of a target return does not depend on what the other targets did
before. -/
def fixedOutcomes {W : Type} (apps : List (AppIntegration W)) (theme : Theme) : Prop :=
  ∀ app ∈ apps, ∀ w w', app.IsInstalled w = app.IsInstalled w' ∧ app.Name w = app.Name w'
    ∧ (app.Apply theme w).1 = (app.Apply theme w').1

/-! ## Built-in catalog (`internal/theme/loader.go`) -/

/-- The function `GetBuiltInBaseThemes`. -/
def GetBuiltInBaseThemes : List BaseTheme :=
  [ { Name := "Nord",
      Description := "An arctic, north-bluish color palette",
      Variants := [
      { Name := "Nord",
        DisplayName := "Nord",
        FullName := "Nord",
        Colors :=
          { Background := "#2e3440",
            Foreground := "#d8dee9",
            Black := "#3b4252",
            Red := "#bf616a",
            Green := "#a3be8c",
            Yellow := "#ebcb8b",
            Blue := "#81a1c1",
            Magenta := "#b48ead",
            Cyan := "#88c0d0",
            White := "#e5e9f0",
            BrightBlack := "#4c566a",
            BrightRed := "#bf616a",
            BrightGreen := "#a3be8c",
            BrightYellow := "#ebcb8b",
            BrightBlue := "#81a1c1",
            BrightMagenta := "#b48ead",
            BrightCyan := "#8fbcbb",
            BrightWhite := "#eceff4" } } ] },
    { Name := "Catppuccin",
      Description := "Soothing pastel theme for the high-spirited!",
      Variants := [
      { Name := "Latte",
        DisplayName := "Latte (Light)",
        FullName := "Catppuccin Latte",
        Colors :=
          { Background := "#eff1f5",
            Foreground := "#4c4f69",
            Black := "#5c5f77",
            Red := "#d20f39",
            Green := "#40a02b",
            Yellow := "#df8e1d",
            Blue := "#1e66f5",
            Magenta := "#ea76cb",
            Cyan := "#179299",
            White := "#4c4f69",
            BrightBlack := "#6c6f85",
            BrightRed := "#d20f39",
            BrightGreen := "#40a02b",
            BrightYellow := "#df8e1d",
            BrightBlue := "#1e66f5",
            BrightMagenta := "#ea76cb",
            BrightCyan := "#179299",
            BrightWhite := "#4c4f69" } },
      { Name := "Frappe",
        DisplayName := "Frappé (Dark)",
        FullName := "Catppuccin Frappe",
        Colors :=
          { Background := "#303446",
            Foreground := "#c6d0f5",
            Black := "#51576d",
            Red := "#e78284",
            Green := "#a6d189",
            Yellow := "#e5c890",
            Blue := "#8caaee",
            Magenta := "#f4b8e4",
            Cyan := "#81c8be",
            White := "#b5bfe2",
            BrightBlack := "#626880",
            BrightRed := "#e78284",
            BrightGreen := "#a6d189",
            BrightYellow := "#e5c890",
            BrightBlue := "#8caaee",
            BrightMagenta := "#f4b8e4",
            BrightCyan := "#81c8be",
            BrightWhite := "#a5adce" } },
      { Name := "Macchiato",
        DisplayName := "Macchiato (Dark)",
        FullName := "Catppuccin Macchiato",
        Colors :=
          { Background := "#24273a",
            Foreground := "#cad3f5",
            Black := "#494d64",
            Red := "#ed8796",
            Green := "#a6da95",
            Yellow := "#eed49f",
            Blue := "#8aadf4",
            Magenta := "#f5bde6",
            Cyan := "#8bd5ca",
            White := "#b8c0e0",
            BrightBlack := "#5b6078",
            BrightRed := "#ed8796",
            BrightGreen := "#a6da95",
            BrightYellow := "#eed49f",
            BrightBlue := "#8aadf4",
            BrightMagenta := "#f5bde6",
            BrightCyan := "#8bd5ca",
            BrightWhite := "#a5adcb" } },
      { Name := "Mocha",
        DisplayName := "Mocha (Dark)",
        FullName := "Catppuccin Mocha",
        Colors :=
          { Background := "#1e1e2e",
            Foreground := "#cdd6f4",
            Black := "#45475a",
            Red := "#f38ba8",
            Green := "#a6e3a1",
            Yellow := "#f9e2af",
            Blue := "#89b4fa",
            Magenta := "#f5c2e7",
            Cyan := "#94e2d5",
            White := "#bac2de",
            BrightBlack := "#585b70",
            BrightRed := "#f38ba8",
            BrightGreen := "#a6e3a1",
            BrightYellow := "#f9e2af",
            BrightBlue := "#89b4fa",
            BrightMagenta := "#f5c2e7",
            BrightCyan := "#94e2d5",
            BrightWhite := "#a6adc8" } } ] },
    { Name := "Rose Pine",
      Description := "All natural pine, faux fur and a bit of soho vibes",
      Variants := [
      { Name := "Main",
        DisplayName := "Main (Dark)",
        FullName := "Rose Pine",
        Colors :=
          { Background := "#191724",
            Foreground := "#e0def4",
            Black := "#26233a",
            Red := "#eb6f92",
            Green := "#9ccfd8",
            Yellow := "#f6c177",
            Blue := "#31748f",
            Magenta := "#c4a7e7",
            Cyan := "#ebbcba",
            White := "#e0def4",
            BrightBlack := "#6e6a86",
            BrightRed := "#eb6f92",
            BrightGreen := "#9ccfd8",
            BrightYellow := "#f6c177",
            BrightBlue := "#31748f",
            BrightMagenta := "#c4a7e7",
            BrightCyan := "#ebbcba",
            BrightWhite := "#e0def4" } },
      { Name := "Moon",
        DisplayName := "Moon (Dark)",
        FullName := "Rose Pine Moon",
        Colors :=
          { Background := "#232136",
            Foreground := "#e0def4",
            Black := "#393552",
            Red := "#eb6f92",
            Green := "#9ccfd8",
            Yellow := "#f6c177",
            Blue := "#3e8fb0",
            Magenta := "#c4a7e7",
            Cyan := "#ea9a97",
            White := "#e0def4",
            BrightBlack := "#6e6a86",
            BrightRed := "#eb6f92",
            BrightGreen := "#9ccfd8",
            BrightYellow := "#f6c177",
            BrightBlue := "#3e8fb0",
            BrightMagenta := "#c4a7e7",
            BrightCyan := "#ea9a97",
            BrightWhite := "#e0def4" } },
      { Name := "Dawn",
        DisplayName := "Dawn (Light)",
        FullName := "Rose Pine Dawn",
        Colors :=
          { Background := "#faf4ed",
            Foreground := "#575279",
            Black := "#f2e9e1",
            Red := "#b4637a",
            Green := "#56949f",
            Yellow := "#ea9d34",
            Blue := "#286983",
            Magenta := "#907aa9",
            Cyan := "#d7827e",
            White := "#575279",
            BrightBlack := "#9893a5",
            BrightRed := "#b4637a",
            BrightGreen := "#56949f",
            BrightYellow := "#ea9d34",
            BrightBlue := "#286983",
            BrightMagenta := "#907aa9",
            BrightCyan := "#d7827e",
            BrightWhite := "#575279" } } ] } ]


/-- The function `GetBuiltInThemes` on an empty cache: the base themes
flattened, one theme per variant. -/
def GetBuiltInThemes : List Theme :=
  GetBuiltInBaseThemes.flatMap fun baseTheme =>
    baseTheme.Variants.map fun variant =>
      { Name := variant.FullName, Description := baseTheme.Description, Colors := variant.Colors }

/-- The two loops of `GetBuiltInThemes` on a list of base themes: one theme
per variant, family after family. -/
def flattenThemes (baseThemes : List BaseTheme) : List Theme :=
  baseThemes.flatMap fun baseTheme =>
    baseTheme.Variants.map fun variant =>
      { Name := variant.FullName, Description := baseTheme.Description, Colors := variant.Colors }

/-- The function `GetBuiltInThemes` with the package variable
`builtInThemesCache` as explicit state, `none` being the nil slice: the list
returned and the cache afterwards. -/
def GetBuiltInThemesCached (builtInThemesCache : Option (List Theme)) :
    List Theme × Option (List Theme) :=
  match builtInThemesCache with
  -- Return cached themes if available
  | some cached => (cached, some cached)
  | none =>
    let themes := flattenThemes GetBuiltInBaseThemes
    -- Cache the result
    (themes, some themes)

/-! ## Controller: the initial model and key sequences (`internal/ui/tui.go`) -/

/-- The function `initialModel`; `apps` is the result of `GetAllIntegrations`
and `vscodeVariants` the result of `GetVSCodeVariants`. -/
def initialModel {W : Type} (apps : List (AppIntegration W))
    (vscodeVariants : List VSCodeVariant) : model W :=
  { baseThemes := GetBuiltInBaseThemes,
    themes := GetBuiltInThemes,
    selectedBaseTheme := 0,
    selectedVariant := 0,
    selectedTheme := 0,
    apps := apps,
    selectedApps := [],
    cursor := 0,
    state := State.selectingTheme,
    err := none,
    results := [],
    vscodeVariants := vscodeVariants,
    selectedVSCVariant := 0 }

/-- The index expressions of the method `View`, which the program evaluates
after every `Update`: `m.baseThemes[m.selectedBaseTheme]` in the variant
selection, and `m.themes[m.selectedTheme]` in the preview, in the target
selection and in the selection of the VS Code variant. The value is `false`
when `View` stops on an index out of range. -/
def viewIndexesInRange {W : Type} (m : model W) : Bool :=
  match m.state with
  | State.selectingVariant => (m.baseThemes[m.selectedBaseTheme]?).isSome
  | State.previewingTheme => (m.themes[m.selectedTheme]?).isSome
  | State.selectingApps => (m.themes[m.selectedTheme]?).isSome
  | State.selectingVSCodeVariant => (m.themes[m.selectedTheme]?).isSome
  | _ => true

/-- The method `Update` on a sequence of key presses, one after the other,
the entries of `selectedApps` being ranged over in the order of the list. The
result is `none` as soon as a step stops on an index out of range. -/
def pressKeys {W : Type} (m : model W) (w : W) : List String → Option (model W × W)
  | [] => some (m, w)
  | key :: rest =>
    match Update m (Msg.key key) m.selectedApps w with
    | none => none
    | some r => pressKeys r.1 r.2.2 rest

/-! ## Lexical structure of JSON with comments (specification side)

The definitions of this section do not come from the code: they describe what
a string literal, a line comment and a block comment are, so that the scanners
can be compared with that description. -/

/-- The characters between the quotes of a complete string literal: ordinary
characters (neither quote nor backslash) and escape pairs (a backslash and the
character after it, whatever it is). -/
def isStringBody : List Char → Bool
  | [] => true
  | c :: rest =>
    if c = chBackslash then
      match rest with
      | [] => false
      | _ :: rest2 => isStringBody rest2
    else if c = chQuote then false
    else isStringBody rest

/-- The characters after the opening quote of a string literal that the end of
the input cuts short: as `isStringBody`, and the last backslash may lack its
partner. -/
def isOpenStringBody : List Char → Bool
  | [] => true
  | c :: rest =>
    if c = chBackslash then
      match rest with
      | [] => true
      | _ :: rest2 => isOpenStringBody rest2
    else if c = chQuote then false
    else isOpenStringBody rest

/-- Whether the text holds a star directly followed by a slash, the closer of
a block comment. -/
def hasBlockEnd : List Char → Bool
  | [] => false
  | c :: rest => (decide (c = chStar) && decide (rest.head? = some chSlash)) || hasBlockEnd rest

/-- The characters that end a line comment for the VS Code scanner. -/
def vscodeLineEnd (c : Char) : Bool := decide (c = chLF) || decide (c = chCR)

/-- The character that ends a line comment for the Zed scanner. -/
def zedLineEnd (c : Char) : Bool := decide (c = chLF)

/-- A lexical segment of a text in JSON with comments. The `open` forms are
the ones the end of the input cuts short. -/
inductive Segment where
  | plain (c : Char)
  | string (body : List Char)
  | openString (body : List Char)
  | lineComment (body : List Char) (nl : Char)
  | openLineComment (body : List Char)
  | blockComment (body : List Char)
  | openBlockComment (body : List Char)
deriving DecidableEq, Repr

/-- The source text of a segment. -/
def Segment.text : Segment → List Char
  | Segment.plain c => [c]
  | Segment.string body => chQuote :: body ++ [chQuote]
  | Segment.openString body => chQuote :: body
  | Segment.lineComment body nl => chSlash :: chSlash :: body ++ [nl]
  | Segment.openLineComment body => chSlash :: chSlash :: body
  | Segment.blockComment body => chSlash :: chStar :: body ++ [chStar, chSlash]
  | Segment.openBlockComment body => chSlash :: chStar :: body

/-- What comment removal keeps of a segment: a plain character and a string
literal (a complete one or a cut one) whole, of a line comment the line break
that ends it, of a block comment nothing. -/
def Segment.kept : Segment → List Char
  | Segment.plain c => [c]
  | Segment.string body => chQuote :: body ++ [chQuote]
  | Segment.openString body => chQuote :: body
  | Segment.lineComment _ nl => [nl]
  | Segment.openLineComment _ => []
  | Segment.blockComment _ => []
  | Segment.openBlockComment _ => []

/-- The source text of a sequence of segments. -/
def sourceText : List Segment → List Char
  | [] => []
  | s :: rest => s.text ++ sourceText rest

/-- What comment removal keeps of a sequence of segments. -/
def keptText : List Segment → List Char
  | [] => []
  | s :: rest => s.kept ++ keptText rest

/-- Whether a sequence of segments is a lexical reading of its source text,
`lineEnd` telling which characters end a line comment. A plain character is
not a quote and does not open a comment with the character after it; a string
body is a string body; a line comment holds no line end before the one that
ends it; a block comment holds no closer before the one that ends it (a final
star of the body does not form one with the closer); a cut segment is the last
one, and a cut block comment does not end in a star followed by a slash. -/
def wellFormed (lineEnd : Char → Bool) : List Segment → Bool
  | [] => true
  | Segment.plain c :: rest =>
    decide (c ≠ chQuote)
      && !(decide (c = chSlash) && (decide ((sourceText rest).head? = some chSlash)
            || decide ((sourceText rest).head? = some chStar)))
      && wellFormed lineEnd rest
  | Segment.string body :: rest => isStringBody body && wellFormed lineEnd rest
  | Segment.openString body :: rest => isOpenStringBody body && rest.isEmpty
  | Segment.lineComment body nl :: rest =>
    body.all (fun c => !lineEnd c) && lineEnd nl && wellFormed lineEnd rest
  | Segment.openLineComment body :: rest => body.all (fun c => !lineEnd c) && rest.isEmpty
  | Segment.blockComment body :: rest => !hasBlockEnd body && wellFormed lineEnd rest
  | Segment.openBlockComment body :: rest => !hasBlockEnd body && rest.isEmpty

/-- The number of newline characters of a text. -/
def newlineCount (s : List Char) : Nat := s.count chLF

/-- The number of newline characters inside the block comments of a sequence
of segments. -/
def blockCommentNewlines : List Segment → Nat
  | [] => 0
  | Segment.blockComment body :: rest => newlineCount body + blockCommentNewlines rest
  | Segment.openBlockComment body :: rest => newlineCount body + blockCommentNewlines rest
  | _ :: rest => blockCommentNewlines rest

/-! ## Luminance in exact arithmetic (specification side)

The first four definitions of this section do not come from the code: they
state the formulas the claims compare `determineThemeDetails` with. The others
are integer forms of them, used in the proofs. -/

/-- From the words of the amended claim, not from the code: the linearisation
of a channel `c` in `[0, 1]` with the square in the place of the power 2.4,
in exact arithmetic. -/
def squareLinear (c : ℚ) : ℚ :=
  if c ≤ 0.03928 then c / 12.92 else ((c + 0.055) / 1.055) ^ 2

/-- From the words of the amended claim, not from the code: the luminance
`0.2126 R + 0.7152 G + 0.0722 B` of the channels linearised with
`squareLinear`, in exact arithmetic. -/
def squareLuminance (r g b : Nat) : ℚ :=
  0.2126 * squareLinear ((r : ℚ) / 255) + 0.7152 * squareLinear ((g : ℚ) / 255)
    + 0.0722 * squareLinear ((b : ℚ) / 255)

/-- From the words of the claim, not from the code: `v` is the WCAG
linearisation of the channel `c`, `c / 12.92` if `c ≤ 0.03928` and
`((c + 0.055) / 1.055) ^ 2.4` otherwise. -/
def IsWcagLinear (c v : ℝ) : Prop :=
  (c ≤ 0.03928 → v = c / 12.92) ∧ (0.03928 < c → v = ((c + 0.055) / 1.055) ^ (2.4 : ℝ))

/-- From the words of the claim, not from the code: the WCAG relative
luminance of the colour with the bytes `r`, `g`, `b` is below 0.5. -/
def wcagLuminanceBelowHalf (r g b : Nat) : Prop :=
  ∃ R G B : ℝ, IsWcagLinear ((r : ℝ) / 255) R ∧ IsWcagLinear ((g : ℝ) / 255) G
    ∧ IsWcagLinear ((b : ℝ) / 255) B ∧ 0.2126 * R + 0.7152 * G + 0.0722 * B < 0.5

/-- Used in the proofs: the exact linearisation `squareLinear (c / 255)` of the
byte `c`, times 2200183299. -/
def linScaled (c : ℕ) : ℕ :=
  bif Nat.ble c 10 then 667815 * c else 19 * ((40 * c + 561) * (40 * c + 561))

/-- Used in the proofs: the exact luminance `squareLuminance r g b`, times
22001832990000. -/
def lumScaled (r g b : ℕ) : ℕ :=
  2126 * linScaled r + 7152 * linScaled g + 722 * linScaled b

/-- Used in the proofs: for the bytes `r` and `b`, the green bytes below `g`
put the scaled luminance at least 300000 under the half, 11000916495000, and
the green bytes from `g` on at least 300000 over it. -/
def bandFreeWith (r b g : ℕ) : Bool :=
  (Nat.beq g 0 || Nat.ble (lumScaled r (g - 1) b + 300000) 11000916495000)
    && (Nat.beq g 256 || Nat.ble (11000916495000 + 300000) (lumScaled r g b))

/-- Used in the proofs: a walk down the stair of the threshold for the red
byte `r`, from the blue byte `b` on: the green byte `g` is lowered until
`bandFreeWith r b g` holds, then `b` goes up. -/
def stairWalk (r : ℕ) : ℕ → ℕ → ℕ → Bool
  | 0, _, b => Nat.ble 256 b
  | fuel + 1, g, b =>
    bif Nat.ble 256 b then true
    else bif bandFreeWith r b g then stairWalk r fuel g (b + 1)
    else bif Nat.beq g 0 then false
    else stairWalk r fuel (g - 1) b

/-- Used in the proofs: `p` holds for every number below `n`. -/
def allBelow (p : ℕ → Bool) : ℕ → Bool
  | 0 => true
  | n + 1 => p n && allBelow p n

/-! ## Common shape of the six `Apply` methods (used in the proofs)

Each of the six adapters, once past its own first steps, does the same three
things: it backs up the bytes it read when there are any, it builds the new
content, and it writes it. `backupThenWrite` is that shape; the proofs show
that every `Apply` is an instance of it and reason on it. -/

/-- Back up `data` beside `path` when it is not empty, then write `content`
to `path`; `content` is an error text when the new content cannot be built. -/
def backupThenWrite (fs : FS) (path : String) (data : String) (content : Except String String) :
    ApplyResult :=
  let backed : Option (FS × List String) :=
    if data.length > 0 then
      (fs.writeFile (path ++ ".backup") data).map (fun fs1 => (fs1, [path ++ ".backup"]))
    else
      some (fs, [])
  match backed with
  | none => ⟨some "failed to create backup", fs, []⟩
  | some (fs1, writes) =>
    match content with
    | Except.error e => ⟨some e, fs1, writes⟩
    | Except.ok c =>
      match fs1.writeFile path c with
      | none => ⟨some "failed to write", fs1, writes⟩
      | some fs2 => ⟨none, fs2, writes ++ [path]⟩

/-- The new content of the JSON, TOML and YAML adapters: the encoding of the
merged map, or the panic of a write into the nil map. -/
def encodedContent (encode : Doc → Except String String) (merged : Option Doc) :
    Except String String :=
  match merged with
  | none => Except.error nilMapPanic
  | some m => encode m

/-- The new content of the Starship adapter. -/
def starshipContent (name : String) : Except String String :=
  match starshipConfigContent name with
  | none => Except.error ("unsupported theme: " ++ name)
  | some configContent => Except.ok configContent

/-- The encoder `AlacrittyIntegration.Apply` uses for its config path. -/
def alacrittyEncode (a : AlacrittyIntegration) (libs : Libs) : Doc → Except String String :=
  if hasTomlSuffix (libs.toLower a.configPath) then libs.tomlEncode else libs.yamlMarshal

/-- The decoder `AlacrittyIntegration.Apply` uses for its config path. -/
def alacrittyDecode (a : AlacrittyIntegration) (libs : Libs) : String → Except String (Option Doc) :=
  if hasTomlSuffix (libs.toLower a.configPath) then libs.tomlUnmarshal else libs.yamlUnmarshal

/-- The path of the official theme file that `AlacrittyIntegration.Apply`
probes. -/
def alacrittyOfficialThemePath (a : AlacrittyIntegration) (libs : Libs) (t : Theme) : String :=
  libs.filepathJoin [a.themesPath, "alacritty", "themes", (alacrittyThemeMap t.Name).getD ""]

/-- The result of `themeFileExists` in `AlacrittyIntegration.Apply`: the probe
is made after the backup has been written. -/
def alacrittyThemeOnDisk (a : AlacrittyIntegration) (libs : Libs) (t : Theme) (fs : FS)
    (data : String) : Bool :=
  AlacrittyIntegration.themeFileExists
    (if data.length > 0 then (fs.writeFile (a.configPath ++ ".backup") data).getD fs else fs)
    (alacrittyOfficialThemePath a libs t)

/-- The new content of the Alacritty adapter. -/
def alacrittyContent (a : AlacrittyIntegration) (libs : Libs) (t : Theme) (fs : FS)
    (data : String) (config : Option Doc) : Except String String :=
  encodedContent (alacrittyEncode a libs)
    (config.map (alacrittyMerge t (alacrittyThemeMap t.Name)
      (hasTomlSuffix (libs.toLower a.configPath)) (alacrittyThemeOnDisk a libs t fs data)))

/-- The bytes an adapter has in hand after `os.ReadFile`: the file content
when the read succeeded, nothing otherwise. -/
def ReadResult.dataOrEmpty : ReadResult → String
  | ReadResult.ok data => data
  | _ => ""

/-- Two results with the same file system, the same writes, and both with or
both without an error. -/
def ApplyResult.sameAs (r r' : ApplyResult) : Prop :=
  r.fs = r'.fs ∧ r.writes = r'.writes ∧ (r.err = none ↔ r'.err = none)

/-- The result `r` of an `Apply` on `fs` with target `path` has the common
shape: either it stopped before any write with an error, the files untouched,
or it is, from a file system `fs0` with the files of `fs`, a `backupThenWrite`
of the bytes read from the target. -/
def ApplyResult.hasShape (r : ApplyResult) (fs : FS) (path : String) : Prop :=
  (r.fs.file = fs.file ∧ r.writes = [] ∧ r.err ≠ none)
  ∨ ∃ fs0 content, fs0.file = fs.file
      ∧ r.fs = (backupThenWrite fs0 path (fs.readFile path).dataOrEmpty content).fs
      ∧ r.writes = (backupThenWrite fs0 path (fs.readFile path).dataOrEmpty content).writes
      ∧ (r.err = none →
          (backupThenWrite fs0 path (fs.readFile path).dataOrEmpty content).err = none)

/-- Two runs of `apply`, the second on the file system the first left, with
target `p`: the target is after the second run what it was after the first;
every `os.WriteFile` of the two runs goes to the target or to its backup
sibling; when neither run wrote the backup sibling it is what it was before
the first run, absent when it was absent, and likewise for the target; when
the second run returns `nil` over a target that was readable and not empty,
the backup sibling holds the bytes the target has. Only the target and its
backup sibling are spoken of: what the programs an `Apply` starts do to other
files is no part of it. -/
def applyTwiceSettles (apply : FS → ApplyResult) (fs : FS) (p : String) : Prop :=
  (apply (apply fs).fs).fs.file p = (apply fs).fs.file p
  ∧ (∀ q ∈ (apply fs).writes ++ (apply (apply fs).fs).writes, q = p ∨ q = p ++ ".backup")
  ∧ (p ++ ".backup" ∉ (apply fs).writes ++ (apply (apply fs).fs).writes →
      (apply (apply fs).fs).fs.file (p ++ ".backup") = fs.file (p ++ ".backup"))
  ∧ (p ∉ (apply fs).writes ++ (apply (apply fs).fs).writes →
      (apply (apply fs).fs).fs.file p = fs.file p)
  ∧ (∀ c, (apply (apply fs).fs).err = none → (apply fs).fs.readFile p = ReadResult.ok c → c ≠ "" →
      ((apply (apply fs).fs).fs.file p).map File.data = some c
      ∧ ((apply (apply fs).fs).fs.file (p ++ ".backup")).map File.data = some c)

/-- What an adapter that decodes its target has in hand after the read: the
bytes and the decoded map, the empty map when the target does not exist. -/
def readDecoded (dec : String → Except String (Option Doc)) (fs : FS) (p : String)
    (d : String) (s : Option Doc) : Prop :=
  (fs.readFile p = ReadResult.notExist ∧ d = "" ∧ s = some [])
    ∨ (fs.readFile p = ReadResult.ok d ∧ dec d = Except.ok s)

/-- An encoder and a decoder read each other: the encoder gives the same bytes
for the same map, and what it wrote is decoded as the map it encoded. -/
def codecReadsBack (enc : Doc → Except String String)
    (dec : String → Except String (Option Doc)) : Prop :=
  (∀ m m', Doc.Same m m' → enc m = enc m')
    ∧ (∀ m x, enc m = Except.ok x → ∃ m', dec x = Except.ok (some m') ∧ Doc.Same m' m)

/-! ## Concrete inputs (used in the examples) -/

/-- Whether `needle` occurs in the text (used to state that a setting is
absent from a file). -/
def hasInfix (needle : List Char) : List Char → Bool
  | [] => needle.isEmpty
  | c :: rest => needle.isPrefixOf (c :: rest) || hasInfix needle rest

/-- A file system with the given readable or unreadable files, no directory
entries, in which every write and every directory creation succeeds. -/
def exampleFS (files : List (String × File)) : FS :=
  { file := fun p => files.lookup p,
    dir := fun _ => false,
    writable := fun _ => true,
    mkdirOk := fun _ => true }

/-- Library functions for the examples: a JSON decoder that accepts only the
text `"\x7b\x7d"` and an encoder that fails, path functions on the slash. -/
def exampleLibs : Libs :=
  { jsonUnmarshal := fun s => if s = "\x7b\x7d" then Except.ok (some []) else Except.error "invalid character",
    jsonMarshalIndent := fun _ => Except.error "unsupported value",
    tomlUnmarshal := fun _ => Except.error "toml: invalid",
    tomlEncode := fun _ => Except.error "unsupported value",
    yamlUnmarshal := fun _ => Except.error "yaml: invalid",
    yamlMarshal := fun _ => Except.error "unsupported value",
    filepathJoin := fun parts => String.intercalate "/" parts,
    filepathDir := fun _ => "/home/u/.config",
    toLower := fun s => s }

/-- The settings that select the Nord theme and nothing else. -/
def nordSettings : Doc :=
  [ ("workbench.colorTheme", Value.str "Nord"),
    ("workbench.iconTheme", Value.str "charmed-light"),
    ("workbench.productIconTheme", Value.str "fluent-icons") ]

/-- Whether a looked-up entry is the string `s`. -/
def isStr (v : Option Value) (s : String) : Bool :=
  match v with
  | some (Value.str x) => x == s
  | _ => false

/-- Whether a document is the map `nordSettings`. -/
def isNordSettings (m : Doc) : Bool :=
  m.all (fun e => decide (e.1 ∈ ["workbench.colorTheme", "workbench.iconTheme",
      "workbench.productIconTheme"]))
    && isStr (m.get "workbench.colorTheme") "Nord"
    && isStr (m.get "workbench.iconTheme") "charmed-light"
    && isStr (m.get "workbench.productIconTheme") "fluent-icons"

/-- Library functions for the examples, with a JSON codec that knows one
document: the encoder writes the map `nordSettings` as the text `nord` and
fails on every other map, the decoder reads that text back. -/
def nordOnlyLibs : Libs :=
  { exampleLibs with
    jsonUnmarshal := fun s =>
      if s = "nord" then Except.ok (some nordSettings) else Except.error "invalid character",
    jsonMarshalIndent := fun m =>
      if isNordSettings m then Except.ok "nord" else Except.error "unsupported value" }

/-- The Zed adapter of the examples. -/
def exampleZed : ZedIntegration :=
  ⟨"/home/u/.config/zed/settings.json", "/home/u/.local/share/zed/extensions/installed"⟩

/-- Library functions for the examples with a JSON decoder that, as
`encoding/json` does, accepts the text `null` and leaves the map nil. -/
def exampleLibsNull : Libs :=
  { exampleLibs with
    jsonUnmarshal := fun s =>
      if s = "null" then Except.ok none else exampleLibs.jsonUnmarshal s }

/-- A file system as `exampleFS` with the given directories. -/
def exampleFSWithDirs (files : List (String × File)) (dirs : List String) : FS :=
  { exampleFS files with dir := fun p => decide (p ∈ dirs) }

/-- The Alacritty adapter of the examples. -/
def exampleAlacritty : AlacrittyIntegration :=
  ⟨"/home/u/.config/alacritty/alacritty.toml", "/home/u/.config/alacritty/themes"⟩

/-- External programs for the examples on a machine without network: the
clone fails, the import of a preset succeeds. -/
def offlineTools : Tools :=
  { gitClone := fun _ => Except.error "exit status 128",
    plistImport := fun _ => none }

/-- The index of the target a call asks whether it is installed, `none` for
the other calls. -/
def Call.installedIdx : Call → Option Nat
  | Call.isInstalled idx => some idx
  | Call.apply _ => none

/-- An adapter for the examples, over a world that lists the names of the
targets whose `Apply` ran. -/
def exampleApp (name : String) (installed : Bool) (result : Option String) :
    AppIntegration (List String) :=
  { Name := fun _ => name,
    IsInstalled := fun _ => installed,
    Apply := fun _ w => (result, w ++ [name]),
    ConfigPath := fun _ => "",
    SetVariant := none }

/-- A model for the examples, in the target-selection state: three targets,
all selected. The first fails in `Apply`, the second is not installed, the
third succeeds. -/
def exampleModel : model (List String) :=
  { baseThemes := GetBuiltInBaseThemes,
    themes := GetBuiltInThemes,
    selectedBaseTheme := 0,
    selectedVariant := 0,
    selectedTheme := 0,
    apps := [exampleApp "Alacritty" true (some "failed to read config"),
      exampleApp "Warp" false none, exampleApp "Starship" true none],
    selectedApps := [(0, true), (1, true), (2, true)],
    cursor := 0,
    state := State.selectingApps,
    err := none,
    results := [],
    vscodeVariants := [],
    selectedVSCVariant := 0 }

/-- A model for the examples in the theme-selection state, with the built-in
catalog and the cursor on the family of index `cursor`. -/
def exampleThemeModel (cursor : Nat) : model (List String) :=
  { exampleModel with state := State.selectingTheme, cursor := cursor }

/-- The variant Cursor of a user whose home is `/home/u`. -/
def exampleVariant : VSCodeVariant :=
  { Name := "Cursor",
    ConfigDir := "/home/u/Library/Application Support/Cursor",
    CLICommand := "cursor",
    AppPath := "/Applications/Cursor.app" }

/-- A model for the examples in the target-selection state whose only target
is VS Code, selected, with the given cached variants. -/
def exampleVSCodeModel (variants : List VSCodeVariant) : model (VSCodeIntegration × FS) :=
  { baseThemes := GetBuiltInBaseThemes,
    themes := GetBuiltInThemes,
    selectedBaseTheme := 0,
    selectedVariant := 0,
    selectedTheme := 0,
    apps := [vscodeApp exampleLibs (some "/home/u")],
    selectedApps := [(0, true)],
    cursor := 0,
    state := State.selectingApps,
    err := none,
    results := [],
    vscodeVariants := variants,
    selectedVSCVariant := 0 }

/-- The VS Code adapter object as `NewVSCodeIntegration` makes it for a user
whose home is `/home/u`. -/
def exampleVSCode : VSCodeIntegration :=
  { configPath := "/home/u/Library/Application Support/Code/User/settings.json",
    variant :=
      { Name := "VS Code",
        ConfigDir := "/home/u/Library/Application Support/Code",
        CLICommand := "code",
        AppPath := "/Applications/Visual Studio Code.app" } }

/-- A model for the examples in the target-selection state with the cursor on
its second target, VS Code, selected, and two cached variants. -/
def exampleVariantModel : model (List String) :=
  { exampleModel with
    apps := [exampleApp "Alacritty" true none, exampleApp "VS Code" true none],
    selectedApps := [(1, true)],
    cursor := 1,
    vscodeVariants := [exampleVSCode.variant, exampleVariant] }

/-- The eight targets of `GetAllIntegrations`, in its order, as adapters for
the examples: all installed, `Apply` succeeds. -/
def exampleTargets : List (AppIntegration (List String)) :=
  ["VS Code", "Alacritty", "Warp", "iTerm2", "Starship", "Zed", "macOS Wallpaper", "Slack"].map
    fun name => exampleApp name true none

/-- The keys of the examples that lead the preview to a stale variant index:
variant 3 of Catppuccin is previewed, then Rose Pine is entered and left, and
the preview is opened with `p` and left with `esc`. -/
def staleVariantKeys : List String :=
  ["down", "enter", "down", "down", "down", "enter", "esc", "esc", "down", "enter", "esc", "p",
    "esc"]

/-! # Properties -/

/-! ## The comment scanners against the lexical structure -/

theorem chQuote_ne_chBackslash : chQuote ≠ chBackslash := by decide

theorem chQuote_ne_chSlash : chQuote ≠ chSlash := by decide

theorem chQuote_ne_chStar : chQuote ≠ chStar := by decide

theorem chStar_ne_chSlash : chStar ≠ chSlash := by decide

theorem chSlash_ne_chStar : chSlash ≠ chStar := by decide

theorem chSlash_ne_chQuote : chSlash ≠ chQuote := by decide

theorem chStar_ne_chQuote : chStar ≠ chQuote := by decide

theorem chBackslash_ne_chQuote : chBackslash ≠ chQuote := by decide

/-- In string mode the VS Code scanner copies a string body and the closing
quote, and is back in normal mode after it. -/
theorem vscodeScan_string (body rest : List Char) (h : isStringBody body = true) :
    vscodeScan ⟨true, false, false, false⟩ false (body ++ chQuote :: rest)
      = body ++ chQuote :: vscodeScan ⟨false, false, false, false⟩ false rest := by
  induction body using isStringBody.induct with
  | case1 => simp [vscodeScan, chQuote_ne_chBackslash]
  | case2 =>
    rw [isStringBody.eq_def] at h
    simp at h
  | case3 c rest2 ih =>
    rw [isStringBody.eq_def] at h
    simp at h
    simp [vscodeScan, ih h]
  | case4 rest2 hq =>
    rw [isStringBody.eq_def] at h
    simp [chQuote_ne_chBackslash] at h
  | case5 c rest2 hb hq ih =>
    rw [isStringBody.eq_def] at h
    simp [hb, hq] at h
    simp [vscodeScan, hb, hq, ih h]

/-- In string mode the VS Code scanner copies a string body that the end of
the input cuts short. -/
theorem vscodeScan_openString (body : List Char) (h : isOpenStringBody body = true) :
    vscodeScan ⟨true, false, false, false⟩ false body = body := by
  induction body using isOpenStringBody.induct with
  | case1 => simp [vscodeScan]
  | case2 => simp [vscodeScan]
  | case3 c rest2 ih =>
    rw [isOpenStringBody.eq_def] at h
    simp at h
    simp [vscodeScan, ih h]
  | case4 rest2 hq =>
    rw [isOpenStringBody.eq_def] at h
    simp [chQuote_ne_chBackslash] at h
  | case5 c rest2 hb hq ih =>
    rw [isOpenStringBody.eq_def] at h
    simp [hb, hq] at h
    simp [vscodeScan, hb, hq, ih h]

/-- In line comment mode the VS Code scanner drops the comment and keeps the
line end. -/
theorem vscodeScan_lineComment (body : List Char) (nl : Char) (rest : List Char)
    (hbody : body.all (fun c => !vscodeLineEnd c) = true) (hnl : vscodeLineEnd nl = true) :
    vscodeScan ⟨false, true, false, false⟩ false (body ++ nl :: rest)
      = nl :: vscodeScan ⟨false, false, false, false⟩ false rest := by
  induction body with
  | nil =>
    simp [vscodeLineEnd] at hnl
    rcases hnl with h | h <;> simp [vscodeScan, h]
  | cons c body ih =>
    simp [vscodeLineEnd] at hbody
    obtain ⟨⟨h1, h2⟩, h3⟩ := hbody
    have ih' := ih (by simpa [vscodeLineEnd] using h3)
    simp [vscodeScan, h1, h2, ih']

/-- In line comment mode the VS Code scanner drops a comment that runs to the
end of the input. -/
theorem vscodeScan_openLineComment (body : List Char)
    (hbody : body.all (fun c => !vscodeLineEnd c) = true) :
    vscodeScan ⟨false, true, false, false⟩ false body = [] := by
  induction body with
  | nil => simp [vscodeScan]
  | cons c body ih =>
    simp [vscodeLineEnd] at hbody
    obtain ⟨⟨h1, h2⟩, h3⟩ := hbody
    have ih' := ih (by simpa [vscodeLineEnd] using h3)
    simp [vscodeScan, h1, h2, ih']

/-- In block comment mode the VS Code scanner drops the comment with its
closer. -/
theorem vscodeScan_blockComment (body rest : List Char) (h : hasBlockEnd body = false) :
    vscodeScan ⟨false, false, true, false⟩ false (body ++ chStar :: chSlash :: rest)
      = vscodeScan ⟨false, false, false, false⟩ false rest := by
  induction body with
  | nil => simp [vscodeScan, chStar_ne_chQuote]
  | cons c body ih =>
    simp [hasBlockEnd] at h
    obtain ⟨h1, h2⟩ := h
    have hnot : ¬ (c = chStar ∧ (body ++ chStar :: chSlash :: rest).head? = some chSlash) := by
      rintro ⟨hc, hh⟩
      cases body with
      | nil => simp [chStar_ne_chSlash] at hh
      | cons d body => exact h1 hc (by simpa using hh)
    have hnot' : ¬ (c = chStar ∧ (body.head? = some chSlash ∨ body = [] ∧ chStar = chSlash)) := by
      rintro ⟨hc, hh | ⟨_, hh⟩⟩
      · exact h1 hc hh
      · exact chStar_ne_chSlash hh
    by_cases hq : c = chQuote
    · subst hq
      simp [vscodeScan, chQuote_ne_chStar, ih h2]
    · by_cases hs : c = chStar
      · have : ¬ (body.head? = some chSlash ∨ body = [] ∧ chStar = chSlash) := fun hh => hnot' ⟨hs, hh⟩
        simp [vscodeScan, hq, hs, this, chStar_ne_chQuote, ih h2] at *
      · simp [vscodeScan, hq, hs, ih h2]

/-- In block comment mode the VS Code scanner drops a comment that runs to the
end of the input. -/
theorem vscodeScan_openBlockComment (body : List Char) (h : hasBlockEnd body = false) :
    vscodeScan ⟨false, false, true, false⟩ false body = [] := by
  induction body with
  | nil => simp [vscodeScan]
  | cons c body ih =>
    simp [hasBlockEnd] at h
    obtain ⟨h1, h2⟩ := h
    by_cases hc : c = chStar ∧ body.head? = some chSlash
    · exact absurd hc.2 (h1 hc.1)
    · by_cases hq : c = chQuote
      · subst hq
        simp [vscodeScan, chQuote_ne_chStar, ih h2]
      · simp [vscodeScan, hq, hc, ih h2]

/-- In string mode the Zed scanner copies a string body and the closing
quote, and is back in normal mode after it. -/
theorem zedScan_string (body rest : List Char) (h : isStringBody body = true) :
    zedScan ⟨true, false, false, false⟩ false (body ++ chQuote :: rest)
      = body ++ chQuote :: zedScan ⟨false, false, false, false⟩ false rest := by
  induction body using isStringBody.induct with
  | case1 => simp [zedScan, chQuote_ne_chBackslash]
  | case2 =>
    rw [isStringBody.eq_def] at h
    simp at h
  | case3 c rest2 ih =>
    rw [isStringBody.eq_def] at h
    simp at h
    simp [zedScan, ih h]
  | case4 rest2 hq =>
    rw [isStringBody.eq_def] at h
    simp [chQuote_ne_chBackslash] at h
  | case5 c rest2 hb hq ih =>
    rw [isStringBody.eq_def] at h
    simp [hb, hq] at h
    simp [zedScan, hb, hq, ih h]

/-- In string mode the Zed scanner copies a string body that the end of
the input cuts short. -/
theorem zedScan_openString (body : List Char) (h : isOpenStringBody body = true) :
    zedScan ⟨true, false, false, false⟩ false body = body := by
  induction body using isOpenStringBody.induct with
  | case1 => simp [zedScan]
  | case2 => simp [zedScan]
  | case3 c rest2 ih =>
    rw [isOpenStringBody.eq_def] at h
    simp at h
    simp [zedScan, ih h]
  | case4 rest2 hq =>
    rw [isOpenStringBody.eq_def] at h
    simp [chQuote_ne_chBackslash] at h
  | case5 c rest2 hb hq ih =>
    rw [isOpenStringBody.eq_def] at h
    simp [hb, hq] at h
    simp [zedScan, hb, hq, ih h]

/-- In line comment mode the Zed scanner drops the comment and keeps the
line end. -/
theorem zedScan_lineComment (body : List Char) (nl : Char) (rest : List Char)
    (hbody : body.all (fun c => !zedLineEnd c) = true) (hnl : zedLineEnd nl = true) :
    zedScan ⟨false, true, false, false⟩ false (body ++ nl :: rest)
      = nl :: zedScan ⟨false, false, false, false⟩ false rest := by
  induction body with
  | nil =>
    simp [zedLineEnd] at hnl
    simp [zedScan, hnl]
  | cons c body ih =>
    simp [zedLineEnd] at hbody
    obtain ⟨h1, h3⟩ := hbody
    have ih' := ih (by simpa [zedLineEnd] using h3)
    simp [zedScan, h1, ih']

/-- In line comment mode the Zed scanner drops a comment that runs to the
end of the input. -/
theorem zedScan_openLineComment (body : List Char)
    (hbody : body.all (fun c => !zedLineEnd c) = true) :
    zedScan ⟨false, true, false, false⟩ false body = [] := by
  induction body with
  | nil => simp [zedScan]
  | cons c body ih =>
    simp [zedLineEnd] at hbody
    obtain ⟨h1, h3⟩ := hbody
    have ih' := ih (by simpa [zedLineEnd] using h3)
    simp [zedScan, h1, ih']

/-- In block comment mode the Zed scanner drops the comment with its
closer. -/
theorem zedScan_blockComment (body rest : List Char) (h : hasBlockEnd body = false) :
    zedScan ⟨false, false, true, false⟩ false (body ++ chStar :: chSlash :: rest)
      = zedScan ⟨false, false, false, false⟩ false rest := by
  induction body with
  | nil => simp [zedScan, chStar_ne_chQuote]
  | cons c body ih =>
    simp [hasBlockEnd] at h
    obtain ⟨h1, h2⟩ := h
    have hnot : ¬ (c = chStar ∧ (body ++ chStar :: chSlash :: rest).head? = some chSlash) := by
      rintro ⟨hc, hh⟩
      cases body with
      | nil => simp [chStar_ne_chSlash] at hh
      | cons d body => exact h1 hc (by simpa using hh)
    have hnot' : ¬ (c = chStar ∧ (body.head? = some chSlash ∨ body = [] ∧ chStar = chSlash)) := by
      rintro ⟨hc, hh | ⟨_, hh⟩⟩
      · exact h1 hc hh
      · exact chStar_ne_chSlash hh
    by_cases hq : c = chQuote
    · subst hq
      simp [zedScan, chQuote_ne_chStar, ih h2]
    · by_cases hs : c = chStar
      · have : ¬ (body.head? = some chSlash ∨ body = [] ∧ chStar = chSlash) := fun hh => hnot' ⟨hs, hh⟩
        simp [zedScan, hq, hs, this, chStar_ne_chQuote, ih h2] at *
      · simp [zedScan, hq, hs, ih h2]

/-- In block comment mode the Zed scanner drops a comment that runs to the
end of the input. -/
theorem zedScan_openBlockComment (body : List Char) (h : hasBlockEnd body = false) :
    zedScan ⟨false, false, true, false⟩ false body = [] := by
  induction body with
  | nil => simp [zedScan]
  | cons c body ih =>
    simp [hasBlockEnd] at h
    obtain ⟨h1, h2⟩ := h
    by_cases hc : c = chStar ∧ body.head? = some chSlash
    · exact absurd hc.2 (h1 hc.1)
    · by_cases hq : c = chQuote
      · subst hq
        simp [zedScan, chQuote_ne_chStar, ih h2]
      · simp [zedScan, hq, hc, ih h2]


/-- The VS Code scanner on a lexical reading of its input: the output is what
the reading keeps. -/
theorem vscodeScan_segments (segs : List Segment) (h : wellFormed vscodeLineEnd segs = true) :
    vscodeScan ScanState.init false (sourceText segs) = keptText segs := by
  induction segs with
  | nil => simp [sourceText, keptText, vscodeScan]
  | cons s rest ih =>
    cases s with
    | plain c =>
      simp [wellFormed] at h
      obtain ⟨⟨hq, hc⟩, hrest⟩ := h
      have ih' := ih hrest
      simp only [ScanState.init] at ih'
      by_cases hs : c = chSlash
      · have h1 : ¬ (sourceText rest).head? = some chSlash := by
          rcases hc with hc | hc
          · exact absurd hs hc
          · exact hc.1
        have h2 : ¬ (sourceText rest).head? = some chStar := by
          rcases hc with hc | hc
          · exact absurd hs hc
          · exact hc.2
        simp [sourceText, keptText, Segment.text, Segment.kept, vscodeScan, ScanState.init, hq, h1, h2, ih']
      · simp [sourceText, keptText, Segment.text, Segment.kept, vscodeScan, ScanState.init, hq, hs, ih']
    | string body =>
      simp [wellFormed] at h
      have ih' := ih h.2
      simp only [ScanState.init] at ih'
      simp [sourceText, keptText, Segment.text, Segment.kept, vscodeScan, ScanState.init,
        vscodeScan_string body _ h.1, ih']
    | openString body =>
      simp [wellFormed] at h
      obtain ⟨hb, hrest⟩ := h
      subst hrest
      simp [sourceText, keptText, Segment.text, Segment.kept, vscodeScan, ScanState.init,
        vscodeScan_openString body hb]
    | lineComment body nl =>
      simp only [wellFormed, Bool.and_eq_true] at h
      have ih' := ih h.2
      simp only [ScanState.init] at ih'
      simp [sourceText, keptText, Segment.text, Segment.kept, vscodeScan, ScanState.init,
        chSlash_ne_chQuote, vscodeScan_lineComment body nl _ h.1.1 h.1.2, ih']
    | openLineComment body =>
      simp only [wellFormed, Bool.and_eq_true, List.isEmpty_iff] at h
      obtain ⟨hb, hrest⟩ := h
      subst hrest
      simp [sourceText, keptText, Segment.text, Segment.kept, vscodeScan, ScanState.init,
        chSlash_ne_chQuote, vscodeScan_openLineComment body hb]
    | blockComment body =>
      simp [wellFormed] at h
      have ih' := ih h.2
      simp only [ScanState.init] at ih'
      simp [sourceText, keptText, Segment.text, Segment.kept, vscodeScan, ScanState.init,
        chSlash_ne_chQuote, chSlash_ne_chStar, chStar_ne_chSlash, vscodeScan_blockComment body _ h.1, ih']
    | openBlockComment body =>
      simp [wellFormed] at h
      obtain ⟨hb, hrest⟩ := h
      subst hrest
      simp [sourceText, keptText, Segment.text, Segment.kept, vscodeScan, ScanState.init,
        chSlash_ne_chQuote, chSlash_ne_chStar, chStar_ne_chSlash, vscodeScan_openBlockComment body hb]

/-- The Zed scanner on a lexical reading of its input: the output is what
the reading keeps. -/
theorem zedScan_segments (segs : List Segment) (h : wellFormed zedLineEnd segs = true) :
    zedScan ScanState.init false (sourceText segs) = keptText segs := by
  induction segs with
  | nil => simp [sourceText, keptText, zedScan]
  | cons s rest ih =>
    cases s with
    | plain c =>
      simp [wellFormed] at h
      obtain ⟨⟨hq, hc⟩, hrest⟩ := h
      have ih' := ih hrest
      simp only [ScanState.init] at ih'
      by_cases hs : c = chSlash
      · have h1 : ¬ (sourceText rest).head? = some chSlash := by
          rcases hc with hc | hc
          · exact absurd hs hc
          · exact hc.1
        have h2 : ¬ (sourceText rest).head? = some chStar := by
          rcases hc with hc | hc
          · exact absurd hs hc
          · exact hc.2
        simp [sourceText, keptText, Segment.text, Segment.kept, zedScan, ScanState.init, hq, h1, h2, ih']
      · simp [sourceText, keptText, Segment.text, Segment.kept, zedScan, ScanState.init, hq, hs, ih']
    | string body =>
      simp [wellFormed] at h
      have ih' := ih h.2
      simp only [ScanState.init] at ih'
      simp [sourceText, keptText, Segment.text, Segment.kept, zedScan, ScanState.init,
        chQuote_ne_chSlash, zedScan_string body _ h.1, ih']
    | openString body =>
      simp [wellFormed] at h
      obtain ⟨hb, hrest⟩ := h
      subst hrest
      simp [sourceText, keptText, Segment.text, Segment.kept, zedScan, ScanState.init,
        chQuote_ne_chSlash, zedScan_openString body hb]
    | lineComment body nl =>
      simp only [wellFormed, Bool.and_eq_true] at h
      have ih' := ih h.2
      simp only [ScanState.init] at ih'
      simp [sourceText, keptText, Segment.text, Segment.kept, zedScan, ScanState.init,
        chSlash_ne_chQuote, zedScan_lineComment body nl _ h.1.1 h.1.2, ih']
    | openLineComment body =>
      simp only [wellFormed, Bool.and_eq_true, List.isEmpty_iff] at h
      obtain ⟨hb, hrest⟩ := h
      subst hrest
      simp [sourceText, keptText, Segment.text, Segment.kept, zedScan, ScanState.init,
        chSlash_ne_chQuote, zedScan_openLineComment body hb]
    | blockComment body =>
      simp [wellFormed] at h
      have ih' := ih h.2
      simp only [ScanState.init] at ih'
      simp [sourceText, keptText, Segment.text, Segment.kept, zedScan, ScanState.init,
        chSlash_ne_chQuote, chSlash_ne_chStar, chStar_ne_chSlash, zedScan_blockComment body _ h.1, ih']
    | openBlockComment body =>
      simp [wellFormed] at h
      obtain ⟨hb, hrest⟩ := h
      subst hrest
      simp [sourceText, keptText, Segment.text, Segment.kept, zedScan, ScanState.init,
        chSlash_ne_chQuote, chSlash_ne_chStar, chStar_ne_chSlash, zedScan_openBlockComment body hb]


/-- A text after an opening quote either holds a string body and its closing
quote, or is a string body cut short. -/
theorem string_split (xs : List Char) :
    (∃ body rest, xs = body ++ chQuote :: rest ∧ isStringBody body = true)
      ∨ isOpenStringBody xs = true := by
  induction xs using isOpenStringBody.induct with
  | case1 => exact Or.inr (by simp [isOpenStringBody])
  | case2 => exact Or.inr (by rw [isOpenStringBody.eq_def]; simp)
  | case3 c rest2 ih =>
    rcases ih with ⟨body, rest, hxs, hb⟩ | hopen
    · refine Or.inl ⟨chBackslash :: c :: body, rest, by simp [hxs], ?_⟩
      rw [isStringBody.eq_def]
      simpa using hb
    · refine Or.inr ?_
      rw [isOpenStringBody.eq_def]
      simpa using hopen
  | case4 rest2 hq => exact Or.inl ⟨[], rest2, by simp, by simp [isStringBody]⟩
  | case5 c rest2 hb hq ih =>
    rcases ih with ⟨body, rest, hxs, hbody⟩ | hopen
    · refine Or.inl ⟨c :: body, rest, by simp [hxs], ?_⟩
      rw [isStringBody.eq_def]
      simpa [hb, hq] using hbody
    · refine Or.inr ?_
      rw [isOpenStringBody.eq_def]
      simpa [hb, hq] using hopen

/-- A text after a line comment opener either holds a first line end, or
holds none. -/
theorem line_split (lineEnd : Char → Bool) (xs : List Char) :
    (∃ body nl rest, xs = body ++ nl :: rest ∧ body.all (fun c => !lineEnd c) = true
        ∧ lineEnd nl = true)
      ∨ xs.all (fun c => !lineEnd c) = true := by
  induction xs with
  | nil => exact Or.inr (by simp)
  | cons c xs ih =>
    by_cases hc : lineEnd c = true
    · exact Or.inl ⟨[], c, xs, by simp, by simp, hc⟩
    · rcases ih with ⟨body, nl, rest, hxs, hb, hnl⟩ | hall
      · exact Or.inl ⟨c :: body, nl, rest, by simp [hxs], by simpa [hc] using hb, hnl⟩
      · exact Or.inr (by simpa [hc] using hall)

/-- A text after a block comment opener either holds a first closer, or holds
none. -/
theorem block_split (xs : List Char) :
    (∃ body rest, xs = body ++ chStar :: chSlash :: rest ∧ hasBlockEnd body = false)
      ∨ hasBlockEnd xs = false := by
  induction xs with
  | nil => exact Or.inr (by simp [hasBlockEnd])
  | cons c xs ih =>
    by_cases hc : c = chStar ∧ xs.head? = some chSlash
    · obtain ⟨hc1, hc2⟩ := hc
      cases xs with
      | nil => simp at hc2
      | cons d xs =>
        simp at hc2
        subst hc1 hc2
        exact Or.inl ⟨[], xs, by simp, by simp [hasBlockEnd]⟩
    · rcases ih with ⟨body, rest, hxs, hb⟩ | hnone
      · refine Or.inl ⟨c :: body, rest, by simp [hxs], ?_⟩
        have : ¬ (c = chStar ∧ body.head? = some chSlash) := by
          rintro ⟨h1, h2⟩
          apply hc
          refine ⟨h1, ?_⟩
          cases body with
          | nil => simp at h2
          | cons d body => simpa [hxs] using h2
        simp only [hasBlockEnd, hb, Bool.or_false]
        simpa using this
      · refine Or.inr ?_
        simp only [hasBlockEnd, hnone, Bool.or_false]
        simpa using hc

/-- Every text has a lexical reading. -/
theorem exists_segments_of_length (lineEnd : Char → Bool) (n : Nat) :
    ∀ s : List Char, s.length ≤ n →
      ∃ segs, wellFormed lineEnd segs = true ∧ sourceText segs = s := by
  induction n with
  | zero =>
    intro s hs
    have : s = [] := List.length_eq_zero.mp (Nat.le_zero.mp hs)
    exact ⟨[], by simp [wellFormed], by simp [sourceText, this]⟩
  | succ n ih =>
    intro s hs
    cases s with
    | nil => exact ⟨[], by simp [wellFormed], by simp [sourceText]⟩
    | cons c rest =>
      have hrest : rest.length ≤ n := by simpa using hs
      by_cases hq : c = chQuote
      · subst hq
        rcases string_split rest with ⟨body, rest2, hxs, hb⟩ | hopen
        · have hlen : rest2.length ≤ n := by
            have : rest.length = body.length + (rest2.length + 1) := by simp [hxs]
            omega
          obtain ⟨segs, hwf, htext⟩ := ih rest2 hlen
          exact ⟨Segment.string body :: segs, by simp [wellFormed, hb, hwf],
            by simp [sourceText, Segment.text, htext, hxs]⟩
        · exact ⟨[Segment.openString rest], by simp [wellFormed, hopen],
            by simp [sourceText, Segment.text]⟩
      · by_cases hline : c = chSlash ∧ rest.head? = some chSlash
        · obtain ⟨hc, hhead⟩ := hline
          cases rest with
          | nil => simp at hhead
          | cons d xs =>
            simp at hhead
            subst hc hhead
            rcases line_split lineEnd xs with ⟨body, nl, rest2, hxs, hb, hnl⟩ | hall
            · have hlen : rest2.length ≤ n := by
                have : xs.length = body.length + (rest2.length + 1) := by simp [hxs]
                simp at hrest
                omega
              obtain ⟨segs, hwf, htext⟩ := ih rest2 hlen
              exact ⟨Segment.lineComment body nl :: segs,
                by simp only [wellFormed, hb, hnl, hwf, Bool.and_self],
                by simp [sourceText, Segment.text, htext, hxs]⟩
            · exact ⟨[Segment.openLineComment xs],
                by simp only [wellFormed, hall, List.isEmpty_nil, Bool.and_self],
                by simp [sourceText, Segment.text]⟩
        · by_cases hblock : c = chSlash ∧ rest.head? = some chStar
          · obtain ⟨hc, hhead⟩ := hblock
            cases rest with
            | nil => simp at hhead
            | cons d xs =>
              simp at hhead
              subst hc hhead
              rcases block_split xs with ⟨body, rest2, hxs, hb⟩ | hnone
              · have hlen : rest2.length ≤ n := by
                  have : xs.length = body.length + (rest2.length + 2) := by simp [hxs]
                  simp at hrest
                  omega
                obtain ⟨segs, hwf, htext⟩ := ih rest2 hlen
                exact ⟨Segment.blockComment body :: segs, by simp [wellFormed, hb, hwf],
                  by simp [sourceText, Segment.text, htext, hxs]⟩
              · exact ⟨[Segment.openBlockComment xs], by simp [wellFormed, hnone],
                  by simp [sourceText, Segment.text]⟩
          · obtain ⟨segs, hwf, htext⟩ := ih rest hrest
            refine ⟨Segment.plain c :: segs, ?_, by simp [sourceText, Segment.text, htext]⟩
            simp only [wellFormed, htext, hwf, Bool.and_true]
            simp only [Bool.and_eq_true, decide_eq_true_eq, Bool.not_eq_true', Bool.and_eq_false_imp,
              Bool.or_eq_false_iff, decide_eq_false_iff_not]
            exact ⟨hq, fun hs => ⟨fun hh => hline ⟨hs, hh⟩, fun hh => hblock ⟨hs, hh⟩⟩⟩

/-- Claim C10. For every lexical reading of an input (plain characters, string
literals with their escape pairs, line comments, block comments), both
`stripJSONComments` implementations return exactly what the reading keeps:
every string literal that starts outside a comment whole, whatever it holds
(comment openers, escaped quotes), every plain character unchanged, of a line
comment only the line break that ends it, of a block comment nothing. Every
input text has such a reading. -/
theorem stripJSONComments_copies_strings_and_plain_text :
    (∀ segs, wellFormed vscodeLineEnd segs = true →
        stripJSONComments (String.mk (sourceText segs)) = String.mk (keptText segs))
    ∧ (∀ segs, wellFormed zedLineEnd segs = true →
        zedStripJSONComments (String.mk (sourceText segs)) = String.mk (keptText segs))
    ∧ (∀ s : String, ∃ segs, wellFormed vscodeLineEnd segs = true ∧ sourceText segs = s.data)
    ∧ (∀ s : String, ∃ segs, wellFormed zedLineEnd segs = true ∧ sourceText segs = s.data) := by
  refine ⟨?_, ?_, ?_, ?_⟩
  · intro segs h
    simp [stripJSONComments, vscodeScan_segments segs h]
  · intro segs h
    simp [zedStripJSONComments, zedScan_segments segs h]
  · intro s
    exact exists_segments_of_length vscodeLineEnd s.data.length s.data (Nat.le_refl _)
  · intro s
    exact exists_segments_of_length zedLineEnd s.data.length s.data (Nat.le_refl _)

/-- Witness for C10: a key that holds both comment openers and an escaped
quote, a line comment, a block comment over two lines, and a plain brace. -/
theorem stripJSONComments_copies_strings_witness :
    wellFormed vscodeLineEnd
        [Segment.string "a//b\\\"/*".data, Segment.plain ' ', Segment.lineComment " c".data chLF,
          Segment.blockComment " d\n ".data, Segment.plain (Char.ofNat 125)] = true
      ∧ stripJSONComments (String.mk (sourceText
          [Segment.string "a//b\\\"/*".data, Segment.plain ' ', Segment.lineComment " c".data chLF,
            Segment.blockComment " d\n ".data, Segment.plain (Char.ofNat 125)]))
        = String.mk (keptText
          [Segment.string "a//b\\\"/*".data, Segment.plain ' ', Segment.lineComment " c".data chLF,
            Segment.blockComment " d\n ".data, Segment.plain (Char.ofNat 125)]) :=
  ⟨by decide, stripJSONComments_copies_strings_and_plain_text.1 _ (by decide)⟩

/-! ## Maps -/

theorem Doc.get_set_self (d : Doc) (k : String) (v : Value) : (d.set k v).get k = some v := by
  induction d with
  | nil => simp [Doc.set, Doc.get]
  | cons e rest ih =>
    obtain ⟨k', v'⟩ := e
    by_cases h : k' = k
    · simp [Doc.set, Doc.get, h]
    · simp [Doc.set, Doc.get, h, ih]

theorem Doc.get_set_of_ne (d : Doc) (k k' : String) (v : Value) (hne : k' ≠ k) :
    (d.set k v).get k' = d.get k' := by
  induction d with
  | nil => simp [Doc.set, Doc.get, Ne.symm hne]
  | cons e rest ih =>
    obtain ⟨k₁, v₁⟩ := e
    by_cases h : k₁ = k
    · subst h
      simp [Doc.set, Doc.get, Ne.symm hne]
    · by_cases h' : k₁ = k'
      · subst h'
        simp [Doc.set, Doc.get, h]
      · simp [Doc.set, Doc.get, h, h', ih]

theorem Doc.delete_cons (e : String × Value) (rest : Doc) (k : String) :
    Doc.delete (e :: rest) k = if e.1 = k then Doc.delete rest k else e :: Doc.delete rest k := by
  by_cases h : e.1 = k <;> simp [Doc.delete, List.filter, h]

theorem Doc.get_delete_self (d : Doc) (k : String) : (d.delete k).get k = none := by
  induction d with
  | nil => simp [Doc.delete, Doc.get]
  | cons e rest ih =>
    by_cases h : e.1 = k
    · simp [Doc.delete_cons, h, ih]
    · simp [Doc.delete_cons, h, Doc.get, ih]

theorem Doc.get_delete_of_ne (d : Doc) (k k' : String) (hne : k' ≠ k) :
    (d.delete k).get k' = d.get k' := by
  induction d with
  | nil => simp [Doc.delete, Doc.get]
  | cons e rest ih =>
    obtain ⟨k₁, v₁⟩ := e
    by_cases h : k₁ = k
    · subst h
      simp [Doc.delete_cons, Doc.get, Ne.symm hne, ih]
    · by_cases h' : k₁ = k'
      · subst h'
        simp [Doc.delete_cons, Doc.get, h]
      · simp [Doc.delete_cons, Doc.get, h, h', ih]

theorem Value.asObj?_obj (fields : Doc) : (Value.obj fields).asObj? = some fields := rfl

/-! ## The merge step -/

/-- The VS Code merge step leaves every key it does not write as it was. -/
theorem vscodeMerge_get_other (t : Theme) (D : Doc) (k : String)
    (h1 : k ≠ "workbench.colorTheme") (h2 : k ≠ "workbench.iconTheme")
    (h3 : k ≠ "workbench.productIconTheme") (h4 : k ≠ "workbench.colorCustomizations") :
    (vscodeMerge t D).get k = D.get k := by
  unfold vscodeMerge
  cases vscodeThemeExtensions t.Name with
  | none => simp [keyColorCustomizations, Doc.get_set_of_ne _ _ _ _ h4]
  | some themeExt =>
    simp only [keyColorCustomizations]
    split
    · split
      · rw [Doc.get_delete_of_ne _ _ _ h4, Doc.get_set_of_ne _ _ _ _ h3,
          Doc.get_set_of_ne _ _ _ _ h2, Doc.get_set_of_ne _ _ _ _ h1]
      · rw [Doc.get_set_of_ne _ _ _ _ h3, Doc.get_set_of_ne _ _ _ _ h2,
          Doc.get_set_of_ne _ _ _ _ h1]
    · rw [Doc.get_set_of_ne _ _ _ _ h3, Doc.get_set_of_ne _ _ _ _ h2,
        Doc.get_set_of_ne _ _ _ _ h1]

/-- The Zed merge step leaves every key but `theme` as it was. -/
theorem zedMerge_get_other (themeExt : ZedExtension) (D : Doc) (k : String) (h : k ≠ "theme") :
    (zedMerge themeExt D).get k = D.get k := by
  simp [zedMerge, Doc.get_set_of_ne _ _ _ _ h]

/-- The Alacritty merge step leaves every key but `colors` and `general` as it
was. -/
theorem alacrittyMerge_get_other (t : Theme) (officialTheme : Option String) (isTOML exist : Bool)
    (D : Doc) (k : String) (h1 : k ≠ "colors") (h2 : k ≠ "general") :
    (alacrittyMerge t officialTheme isTOML exist D).get k = D.get k := by
  unfold alacrittyMerge
  by_cases hc : officialTheme.isSome = true ∧ isTOML = true ∧ exist = true
  · obtain ⟨_, hT, _⟩ := hc
    cases hg : (D.get "general").bind Value.asObj? <;>
      simp [*, Doc.get_set_of_ne _ _ _ _ h2, Doc.get_delete_of_ne _ _ _ h1]
  · simp only [hc, if_false]
    cases hg : ((D.set "colors" (Value.obj (generateAlacrittyColors t))).get "general").bind
        Value.asObj? <;>
      cases isTOML <;>
      simp [Doc.get_set_of_ne _ _ _ _ h2, Doc.get_set_of_ne _ _ _ _ h1]

/-- The Alacritty merge step leaves every key of the `general` table but
`import` as it was. -/
theorem alacrittyMerge_general_other (t : Theme) (officialTheme : Option String)
    (isTOML exist : Bool) (D : Doc) (g : Doc) (k : String)
    (hg : (D.get "general").bind Value.asObj? = some g) (hk : k ≠ "import") :
    ∃ g', ((alacrittyMerge t officialTheme isTOML exist D).get "general").bind Value.asObj?
        = some g' ∧ g'.get k = g.get k := by
  have hcg : ("general" : String) ≠ "colors" := by decide
  unfold alacrittyMerge
  by_cases hc : officialTheme.isSome = true ∧ isTOML = true ∧ exist = true
  · have hT := hc.2.1
    refine ⟨g.set "import" (Value.arr [Value.str
      ("~/.config/alacritty/themes/alacritty/themes/" ++ officialTheme.getD "")]), ?_,
      Doc.get_set_of_ne _ _ _ _ hk⟩
    simp only [hc, hT, and_self, if_true, hg]
    simp [Doc.get_delete_of_ne _ _ _ hcg, Doc.get_set_self, Value.asObj?_obj]
  · refine ⟨g.delete "import", ?_, Doc.get_delete_of_ne _ _ _ hk⟩
    have hg' : ((D.set "colors" (Value.obj (generateAlacrittyColors t))).get "general").bind
        Value.asObj? = some g := by
      rw [Doc.get_set_of_ne _ _ _ _ hcg, hg]
    simp only [hc, if_false, hg']
    cases isTOML <;>
      simp [Doc.get_set_of_ne _ _ _ _ hcg, Doc.get_set_self, Value.asObj?_obj]

/-- Claim C1. In the merge step of the VS Code, Zed and Alacritty `Apply`, for
every decoded document `D` and every theme, a top-level key other than the
keys the adapter writes (VS Code: the three theme keys and
`workbench.colorCustomizations`; Zed: `theme`; Alacritty: `colors` and
`general`) has in the merged document the value it has in `D`, and for
Alacritty every key of the `general` table other than `import` keeps its
value. -/
theorem merge_preserves_untouched_keys :
    (∀ (t : Theme) (D : Doc) (k : String), k ≠ "workbench.colorTheme" →
        k ≠ "workbench.iconTheme" → k ≠ "workbench.productIconTheme" →
        k ≠ "workbench.colorCustomizations" → (vscodeMerge t D).get k = D.get k)
    ∧ (∀ (themeExt : ZedExtension) (D : Doc) (k : String), k ≠ "theme" →
        (zedMerge themeExt D).get k = D.get k)
    ∧ (∀ (t : Theme) (officialTheme : Option String) (isTOML exist : Bool) (D : Doc) (k : String),
        k ≠ "colors" → k ≠ "general" →
        (alacrittyMerge t officialTheme isTOML exist D).get k = D.get k)
    ∧ (∀ (t : Theme) (officialTheme : Option String) (isTOML exist : Bool) (D g : Doc)
        (k : String), (D.get "general").bind Value.asObj? = some g → k ≠ "import" →
        ∃ g', ((alacrittyMerge t officialTheme isTOML exist D).get "general").bind Value.asObj?
          = some g' ∧ g'.get k = g.get k) :=
  ⟨vscodeMerge_get_other, zedMerge_get_other, alacrittyMerge_get_other,
    alacrittyMerge_general_other⟩

/-- Witness for C1: the font size of a settings document survives the merge of
the Nord theme. -/
theorem merge_preserves_untouched_keys_witness :
    ("editor.fontSize" ≠ "workbench.colorTheme" ∧ "editor.fontSize" ≠ "workbench.iconTheme"
      ∧ "editor.fontSize" ≠ "workbench.productIconTheme"
      ∧ "editor.fontSize" ≠ "workbench.colorCustomizations")
    ∧ (vscodeMerge (GetBuiltInThemes.getD 0 default)
          [("editor.fontSize", Value.num "14"), ("workbench.colorTheme", Value.str "Default Dark+")]).get
          "editor.fontSize"
        = Doc.get [("editor.fontSize", Value.num "14"),
            ("workbench.colorTheme", Value.str "Default Dark+")] "editor.fontSize" :=
  ⟨by decide, merge_preserves_untouched_keys.1 _ _ _ (by decide) (by decide) (by decide) (by decide)⟩

/-! ## Colour customizations of VS Code -/

theorem Doc.get_assignAll (dst src : Doc) (k : String) :
    (dst.assignAll src).get k = (src.get k).orElse (fun _ => dst.get k) := by
  induction src with
  | nil => simp [Doc.assignAll, Doc.get]
  | cons e rest ih =>
    obtain ⟨k₁, v₁⟩ := e
    simp only [Doc.assignAll, List.foldr_cons] at ih ⊢
    by_cases h : k₁ = k
    · subst h
      simp [Doc.get, Doc.get_set_self]
    · rw [Doc.get_set_of_ne _ _ _ _ (Ne.symm h), ih]
      simp [Doc.get, h]

theorem Doc.get_assignStrings (dst : Doc) (src : List (String × String)) (k : String) :
    (dst.assignStrings src).get k
      = ((src.lookup k).map Value.str).orElse (fun _ => dst.get k) := by
  induction src with
  | nil => simp [Doc.assignStrings, List.lookup]
  | cons e rest ih =>
    obtain ⟨k₁, v₁⟩ := e
    simp only [Doc.assignStrings, List.foldr_cons] at ih ⊢
    by_cases h : k₁ = k
    · subst h
      simp [List.lookup, Doc.get_set_self]
    · have hb : (k == k₁) = false := by simpa using Ne.symm h
      rw [Doc.get_set_of_ne _ _ _ _ (Ne.symm h), ih]
      simp [List.lookup, hb]

theorem lookup_of_mem_of_nodup (l : List (String × String)) (hn : (l.map Prod.fst).Nodup)
    (k v : String) (hm : (k, v) ∈ l) : l.lookup k = some v := by
  induction l with
  | nil => simp at hm
  | cons e rest ih =>
    obtain ⟨k₁, v₁⟩ := e
    simp only [List.map_cons, List.nodup_cons] at hn
    rcases List.mem_cons.mp hm with heq | hin
    · cases heq
      simp [List.lookup]
    · have hne : k ≠ k₁ := by
        rintro rfl
        exact hn.1 (List.mem_map.mpr ⟨(k, v), hin, rfl⟩)
      have hb : (k == k₁) = false := by simpa using hne
      simp [List.lookup, hb, ih hn.2 hin]

theorem lookup_eq_none_of_not_mem (l : List (String × String)) (k : String)
    (h : k ∉ l.map Prod.fst) : l.lookup k = none := by
  induction l with
  | nil => simp [List.lookup]
  | cons e rest ih =>
    obtain ⟨k₁, v₁⟩ := e
    simp only [List.map_cons, List.mem_cons, not_or] at h
    have hb : (k == k₁) = false := by simpa using h.1
    simp [List.lookup, hb, ih h.2]

/-- The keys of the editor colours and of the terminal colours are distinct. -/
theorem generated_color_keys_nodup (t : Theme) :
    ((generateVSCodeColors t ++ generateTerminalColors t).map Prod.fst).Nodup := by
  simp only [generateVSCodeColors, generateTerminalColors, List.cons_append, List.nil_append,
    List.map_cons, List.map_nil]
  decide

/-- In the map built from the editor colours and the terminal colours every
generated colour is bound to its key. -/
theorem generated_colors_get (t : Theme) (k v : String)
    (hm : (k, v) ∈ generateVSCodeColors t ++ generateTerminalColors t) :
    (Doc.assignStrings (Doc.assignStrings [] (generateVSCodeColors t))
        (generateTerminalColors t)).get k = some (Value.str v) := by
  have hn := generated_color_keys_nodup t
  rw [List.map_append, List.nodup_append] at hn
  obtain ⟨hn1, hn2, hdisj⟩ := hn
  rw [Doc.get_assignStrings, Doc.get_assignStrings]
  rcases List.mem_append.mp hm with h1 | h2
  · have hk : k ∉ (generateTerminalColors t).map Prod.fst := fun hk =>
      hdisj (List.mem_map.mpr ⟨(k, v), h1, rfl⟩) hk
    simp [lookup_eq_none_of_not_mem _ _ hk, lookup_of_mem_of_nodup _ hn1 _ _ h1]
  · simp [lookup_of_mem_of_nodup _ hn2 _ _ h2]

/-- The value of `workbench.colorCustomizations` after the merge of a theme
without an official extension. -/
theorem vscodeMerge_fallback_get (t : Theme) (D : Doc) (h : vscodeThemeExtensions t.Name = none) :
    (vscodeMerge t D).get keyColorCustomizations
      = some (Value.obj (match (D.get keyColorCustomizations).bind Value.asObj? with
          | some existing =>
            (Doc.assignStrings (Doc.assignStrings [] (generateVSCodeColors t))
              (generateTerminalColors t)).assignAll existing
          | none =>
            Doc.assignStrings (Doc.assignStrings [] (generateVSCodeColors t))
              (generateTerminalColors t))) := by
  unfold vscodeMerge
  simp only [h]
  rw [Doc.get_set_self]

/-- The value of `workbench.colorCustomizations` after the merge of a theme
with an official extension. -/
theorem vscodeMerge_extension_get (t : Theme) (themeExt : VSCodeThemeExtension) (D : Doc)
    (h : vscodeThemeExtensions t.Name = some themeExt) :
    (vscodeMerge t D).get keyColorCustomizations
      = match (D.get keyColorCustomizations).bind Value.asObj? with
        | some existing => if existing.length = 0 then none else D.get keyColorCustomizations
        | none => D.get keyColorCustomizations := by
  have h1 : keyColorCustomizations ≠ "workbench.colorTheme" := by decide
  have h2 : keyColorCustomizations ≠ "workbench.iconTheme" := by decide
  have h3 : keyColorCustomizations ≠ "workbench.productIconTheme" := by decide
  unfold vscodeMerge
  simp only [h]
  rw [Doc.get_set_of_ne _ _ _ _ h3, Doc.get_set_of_ne _ _ _ _ h2, Doc.get_set_of_ne _ _ _ _ h1]
  cases hg : (D.get keyColorCustomizations).bind Value.asObj? with
  | none =>
    simp only []
    rw [Doc.get_set_of_ne _ _ _ _ h3, Doc.get_set_of_ne _ _ _ _ h2, Doc.get_set_of_ne _ _ _ _ h1]
  | some existing =>
    simp only []
    split
    · rw [Doc.get_delete_self]
    · rw [Doc.get_set_of_ne _ _ _ _ h3, Doc.get_set_of_ne _ _ _ _ h2,
        Doc.get_set_of_ne _ _ _ _ h1]

/-- Counterexample to C6 as stated: for the built-in theme Nord, which has an
official extension, an existing empty `workbench.colorCustomizations` map is
not filled with the colours of the theme: the merged document has no such key
at all. -/
theorem vscodeMerge_nord_drops_empty_customizations :
    (GetBuiltInThemes.getD 0 default).Name = "Nord"
    ∧ Doc.get [(keyColorCustomizations, Value.obj [])] keyColorCustomizations
        = some (Value.obj [])
    ∧ (vscodeMerge (GetBuiltInThemes.getD 0 default)
        [(keyColorCustomizations, Value.obj [])]).get keyColorCustomizations = none :=
  ⟨by decide, rfl, by
    rw [vscodeMerge_extension_get _ ⟨"arcticicestudio.nord-visual-studio-code", "Nord",
      "charmed-light", "fluent-icons"⟩ _ (by decide)]
    rfl⟩

/-- Claim C6, amended. For a theme without an official extension the merged
`workbench.colorCustomizations` is a non-empty map in which every key of the
existing map keeps the user's value and every generated colour whose key the
user does not have is present. For a theme with an official extension a
non-empty existing map is left as it is and an empty existing map is removed;
no generated colour is added. -/
theorem vscodeMerge_colorCustomizations :
    (∀ (t : Theme) (D : Doc), vscodeThemeExtensions t.Name = none →
      ∃ colors : Doc, (vscodeMerge t D).get keyColorCustomizations = some (Value.obj colors)
        ∧ colors ≠ []
        ∧ (∀ existing k v, (D.get keyColorCustomizations).bind Value.asObj? = some existing →
            existing.get k = some v → Doc.get colors k = some v)
        ∧ (∀ k v, (k, v) ∈ generateVSCodeColors t ++ generateTerminalColors t →
            (∀ existing, (D.get keyColorCustomizations).bind Value.asObj? = some existing →
              existing.get k = none) →
            Doc.get colors k = some (Value.str v)))
    ∧ (∀ (t : Theme) (themeExt : VSCodeThemeExtension) (D existing : Doc),
        vscodeThemeExtensions t.Name = some themeExt →
        (D.get keyColorCustomizations).bind Value.asObj? = some existing → existing ≠ [] →
        (vscodeMerge t D).get keyColorCustomizations = D.get keyColorCustomizations)
    ∧ (∀ (t : Theme) (themeExt : VSCodeThemeExtension) (D : Doc),
        vscodeThemeExtensions t.Name = some themeExt →
        (D.get keyColorCustomizations).bind Value.asObj? = some [] →
        (vscodeMerge t D).get keyColorCustomizations = none) := by
  refine ⟨?_, ?_, ?_⟩
  · intro t D h
    have hgen := generated_colors_get t
    have hget := vscodeMerge_fallback_get t D h
    generalize (Doc.assignStrings (Doc.assignStrings [] (generateVSCodeColors t))
      (generateTerminalColors t)) = base at hgen hget
    have hbg : base.get "editor.background" = some (Value.str t.Colors.Background) :=
      hgen _ _ (by simp [generateVSCodeColors])
    cases hg : (D.get keyColorCustomizations).bind Value.asObj? with
    | none =>
      rw [hg] at hget
      refine ⟨base, hget, ?_, ?_, ?_⟩
      · intro hnil
        rw [hnil] at hbg
        simp [Doc.get] at hbg
      · intro existing k v he
        simp at he
      · intro k v hm _
        exact hgen k v hm
    | some existing =>
      rw [hg] at hget
      refine ⟨base.assignAll existing, hget, ?_, ?_, ?_⟩
      · intro hnil
        have hx := Doc.get_assignAll base existing "editor.background"
        rw [hnil, hbg] at hx
        cases he : existing.get "editor.background" <;> simp [he, Doc.get] at hx
      · intro existing' k v he hk
        have : existing = existing' := by simpa using he
        subst this
        rw [Doc.get_assignAll, hk]
        rfl
      · intro k v hm hnone
        rw [Doc.get_assignAll, hnone existing rfl]
        exact hgen k v hm
  · intro t themeExt D existing h hg hne
    rw [vscodeMerge_extension_get t themeExt D h, hg]
    have : existing.length ≠ 0 := fun hl => hne (List.length_eq_zero.mp hl)
    simp [this]
  · intro t themeExt D h hg
    rw [vscodeMerge_extension_get t themeExt D h, hg]
    simp

/-- Witness for the amended C6: a theme that has no official extension, on
settings in which the user chose the editor background. -/
theorem vscodeMerge_colorCustomizations_witness :
    vscodeThemeExtensions (Theme.mk "Solarized" "" (GetBuiltInThemes.getD 0 default).Colors).Name
        = none
    ∧ ∃ colors : Doc, (vscodeMerge (Theme.mk "Solarized" "" (GetBuiltInThemes.getD 0 default).Colors)
          [(keyColorCustomizations, Value.obj [("editor.background", Value.str "#000000")])]).get
          keyColorCustomizations = some (Value.obj colors)
        ∧ colors ≠ []
        ∧ Doc.get colors "editor.background" = some (Value.str "#000000") := by
  refine ⟨by decide, ?_⟩
  obtain ⟨colors, h1, h2, h3, _⟩ := vscodeMerge_colorCustomizations.1
    (Theme.mk "Solarized" "" (GetBuiltInThemes.getD 0 default).Colors)
    [(keyColorCustomizations, Value.obj [("editor.background", Value.str "#000000")])]
    (by decide)
  exact ⟨colors, h1, h2, h3 [("editor.background", Value.str "#000000")] _ _ rfl rfl⟩

/-! ## File system -/

theorem FS.writeFile_eq_some (fs fs' : FS) (p d : String) (h : fs.writeFile p d = some fs') :
    fs.writable p = true
      ∧ ∃ mode, (mode = true ∨ ∃ f, fs.file p = some f ∧ mode = f.readable)
        ∧ fs' = { fs with file := fun q => if q = p then some ⟨d, mode⟩ else fs.file q } := by
  unfold FS.writeFile at h
  by_cases hw : fs.writable p = true
  · simp only [hw, if_true, Option.some.injEq] at h
    refine ⟨hw, _, ?_, h.symm⟩
    cases hf : fs.file p with
    | none => exact Or.inl rfl
    | some f => exact Or.inr ⟨f, rfl, rfl⟩
  · simp [hw] at h

theorem FS.writeFile_file_self (fs fs' : FS) (p d : String) (h : fs.writeFile p d = some fs') :
    (fs'.file p).map File.data = some d := by
  obtain ⟨_, mode, _, rfl⟩ := FS.writeFile_eq_some fs fs' p d h
  simp

theorem FS.writeFile_file_other (fs fs' : FS) (p d q : String) (h : fs.writeFile p d = some fs')
    (hq : q ≠ p) : fs'.file q = fs.file q := by
  obtain ⟨_, mode, _, rfl⟩ := FS.writeFile_eq_some fs fs' p d h
  simp [hq]

/-! ## Starship replaces the whole file -/

/-- Counterexample to C7 as stated: a `starship.toml` that sets `scan_timeout`,
a setting the Nord configuration does not define. After `Apply` of Nord, which
returns `nil`, the text `scan_timeout` occurs nowhere in the file. -/
theorem starship_apply_drops_existing_setting :
    hasInfix "scan_timeout".data "scan_timeout = 10\n".data = true
    ∧ (StarshipIntegration.Apply exampleLibs "/home/u/.config/starship.toml"
        (GetBuiltInThemes.getD 0 default)
        (exampleFS [("/home/u/.config/starship.toml", ⟨"scan_timeout = 10\n", true⟩)])).err = none
    ∧ ((StarshipIntegration.Apply exampleLibs "/home/u/.config/starship.toml"
        (GetBuiltInThemes.getD 0 default)
        (exampleFS [("/home/u/.config/starship.toml", ⟨"scan_timeout = 10\n", true⟩)])).fs.file
        "/home/u/.config/starship.toml").map File.data = some getNordConfig
    ∧ hasInfix "scan_timeout".data getNordConfig.data = false := by
  refine ⟨by decide, by decide, by rfl, by decide!⟩

/-- Claim C7, amended. `StarshipIntegration.Apply` replaces the file: whenever
it returns `nil`, the theme is one of the eight supported ones and
`starship.toml` holds exactly the full configuration of that theme, whatever
the file held before. -/
theorem starship_apply_writes_full_config (libs : Libs) (configPath : String) (t : Theme)
    (fs : FS) (h : (StarshipIntegration.Apply libs configPath t fs).err = none) :
    ∃ configContent, starshipConfigContent t.Name = some configContent
      ∧ ((StarshipIntegration.Apply libs configPath t fs).fs.file configPath).map File.data
          = some configContent := by
  unfold StarshipIntegration.Apply at h ⊢
  cases hm : fs.mkdirAll (libs.filepathDir configPath) with
  | none => simp [hm] at h
  | some fs0 =>
    simp only [hm] at h ⊢
    cases hb : backupIfReadable fs0 configPath with
    | none => simp [hb] at h
    | some bw =>
      obtain ⟨fs1, writes⟩ := bw
      simp only [hb] at h ⊢
      cases hc : starshipConfigContent t.Name with
      | none => simp [hc] at h
      | some configContent =>
        simp only [hc] at h ⊢
        cases hw : fs1.writeFile configPath configContent with
        | none => simp [hw] at h
        | some fs2 => exact ⟨configContent, rfl, FS.writeFile_file_self fs1 fs2 _ _ hw⟩

/-- Witness for the amended C7: the input of the counterexample. -/
theorem starship_apply_writes_full_config_witness :
    (StarshipIntegration.Apply exampleLibs "/home/u/.config/starship.toml"
        (GetBuiltInThemes.getD 0 default)
        (exampleFS [("/home/u/.config/starship.toml", ⟨"scan_timeout = 10\n", true⟩)])).err = none
    ∧ ∃ configContent,
        starshipConfigContent (GetBuiltInThemes.getD 0 default).Name = some configContent
        ∧ ((StarshipIntegration.Apply exampleLibs "/home/u/.config/starship.toml"
            (GetBuiltInThemes.getD 0 default)
            (exampleFS [("/home/u/.config/starship.toml", ⟨"scan_timeout = 10\n", true⟩)])).fs.file
            "/home/u/.config/starship.toml").map File.data = some configContent :=
  ⟨by decide, starship_apply_writes_full_config _ _ _ _ (by decide)⟩

/-! ## Every `Apply` is an instance of the common shape -/

theorem backup_ne (p : String) : p ++ ".backup" ≠ p := by
  intro h
  have := congrArg String.length h
  simp [String.length_append] at this
  have h7 : (".backup" : String).length = 7 := by decide
  omega

theorem vscodeBackupMergeWrite_sameAs (libs : Libs) (p : String) (t : Theme) (fs : FS)
    (data : String) (settings : Option Doc) :
    (vscodeBackupMergeWrite libs p t fs data settings).sameAs
      (backupThenWrite fs p data
        (encodedContent libs.jsonMarshalIndent (settings.map (vscodeMerge t)))) := by
  unfold vscodeBackupMergeWrite backupThenWrite encodedContent encodeAndWrite ApplyResult.sameAs
  by_cases hd : data.length > 0
  · cases hb : fs.writeFile (p ++ ".backup") data with
    | none => simp [hd, hb]
    | some fs1 =>
      cases settings with
      | none => simp [hd, hb]
      | some s =>
        cases he : libs.jsonMarshalIndent (vscodeMerge t s) with
        | error e => simp [hd, hb, he]
        | ok c => cases hw : fs1.writeFile p c <;> simp [hd, hb, he, hw]
  · cases settings with
    | none => simp [hd]
    | some s =>
      cases he : libs.jsonMarshalIndent (vscodeMerge t s) with
      | error e => simp [hd, he]
      | ok c => cases hw : fs.writeFile p c <;> simp [hd, he, hw]

/-! ## The common shape: what it writes -/

theorem length_pos_of_ne_empty (s : String) (h : s ≠ "") : s.length > 0 := by
  rcases s with ⟨l⟩
  cases l with
  | nil => exact absurd rfl h
  | cons c l => simp [String.length]

theorem backupThenWrite_env (fs : FS) (p data : String) (content : Except String String) :
    (backupThenWrite fs p data content).fs.writable = fs.writable
      ∧ (backupThenWrite fs p data content).fs.mkdirOk = fs.mkdirOk
      ∧ (backupThenWrite fs p data content).fs.dir = fs.dir := by
  unfold backupThenWrite FS.writeFile
  by_cases hd : data.length > 0 <;> by_cases hb : fs.writable (p ++ ".backup") = true <;>
    cases content <;> by_cases hp : fs.writable p = true <;> simp [hd, hb, hp]

theorem backupThenWrite_frame (fs : FS) (p data : String) (content : Except String String)
    (q : String) (hq : q ≠ p) (hqb : q ≠ p ++ ".backup") :
    (backupThenWrite fs p data content).fs.file q = fs.file q := by
  unfold backupThenWrite FS.writeFile
  by_cases hd : data.length > 0 <;> by_cases hb : fs.writable (p ++ ".backup") = true <;>
    cases content <;> by_cases hp : fs.writable p = true <;> simp [hd, hb, hp, hq, hqb]

theorem backupThenWrite_writes (fs : FS) (p data : String) (content : Except String String) :
    ∀ q ∈ (backupThenWrite fs p data content).writes, q = p ∨ q = p ++ ".backup" := by
  unfold backupThenWrite FS.writeFile
  by_cases hd : data.length > 0 <;> by_cases hb : fs.writable (p ++ ".backup") = true <;>
    cases content <;> by_cases hp : fs.writable p = true <;> simp [hd, hb, hp]

theorem backupThenWrite_err (fs : FS) (p data : String) (content : Except String String) :
    (backupThenWrite fs p data content).err = none
      ↔ p ∈ (backupThenWrite fs p data content).writes := by
  have hne := backup_ne p
  unfold backupThenWrite FS.writeFile
  by_cases hd : data.length > 0 <;> by_cases hb : fs.writable (p ++ ".backup") = true <;>
    cases content <;> by_cases hp : fs.writable p = true <;> simp [hd, hb, hp, hne, Ne.symm hne]

/-- When there are bytes to back up and the target is written, the backup was
written first and holds those bytes. -/
theorem backupThenWrite_backup (fs : FS) (p data : String) (content : Except String String)
    (hdata : data ≠ "") (hw : p ∈ (backupThenWrite fs p data content).writes) :
    (backupThenWrite fs p data content).writes = [p ++ ".backup", p]
      ∧ ((backupThenWrite fs p data content).fs.file (p ++ ".backup")).map File.data
          = some data := by
  have hne := backup_ne p
  have hd : data.length > 0 := length_pos_of_ne_empty data hdata
  revert hw
  unfold backupThenWrite FS.writeFile
  by_cases hb : fs.writable (p ++ ".backup") = true <;>
    cases content <;> by_cases hp : fs.writable p = true <;> simp [hd, hb, hp, hne, Ne.symm hne]

/-- Without bytes to back up, the backup file is not touched. -/
theorem backupThenWrite_no_backup (fs : FS) (p : String) (content : Except String String) :
    p ++ ".backup" ∉ (backupThenWrite fs p "" content).writes
      ∧ (backupThenWrite fs p "" content).fs.file (p ++ ".backup") = fs.file (p ++ ".backup") := by
  have hne := backup_ne p
  have hd : ¬ ("" : String).length > 0 := by decide
  unfold backupThenWrite FS.writeFile
  cases content <;> by_cases hp : fs.writable p = true <;> simp [hd, hp, hne, Ne.symm hne]

/-- When the target is written, it holds the new content, with the mode it
had (readable when it is new). -/
theorem backupThenWrite_target (fs : FS) (p data : String) (content : Except String String)
    (hw : p ∈ (backupThenWrite fs p data content).writes) :
    ∃ c, content = Except.ok c
      ∧ (backupThenWrite fs p data content).fs.file p
          = some ⟨c, ((fs.file p).map File.readable).getD true⟩ := by
  have hne := backup_ne p
  revert hw
  unfold backupThenWrite FS.writeFile
  by_cases hd : data.length > 0 <;> by_cases hb : fs.writable (p ++ ".backup") = true <;>
    cases content <;> by_cases hp : fs.writable p = true <;>
    cases hf : fs.file p <;> simp [hd, hb, hp, hne, Ne.symm hne, hf]

/-- Whether the target is written depends on the inputs and on what may be
written only. -/
theorem backupThenWrite_mem_writes_iff (fs : FS) (p data : String)
    (content : Except String String) :
    p ∈ (backupThenWrite fs p data content).writes
      ↔ (data.length > 0 → fs.writable (p ++ ".backup") = true)
        ∧ (∃ c, content = Except.ok c) ∧ fs.writable p = true := by
  have hne := backup_ne p
  unfold backupThenWrite FS.writeFile
  by_cases hd : data.length > 0 <;> by_cases hb : fs.writable (p ++ ".backup") = true <;>
    cases content <;> by_cases hp : fs.writable p = true <;> simp [hd, hb, hp, hne, Ne.symm hne]

/-- When the target is not written, it is as it was. -/
theorem backupThenWrite_target_kept (fs : FS) (p data : String) (content : Except String String)
    (hw : p ∉ (backupThenWrite fs p data content).writes) :
    (backupThenWrite fs p data content).fs.file p = fs.file p := by
  have hne := backup_ne p
  revert hw
  unfold backupThenWrite FS.writeFile
  by_cases hd : data.length > 0 <;> by_cases hb : fs.writable (p ++ ".backup") = true <;>
    cases content <;> by_cases hp : fs.writable p = true <;> simp [hd, hb, hp, hne, Ne.symm hne]

/-- A second run after a first one leaves the target as the first run left it,
provided the second run has the same new content as the first or none (when
the first run wrote the target), or the same inputs as the first (when it did
not). The second run may start from other directory entries. -/
theorem backupThenWrite_twice (fs : FS) (p d1 d2 : String) (c1 c2 : Except String String)
    (dir' : String → Bool)
    (hA : p ∈ (backupThenWrite fs p d1 c1).writes →
      ∀ x, c1 = Except.ok x → c2 = Except.ok x ∨ ∃ e, c2 = Except.error e)
    (hB : p ∉ (backupThenWrite fs p d1 c1).writes → d2 = d1 ∧ c2 = c1) :
    (backupThenWrite { (backupThenWrite fs p d1 c1).fs with dir := dir' } p d2 c2).fs.file p
      = (backupThenWrite fs p d1 c1).fs.file p := by
  have henv := backupThenWrite_env fs p d1 c1
  by_cases h2 : p ∈ (backupThenWrite { (backupThenWrite fs p d1 c1).fs with dir := dir' }
      p d2 c2).writes
  · obtain ⟨x2, hc2, hfile2⟩ := backupThenWrite_target _ p d2 c2 h2
    by_cases h1 : p ∈ (backupThenWrite fs p d1 c1).writes
    · obtain ⟨x1, hc1, hfile1⟩ := backupThenWrite_target fs p d1 c1 h1
      have hx : x2 = x1 := by
        rcases hA h1 x1 hc1 with h | ⟨e, h⟩
        · rw [hc2] at h
          exact Except.ok.inj h
        · rw [hc2] at h
          cases h
      rw [hfile2, hfile1, hx]
      simp [hfile1]
    · obtain ⟨hd, hc⟩ := hB h1
      exfalso
      apply h1
      rw [backupThenWrite_mem_writes_iff] at h2 ⊢
      simpa [henv.1, hd, hc] using h2
  · rw [backupThenWrite_target_kept _ p d2 c2 h2]

/-! ## Consequences of the common shape -/

theorem hasShape_of_sameAs (r : ApplyResult) (fs fs0 : FS) (p : String)
    (content : Except String String) (hfile : fs0.file = fs.file)
    (h : r.sameAs (backupThenWrite fs0 p (fs.readFile p).dataOrEmpty content)) :
    r.hasShape fs p :=
  Or.inr ⟨fs0, content, hfile, h.1, h.2.1, h.2.2.mp⟩

/-- Every write of an `Apply` of the common shape goes to the target or to its
backup sibling. -/
theorem hasShape_writes (r : ApplyResult) (fs : FS) (p : String) (h : r.hasShape fs p) :
    ∀ q ∈ r.writes, q = p ∨ q = p ++ ".backup" := by
  rcases h with ⟨_, hw, _⟩ | ⟨fs0, content, _, _, hw, _⟩
  · simp [hw]
  · rw [hw]
    exact backupThenWrite_writes _ _ _ _

/-- An `Apply` of the common shape leaves every file but the target and its
backup sibling as it was. -/
theorem hasShape_frame (r : ApplyResult) (fs : FS) (p : String) (h : r.hasShape fs p)
    (q : String) (hq : q ≠ p) (hqb : q ≠ p ++ ".backup") : r.fs.file q = fs.file q := by
  rcases h with ⟨hf, _, _⟩ | ⟨fs0, content, hf, hfs, _, _⟩
  · rw [hf]
  · rw [hfs, backupThenWrite_frame _ _ _ _ q hq hqb, hf]

/-- A path the common shape did not write holds what it held. -/
theorem backupThenWrite_unwritten (fs : FS) (p data : String) (content : Except String String)
    (q : String) (hq : q ∉ (backupThenWrite fs p data content).writes) :
    (backupThenWrite fs p data content).fs.file q = fs.file q := by
  revert hq
  unfold backupThenWrite FS.writeFile
  by_cases hd : data.length > 0 <;> by_cases hb : fs.writable (p ++ ".backup") = true <;>
    cases content <;> by_cases hp : fs.writable p = true <;> simp [hd, hb, hp] <;>
    intros <;> first | contradiction | simp_all

/-- An `Apply` of the common shape leaves a path it did not write as it was. -/
theorem hasShape_unwritten (r : ApplyResult) (fs : FS) (p : String) (h : r.hasShape fs p)
    (q : String) (hq : q ∉ r.writes) : r.fs.file q = fs.file q := by
  rcases h with ⟨hf, _, _⟩ | ⟨fs0, content, hf, hfs, hw, _⟩
  · rw [hf]
  · rw [hw] at hq
    rw [hfs, backupThenWrite_unwritten _ _ _ _ q hq, hf]

/-- An `Apply` of the common shape that returns `nil` has written the target. -/
theorem hasShape_ok (r : ApplyResult) (fs : FS) (p : String) (h : r.hasShape fs p)
    (herr : r.err = none) : p ∈ r.writes := by
  rcases h with ⟨_, _, hne⟩ | ⟨fs0, content, _, _, hw, he⟩
  · exact absurd herr hne
  · rw [hw]
    exact (backupThenWrite_err _ _ _ _).mp (he herr)

/-- An `Apply` of the common shape that writes over a readable, non-empty
target has written the backup first, and the backup holds the bytes the target
had. -/
theorem hasShape_backup (r : ApplyResult) (fs : FS) (p D : String) (h : r.hasShape fs p)
    (hread : fs.readFile p = ReadResult.ok D) (hD : D ≠ "") (hw : p ∈ r.writes) :
    r.writes = [p ++ ".backup", p] ∧ (r.fs.file (p ++ ".backup")).map File.data = some D := by
  rcases h with ⟨_, hw0, _⟩ | ⟨fs0, content, _, hfs, hws, _⟩
  · simp [hw0] at hw
  · rw [hread] at hfs hws
    simp only [ReadResult.dataOrEmpty] at hfs hws
    rw [hws] at hw
    rw [hfs, hws]
    exact backupThenWrite_backup fs0 p D content hD hw

/-! ## The six adapters have the common shape -/

theorem FS.readFile_congr (fs fs0 : FS) (p : String) (h : fs0.file = fs.file) :
    fs0.readFile p = fs.readFile p := by
  simp [FS.readFile, h]

theorem FS.mkdirAll_eq_some (fs fs0 : FS) (d : String) (h : fs.mkdirAll d = some fs0) :
    fs0 = { fs with dir := fun q => if q = d then true else fs.dir q } := by
  unfold FS.mkdirAll at h
  by_cases hm : fs.mkdirOk d = true
  · simp only [hm, if_true, Option.some.injEq] at h
    exact h.symm
  · simp [hm] at h

theorem vscodeApply_of_read_failed (libs : Libs) (p : String) (t : Theme) (fs : FS)
    (msg : String) (hr : fs.readFile p = ReadResult.failed msg) :
    VSCodeIntegration.Apply libs p t fs = ⟨some ("failed to read settings: " ++ msg), fs, []⟩ := by
  simp [VSCodeIntegration.Apply, hr]

theorem vscodeApply_of_notExist (libs : Libs) (p : String) (t : Theme) (fs : FS)
    (hr : fs.readFile p = ReadResult.notExist) :
    VSCodeIntegration.Apply libs p t fs = vscodeBackupMergeWrite libs p t fs "" (some []) := by
  simp [VSCodeIntegration.Apply, hr]

theorem vscodeApply_of_decode_error (libs : Libs) (p : String) (t : Theme) (fs : FS)
    (data e : String) (hr : fs.readFile p = ReadResult.ok data)
    (hd : libs.jsonUnmarshal (stripJSONComments data) = Except.error e) :
    VSCodeIntegration.Apply libs p t fs = ⟨some ("failed to parse settings: " ++ e), fs, []⟩ := by
  simp [VSCodeIntegration.Apply, hr, hd]

theorem vscodeApply_of_decoded (libs : Libs) (p : String) (t : Theme) (fs : FS)
    (data : String) (settings : Option Doc) (hr : fs.readFile p = ReadResult.ok data)
    (hd : libs.jsonUnmarshal (stripJSONComments data) = Except.ok settings) :
    VSCodeIntegration.Apply libs p t fs = vscodeBackupMergeWrite libs p t fs data settings := by
  simp [VSCodeIntegration.Apply, hr, hd]

theorem vscodeApply_hasShape (libs : Libs) (p : String) (t : Theme) (fs : FS) :
    (VSCodeIntegration.Apply libs p t fs).hasShape fs p := by
  cases hr : fs.readFile p with
  | failed msg =>
    rw [vscodeApply_of_read_failed libs p t fs msg hr]
    exact Or.inl ⟨rfl, rfl, by simp⟩
  | notExist =>
    rw [vscodeApply_of_notExist libs p t fs hr]
    refine hasShape_of_sameAs _ fs fs p
      (encodedContent libs.jsonMarshalIndent ((some []).map (vscodeMerge t))) rfl ?_
    rw [hr]
    exact vscodeBackupMergeWrite_sameAs libs p t fs "" (some [])
  | ok data =>
    cases hd : libs.jsonUnmarshal (stripJSONComments data) with
    | error e =>
      rw [vscodeApply_of_decode_error libs p t fs data e hr hd]
      exact Or.inl ⟨rfl, rfl, by simp⟩
    | ok settings =>
      rw [vscodeApply_of_decoded libs p t fs data settings hr hd]
      refine hasShape_of_sameAs _ fs fs p
        (encodedContent libs.jsonMarshalIndent (settings.map (vscodeMerge t))) rfl ?_
      rw [hr]
      exact vscodeBackupMergeWrite_sameAs libs p t fs data settings

theorem zedBackupMergeWrite_sameAs (libs : Libs) (p : String) (themeExt : ZedExtension) (fs : FS)
    (data : String) (settings : Option Doc) :
    (zedBackupMergeWrite libs p themeExt fs data settings).sameAs
      (backupThenWrite fs p data
        (encodedContent libs.jsonMarshalIndent (settings.map (zedMerge themeExt)))) := by
  unfold zedBackupMergeWrite backupThenWrite encodedContent encodeAndWrite ApplyResult.sameAs
  by_cases hd : data.length > 0
  · cases hb : fs.writeFile (p ++ ".backup") data with
    | none => simp [hd, hb]
    | some fs1 =>
      cases settings with
      | none => simp [hd, hb]
      | some s =>
        cases he : libs.jsonMarshalIndent (zedMerge themeExt s) with
        | error e => simp [hd, hb, he]
        | ok c => cases hw : fs1.writeFile p c <;> simp [hd, hb, he, hw]
  · cases settings with
    | none => simp [hd]
    | some s =>
      cases he : libs.jsonMarshalIndent (zedMerge themeExt s) with
      | error e => simp [hd, he]
      | ok c => cases hw : fs.writeFile p c <;> simp [hd, he, hw]

theorem zedApply_of_no_extension (z : ZedIntegration) (libs : Libs) (t : Theme)
    (fs : FS) (hx : zedThemeExtensions t.Name = none) :
    z.Apply libs t fs = ⟨some ("no Zed extension available for theme: " ++ t.Name), fs, []⟩ := by
  simp [ZedIntegration.Apply, hx]

theorem zedApply_of_not_installed (z : ZedIntegration) (libs : Libs) (t : Theme)
    (fs : FS) (themeExt : ZedExtension) (hx : zedThemeExtensions t.Name = some themeExt)
    (hi : z.IsExtensionInstalled libs fs themeExt.ExtensionID = false) :
    z.Apply libs t fs = ⟨some "extension not installed", fs, []⟩ := by
  simp [ZedIntegration.Apply, hx, hi]

theorem zedApply_of_read_failed (z : ZedIntegration) (libs : Libs) (t : Theme)
    (fs : FS) (themeExt : ZedExtension) (msg : String)
    (hx : zedThemeExtensions t.Name = some themeExt)
    (hi : z.IsExtensionInstalled libs fs themeExt.ExtensionID = true)
    (hr : fs.readFile z.configPath = ReadResult.failed msg) :
    z.Apply libs t fs = ⟨some ("failed to read settings: " ++ msg), fs, []⟩ := by
  simp [ZedIntegration.Apply, hx, hi, hr]

theorem zedApply_of_notExist (z : ZedIntegration) (libs : Libs) (t : Theme)
    (fs : FS) (themeExt : ZedExtension) (hx : zedThemeExtensions t.Name = some themeExt)
    (hi : z.IsExtensionInstalled libs fs themeExt.ExtensionID = true)
    (hr : fs.readFile z.configPath = ReadResult.notExist) :
    z.Apply libs t fs = zedBackupMergeWrite libs z.configPath themeExt fs "" (some []) := by
  simp [ZedIntegration.Apply, hx, hi, hr]

theorem zedApply_of_decode_error (z : ZedIntegration) (libs : Libs) (t : Theme)
    (fs : FS) (themeExt : ZedExtension) (data e : String)
    (hx : zedThemeExtensions t.Name = some themeExt)
    (hi : z.IsExtensionInstalled libs fs themeExt.ExtensionID = true)
    (hr : fs.readFile z.configPath = ReadResult.ok data)
    (hd : libs.jsonUnmarshal (zedStripJSONComments data) = Except.error e) :
    z.Apply libs t fs = ⟨some ("failed to parse settings: " ++ e), fs, []⟩ := by
  simp [ZedIntegration.Apply, hx, hi, hr, hd]

theorem zedApply_of_decoded (z : ZedIntegration) (libs : Libs) (t : Theme)
    (fs : FS) (themeExt : ZedExtension) (data : String) (settings : Option Doc)
    (hx : zedThemeExtensions t.Name = some themeExt)
    (hi : z.IsExtensionInstalled libs fs themeExt.ExtensionID = true)
    (hr : fs.readFile z.configPath = ReadResult.ok data)
    (hd : libs.jsonUnmarshal (zedStripJSONComments data) = Except.ok settings) :
    z.Apply libs t fs = zedBackupMergeWrite libs z.configPath themeExt fs data settings := by
  simp [ZedIntegration.Apply, hx, hi, hr, hd]

theorem zedApply_hasShape (z : ZedIntegration) (libs : Libs) (t : Theme) (fs : FS) :
    (z.Apply libs t fs).hasShape fs z.configPath := by
  cases hx : zedThemeExtensions t.Name with
  | none =>
    rw [zedApply_of_no_extension z libs t fs hx]
    exact Or.inl ⟨rfl, rfl, by simp⟩
  | some themeExt =>
    cases hi : z.IsExtensionInstalled libs fs themeExt.ExtensionID with
    | false =>
      rw [zedApply_of_not_installed z libs t fs themeExt hx hi]
      exact Or.inl ⟨rfl, rfl, by simp⟩
    | true =>
      cases hr : fs.readFile z.configPath with
      | failed msg =>
        rw [zedApply_of_read_failed z libs t fs themeExt msg hx hi hr]
        exact Or.inl ⟨rfl, rfl, by simp⟩
      | notExist =>
        rw [zedApply_of_notExist z libs t fs themeExt hx hi hr]
        refine hasShape_of_sameAs _ fs fs _
          (encodedContent libs.jsonMarshalIndent ((some []).map (zedMerge themeExt))) rfl ?_
        rw [hr]
        exact zedBackupMergeWrite_sameAs libs z.configPath themeExt fs "" (some [])
      | ok data =>
        cases hd : libs.jsonUnmarshal (zedStripJSONComments data) with
        | error e =>
          rw [zedApply_of_decode_error z libs t fs themeExt data e hx hi hr hd]
          exact Or.inl ⟨rfl, rfl, by simp⟩
        | ok settings =>
          rw [zedApply_of_decoded z libs t fs themeExt data settings hx hi hr hd]
          refine hasShape_of_sameAs _ fs fs _
            (encodedContent libs.jsonMarshalIndent (settings.map (zedMerge themeExt))) rfl ?_
          rw [hr]
          exact zedBackupMergeWrite_sameAs libs z.configPath themeExt fs data settings

theorem backupIfReadable_shape (fs0 : FS) (p : String) (content : Except String String)
    (msg1 msg2 : String) (mkErr : String → String) (post : Option String) :
    (match backupIfReadable fs0 p with
      | none => (⟨some msg1, fs0, []⟩ : ApplyResult)
      | some (fs1, writes) =>
        match content with
        | Except.error e => ⟨some (mkErr e), fs1, writes⟩
        | Except.ok c =>
          match fs1.writeFile p c with
          | none => ⟨some msg2, fs1, writes⟩
          | some fs2 => ⟨post, fs2, writes ++ [p]⟩).fs
        = (backupThenWrite fs0 p (fs0.readFile p).dataOrEmpty content).fs
    ∧ (match backupIfReadable fs0 p with
      | none => (⟨some msg1, fs0, []⟩ : ApplyResult)
      | some (fs1, writes) =>
        match content with
        | Except.error e => ⟨some (mkErr e), fs1, writes⟩
        | Except.ok c =>
          match fs1.writeFile p c with
          | none => ⟨some msg2, fs1, writes⟩
          | some fs2 => ⟨post, fs2, writes ++ [p]⟩).writes
        = (backupThenWrite fs0 p (fs0.readFile p).dataOrEmpty content).writes
    ∧ ((match backupIfReadable fs0 p with
      | none => (⟨some msg1, fs0, []⟩ : ApplyResult)
      | some (fs1, writes) =>
        match content with
        | Except.error e => ⟨some (mkErr e), fs1, writes⟩
        | Except.ok c =>
          match fs1.writeFile p c with
          | none => ⟨some msg2, fs1, writes⟩
          | some fs2 => ⟨post, fs2, writes ++ [p]⟩).err = none
        → (backupThenWrite fs0 p (fs0.readFile p).dataOrEmpty content).err = none)
    ∧ (post = none → (backupThenWrite fs0 p (fs0.readFile p).dataOrEmpty content).err = none →
        (match backupIfReadable fs0 p with
        | none => (⟨some msg1, fs0, []⟩ : ApplyResult)
        | some (fs1, writes) =>
          match content with
          | Except.error e => ⟨some (mkErr e), fs1, writes⟩
          | Except.ok c =>
            match fs1.writeFile p c with
            | none => ⟨some msg2, fs1, writes⟩
            | some fs2 => ⟨post, fs2, writes ++ [p]⟩).err = none) := by
  have hd0 : ¬ ("" : String).length > 0 := by decide
  unfold backupIfReadable backupThenWrite
  cases hr : fs0.readFile p with
  | ok data =>
    simp only [ReadResult.dataOrEmpty]
    by_cases hd : data.length > 0
    · cases hb : fs0.writeFile (p ++ ".backup") data with
      | none => simp [hd, hb]
      | some fs1 =>
        cases content with
        | error e => simp [hd, hb]
        | ok c => cases hw : fs1.writeFile p c <;> simp [hd, hb, hw]
    · cases content with
      | error e => simp [hd]
      | ok c => cases hw : fs0.writeFile p c <;> simp [hd, hw]
  | notExist =>
    simp only [ReadResult.dataOrEmpty]
    cases content with
    | error e => simp [hd0]
    | ok c => cases hw : fs0.writeFile p c <;> simp [hd0, hw]
  | failed msg =>
    simp only [ReadResult.dataOrEmpty]
    cases content with
    | error e => simp [hd0]
    | ok c => cases hw : fs0.writeFile p c <;> simp [hd0, hw]

/-- `StarshipIntegration.Apply`, once the directory exists, is the common
shape with the configuration of the theme as content. -/
theorem starshipApply_sameAs (libs : Libs) (p : String) (t : Theme) (fs fs0 : FS)
    (hm : fs.mkdirAll (libs.filepathDir p) = some fs0) :
    (StarshipIntegration.Apply libs p t fs).sameAs
      (backupThenWrite fs0 p (fs0.readFile p).dataOrEmpty (starshipContent t.Name)) := by
  have h := backupIfReadable_shape fs0 p (starshipContent t.Name) "failed to create backup"
    "failed to write config" id none
  have heq : StarshipIntegration.Apply libs p t fs
      = (match backupIfReadable fs0 p with
        | none => (⟨some "failed to create backup", fs0, []⟩ : ApplyResult)
        | some (fs1, writes) =>
          match starshipContent t.Name with
          | Except.error e => ⟨some (id e), fs1, writes⟩
          | Except.ok c =>
            match fs1.writeFile p c with
            | none => ⟨some "failed to write config", fs1, writes⟩
            | some fs2 => ⟨none, fs2, writes ++ [p]⟩) := by
    unfold StarshipIntegration.Apply starshipContent
    simp only [hm]
    cases hb : backupIfReadable fs0 p with
    | none => rfl
    | some bw =>
      obtain ⟨fs1, writes⟩ := bw
      cases hc : starshipConfigContent t.Name <;> rfl
  rw [heq]
  exact ⟨h.1, h.2.1, h.2.2.1, h.2.2.2 rfl⟩

theorem starshipApply_hasShape (libs : Libs) (p : String) (t : Theme) (fs : FS) :
    (StarshipIntegration.Apply libs p t fs).hasShape fs p := by
  cases hm : fs.mkdirAll (libs.filepathDir p) with
  | none =>
    unfold StarshipIntegration.Apply
    simp only [hm]
    exact Or.inl ⟨rfl, rfl, by simp⟩
  | some fs0 =>
    have hfile : fs0.file = fs.file := by rw [FS.mkdirAll_eq_some fs fs0 _ hm]
    have h := starshipApply_sameAs libs p t fs fs0 hm
    rw [FS.readFile_congr fs fs0 p hfile] at h
    exact hasShape_of_sameAs _ fs fs0 p _ hfile h

/-- `WarpIntegration.Apply`, once the directory exists, is the common shape
with the encoded theme as content. -/
theorem warpApply_sameAs (libs : Libs) (details : String → String)
    (themesPath : String) (t : Theme) (fs fs0 : FS) (hm : fs.mkdirAll themesPath = some fs0) :
    (WarpIntegration.Apply libs details themesPath t fs).sameAs
      (backupThenWrite fs0 (libs.filepathJoin [themesPath, SanitizeFileName t.Name ++ ".yaml"])
        (fs0.readFile (libs.filepathJoin [themesPath, SanitizeFileName t.Name ++ ".yaml"])).dataOrEmpty
        (libs.yamlMarshal (generateWarpTheme t (details t.Colors.Background)))) := by
  have h := backupIfReadable_shape fs0
    (libs.filepathJoin [themesPath, SanitizeFileName t.Name ++ ".yaml"])
    (libs.yamlMarshal (generateWarpTheme t (details t.Colors.Background)))
    "failed to create backup" "failed to write theme file"
    (fun e => "failed to marshal theme: " ++ e) none
  have heq : WarpIntegration.Apply libs details themesPath t fs
      = (match backupIfReadable fs0
            (libs.filepathJoin [themesPath, SanitizeFileName t.Name ++ ".yaml"]) with
        | none => (⟨some "failed to create backup", fs0, []⟩ : ApplyResult)
        | some (fs1, writes) =>
          match libs.yamlMarshal (generateWarpTheme t (details t.Colors.Background)) with
          | Except.error e => ⟨some ((fun e => "failed to marshal theme: " ++ e) e), fs1, writes⟩
          | Except.ok c =>
            match fs1.writeFile
                (libs.filepathJoin [themesPath, SanitizeFileName t.Name ++ ".yaml"]) c with
            | none => ⟨some "failed to write theme file", fs1, writes⟩
            | some fs2 => ⟨none, fs2,
                writes ++ [libs.filepathJoin [themesPath, SanitizeFileName t.Name ++ ".yaml"]]⟩) := by
    unfold WarpIntegration.Apply
    simp only [hm]
  rw [heq]
  exact ⟨h.1, h.2.1, h.2.2.1, h.2.2.2 rfl⟩

theorem warpApply_hasShape (libs : Libs) (details : String → String)
    (themesPath : String) (t : Theme) (fs : FS) :
    (WarpIntegration.Apply libs details themesPath t fs).hasShape fs
      (libs.filepathJoin [themesPath, SanitizeFileName t.Name ++ ".yaml"]) := by
  cases hm : fs.mkdirAll themesPath with
  | none =>
    unfold WarpIntegration.Apply
    simp only [hm]
    exact Or.inl ⟨rfl, rfl, by simp⟩
  | some fs0 =>
    have hfile : fs0.file = fs.file := by rw [FS.mkdirAll_eq_some fs fs0 _ hm]
    have h := warpApply_sameAs libs details themesPath t fs fs0 hm
    rw [FS.readFile_congr fs fs0 _ hfile] at h
    exact hasShape_of_sameAs _ fs fs0 _ _ hfile h

/-- `ITerm2Integration.Apply`, once the directory exists, writes what the
common shape writes with the preset as content; it may still return the error
of the import after the write. -/
theorem iterm2Apply_shape (libs : Libs) (tools : Tools) (preset : Theme → String)
    (themesPath : String) (t : Theme) (fs fs0 : FS) (hm : fs.mkdirAll themesPath = some fs0) :
    (ITerm2Integration.Apply libs tools preset themesPath t fs).fs
        = (backupThenWrite fs0
            (libs.filepathJoin [themesPath, SanitizeFileName t.Name ++ ".itermcolors"])
            (fs0.readFile (libs.filepathJoin
              [themesPath, SanitizeFileName t.Name ++ ".itermcolors"])).dataOrEmpty
            (Except.ok (preset t))).fs
    ∧ (ITerm2Integration.Apply libs tools preset themesPath t fs).writes
        = (backupThenWrite fs0
            (libs.filepathJoin [themesPath, SanitizeFileName t.Name ++ ".itermcolors"])
            (fs0.readFile (libs.filepathJoin
              [themesPath, SanitizeFileName t.Name ++ ".itermcolors"])).dataOrEmpty
            (Except.ok (preset t))).writes
    ∧ ((ITerm2Integration.Apply libs tools preset themesPath t fs).err = none
        → (backupThenWrite fs0
            (libs.filepathJoin [themesPath, SanitizeFileName t.Name ++ ".itermcolors"])
            (fs0.readFile (libs.filepathJoin
              [themesPath, SanitizeFileName t.Name ++ ".itermcolors"])).dataOrEmpty
            (Except.ok (preset t))).err = none) := by
  have h := backupIfReadable_shape fs0
    (libs.filepathJoin [themesPath, SanitizeFileName t.Name ++ ".itermcolors"])
    (Except.ok (preset t)) "failed to create backup" "failed to write preset file" id
    ((tools.plistImport
      (libs.filepathJoin [themesPath, SanitizeFileName t.Name ++ ".itermcolors"])).map
      (fun e => "theme saved to "
        ++ libs.filepathJoin [themesPath, SanitizeFileName t.Name ++ ".itermcolors"]
        ++ ", but auto-import failed: " ++ e))
  have heq : ITerm2Integration.Apply libs tools preset themesPath t fs
      = (match backupIfReadable fs0
            (libs.filepathJoin [themesPath, SanitizeFileName t.Name ++ ".itermcolors"]) with
        | none => (⟨some "failed to create backup", fs0, []⟩ : ApplyResult)
        | some (fs1, writes) =>
          match (Except.ok (preset t) : Except String String) with
          | Except.error e => ⟨some (id e), fs1, writes⟩
          | Except.ok c =>
            match fs1.writeFile
                (libs.filepathJoin [themesPath, SanitizeFileName t.Name ++ ".itermcolors"]) c with
            | none => ⟨some "failed to write preset file", fs1, writes⟩
            | some fs2 => ⟨(tools.plistImport
                (libs.filepathJoin [themesPath, SanitizeFileName t.Name ++ ".itermcolors"])).map
                (fun e => "theme saved to "
                  ++ libs.filepathJoin [themesPath, SanitizeFileName t.Name ++ ".itermcolors"]
                  ++ ", but auto-import failed: " ++ e), fs2,
                writes ++ [libs.filepathJoin
                  [themesPath, SanitizeFileName t.Name ++ ".itermcolors"]]⟩) := by
    unfold ITerm2Integration.Apply
    simp only [hm]
    cases hb : backupIfReadable fs0
        (libs.filepathJoin [themesPath, SanitizeFileName t.Name ++ ".itermcolors"]) with
    | none => rfl
    | some bw =>
      obtain ⟨fs1, writes⟩ := bw
      simp only []
      cases hw : fs1.writeFile
          (libs.filepathJoin [themesPath, SanitizeFileName t.Name ++ ".itermcolors"]) (preset t) with
      | none => rfl
      | some fs2 =>
        simp only []
        cases tools.plistImport
          (libs.filepathJoin [themesPath, SanitizeFileName t.Name ++ ".itermcolors"]) <;> rfl
  rw [heq]
  exact ⟨h.1, h.2.1, h.2.2.1⟩

theorem iterm2Apply_hasShape (libs : Libs) (tools : Tools) (preset : Theme → String)
    (themesPath : String) (t : Theme) (fs : FS) :
    (ITerm2Integration.Apply libs tools preset themesPath t fs).hasShape fs
      (libs.filepathJoin [themesPath, SanitizeFileName t.Name ++ ".itermcolors"]) := by
  cases hm : fs.mkdirAll themesPath with
  | none =>
    unfold ITerm2Integration.Apply
    simp only [hm]
    exact Or.inl ⟨rfl, rfl, by simp⟩
  | some fs0 =>
    have hfile : fs0.file = fs.file := by rw [FS.mkdirAll_eq_some fs fs0 _ hm]
    have h := iterm2Apply_shape libs tools preset themesPath t fs fs0 hm
    rw [FS.readFile_congr fs fs0 _ hfile] at h
    exact Or.inr ⟨fs0, _, hfile, h.1, h.2.1, h.2.2⟩

theorem alacrittyBackupMergeWrite_sameAs (a : AlacrittyIntegration) (libs : Libs) (t : Theme)
    (fs : FS) (data : String) (config : Option Doc) :
    (alacrittyBackupMergeWrite a libs t fs data config).sameAs
      (backupThenWrite fs a.configPath data (alacrittyContent a libs t fs data config)) := by
  unfold alacrittyBackupMergeWrite backupThenWrite alacrittyContent encodedContent encodeAndWrite
    ApplyResult.sameAs alacrittyThemeOnDisk alacrittyEncode alacrittyOfficialThemePath
  generalize hasTomlSuffix (libs.toLower a.configPath) = isTOML
  by_cases hd : data.length > 0
  · cases hb : fs.writeFile (a.configPath ++ ".backup") data with
    | none => simp [hd, hb]
    | some fs1 =>
      cases config with
      | none => simp [hd, hb]
      | some s =>
        cases isTOML
        · simp only [hd, hb, if_true, if_false, Option.map_some', Option.getD_some,
            Bool.false_eq_true]
          split
          · simp
          · split <;> simp
        · simp only [hd, hb, if_true, Option.map_some', Option.getD_some]
          split
          · simp
          · split <;> simp
  · cases config with
    | none => simp [hd]
    | some s =>
      cases isTOML
      · simp only [hd, if_false, Option.map_some', Bool.false_eq_true]
        split
        · simp
        · split <;> simp
      · simp only [hd, if_true, if_false, Option.map_some']
        split
        · simp
        · split <;> simp

theorem AlacrittyIntegration.ensureThemeRepo_env (a : AlacrittyIntegration) (libs : Libs)
    (tools : Tools) (fs : FS) :
    (a.ensureThemeRepo libs tools fs).2.file = fs.file
      ∧ (a.ensureThemeRepo libs tools fs).2.writable = fs.writable
      ∧ (a.ensureThemeRepo libs tools fs).2.mkdirOk = fs.mkdirOk := by
  unfold AlacrittyIntegration.ensureThemeRepo AlacrittyIntegration.cloneThemeRepo FS.mkdirAll
  by_cases hs : fs.stat (libs.filepathJoin [a.themesPath, "alacritty"]) = true
  · simp [hs]
  · by_cases hm : fs.mkdirOk a.themesPath = true
    · cases hg : tools.gitClone (libs.filepathJoin [a.themesPath, "alacritty"]) <;>
        simp [hs, hm, hg]
    · simp [hs, hm]

theorem alacrittyApply_of_repo_error (a : AlacrittyIntegration) (libs : Libs)
    (tools : Tools) (t : Theme) (fs : FS) (e : String)
    (he : (a.ensureThemeRepo libs tools fs).1 = some e) :
    a.Apply libs tools t fs
      = ⟨some ("failed to setup theme repository: " ++ e), (a.ensureThemeRepo libs tools fs).2, []⟩ := by
  unfold AlacrittyIntegration.Apply
  cases h : a.ensureThemeRepo libs tools fs with
  | mk e' fsA =>
    rw [h] at he
    simp only at he
    subst he
    rfl

theorem alacrittyApply_of_read_failed (a : AlacrittyIntegration) (libs : Libs)
    (tools : Tools) (t : Theme) (fs : FS) (msg : String)
    (he : (a.ensureThemeRepo libs tools fs).1 = none)
    (hr : fs.readFile a.configPath = ReadResult.failed msg) :
    a.Apply libs tools t fs
      = ⟨some ("failed to read config: " ++ msg), (a.ensureThemeRepo libs tools fs).2, []⟩ := by
  have hr' := FS.readFile_congr fs _ a.configPath (a.ensureThemeRepo_env libs tools fs).1
  rw [hr] at hr'
  unfold AlacrittyIntegration.Apply
  cases h : a.ensureThemeRepo libs tools fs with
  | mk e' fsA =>
    rw [h] at he hr'
    simp only at he hr'
    subst he
    simp only [hr']

theorem alacrittyApply_of_notExist (a : AlacrittyIntegration) (libs : Libs)
    (tools : Tools) (t : Theme) (fs : FS)
    (he : (a.ensureThemeRepo libs tools fs).1 = none)
    (hr : fs.readFile a.configPath = ReadResult.notExist) :
    a.Apply libs tools t fs
      = alacrittyBackupMergeWrite a libs t (a.ensureThemeRepo libs tools fs).2 "" (some []) := by
  have hr' := FS.readFile_congr fs _ a.configPath (a.ensureThemeRepo_env libs tools fs).1
  rw [hr] at hr'
  unfold AlacrittyIntegration.Apply
  cases h : a.ensureThemeRepo libs tools fs with
  | mk e' fsA =>
    rw [h] at he hr'
    simp only at he hr'
    subst he
    simp only [hr']

theorem alacrittyApply_of_decode_error (a : AlacrittyIntegration) (libs : Libs)
    (tools : Tools) (t : Theme) (fs : FS) (data e : String)
    (he : (a.ensureThemeRepo libs tools fs).1 = none)
    (hr : fs.readFile a.configPath = ReadResult.ok data)
    (hd : alacrittyDecode a libs data = Except.error e) :
    (a.Apply libs tools t fs).err ≠ none
      ∧ (a.Apply libs tools t fs).fs = (a.ensureThemeRepo libs tools fs).2
      ∧ (a.Apply libs tools t fs).writes = [] := by
  have hr' := FS.readFile_congr fs _ a.configPath (a.ensureThemeRepo_env libs tools fs).1
  rw [hr] at hr'
  unfold alacrittyDecode at hd
  unfold AlacrittyIntegration.Apply
  cases h : a.ensureThemeRepo libs tools fs with
  | mk e' fsA =>
    rw [h] at he hr'
    simp only at he hr'
    subst he
    by_cases hT : hasTomlSuffix (libs.toLower a.configPath) = true
    · simp only [hT, if_true] at hd
      simp [hr', hT, hd]
    · simp only [hT, if_false, Bool.false_eq_true] at hd
      simp [hr', hT, hd]

theorem alacrittyApply_of_decoded (a : AlacrittyIntegration) (libs : Libs)
    (tools : Tools) (t : Theme) (fs : FS) (data : String) (config : Option Doc)
    (he : (a.ensureThemeRepo libs tools fs).1 = none)
    (hr : fs.readFile a.configPath = ReadResult.ok data)
    (hd : alacrittyDecode a libs data = Except.ok config) :
    a.Apply libs tools t fs
      = alacrittyBackupMergeWrite a libs t (a.ensureThemeRepo libs tools fs).2 data config := by
  have hr' := FS.readFile_congr fs _ a.configPath (a.ensureThemeRepo_env libs tools fs).1
  rw [hr] at hr'
  unfold alacrittyDecode at hd
  unfold AlacrittyIntegration.Apply
  cases h : a.ensureThemeRepo libs tools fs with
  | mk e' fsA =>
    rw [h] at he hr'
    simp only at he hr'
    subst he
    by_cases hT : hasTomlSuffix (libs.toLower a.configPath) = true
    · simp only [hT, if_true] at hd
      simp [hr', hT, hd]
    · simp only [hT, if_false, Bool.false_eq_true] at hd
      simp [hr', hT, hd]

theorem alacrittyApply_hasShape (a : AlacrittyIntegration) (libs : Libs)
    (tools : Tools) (t : Theme) (fs : FS) :
    (a.Apply libs tools t fs).hasShape fs a.configPath := by
  have henv := a.ensureThemeRepo_env libs tools fs
  cases he : (a.ensureThemeRepo libs tools fs).1 with
  | some e =>
    rw [alacrittyApply_of_repo_error a libs tools t fs e he]
    exact Or.inl ⟨henv.1, rfl, by simp⟩
  | none =>
    cases hr : fs.readFile a.configPath with
    | failed msg =>
      rw [alacrittyApply_of_read_failed a libs tools t fs msg he hr]
      exact Or.inl ⟨henv.1, rfl, by simp⟩
    | notExist =>
      rw [alacrittyApply_of_notExist a libs tools t fs he hr]
      refine hasShape_of_sameAs _ fs _ _
        (alacrittyContent a libs t (a.ensureThemeRepo libs tools fs).2 "" (some [])) henv.1 ?_
      rw [hr]
      exact alacrittyBackupMergeWrite_sameAs a libs t _ "" (some [])
    | ok data =>
      cases hd : alacrittyDecode a libs data with
      | error e =>
        obtain ⟨h1, h2, h3⟩ :=
          alacrittyApply_of_decode_error a libs tools t fs data e he hr hd
        exact Or.inl ⟨by rw [h2]; exact henv.1, h3, h1⟩
      | ok config =>
        rw [alacrittyApply_of_decoded a libs tools t fs data config he hr hd]
        refine hasShape_of_sameAs _ fs _ _
          (alacrittyContent a libs t (a.ensureThemeRepo libs tools fs).2 data config) henv.1 ?_
        rw [hr]
        exact alacrittyBackupMergeWrite_sameAs a libs t _ data config

/-! ## Decode failure -/

/-- Claim C5. When the existing config file cannot be decoded, the VS Code, Zed
and Alacritty `Apply` return an error, call `os.WriteFile` on no path (neither
the config file nor its backup sibling) and leave every file as it was. -/
theorem apply_decode_failure_writes_nothing :
    (∀ (libs : Libs) (p : String) (t : Theme) (fs : FS) (data e : String),
      fs.readFile p = ReadResult.ok data →
      libs.jsonUnmarshal (stripJSONComments data) = Except.error e →
      (VSCodeIntegration.Apply libs p t fs).err ≠ none
        ∧ (VSCodeIntegration.Apply libs p t fs).writes = []
        ∧ (VSCodeIntegration.Apply libs p t fs).fs.file = fs.file)
    ∧ (∀ (z : ZedIntegration) (libs : Libs) (t : Theme) (fs : FS) (data e : String),
      fs.readFile z.configPath = ReadResult.ok data →
      libs.jsonUnmarshal (zedStripJSONComments data) = Except.error e →
      (z.Apply libs t fs).err ≠ none
        ∧ (z.Apply libs t fs).writes = []
        ∧ (z.Apply libs t fs).fs.file = fs.file)
    ∧ (∀ (a : AlacrittyIntegration) (libs : Libs) (tools : Tools) (t : Theme) (fs : FS)
        (data e : String),
      fs.readFile a.configPath = ReadResult.ok data →
      alacrittyDecode a libs data = Except.error e →
      (a.Apply libs tools t fs).err ≠ none
        ∧ (a.Apply libs tools t fs).writes = []
        ∧ (a.Apply libs tools t fs).fs.file = fs.file) := by
  refine ⟨?_, ?_, ?_⟩
  · intro libs p t fs data e hr hd
    rw [vscodeApply_of_decode_error libs p t fs data e hr hd]
    simp
  · intro z libs t fs data e hr hd
    cases hx : zedThemeExtensions t.Name with
    | none =>
      rw [zedApply_of_no_extension z libs t fs hx]
      simp
    | some themeExt =>
      cases hi : z.IsExtensionInstalled libs fs themeExt.ExtensionID with
      | false =>
        rw [zedApply_of_not_installed z libs t fs themeExt hx hi]
        simp
      | true =>
        rw [zedApply_of_decode_error z libs t fs themeExt data e hx hi hr hd]
        simp
  · intro a libs tools t fs data e hr hd
    have henv := a.ensureThemeRepo_env libs tools fs
    cases he : (a.ensureThemeRepo libs tools fs).1 with
    | some e' =>
      rw [alacrittyApply_of_repo_error a libs tools t fs e' he]
      exact ⟨by simp, rfl, henv.1⟩
    | none =>
      obtain ⟨h1, h2, h3⟩ :=
        alacrittyApply_of_decode_error a libs tools t fs data e he hr hd
      exact ⟨h1, h3, by rw [h2]; exact henv.1⟩

/-- Witness for C5: a `settings.json` that is not JSON. -/
theorem apply_decode_failure_writes_nothing_witness :
    (exampleFS [("/home/u/settings.json", ⟨"not json", true⟩)]).readFile "/home/u/settings.json"
        = ReadResult.ok "not json"
    ∧ exampleLibs.jsonUnmarshal (stripJSONComments "not json") = Except.error "invalid character"
    ∧ (VSCodeIntegration.Apply exampleLibs "/home/u/settings.json" (GetBuiltInThemes.getD 0 default)
        (exampleFS [("/home/u/settings.json", ⟨"not json", true⟩)])).err ≠ none
    ∧ (VSCodeIntegration.Apply exampleLibs "/home/u/settings.json" (GetBuiltInThemes.getD 0 default)
        (exampleFS [("/home/u/settings.json", ⟨"not json", true⟩)])).writes = []
    ∧ (VSCodeIntegration.Apply exampleLibs "/home/u/settings.json" (GetBuiltInThemes.getD 0 default)
        (exampleFS [("/home/u/settings.json", ⟨"not json", true⟩)])).fs.file
        = (exampleFS [("/home/u/settings.json", ⟨"not json", true⟩)]).file :=
  ⟨by decide, by rfl,
    apply_decode_failure_writes_nothing.1 exampleLibs "/home/u/settings.json"
      (GetBuiltInThemes.getD 0 default) (exampleFS [("/home/u/settings.json", ⟨"not json", true⟩)])
      "not json" "invalid character" (by decide) (by rfl)⟩

/-! ## Backups -/

/-- For a readable, non-empty target, each of the six adapters that writes
over the target has written the backup sibling first, with the bytes the
target had. -/
theorem apply_backup_before_overwrite_of_readable :
    (∀ (libs : Libs) (p : String) (t : Theme) (fs : FS) (D : String),
      fs.readFile p = ReadResult.ok D → D ≠ "" →
      p ∈ (VSCodeIntegration.Apply libs p t fs).writes →
      (VSCodeIntegration.Apply libs p t fs).writes = [p ++ ".backup", p]
        ∧ ((VSCodeIntegration.Apply libs p t fs).fs.file (p ++ ".backup")).map File.data = some D)
    ∧ (∀ (z : ZedIntegration) (libs : Libs) (t : Theme) (fs : FS) (D : String),
      fs.readFile z.configPath = ReadResult.ok D → D ≠ "" →
      z.configPath ∈ (z.Apply libs t fs).writes →
      (z.Apply libs t fs).writes = [z.configPath ++ ".backup", z.configPath]
        ∧ ((z.Apply libs t fs).fs.file (z.configPath ++ ".backup")).map File.data = some D)
    ∧ (∀ (a : AlacrittyIntegration) (libs : Libs) (tools : Tools) (t : Theme) (fs : FS)
        (D : String),
      fs.readFile a.configPath = ReadResult.ok D → D ≠ "" →
      a.configPath ∈ (a.Apply libs tools t fs).writes →
      (a.Apply libs tools t fs).writes = [a.configPath ++ ".backup", a.configPath]
        ∧ ((a.Apply libs tools t fs).fs.file (a.configPath ++ ".backup")).map File.data = some D)
    ∧ (∀ (libs : Libs) (p : String) (t : Theme) (fs : FS) (D : String),
      fs.readFile p = ReadResult.ok D → D ≠ "" →
      p ∈ (StarshipIntegration.Apply libs p t fs).writes →
      (StarshipIntegration.Apply libs p t fs).writes = [p ++ ".backup", p]
        ∧ ((StarshipIntegration.Apply libs p t fs).fs.file (p ++ ".backup")).map File.data
            = some D)
    ∧ (∀ (libs : Libs) (details : String → String) (themesPath : String) (t : Theme) (fs : FS)
        (D : String),
      fs.readFile (libs.filepathJoin [themesPath, SanitizeFileName t.Name ++ ".yaml"])
          = ReadResult.ok D → D ≠ "" →
      libs.filepathJoin [themesPath, SanitizeFileName t.Name ++ ".yaml"]
          ∈ (WarpIntegration.Apply libs details themesPath t fs).writes →
      (WarpIntegration.Apply libs details themesPath t fs).writes
          = [libs.filepathJoin [themesPath, SanitizeFileName t.Name ++ ".yaml"] ++ ".backup",
              libs.filepathJoin [themesPath, SanitizeFileName t.Name ++ ".yaml"]]
        ∧ ((WarpIntegration.Apply libs details themesPath t fs).fs.file
              (libs.filepathJoin [themesPath, SanitizeFileName t.Name ++ ".yaml"] ++ ".backup")).map
            File.data = some D)
    ∧ (∀ (libs : Libs) (tools : Tools) (preset : Theme → String) (themesPath : String)
        (t : Theme) (fs : FS) (D : String),
      fs.readFile (libs.filepathJoin [themesPath, SanitizeFileName t.Name ++ ".itermcolors"])
          = ReadResult.ok D → D ≠ "" →
      libs.filepathJoin [themesPath, SanitizeFileName t.Name ++ ".itermcolors"]
          ∈ (ITerm2Integration.Apply libs tools preset themesPath t fs).writes →
      (ITerm2Integration.Apply libs tools preset themesPath t fs).writes
          = [libs.filepathJoin [themesPath, SanitizeFileName t.Name ++ ".itermcolors"] ++ ".backup",
              libs.filepathJoin [themesPath, SanitizeFileName t.Name ++ ".itermcolors"]]
        ∧ ((ITerm2Integration.Apply libs tools preset themesPath t fs).fs.file
              (libs.filepathJoin [themesPath, SanitizeFileName t.Name ++ ".itermcolors"]
                ++ ".backup")).map File.data = some D) :=
  ⟨fun libs p t fs D hr hD hw =>
      hasShape_backup _ fs p D (vscodeApply_hasShape libs p t fs) hr hD hw,
    fun z libs t fs D hr hD hw =>
      hasShape_backup _ fs _ D (zedApply_hasShape z libs t fs) hr hD hw,
    fun a libs tools t fs D hr hD hw =>
      hasShape_backup _ fs _ D (alacrittyApply_hasShape a libs tools t fs) hr hD hw,
    fun libs p t fs D hr hD hw =>
      hasShape_backup _ fs p D (starshipApply_hasShape libs p t fs) hr hD hw,
    fun libs details themesPath t fs D hr hD hw =>
      hasShape_backup _ fs _ D (warpApply_hasShape libs details themesPath t fs)
        hr hD hw,
    fun libs tools preset themesPath t fs D hr hD hw =>
      hasShape_backup _ fs _ D
        (iterm2Apply_hasShape libs tools preset themesPath t fs) hr hD hw⟩

/-- Claim C2, the failing input. A `starship.toml` with content that the
process may write but not read: `os.ReadFile` fails, the guard
`err == nil && len(data) > 0` skips the backup, and `Apply` of Nord returns
`nil` having written the target only. The content is gone and no backup
exists. -/
theorem starship_apply_unreadable_target_no_backup :
    (exampleFS [("/home/u/.config/starship.toml", ⟨"scan_timeout = 10\n", false⟩)]).file
        "/home/u/.config/starship.toml" = some ⟨"scan_timeout = 10\n", false⟩
    ∧ (StarshipIntegration.Apply exampleLibs "/home/u/.config/starship.toml"
        (GetBuiltInThemes.getD 0 default)
        (exampleFS [("/home/u/.config/starship.toml", ⟨"scan_timeout = 10\n", false⟩)])).err = none
    ∧ (StarshipIntegration.Apply exampleLibs "/home/u/.config/starship.toml"
        (GetBuiltInThemes.getD 0 default)
        (exampleFS [("/home/u/.config/starship.toml", ⟨"scan_timeout = 10\n", false⟩)])).writes
        = ["/home/u/.config/starship.toml"]
    ∧ ((StarshipIntegration.Apply exampleLibs "/home/u/.config/starship.toml"
        (GetBuiltInThemes.getD 0 default)
        (exampleFS [("/home/u/.config/starship.toml", ⟨"scan_timeout = 10\n", false⟩)])).fs.file
        "/home/u/.config/starship.toml").map File.data = some getNordConfig
    ∧ (StarshipIntegration.Apply exampleLibs "/home/u/.config/starship.toml"
        (GetBuiltInThemes.getD 0 default)
        (exampleFS [("/home/u/.config/starship.toml", ⟨"scan_timeout = 10\n", false⟩)])).fs.file
        "/home/u/.config/starship.toml.backup" = none := by
  refine ⟨by decide, by decide, by decide, by rfl, by decide⟩

/-- Counterexample to C4 as stated: two successful `Apply` calls of Nord on a
`starship.toml` that held `scan_timeout = 10`. After the first call the backup
holds the original bytes; after the second it holds the Nord configuration
written by the first, and the original bytes are on no file. -/
theorem starship_second_apply_overwrites_backup :
    (StarshipIntegration.Apply exampleLibs "/home/u/.config/starship.toml"
        (GetBuiltInThemes.getD 0 default)
        (exampleFS [("/home/u/.config/starship.toml", ⟨"scan_timeout = 10\n", true⟩)])).err = none
    ∧ ((StarshipIntegration.Apply exampleLibs "/home/u/.config/starship.toml"
        (GetBuiltInThemes.getD 0 default)
        (exampleFS [("/home/u/.config/starship.toml", ⟨"scan_timeout = 10\n", true⟩)])).fs.file
        "/home/u/.config/starship.toml.backup").map File.data = some "scan_timeout = 10\n"
    ∧ (StarshipIntegration.Apply exampleLibs "/home/u/.config/starship.toml"
        (GetBuiltInThemes.getD 0 default)
        (StarshipIntegration.Apply exampleLibs "/home/u/.config/starship.toml"
          (GetBuiltInThemes.getD 0 default)
          (exampleFS [("/home/u/.config/starship.toml", ⟨"scan_timeout = 10\n", true⟩)])).fs).err
        = none
    ∧ ((StarshipIntegration.Apply exampleLibs "/home/u/.config/starship.toml"
        (GetBuiltInThemes.getD 0 default)
        (StarshipIntegration.Apply exampleLibs "/home/u/.config/starship.toml"
          (GetBuiltInThemes.getD 0 default)
          (exampleFS [("/home/u/.config/starship.toml", ⟨"scan_timeout = 10\n", true⟩)])).fs).fs.file
        "/home/u/.config/starship.toml.backup").map File.data = some getNordConfig
    ∧ getNordConfig ≠ "scan_timeout = 10\n" := by
  refine ⟨by decide, by decide, by decide!, by decide!, by decide⟩

/-- Claim C4, amended. After a successful `Apply` of any of the six adapters
on a readable, non-empty target, the backup sibling holds exactly the bytes
the target had immediately before that call. This holds from every state of
the file system, so in a sequence of calls the backup holds the original
document after the first call and, after each later call, the document the
call before it wrote. -/
theorem apply_backup_holds_previous_content :
    (∀ (libs : Libs) (p : String) (t : Theme) (fs : FS) (D : String),
      fs.readFile p = ReadResult.ok D → D ≠ "" →
      (VSCodeIntegration.Apply libs p t fs).err = none →
      ((VSCodeIntegration.Apply libs p t fs).fs.file (p ++ ".backup")).map File.data = some D)
    ∧ (∀ (z : ZedIntegration) (libs : Libs) (t : Theme) (fs : FS) (D : String),
      fs.readFile z.configPath = ReadResult.ok D → D ≠ "" →
      (z.Apply libs t fs).err = none →
      ((z.Apply libs t fs).fs.file (z.configPath ++ ".backup")).map File.data = some D)
    ∧ (∀ (a : AlacrittyIntegration) (libs : Libs) (tools : Tools) (t : Theme) (fs : FS)
        (D : String),
      fs.readFile a.configPath = ReadResult.ok D → D ≠ "" →
      (a.Apply libs tools t fs).err = none →
      ((a.Apply libs tools t fs).fs.file (a.configPath ++ ".backup")).map File.data = some D)
    ∧ (∀ (libs : Libs) (p : String) (t : Theme) (fs : FS) (D : String),
      fs.readFile p = ReadResult.ok D → D ≠ "" →
      (StarshipIntegration.Apply libs p t fs).err = none →
      ((StarshipIntegration.Apply libs p t fs).fs.file (p ++ ".backup")).map File.data = some D)
    ∧ (∀ (libs : Libs) (details : String → String) (themesPath : String) (t : Theme) (fs : FS)
        (D : String),
      fs.readFile (libs.filepathJoin [themesPath, SanitizeFileName t.Name ++ ".yaml"])
          = ReadResult.ok D → D ≠ "" →
      (WarpIntegration.Apply libs details themesPath t fs).err = none →
      ((WarpIntegration.Apply libs details themesPath t fs).fs.file
          (libs.filepathJoin [themesPath, SanitizeFileName t.Name ++ ".yaml"] ++ ".backup")).map
        File.data = some D)
    ∧ (∀ (libs : Libs) (tools : Tools) (preset : Theme → String) (themesPath : String)
        (t : Theme) (fs : FS) (D : String),
      fs.readFile (libs.filepathJoin [themesPath, SanitizeFileName t.Name ++ ".itermcolors"])
          = ReadResult.ok D → D ≠ "" →
      (ITerm2Integration.Apply libs tools preset themesPath t fs).err = none →
      ((ITerm2Integration.Apply libs tools preset themesPath t fs).fs.file
          (libs.filepathJoin [themesPath, SanitizeFileName t.Name ++ ".itermcolors"]
            ++ ".backup")).map File.data = some D) :=
  ⟨fun libs p t fs D hr hD he =>
      (hasShape_backup _ fs p D (vscodeApply_hasShape libs p t fs) hr hD
        (hasShape_ok _ fs p (vscodeApply_hasShape libs p t fs) he)).2,
    fun z libs t fs D hr hD he =>
      (hasShape_backup _ fs _ D (zedApply_hasShape z libs t fs) hr hD
        (hasShape_ok _ fs _ (zedApply_hasShape z libs t fs) he)).2,
    fun a libs tools t fs D hr hD he =>
      (hasShape_backup _ fs _ D (alacrittyApply_hasShape a libs tools t fs) hr hD
        (hasShape_ok _ fs _ (alacrittyApply_hasShape a libs tools t fs) he)).2,
    fun libs p t fs D hr hD he =>
      (hasShape_backup _ fs p D (starshipApply_hasShape libs p t fs) hr hD
        (hasShape_ok _ fs p (starshipApply_hasShape libs p t fs) he)).2,
    fun libs details themesPath t fs D hr hD he =>
      (hasShape_backup _ fs _ D (warpApply_hasShape libs details themesPath t fs)
        hr hD
        (hasShape_ok _ fs _ (warpApply_hasShape libs details themesPath t fs) he)).2,
    fun libs tools preset themesPath t fs D hr hD he =>
      (hasShape_backup _ fs _ D
        (iterm2Apply_hasShape libs tools preset themesPath t fs) hr hD
        (hasShape_ok _ fs _
          (iterm2Apply_hasShape libs tools preset themesPath t fs) he)).2⟩

/-- Witness for the amended C4: the second call of the counterexample, whose
backup is the Nord configuration that the target held before it. -/
theorem apply_backup_holds_previous_content_witness :
    ((StarshipIntegration.Apply exampleLibs "/home/u/.config/starship.toml"
        (GetBuiltInThemes.getD 0 default)
        (exampleFS [("/home/u/.config/starship.toml", ⟨"scan_timeout = 10\n", true⟩)])).fs.readFile
        "/home/u/.config/starship.toml" = ReadResult.ok getNordConfig
      ∧ getNordConfig ≠ ""
      ∧ (StarshipIntegration.Apply exampleLibs "/home/u/.config/starship.toml"
          (GetBuiltInThemes.getD 0 default)
          (StarshipIntegration.Apply exampleLibs "/home/u/.config/starship.toml"
            (GetBuiltInThemes.getD 0 default)
            (exampleFS [("/home/u/.config/starship.toml", ⟨"scan_timeout = 10\n", true⟩)])).fs).err
          = none)
    ∧ ((StarshipIntegration.Apply exampleLibs "/home/u/.config/starship.toml"
        (GetBuiltInThemes.getD 0 default)
        (StarshipIntegration.Apply exampleLibs "/home/u/.config/starship.toml"
          (GetBuiltInThemes.getD 0 default)
          (exampleFS [("/home/u/.config/starship.toml", ⟨"scan_timeout = 10\n", true⟩)])).fs).fs.file
        ("/home/u/.config/starship.toml" ++ ".backup")).map File.data = some getNordConfig :=
  ⟨⟨by decide!, by decide, by decide!⟩,
    apply_backup_holds_previous_content.2.2.2.1 exampleLibs "/home/u/.config/starship.toml"
      (GetBuiltInThemes.getD 0 default) _ getNordConfig (by decide!) (by decide) (by decide!)⟩

/-! ## The same map -/

theorem Doc.same_iff (d d' : Doc) :
    Doc.Same d d' ↔ (∀ k : String, Doc.get d k = none ↔ Doc.get d' k = none)
      ∧ ∀ (k : String) (v v' : Value), Doc.get d k = some v → Doc.get d' k = some v' →
        Value.Same v v' := by
  constructor
  · intro h
    unfold Doc.Same at h
    cases h with
    | refl =>
      refine ⟨fun _ => Iff.rfl, ?_⟩
      intro k v v' h1 h2
      rw [h1] at h2
      cases h2
      exact Value.Same.refl _
    | obj _ _ hk h => exact ⟨hk, h⟩
  · rintro ⟨hk, h⟩
    exact Value.Same.obj d d' hk h

theorem Doc.same_refl (d : Doc) : Doc.Same d d := Value.Same.refl _

/-- Two documents with the same lookups are the same map. -/
theorem Doc.same_of_get_eq (d d' : Doc) (h : ∀ k : String, Doc.get d k = Doc.get d' k) :
    Doc.Same d d' := by
  rw [Doc.same_iff]
  refine ⟨fun k => by rw [h k], ?_⟩
  intro k v v' h1 h2
  rw [h k, h2] at h1
  cases h1
  exact Value.Same.refl _

/-- Lookups in the same map: both absent, or both present with the same
value. -/
theorem Doc.same_get (d d' : Doc) (h : Doc.Same d d') (k : String) :
    (Doc.get d k = none ∧ Doc.get d' k = none)
      ∨ ∃ v v', Doc.get d k = some v ∧ Doc.get d' k = some v' ∧ Value.Same v v' := by
  obtain ⟨hk, hv⟩ := (Doc.same_iff d d').mp h
  cases h1 : Doc.get d k with
  | none => exact Or.inl ⟨rfl, (hk k).mp h1⟩
  | some v =>
    cases h2 : Doc.get d' k with
    | none =>
      rw [(hk k).mpr h2] at h1
      cases h1
    | some v' => exact Or.inr ⟨v, v', rfl, rfl, hv k v v' h1 h2⟩

theorem Doc.same_of_same_get (d d' : Doc)
    (h : ∀ k : String, (Doc.get d k = none ∧ Doc.get d' k = none)
      ∨ ∃ v v', Doc.get d k = some v ∧ Doc.get d' k = some v' ∧ Value.Same v v') :
    Doc.Same d d' := by
  rw [Doc.same_iff]
  constructor
  · intro k
    rcases h k with ⟨h1, h2⟩ | ⟨v, v', h1, h2, _⟩
    · simp [h1, h2]
    · simp [h1, h2]
  · intro k v v' h1 h2
    rcases h k with ⟨h1', _⟩ | ⟨w, w', h1', h2', hs⟩
    · rw [h1'] at h1
      cases h1
    · rw [h1'] at h1
      rw [h2'] at h2
      cases h1
      cases h2
      exact hs

theorem Doc.get_set (d : Doc) (k k0 : String) (v : Value) :
    Doc.get (Doc.set d k v) k0 = if k0 = k then some v else Doc.get d k0 := by
  by_cases h : k0 = k
  · subst h
    simp [Doc.get_set_self]
  · simp [h, Doc.get_set_of_ne _ _ _ _ h]

theorem Doc.get_delete (d : Doc) (k k0 : String) :
    Doc.get (Doc.delete d k) k0 = if k0 = k then none else Doc.get d k0 := by
  by_cases h : k0 = k
  · subst h
    simp [Doc.get_delete_self]
  · simp [h, Doc.get_delete_of_ne _ _ _ h]

theorem Doc.same_set (d d' : Doc) (k : String) (v v' : Value) (h : Doc.Same d d')
    (hv : Value.Same v v') : Doc.Same (Doc.set d k v) (Doc.set d' k v') := by
  apply Doc.same_of_same_get
  intro k0
  rw [Doc.get_set, Doc.get_set]
  by_cases hk : k0 = k
  · simp only [hk, if_true]
    exact Or.inr ⟨v, v', rfl, rfl, hv⟩
  · simp only [hk, if_false]
    exact Doc.same_get d d' h k0

theorem Doc.same_delete (d d' : Doc) (k : String) (h : Doc.Same d d') :
    Doc.Same (Doc.delete d k) (Doc.delete d' k) := by
  apply Doc.same_of_same_get
  intro k0
  rw [Doc.get_delete, Doc.get_delete]
  by_cases hk : k0 = k
  · simp [hk]
  · simp only [hk, if_false]
    exact Doc.same_get d d' h k0

theorem Doc.same_assignAll (dst dst' src src' : Doc) (hd : Doc.Same dst dst')
    (hs : Doc.Same src src') :
    Doc.Same (Doc.assignAll dst src) (Doc.assignAll dst' src') := by
  apply Doc.same_of_same_get
  intro k
  rw [Doc.get_assignAll, Doc.get_assignAll]
  rcases Doc.same_get src src' hs k with ⟨h1, h2⟩ | ⟨v, v', h1, h2, hv⟩
  · rw [h1, h2]
    exact Doc.same_get dst dst' hd k
  · rw [h1, h2]
    exact Or.inr ⟨v, v', rfl, rfl, hv⟩

/-- The type assertion on an entry of the same map: it fails in both, or gives
the same table. -/
theorem Doc.same_asObj (d d' : Doc) (h : Doc.Same d d') (k : String) :
    ((Doc.get d k).bind Value.asObj? = none ∧ (Doc.get d' k).bind Value.asObj? = none)
      ∨ ∃ g g', (Doc.get d k).bind Value.asObj? = some g
          ∧ (Doc.get d' k).bind Value.asObj? = some g' ∧ Doc.Same g g' := by
  rcases Doc.same_get d d' h k with ⟨h1, h2⟩ | ⟨v, v', h1, h2, hv⟩
  · rw [h1, h2]
    exact Or.inl ⟨rfl, rfl⟩
  · rw [h1, h2]
    cases hv with
    | refl =>
      cases hv' : v.asObj? with
      | none => exact Or.inl ⟨by simp [hv'], by simp [hv']⟩
      | some g => exact Or.inr ⟨g, g, by simp [hv'], by simp [hv'], Doc.same_refl g⟩
    | arr l l' _ _ => exact Or.inl ⟨rfl, rfl⟩
    | obj g g' hk hh => exact Or.inr ⟨g, g', rfl, rfl, Value.Same.obj g g' hk hh⟩

theorem Doc.eq_nil_of_get_none (d : Doc) (h : ∀ k : String, Doc.get d k = none) : d = [] := by
  cases d with
  | nil => rfl
  | cons e rest =>
    have := h e.1
    simp [Doc.get] at this

theorem Doc.same_length_zero (g g' : Doc) (h : Doc.Same g g') :
    g.length = 0 ↔ g'.length = 0 := by
  obtain ⟨hk, _⟩ := (Doc.same_iff g g').mp h
  constructor
  · intro h0
    have hg : g = [] := List.length_eq_zero.mp h0
    subst hg
    have : g' = [] := Doc.eq_nil_of_get_none g' (fun k => (hk k).mp rfl)
    simp [this]
  · intro h0
    have hg : g' = [] := List.length_eq_zero.mp h0
    subst hg
    have : g = [] := Doc.eq_nil_of_get_none g (fun k => (hk k).mpr rfl)
    simp [this]

/-! ## The merge steps as functions of the map -/

theorem Doc.set_set (d : Doc) (k : String) (v : Value) :
    Doc.set (Doc.set d k v) k v = Doc.set d k v := by
  induction d with
  | nil => simp [Doc.set]
  | cons e rest ih =>
    obtain ⟨k', v'⟩ := e
    by_cases h : k' = k
    · simp [Doc.set, h]
    · simp [Doc.set, h, ih]

theorem Doc.delete_delete (d : Doc) (k : String) :
    Doc.delete (Doc.delete d k) k = Doc.delete d k := by
  simp [Doc.delete, List.filter_filter]

theorem vscodeMerge_same (t : Theme) (a b : Doc) (h : Doc.Same a b) :
    Doc.Same (vscodeMerge t a) (vscodeMerge t b) := by
  unfold vscodeMerge
  cases vscodeThemeExtensions t.Name with
  | some themeExt =>
    simp only []
    have h3 := Doc.same_set _ _ "workbench.productIconTheme" _ _
      (Doc.same_set _ _ "workbench.iconTheme" _ _
        (Doc.same_set _ _ "workbench.colorTheme" _ _ h
          (Value.Same.refl (Value.str themeExt.ThemeName)))
        (Value.Same.refl (Value.str themeExt.IconTheme)))
      (Value.Same.refl (Value.str themeExt.ProductIconTheme))
    rcases Doc.same_asObj _ _ h3 keyColorCustomizations with ⟨h1, h2⟩ | ⟨g, g', h1, h2, hg⟩
    · rw [h1, h2]
      exact h3
    · rw [h1, h2]
      simp only []
      by_cases hl : g.length = 0
      · rw [if_pos hl, if_pos ((Doc.same_length_zero g g' hg).mp hl)]
        exact Doc.same_delete _ _ _ h3
      · rw [if_neg hl, if_neg (fun hl' => hl ((Doc.same_length_zero g g' hg).mpr hl'))]
        exact h3
  | none =>
    simp only []
    apply Doc.same_set _ _ _ _ _ h
    rcases Doc.same_asObj _ _ h keyColorCustomizations with ⟨h1, h2⟩ | ⟨g, g', h1, h2, hg⟩
    · rw [h1, h2]
      exact Value.Same.refl _
    · rw [h1, h2]
      exact Doc.same_assignAll _ _ _ _ (Doc.same_refl _) hg

theorem vscodeMerge_extension_get_other (t : Theme) (themeExt : VSCodeThemeExtension) (D : Doc)
    (h : vscodeThemeExtensions t.Name = some themeExt) (k : String)
    (hk : k ≠ keyColorCustomizations) :
    (vscodeMerge t D).get k
      = if k = "workbench.productIconTheme" then some (Value.str themeExt.ProductIconTheme)
        else if k = "workbench.iconTheme" then some (Value.str themeExt.IconTheme)
        else if k = "workbench.colorTheme" then some (Value.str themeExt.ThemeName)
        else D.get k := by
  unfold vscodeMerge
  simp only [h]
  split
  · split
    · rw [Doc.get_delete_of_ne _ _ _ hk, Doc.get_set, Doc.get_set, Doc.get_set]
    · rw [Doc.get_set, Doc.get_set, Doc.get_set]
  · rw [Doc.get_set, Doc.get_set, Doc.get_set]

theorem orElse_orElse_self (x y : Option Value) :
    (x.orElse (fun _ => y)).orElse (fun _ => y) = x.orElse (fun _ => y) := by
  cases x <;> cases y <;> rfl

/-- Merging twice gives the same map as merging once. -/
theorem vscodeMerge_idem (t : Theme) (D : Doc) :
    Doc.Same (vscodeMerge t (vscodeMerge t D)) (vscodeMerge t D) := by
  cases hx : vscodeThemeExtensions t.Name with
  | some themeExt =>
    apply Doc.same_of_get_eq
    intro k
    by_cases hk : k = keyColorCustomizations
    · subst hk
      rw [vscodeMerge_extension_get t themeExt _ hx]
      generalize hM : (vscodeMerge t D).get keyColorCustomizations = M
      rw [vscodeMerge_extension_get t themeExt _ hx] at hM
      cases hg : (D.get keyColorCustomizations).bind Value.asObj? with
      | none =>
        rw [hg] at hM
        simp only [] at hM
        rw [← hM, hg]
      | some g =>
        rw [hg] at hM
        simp only [] at hM
        by_cases hl : g.length = 0
        · rw [if_pos hl] at hM
          rw [← hM]
          rfl
        · rw [if_neg hl] at hM
          rw [← hM, hg]
          simp [hl]
    · rw [vscodeMerge_extension_get_other t themeExt _ hx k hk,
        vscodeMerge_extension_get_other t themeExt _ hx k hk]
      split
      · rfl
      · split
        · rfl
        · split
          · rfl
          · rfl
  | none =>
    apply Doc.same_of_same_get
    intro k
    by_cases hk : k = keyColorCustomizations
    · subst hk
      rw [vscodeMerge_fallback_get t _ hx, vscodeMerge_fallback_get t D hx]
      refine Or.inr ⟨_, _, rfl, rfl, ?_⟩
      simp only [Option.bind, Value.asObj?]
      apply Doc.same_of_get_eq
      intro j
      rw [Doc.get_assignAll]
      cases hg : (D.get keyColorCustomizations).bind Value.asObj? with
      | none =>
        simp only [Option.bind] at hg
        simp only [hg]
        cases hb : Doc.get (Doc.assignStrings (Doc.assignStrings [] (generateVSCodeColors t))
          (generateTerminalColors t)) j <;> rfl
      | some g =>
        simp only [Option.bind] at hg
        simp only [hg]
        rw [Doc.get_assignAll, orElse_orElse_self]
    · have e1 : ∀ X : Doc, (vscodeMerge t X).get k = X.get k := by
        intro X
        unfold vscodeMerge
        simp only [hx]
        rw [Doc.get_set_of_ne _ _ _ _ hk]
      rw [e1, e1]
      cases hD : D.get k with
      | none => exact Or.inl ⟨rfl, rfl⟩
      | some v => exact Or.inr ⟨v, v, rfl, rfl, Value.Same.refl v⟩

theorem zedMerge_same (themeExt : ZedExtension) (a b : Doc) (h : Doc.Same a b) :
    Doc.Same (zedMerge themeExt a) (zedMerge themeExt b) := by
  unfold zedMerge
  exact Doc.same_set _ _ _ _ _ h (Value.Same.refl _)

theorem zedMerge_idem (themeExt : ZedExtension) (D : Doc) :
    zedMerge themeExt (zedMerge themeExt D) = zedMerge themeExt D := by
  unfold zedMerge
  exact Doc.set_set _ _ _

theorem alacrittyMerge_same (t : Theme) (officialTheme : Option String) (isTOML exist : Bool)
    (a b : Doc) (h : Doc.Same a b) :
    Doc.Same (alacrittyMerge t officialTheme isTOML exist a)
      (alacrittyMerge t officialTheme isTOML exist b) := by
  unfold alacrittyMerge
  by_cases hc : officialTheme.isSome = true ∧ isTOML = true ∧ exist = true
  · have hT := hc.2.1
    simp only [hc, hT, and_self, if_true]
    rcases Doc.same_asObj _ _ h "general" with ⟨h1, h2⟩ | ⟨g, g', h1, h2, hg⟩
    · rw [h1, h2]
      simp only []
      exact Doc.same_delete _ _ _ (Doc.same_set _ _ _ _ _
        (Doc.same_set _ _ _ _ _ h (Value.Same.refl _)) (Value.Same.refl _))
    · rw [h1, h2]
      simp only []
      exact Doc.same_delete _ _ _ (Doc.same_set _ _ _ _ _ h
        (Doc.same_set _ _ _ _ _ hg (Value.Same.refl _)))
  · simp only [hc, if_false]
    have h1 := Doc.same_set _ _ "colors" _ _ h
      (Value.Same.refl (Value.obj (generateAlacrittyColors t)))
    have h2 : Doc.Same
        (match ((a.set "colors" (Value.obj (generateAlacrittyColors t))).get "general").bind
            Value.asObj? with
          | some general => (a.set "colors" (Value.obj (generateAlacrittyColors t))).set "general"
              (Value.obj (general.delete "import"))
          | none => a.set "colors" (Value.obj (generateAlacrittyColors t)))
        (match ((b.set "colors" (Value.obj (generateAlacrittyColors t))).get "general").bind
            Value.asObj? with
          | some general => (b.set "colors" (Value.obj (generateAlacrittyColors t))).set "general"
              (Value.obj (general.delete "import"))
          | none => b.set "colors" (Value.obj (generateAlacrittyColors t))) := by
      rcases Doc.same_asObj _ _ h1 "general" with ⟨e1, e2⟩ | ⟨g, g', e1, e2, hg⟩
      · rw [e1, e2]
        exact h1
      · rw [e1, e2]
        exact Doc.same_set _ _ _ _ _ h1 (Doc.same_delete _ _ _ hg)
    cases isTOML with
    | true => simpa using h2
    | false =>
      simp only [Bool.false_eq_true, if_false]
      exact Doc.same_set _ _ _ _ _ h2 (Value.Same.refl _)

theorem alacrittyMerge_get_import (t : Theme) (officialTheme : Option String)
    (isTOML exist : Bool) (D : Doc) (k : String)
    (hc : officialTheme.isSome = true ∧ isTOML = true ∧ exist = true) :
    (alacrittyMerge t officialTheme isTOML exist D).get k
      = if k = "colors" then none
        else if k = "general" then
          some (Value.obj ((((D.get "general").bind Value.asObj?).getD []).set "import"
            (Value.arr [Value.str
              ("~/.config/alacritty/themes/alacritty/themes/" ++ officialTheme.getD "")])))
        else D.get k := by
  have hT := hc.2.1
  unfold alacrittyMerge
  simp only [hc, hT, and_self, if_true]
  cases hg : (D.get "general").bind Value.asObj? with
  | none =>
    simp only [Option.getD]
    rw [Doc.get_delete, Doc.get_set, Doc.get_set]
    by_cases h1 : k = "colors"
    · simp [h1]
    · by_cases h2 : k = "general"
      · simp [h2]
      · simp [h1, h2]
  | some g =>
    simp only [Option.getD]
    rw [Doc.get_delete, Doc.get_set]

theorem alacrittyMerge_get_fallback (t : Theme) (officialTheme : Option String)
    (isTOML exist : Bool) (D : Doc) (k : String)
    (hc : ¬ (officialTheme.isSome = true ∧ isTOML = true ∧ exist = true)) :
    (alacrittyMerge t officialTheme isTOML exist D).get k
      = if k = "colors" then some (Value.obj (generateAlacrittyColors t))
        else if k = "general" then
          (match (D.get "general").bind Value.asObj? with
            | some g => some (Value.obj (g.delete "import"))
            | none => D.get "general")
        else D.get k := by
  have hcg : ("general" : String) ≠ "colors" := by decide
  unfold alacrittyMerge
  simp only [hc, if_false]
  rw [Doc.get_set_of_ne _ _ _ _ hcg]
  cases hg : (D.get "general").bind Value.asObj? with
  | none =>
    cases isTOML with
    | true =>
      simp only [if_true]
      rw [Doc.get_set]
      by_cases h1 : k = "colors"
      · simp [h1]
      · by_cases h2 : k = "general"
        · simp [h2, hcg]
        · simp [h1, h2]
    | false =>
      simp only [Bool.false_eq_true, if_false]
      rw [Doc.get_set, Doc.get_set]
      by_cases h1 : k = "colors"
      · simp [h1]
      · by_cases h2 : k = "general"
        · simp [h2, hcg]
        · simp [h1, h2]
  | some g =>
    cases isTOML with
    | true =>
      simp only [if_true]
      rw [Doc.get_set, Doc.get_set]
      by_cases h1 : k = "colors"
      · simp [h1, Ne.symm hcg]
      · by_cases h2 : k = "general"
        · simp [h2, hcg]
        · simp [h1, h2]
    | false =>
      simp only [Bool.false_eq_true, if_false]
      rw [Doc.get_set, Doc.get_set, Doc.get_set]
      by_cases h1 : k = "colors"
      · simp [h1]
      · by_cases h2 : k = "general"
        · simp [h2, hcg]
        · simp [h1, h2]

/-- Merging twice, with the same answers to the three tests, gives the same
map as merging once. -/
theorem alacrittyMerge_idem (t : Theme) (officialTheme : Option String) (isTOML exist : Bool)
    (D : Doc) :
    Doc.Same
      (alacrittyMerge t officialTheme isTOML exist (alacrittyMerge t officialTheme isTOML exist D))
      (alacrittyMerge t officialTheme isTOML exist D) := by
  have hcg : ("general" : String) ≠ "colors" := by decide
  apply Doc.same_of_get_eq
  intro k
  by_cases hc : officialTheme.isSome = true ∧ isTOML = true ∧ exist = true
  · rw [alacrittyMerge_get_import t officialTheme isTOML exist _ k hc,
      alacrittyMerge_get_import t officialTheme isTOML exist D "general" hc,
      alacrittyMerge_get_import t officialTheme isTOML exist D k hc]
    by_cases h1 : k = "colors"
    · simp [h1]
    · by_cases h2 : k = "general"
      · simp [h2, hcg, Value.asObj?, Doc.set_set]
      · simp [h1, h2]
  · rw [alacrittyMerge_get_fallback t officialTheme isTOML exist _ k hc,
      alacrittyMerge_get_fallback t officialTheme isTOML exist D "general" hc,
      alacrittyMerge_get_fallback t officialTheme isTOML exist D k hc]
    by_cases h1 : k = "colors"
    · simp [h1]
    · by_cases h2 : k = "general"
      · simp only [h2, hcg, if_false, if_true]
        cases hg : (D.get "general").bind Value.asObj? with
        | none => simp [hg]
        | some g => simp [Value.asObj?, Doc.delete_delete]
      · simp [h1, h2]

/-! ## A second run -/

theorem FS.readFile_congr_at (fs fs0 : FS) (p : String) (h : fs0.file p = fs.file p) :
    fs0.readFile p = fs.readFile p := by
  simp [FS.readFile, h]

theorem FS.readFile_eq_ok (fs : FS) (p d : String) (h : fs.readFile p = ReadResult.ok d) :
    fs.file p = some ⟨d, true⟩ := by
  unfold FS.readFile at h
  cases hf : fs.file p with
  | none => simp [hf] at h
  | some f =>
    obtain ⟨data, readable⟩ := f
    cases readable <;> simp [hf] at h
    rw [h]

theorem FS.readFile_eq_notExist (fs : FS) (p : String) (h : fs.readFile p = ReadResult.notExist) :
    fs.file p = none := by
  unfold FS.readFile at h
  cases hf : fs.file p with
  | none => rfl
  | some f =>
    obtain ⟨data, readable⟩ := f
    cases readable <;> simp [hf] at h

theorem applyTwiceSettles_of_shape (apply : FS → ApplyResult) (fs : FS) (p : String)
    (h1 : (apply fs).hasShape fs p) (h2 : (apply (apply fs).fs).hasShape (apply fs).fs p)
    (ht : (apply (apply fs).fs).fs.file p = (apply fs).fs.file p) :
    applyTwiceSettles apply fs p := by
  refine ⟨ht, ?_, ?_, ?_, ?_⟩
  · intro q hq
    rcases List.mem_append.mp hq with hq | hq
    · exact hasShape_writes _ _ _ h1 q hq
    · exact hasShape_writes _ _ _ h2 q hq
  · intro hq
    rw [hasShape_unwritten _ _ _ h2 _ (fun hm => hq (List.mem_append_right _ hm)),
      hasShape_unwritten _ _ _ h1 _ (fun hm => hq (List.mem_append_left _ hm))]
  · intro hq
    rw [hasShape_unwritten _ _ _ h2 _ (fun hm => hq (List.mem_append_right _ hm)),
      hasShape_unwritten _ _ _ h1 _ (fun hm => hq (List.mem_append_left _ hm))]
  · intro c herr hread hc
    refine ⟨?_, (hasShape_backup _ _ p c h2 hread hc (hasShape_ok _ _ _ h2 herr)).2⟩
    rw [ht, FS.readFile_eq_ok _ _ _ hread]
    rfl

/-- What the common shape does depends on the files and on what may be
written only. -/
theorem backupThenWrite_congr (fsA fsB : FS) (p d : String) (c : Except String String)
    (hf : fsA.file = fsB.file) (hw : fsA.writable = fsB.writable) :
    (backupThenWrite fsA p d c).fs.file = (backupThenWrite fsB p d c).fs.file
      ∧ (backupThenWrite fsA p d c).writes = (backupThenWrite fsB p d c).writes
      ∧ (backupThenWrite fsA p d c).err = (backupThenWrite fsB p d c).err := by
  obtain ⟨fileA, dirA, writableA, mkdirOkA⟩ := fsA
  obtain ⟨fileB, dirB, writableB, mkdirOkB⟩ := fsB
  simp only at hf hw
  subst hf hw
  unfold backupThenWrite FS.writeFile
  by_cases hd : d.length > 0 <;> by_cases hb : writableA (p ++ ".backup") = true <;>
    cases c <;> by_cases hp : writableA p = true <;> simp [hd, hb, hp]

/-- The second run of the common shape, on a file system that has the files of
the first run and allows the same writes. -/
theorem backupThenWrite_again (fs fs' : FS) (p d1 d2 : String) (c1 c2 : Except String String)
    (hfile : fs'.file = (backupThenWrite fs p d1 c1).fs.file)
    (hwr : fs'.writable = (backupThenWrite fs p d1 c1).fs.writable)
    (hA : p ∈ (backupThenWrite fs p d1 c1).writes →
      ∀ x, c1 = Except.ok x → c2 = Except.ok x ∨ ∃ e, c2 = Except.error e)
    (hB : p ∉ (backupThenWrite fs p d1 c1).writes → d2 = d1 ∧ c2 = c1) :
    (backupThenWrite fs' p d2 c2).fs.file p = (backupThenWrite fs p d1 c1).fs.file p := by
  have h := backupThenWrite_twice fs p d1 d2 c1 c2 fs'.dir hA hB
  rw [(backupThenWrite_congr fs' { (backupThenWrite fs p d1 c1).fs with dir := fs'.dir } p d2 c2
    hfile hwr).1, h]

/-- The second run of an adapter that decodes, merges and encodes: with an
encoder that gives the same bytes for the same map, a decoder that reads back
what the encoder wrote, and a merge that is a function of the map and gives
the same map when it is done twice, the second run reads what the first left
and leaves the target as it is. -/
theorem decodeMergeEncode_again (enc : Doc → Except String String)
    (dec : String → Except String (Option Doc)) (merge : Doc → Doc)
    (hresp : ∀ m m', Doc.Same m m' → enc m = enc m')
    (hround : ∀ m x, enc m = Except.ok x → ∃ m', dec x = Except.ok (some m') ∧ Doc.Same m' m)
    (hsame : ∀ a b, Doc.Same a b → Doc.Same (merge a) (merge b))
    (hidem : ∀ D, Doc.Same (merge (merge D)) (merge D))
    (fs fs' : FS) (p d1 : String) (s1 : Option Doc) (hread : readDecoded dec fs p d1 s1)
    (hfile : fs'.file = (backupThenWrite fs p d1 (encodedContent enc (s1.map merge))).fs.file)
    (hwr : fs'.writable
      = (backupThenWrite fs p d1 (encodedContent enc (s1.map merge))).fs.writable) :
    ∃ d2 s2, readDecoded dec fs' p d2 s2
      ∧ (backupThenWrite fs' p d2 (encodedContent enc (s2.map merge))).fs.file p
          = (backupThenWrite fs p d1 (encodedContent enc (s1.map merge))).fs.file p := by
  by_cases hw : p ∈ (backupThenWrite fs p d1 (encodedContent enc (s1.map merge))).writes
  · obtain ⟨x, hc1, hfile1⟩ := backupThenWrite_target fs p d1 _ hw
    cases s1 with
    | none => simp [encodedContent] at hc1
    | some s =>
      have henc : enc (merge s) = Except.ok x := by simpa [encodedContent] using hc1
      obtain ⟨m', hdec, hsm⟩ := hround (merge s) x henc
      have hmode : ((fs.file p).map File.readable).getD true = true := by
        rcases hread with ⟨hr, _, _⟩ | ⟨hr, _⟩
        · rw [FS.readFile_eq_notExist fs p hr]
          rfl
        · rw [FS.readFile_eq_ok fs p d1 hr]
          rfl
      have hr' : fs'.readFile p = ReadResult.ok x := by
        unfold FS.readFile
        rw [hfile, hfile1, hmode]
        rfl
      have hc2 : encodedContent enc ((some m').map merge) = Except.ok x := by
        simp only [Option.map, encodedContent]
        rw [hresp _ _ (hsame _ _ hsm), hresp _ _ (hidem s)]
        exact henc
      refine ⟨x, some m', Or.inr ⟨hr', hdec⟩, ?_⟩
      apply backupThenWrite_again fs fs' p d1 x _ _ hfile hwr
      · intro _ x0 hx0
        left
        rw [hc2]
        rw [hc1] at hx0
        exact hx0
      · intro hn
        exact absurd hw hn
  · have hkept := backupThenWrite_target_kept fs p d1 _ hw
    have hr' : fs'.readFile p = fs.readFile p := by
      apply FS.readFile_congr_at
      rw [hfile, hkept]
    refine ⟨d1, s1, ?_, ?_⟩
    · unfold readDecoded at hread ⊢
      rw [hr']
      exact hread
    · apply backupThenWrite_again fs fs' p d1 d1 _ _ hfile hwr
      · intro h
        exact absurd h hw
      · intro _
        exact ⟨rfl, rfl⟩

/-- The second run of an adapter that writes a content that does not depend on
the target. -/
theorem constantContent_again (fs fs' : FS) (p : String) (content : Except String String)
    (hfile : fs'.file
      = (backupThenWrite fs p (fs.readFile p).dataOrEmpty content).fs.file)
    (hwr : fs'.writable
      = (backupThenWrite fs p (fs.readFile p).dataOrEmpty content).fs.writable) :
    (backupThenWrite fs' p (fs'.readFile p).dataOrEmpty content).fs.file p
      = (backupThenWrite fs p (fs.readFile p).dataOrEmpty content).fs.file p := by
  apply backupThenWrite_again fs fs' p _ _ _ _ hfile hwr
  · intro _ x hx
    exact Or.inl hx
  · intro hw
    refine ⟨?_, rfl⟩
    have hkept := backupThenWrite_target_kept fs p _ _ hw
    rw [FS.readFile_congr_at fs fs' p (by rw [hfile, hkept])]

/-! ### VS Code -/

theorem vscodeApply_of_readDecoded (libs : Libs) (p : String) (t : Theme) (fs : FS)
    (d : String) (s : Option Doc)
    (h : readDecoded (fun x => libs.jsonUnmarshal (stripJSONComments x)) fs p d s) :
    VSCodeIntegration.Apply libs p t fs = vscodeBackupMergeWrite libs p t fs d s := by
  rcases h with ⟨hr, rfl, rfl⟩ | ⟨hr, hd⟩
  · exact vscodeApply_of_notExist libs p t fs hr
  · exact vscodeApply_of_decoded libs p t fs d s hr hd

theorem vscodeApply_stopped_or_readDecoded (libs : Libs) (p : String) (t : Theme) (fs : FS) :
    (∃ e, VSCodeIntegration.Apply libs p t fs = ⟨some e, fs, []⟩)
      ∨ ∃ d s, readDecoded (fun x => libs.jsonUnmarshal (stripJSONComments x)) fs p d s := by
  cases hr : fs.readFile p with
  | failed msg => exact Or.inl ⟨_, vscodeApply_of_read_failed libs p t fs msg hr⟩
  | notExist => exact Or.inr ⟨"", some [], Or.inl ⟨hr, rfl, rfl⟩⟩
  | ok data =>
    cases hd : libs.jsonUnmarshal (stripJSONComments data) with
    | error e => exact Or.inl ⟨_, vscodeApply_of_decode_error libs p t fs data e hr hd⟩
    | ok settings => exact Or.inr ⟨data, settings, Or.inr ⟨hr, hd⟩⟩

theorem vscodeApply_again (libs : Libs) (p : String) (t : Theme) (fs : FS)
    (hresp : ∀ m m', Doc.Same m m' → libs.jsonMarshalIndent m = libs.jsonMarshalIndent m')
    (hround : ∀ m x, libs.jsonMarshalIndent m = Except.ok x →
      ∃ m', libs.jsonUnmarshal (stripJSONComments x) = Except.ok (some m') ∧ Doc.Same m' m) :
    (VSCodeIntegration.Apply libs p t (VSCodeIntegration.Apply libs p t fs).fs).fs.file p
      = (VSCodeIntegration.Apply libs p t fs).fs.file p := by
  rcases vscodeApply_stopped_or_readDecoded libs p t fs with ⟨e, he⟩ | ⟨d1, s1, hread⟩
  · rw [he]
    simp only
    rw [he]
  · have e1 := vscodeApply_of_readDecoded libs p t fs d1 s1 hread
    have s1' := vscodeBackupMergeWrite_sameAs libs p t fs d1 s1
    rw [← e1] at s1'
    obtain ⟨d2, s2, hread2, htarget⟩ := decodeMergeEncode_again libs.jsonMarshalIndent
      (fun x => libs.jsonUnmarshal (stripJSONComments x)) (vscodeMerge t) hresp hround
      (vscodeMerge_same t) (vscodeMerge_idem t) fs (VSCodeIntegration.Apply libs p t fs).fs p d1 s1
      hread (by rw [s1'.1]) (by rw [s1'.1])
    rw [vscodeApply_of_readDecoded libs p t _ d2 s2 hread2,
      (vscodeBackupMergeWrite_sameAs libs p t _ d2 s2).1, htarget, ← s1'.1]

/-! ### Starship -/

theorem FS.mkdirAll_env (fs fs0 : FS) (d : String) (h : fs.mkdirAll d = some fs0) :
    fs0.file = fs.file ∧ fs0.writable = fs.writable ∧ fs0.mkdirOk = fs.mkdirOk := by
  rw [FS.mkdirAll_eq_some fs fs0 d h]
  exact ⟨rfl, rfl, rfl⟩

theorem FS.mkdirAll_isSome (fs fs' : FS) (d : String) (hmk : fs'.mkdirOk = fs.mkdirOk)
    (h : (fs.mkdirAll d).isSome) : (fs'.mkdirAll d).isSome := by
  unfold FS.mkdirAll at h ⊢
  rw [hmk]
  by_cases hd : fs.mkdirOk d = true
  · simp [hd]
  · simp [hd] at h

theorem starshipApply_again (libs : Libs) (p : String) (t : Theme) (fs : FS) :
    (StarshipIntegration.Apply libs p t (StarshipIntegration.Apply libs p t fs).fs).fs.file p
      = (StarshipIntegration.Apply libs p t fs).fs.file p := by
  cases hm : fs.mkdirAll (libs.filepathDir p) with
  | none =>
    have e : StarshipIntegration.Apply libs p t fs
        = ⟨some "failed to create config directory", fs, []⟩ := by
      unfold StarshipIntegration.Apply
      simp only [hm]
    rw [e]
    simp only
    rw [e]
  | some fs0 =>
    have h1 := starshipApply_sameAs libs p t fs fs0 hm
    have henv := backupThenWrite_env fs0 p (fs0.readFile p).dataOrEmpty (starshipContent t.Name)
    have hmk0 := FS.mkdirAll_env fs fs0 _ hm
    have hsome : ((StarshipIntegration.Apply libs p t fs).fs.mkdirAll (libs.filepathDir p)).isSome := by
      apply FS.mkdirAll_isSome fs _ _ _ (by simp [hm])
      rw [h1.1, henv.2.1, hmk0.2.2]
    obtain ⟨fs0', hm'⟩ := Option.isSome_iff_exists.mp hsome
    have h2 := starshipApply_sameAs libs p t _ fs0' hm'
    have hmk1 := FS.mkdirAll_env _ fs0' _ hm'
    rw [h2.1, h1.1]
    apply constantContent_again
    · rw [hmk1.1, h1.1]
    · rw [hmk1.2.1, h1.1]

/-! ### Warp and iTerm2 -/

theorem warpApply_again (libs : Libs) (details : String → String) (themesPath : String)
    (t : Theme) (fs : FS) :
    (WarpIntegration.Apply libs details themesPath t
        (WarpIntegration.Apply libs details themesPath t fs).fs).fs.file
        (libs.filepathJoin [themesPath, SanitizeFileName t.Name ++ ".yaml"])
      = (WarpIntegration.Apply libs details themesPath t fs).fs.file
        (libs.filepathJoin [themesPath, SanitizeFileName t.Name ++ ".yaml"]) := by
  cases hm : fs.mkdirAll themesPath with
  | none =>
    have e : WarpIntegration.Apply libs details themesPath t fs
        = ⟨some "failed to create themes directory", fs, []⟩ := by
      unfold WarpIntegration.Apply
      simp only [hm]
    rw [e]
    simp only
    rw [e]
  | some fs0 =>
    have h1 := warpApply_sameAs libs details themesPath t fs fs0 hm
    have henv := backupThenWrite_env fs0
      (libs.filepathJoin [themesPath, SanitizeFileName t.Name ++ ".yaml"])
      (fs0.readFile (libs.filepathJoin [themesPath, SanitizeFileName t.Name ++ ".yaml"])).dataOrEmpty
      (libs.yamlMarshal (generateWarpTheme t (details t.Colors.Background)))
    have hmk0 := FS.mkdirAll_env fs fs0 _ hm
    have hsome : ((WarpIntegration.Apply libs details themesPath t fs).fs.mkdirAll
        themesPath).isSome := by
      apply FS.mkdirAll_isSome fs _ _ _ (by simp [hm])
      rw [h1.1, henv.2.1, hmk0.2.2]
    obtain ⟨fs0', hm'⟩ := Option.isSome_iff_exists.mp hsome
    have h2 := warpApply_sameAs libs details themesPath t _ fs0' hm'
    have hmk1 := FS.mkdirAll_env _ fs0' _ hm'
    rw [h2.1, h1.1]
    apply constantContent_again
    · rw [hmk1.1, h1.1]
    · rw [hmk1.2.1, h1.1]

theorem iterm2Apply_again (libs : Libs) (tools : Tools) (preset : Theme → String)
    (themesPath : String) (t : Theme) (fs : FS) :
    (ITerm2Integration.Apply libs tools preset themesPath t
        (ITerm2Integration.Apply libs tools preset themesPath t fs).fs).fs.file
        (libs.filepathJoin [themesPath, SanitizeFileName t.Name ++ ".itermcolors"])
      = (ITerm2Integration.Apply libs tools preset themesPath t fs).fs.file
        (libs.filepathJoin [themesPath, SanitizeFileName t.Name ++ ".itermcolors"]) := by
  cases hm : fs.mkdirAll themesPath with
  | none =>
    have e : ITerm2Integration.Apply libs tools preset themesPath t fs
        = ⟨some "failed to create themes directory", fs, []⟩ := by
      unfold ITerm2Integration.Apply
      simp only [hm]
    rw [e]
    simp only
    rw [e]
  | some fs0 =>
    have h1 := iterm2Apply_shape libs tools preset themesPath t fs fs0 hm
    have henv := backupThenWrite_env fs0
      (libs.filepathJoin [themesPath, SanitizeFileName t.Name ++ ".itermcolors"])
      (fs0.readFile
        (libs.filepathJoin [themesPath, SanitizeFileName t.Name ++ ".itermcolors"])).dataOrEmpty
      (Except.ok (preset t))
    have hmk0 := FS.mkdirAll_env fs fs0 _ hm
    have hsome : ((ITerm2Integration.Apply libs tools preset themesPath t fs).fs.mkdirAll
        themesPath).isSome := by
      apply FS.mkdirAll_isSome fs _ _ _ (by simp [hm])
      rw [h1.1, henv.2.1, hmk0.2.2]
    obtain ⟨fs0', hm'⟩ := Option.isSome_iff_exists.mp hsome
    have h2 := iterm2Apply_shape libs tools preset themesPath t _ fs0' hm'
    have hmk1 := FS.mkdirAll_env _ fs0' _ hm'
    rw [h2.1, h1.1]
    apply constantContent_again
    · rw [hmk1.1, h1.1]
    · rw [hmk1.2.1, h1.1]

/-! ### Zed -/

/-- An entry that `os.Stat` finds is still found after the common shape ran:
it creates and overwrites files and removes nothing. -/
theorem backupThenWrite_stat (fs : FS) (p d : String) (c : Except String String) (q : String)
    (h : fs.stat q = true) : (backupThenWrite fs p d c).fs.stat q = true := by
  have henv := backupThenWrite_env fs p d c
  unfold FS.stat at h ⊢
  rw [henv.2.2]
  cases hdir : fs.dir q with
  | true => simp
  | false =>
    rw [hdir] at h
    simp only [Bool.or_false] at h ⊢
    by_cases hq : q = p
    · subst hq
      by_cases hw : q ∈ (backupThenWrite fs q d c).writes
      · obtain ⟨x, _, hf⟩ := backupThenWrite_target fs q d c hw
        rw [hf]
        rfl
      · rw [backupThenWrite_target_kept fs q d c hw]
        exact h
    · by_cases hqb : q = p ++ ".backup"
      · subst hqb
        revert h
        unfold backupThenWrite FS.writeFile
        by_cases hd : d.length > 0 <;> by_cases hb : fs.writable (p ++ ".backup") = true <;>
          cases c <;> by_cases hp : fs.writable p = true <;>
          simp [hd, hb, hp, backup_ne p]
      · rw [backupThenWrite_frame fs p d c q hq hqb]
        exact h

theorem zedApply_of_readDecoded (z : ZedIntegration) (libs : Libs) (t : Theme) (fs : FS)
    (themeExt : ZedExtension) (d : String) (s : Option Doc)
    (hx : zedThemeExtensions t.Name = some themeExt)
    (hi : z.IsExtensionInstalled libs fs themeExt.ExtensionID = true)
    (h : readDecoded (fun x => libs.jsonUnmarshal (zedStripJSONComments x)) fs z.configPath d s) :
    z.Apply libs t fs = zedBackupMergeWrite libs z.configPath themeExt fs d s := by
  rcases h with ⟨hr, rfl, rfl⟩ | ⟨hr, hd⟩
  · exact zedApply_of_notExist z libs t fs themeExt hx hi hr
  · exact zedApply_of_decoded z libs t fs themeExt d s hx hi hr hd

theorem zedApply_again (z : ZedIntegration) (libs : Libs) (t : Theme) (fs : FS)
    (hresp : ∀ m m', Doc.Same m m' → libs.jsonMarshalIndent m = libs.jsonMarshalIndent m')
    (hround : ∀ m x, libs.jsonMarshalIndent m = Except.ok x →
      ∃ m', libs.jsonUnmarshal (zedStripJSONComments x) = Except.ok (some m') ∧ Doc.Same m' m) :
    (z.Apply libs t (z.Apply libs t fs).fs).fs.file z.configPath
      = (z.Apply libs t fs).fs.file z.configPath := by
  have stopped : ∀ e, z.Apply libs t fs = ⟨some e, fs, []⟩ →
      (z.Apply libs t (z.Apply libs t fs).fs).fs.file z.configPath
        = (z.Apply libs t fs).fs.file z.configPath := by
    intro e he
    rw [he]
    simp only
    rw [he]
  cases hx : zedThemeExtensions t.Name with
  | none => exact stopped _ (zedApply_of_no_extension z libs t fs hx)
  | some themeExt =>
    cases hi : z.IsExtensionInstalled libs fs themeExt.ExtensionID with
    | false => exact stopped _ (zedApply_of_not_installed z libs t fs themeExt hx hi)
    | true =>
      have hread : (∃ e, z.Apply libs t fs = ⟨some e, fs, []⟩)
          ∨ ∃ d s, readDecoded (fun x => libs.jsonUnmarshal (zedStripJSONComments x)) fs
              z.configPath d s := by
        cases hr : fs.readFile z.configPath with
        | failed msg => exact Or.inl ⟨_, zedApply_of_read_failed z libs t fs themeExt msg hx hi hr⟩
        | notExist => exact Or.inr ⟨"", some [], Or.inl ⟨hr, rfl, rfl⟩⟩
        | ok data =>
          cases hd : libs.jsonUnmarshal (zedStripJSONComments data) with
          | error e =>
            exact Or.inl ⟨_, zedApply_of_decode_error z libs t fs themeExt data e hx hi hr hd⟩
          | ok settings => exact Or.inr ⟨data, settings, Or.inr ⟨hr, hd⟩⟩
      rcases hread with ⟨e, he⟩ | ⟨d1, s1, hread⟩
      · exact stopped e he
      · have e1 := zedApply_of_readDecoded z libs t fs themeExt d1 s1 hx hi hread
        have s1' := zedBackupMergeWrite_sameAs libs z.configPath themeExt fs d1 s1
        rw [← e1] at s1'
        obtain ⟨d2, s2, hread2, htarget⟩ := decodeMergeEncode_again libs.jsonMarshalIndent
          (fun x => libs.jsonUnmarshal (zedStripJSONComments x)) (zedMerge themeExt) hresp hround
          (zedMerge_same themeExt)
          (fun D => by rw [zedMerge_idem]; exact Doc.same_refl _)
          fs (z.Apply libs t fs).fs z.configPath d1 s1 hread (by rw [s1'.1]) (by rw [s1'.1])
        have hi' : z.IsExtensionInstalled libs (z.Apply libs t fs).fs themeExt.ExtensionID
            = true := by
          unfold ZedIntegration.IsExtensionInstalled at hi ⊢
          rw [s1'.1]
          exact backupThenWrite_stat _ _ _ _ _ hi
        rw [zedApply_of_readDecoded z libs t _ themeExt d2 s2 hx hi' hread2,
          (zedBackupMergeWrite_sameAs libs z.configPath themeExt _ d2 s2).1, htarget, ← s1'.1]

/-! ### Alacritty -/

/-- A failed setup of the theme repository fails again on the file system it
left. -/
theorem AlacrittyIntegration.ensureThemeRepo_error_again (a : AlacrittyIntegration)
    (libs : Libs) (tools : Tools) (fs : FS) (e : String)
    (hrepo : libs.filepathJoin [a.themesPath, "alacritty"] ≠ a.themesPath)
    (he : (a.ensureThemeRepo libs tools fs).1 = some e) :
    ∃ e', (a.ensureThemeRepo libs tools (a.ensureThemeRepo libs tools fs).2).1 = some e' := by
  unfold AlacrittyIntegration.ensureThemeRepo AlacrittyIntegration.cloneThemeRepo FS.mkdirAll
    at he ⊢
  by_cases hs : fs.stat (libs.filepathJoin [a.themesPath, "alacritty"]) = true
  · simp [hs] at he
  · by_cases hm : fs.mkdirOk a.themesPath = true
    · cases hg : tools.gitClone (libs.filepathJoin [a.themesPath, "alacritty"]) with
      | ok entries => simp [hs, hm, hg] at he
      | error err =>
        have hs' : ∀ X : FS, X.file = fs.file →
            X.dir = (fun p => decide (p = a.themesPath) || fs.dir p) →
            X.stat (libs.filepathJoin [a.themesPath, "alacritty"]) = false := by
          intro X hXf hXd
          unfold FS.stat at hs ⊢
          rw [hXf, hXd]
          simpa [hrepo] using hs
        simp [hs, hm, hg]
        rw [hs' ⟨fs.file, fun p => decide (p = a.themesPath) || fs.dir p, fs.writable, fs.mkdirOk⟩
          rfl rfl]
        simp
    · simp [hs, hm]

/-- A successful setup of the theme repository succeeds again, with the same
directory entries, on a file system that has those entries and still has
the repository when it was there. -/
theorem AlacrittyIntegration.ensureThemeRepo_ok_again (a : AlacrittyIntegration)
    (libs : Libs) (tools : Tools) (fs fs' : FS)
    (he : (a.ensureThemeRepo libs tools fs).1 = none)
    (hstat : (a.ensureThemeRepo libs tools fs).2.stat (libs.filepathJoin [a.themesPath, "alacritty"])
        = true → fs'.stat (libs.filepathJoin [a.themesPath, "alacritty"]) = true)
    (hdir : fs'.dir = (a.ensureThemeRepo libs tools fs).2.dir)
    (hmk : fs'.mkdirOk = fs.mkdirOk) :
    (a.ensureThemeRepo libs tools fs').1 = none
      ∧ (a.ensureThemeRepo libs tools fs').2.dir = (a.ensureThemeRepo libs tools fs).2.dir := by
  by_cases hs' : fs'.stat (libs.filepathJoin [a.themesPath, "alacritty"]) = true
  · have e' : a.ensureThemeRepo libs tools fs' = (none, fs') := by
      unfold AlacrittyIntegration.ensureThemeRepo
      simp [hs']
    rw [e']
    exact ⟨rfl, hdir⟩
  · by_cases hs : fs.stat (libs.filepathJoin [a.themesPath, "alacritty"]) = true
    · have e1 : a.ensureThemeRepo libs tools fs = (none, fs) := by
        unfold AlacrittyIntegration.ensureThemeRepo
        simp [hs]
      rw [e1] at hstat
      exact absurd (hstat hs) hs'
    · unfold AlacrittyIntegration.ensureThemeRepo AlacrittyIntegration.cloneThemeRepo FS.mkdirAll
        at he hdir ⊢
      by_cases hm : fs.mkdirOk a.themesPath = true
      · cases hg : tools.gitClone (libs.filepathJoin [a.themesPath, "alacritty"]) with
        | error err => simp [hs, hm, hg] at he
        | ok entries =>
          simp only [hs, hm, hg, if_true, if_false, Bool.false_eq_true] at hdir
          simp only [hs, hs', hmk, hm, hg, if_true, if_false, Bool.false_eq_true, true_and]
          funext q
          rw [hdir]
          by_cases hq : q = a.themesPath <;> cases hE : entries q <;> simp [hq, hE]
      · simp [hs, hm] at he

/-- The probe for the official theme file is a probe of the file system as it
was before the backup, when the backup is another file. -/
theorem alacrittyThemeOnDisk_eq (a : AlacrittyIntegration) (libs : Libs) (t : Theme) (fs : FS)
    (d : String) (hotpb : alacrittyOfficialThemePath a libs t ≠ a.configPath ++ ".backup") :
    alacrittyThemeOnDisk a libs t fs d = fs.stat (alacrittyOfficialThemePath a libs t) := by
  unfold alacrittyThemeOnDisk AlacrittyIntegration.themeFileExists
  by_cases hd : d.length > 0
  · simp only [hd, if_true]
    cases hw : fs.writeFile (a.configPath ++ ".backup") d with
    | none => rfl
    | some fs1 =>
      obtain ⟨_, mode, _, rfl⟩ := FS.writeFile_eq_some fs fs1 _ _ hw
      simp [FS.stat, hotpb]
  · simp only [hd, if_false]

theorem alacrittyApply_of_readDecoded (a : AlacrittyIntegration) (libs : Libs) (tools : Tools)
    (t : Theme) (fs : FS) (d : String) (s : Option Doc)
    (he : (a.ensureThemeRepo libs tools fs).1 = none)
    (h : readDecoded (alacrittyDecode a libs) fs a.configPath d s) :
    a.Apply libs tools t fs
      = alacrittyBackupMergeWrite a libs t (a.ensureThemeRepo libs tools fs).2 d s := by
  rcases h with ⟨hr, rfl, rfl⟩ | ⟨hr, hd⟩
  · exact alacrittyApply_of_notExist a libs tools t fs he hr
  · exact alacrittyApply_of_decoded a libs tools t fs d s he hr hd

theorem readDecoded_congr (dec : String → Except String (Option Doc)) (fs fs' : FS) (p d : String)
    (s : Option Doc) (hfile : fs'.file p = fs.file p) (h : readDecoded dec fs p d s) :
    readDecoded dec fs' p d s := by
  unfold readDecoded at h ⊢
  rw [FS.readFile_congr_at fs fs' p hfile]
  exact h

theorem alacrittyApply_again (a : AlacrittyIntegration) (libs : Libs) (tools : Tools)
    (t : Theme) (fs : FS)
    (hrepo : libs.filepathJoin [a.themesPath, "alacritty"] ≠ a.themesPath)
    (hotp : alacrittyOfficialThemePath a libs t ≠ a.configPath)
    (hotpb : alacrittyOfficialThemePath a libs t ≠ a.configPath ++ ".backup")
    (hresp : ∀ m m', Doc.Same m m' → alacrittyEncode a libs m = alacrittyEncode a libs m')
    (hround : ∀ m x, alacrittyEncode a libs m = Except.ok x →
      ∃ m', alacrittyDecode a libs x = Except.ok (some m') ∧ Doc.Same m' m) :
    (a.Apply libs tools t (a.Apply libs tools t fs).fs).fs.file a.configPath
      = (a.Apply libs tools t fs).fs.file a.configPath := by
  have henv := a.ensureThemeRepo_env libs tools fs
  cases he : (a.ensureThemeRepo libs tools fs).1 with
  | some e =>
    obtain ⟨e', he'⟩ := a.ensureThemeRepo_error_again libs tools fs e hrepo he
    rw [alacrittyApply_of_repo_error a libs tools t fs e he]
    simp only
    rw [alacrittyApply_of_repo_error a libs tools t _ e' he']
    simp only
    rw [(a.ensureThemeRepo_env libs tools _).1]
  | none =>
    have he1 := (a.ensureThemeRepo_ok_again libs tools fs (a.ensureThemeRepo libs tools fs).2 he
      (fun h => h) rfl henv.2.2).1
    have henv1 := a.ensureThemeRepo_env libs tools (a.ensureThemeRepo libs tools fs).2
    have hread : (∃ msg, fs.readFile a.configPath = ReadResult.failed msg)
        ∨ (∃ data e', fs.readFile a.configPath = ReadResult.ok data
            ∧ alacrittyDecode a libs data = Except.error e')
        ∨ ∃ d s, readDecoded (alacrittyDecode a libs) fs a.configPath d s := by
      cases hr : fs.readFile a.configPath with
      | failed msg => exact Or.inl ⟨msg, rfl⟩
      | notExist => exact Or.inr (Or.inr ⟨"", some [], Or.inl ⟨hr, rfl, rfl⟩⟩)
      | ok data =>
        cases hd : alacrittyDecode a libs data with
        | error e' => exact Or.inr (Or.inl ⟨data, e', rfl, hd⟩)
        | ok config => exact Or.inr (Or.inr ⟨data, config, Or.inr ⟨hr, hd⟩⟩)
    rcases hread with ⟨msg, hr⟩ | ⟨data, e', hr, hd⟩ | ⟨d1, s1, hread⟩
    · have hr' : (a.ensureThemeRepo libs tools fs).2.readFile a.configPath
          = ReadResult.failed msg := by
        rw [FS.readFile_congr fs _ _ henv.1, hr]
      rw [alacrittyApply_of_read_failed a libs tools t fs msg he hr]
      simp only
      rw [alacrittyApply_of_read_failed a libs tools t _ msg he1 hr']
      simp only
      rw [henv1.1]
    · have hr' : (a.ensureThemeRepo libs tools fs).2.readFile a.configPath
          = ReadResult.ok data := by
        rw [FS.readFile_congr fs _ _ henv.1, hr]
      obtain ⟨_, h2, _⟩ := alacrittyApply_of_decode_error a libs tools t fs data e' he hr hd
      rw [h2]
      obtain ⟨_, h2', _⟩ := alacrittyApply_of_decode_error a libs tools t _ data e' he1 hr' hd
      rw [h2', henv1.1]
    · have e1 := alacrittyApply_of_readDecoded a libs tools t fs d1 s1 he hread
      have s1' := alacrittyBackupMergeWrite_sameAs a libs t (a.ensureThemeRepo libs tools fs).2
        d1 s1
      rw [← e1] at s1'
      have hB1env := backupThenWrite_env (a.ensureThemeRepo libs tools fs).2 a.configPath d1
        (alacrittyContent a libs t (a.ensureThemeRepo libs tools fs).2 d1 s1)
      obtain ⟨he2, hdir2⟩ := a.ensureThemeRepo_ok_again libs tools fs
        (a.Apply libs tools t fs).fs he
        (fun h => by rw [s1'.1]; exact backupThenWrite_stat _ _ _ _ _ h)
        (by rw [s1'.1, hB1env.2.2]) (by rw [s1'.1, hB1env.2.1, henv.2.2])
      have henv2 := a.ensureThemeRepo_env libs tools (a.Apply libs tools t fs).fs
      have hread1 : readDecoded (alacrittyDecode a libs) (a.ensureThemeRepo libs tools fs).2
          a.configPath d1 s1 :=
        readDecoded_congr _ fs _ _ _ _ (by rw [henv.1]) hread
      have hcontent : ∀ (f : FS) (d : String) (s : Option Doc),
          alacrittyContent a libs t f d s
            = encodedContent (alacrittyEncode a libs)
                (s.map (alacrittyMerge t (alacrittyThemeMap t.Name)
                  (hasTomlSuffix (libs.toLower a.configPath))
                  (f.stat (alacrittyOfficialThemePath a libs t)))) := by
        intro f d s
        unfold alacrittyContent
        rw [alacrittyThemeOnDisk_eq a libs t f d hotpb]
      rw [hcontent] at s1' hB1env
      obtain ⟨d2, s2, hread2, htarget⟩ := decodeMergeEncode_again (alacrittyEncode a libs)
        (alacrittyDecode a libs)
        (alacrittyMerge t (alacrittyThemeMap t.Name) (hasTomlSuffix (libs.toLower a.configPath))
          ((a.ensureThemeRepo libs tools fs).2.stat (alacrittyOfficialThemePath a libs t)))
        hresp hround (alacrittyMerge_same t _ _ _) (alacrittyMerge_idem t _ _ _)
        (a.ensureThemeRepo libs tools fs).2
        (a.ensureThemeRepo libs tools (a.Apply libs tools t fs).fs).2 a.configPath d1 s1 hread1
        (by rw [henv2.1, s1'.1]) (by rw [henv2.2.1, s1'.1])
      have hread2' : readDecoded (alacrittyDecode a libs) (a.Apply libs tools t fs).fs
          a.configPath d2 s2 :=
        readDecoded_congr _ _ _ _ _ _ (by rw [henv2.1]) hread2
      have hstat2 : (a.ensureThemeRepo libs tools (a.Apply libs tools t fs).fs).2.stat
            (alacrittyOfficialThemePath a libs t)
          = (a.ensureThemeRepo libs tools fs).2.stat (alacrittyOfficialThemePath a libs t) := by
        unfold FS.stat
        rw [hdir2, henv2.1, s1'.1, backupThenWrite_frame _ _ _ _ _ hotp hotpb]
      rw [alacrittyApply_of_readDecoded a libs tools t _ d2 s2 he2 hread2',
        (alacrittyBackupMergeWrite_sameAs a libs t _ d2 s2).1, hcontent, hstat2, htarget, ← s1'.1]

/-! ## Example codec -/

theorem Doc.all_keys_iff (m : Doc) (K : List String) :
    m.all (fun e => decide (e.1 ∈ K)) = true ↔ ∀ k, k ∉ K → Doc.get m k = none := by
  induction m with
  | nil => simp [Doc.get]
  | cons e rest ih =>
    obtain ⟨k', v'⟩ := e
    simp only [List.all_cons, Bool.and_eq_true, decide_eq_true_eq, ih]
    constructor
    · rintro ⟨hk', hrest⟩ k hk
      have hne : k' ≠ k := fun h => hk (h ▸ hk')
      simp [Doc.get, hne, hrest k hk]
    · intro h
      have hk' : k' ∈ K := by
        by_contra hn
        have := h k' hn
        simp [Doc.get] at this
      refine ⟨hk', ?_⟩
      intro k hk
      have hne : k' ≠ k := fun h => hk (h ▸ hk')
      have := h k hk
      simpa [Doc.get, hne] using this

theorem isStr_same (d d' : Doc) (h : Doc.Same d d') (k s : String) :
    isStr (Doc.get d k) s = isStr (Doc.get d' k) s := by
  rcases Doc.same_get d d' h k with ⟨h1, h2⟩ | ⟨v, v', h1, h2, hv⟩
  · rw [h1, h2]
  · rw [h1, h2]
    cases hv with
    | refl => rfl
    | arr _ _ _ _ => rfl
    | obj _ _ _ _ => rfl

theorem isNordSettings_same (m m' : Doc) (h : Doc.Same m m') :
    isNordSettings m = isNordSettings m' := by
  unfold isNordSettings
  rw [isStr_same m m' h, isStr_same m m' h, isStr_same m m' h]
  congr 3
  rw [Bool.eq_iff_iff, Doc.all_keys_iff, Doc.all_keys_iff]
  obtain ⟨hk, _⟩ := (Doc.same_iff m m').mp h
  constructor
  · intro hm k hkK
    exact (hk k).mp (hm k hkK)
  · intro hm k hkK
    exact (hk k).mpr (hm k hkK)

theorem isStr_eq_true (v : Option Value) (s : String) (h : isStr v s = true) :
    v = some (Value.str s) := by
  unfold isStr at h
  split at h
  · simp only [beq_iff_eq] at h
    rw [h]
  · cases h

theorem same_of_isNordSettings (m : Doc) (h : isNordSettings m = true) :
    Doc.Same nordSettings m := by
  unfold isNordSettings at h
  simp only [Bool.and_eq_true] at h
  obtain ⟨⟨⟨hall, h1⟩, h2⟩, h3⟩ := h
  rw [Doc.all_keys_iff] at hall
  have h1 := isStr_eq_true _ _ h1
  have h2 := isStr_eq_true _ _ h2
  have h3 := isStr_eq_true _ _ h3
  apply Doc.same_of_get_eq
  intro k
  by_cases k1 : k = "workbench.colorTheme"
  · rw [k1, h1]
    rfl
  · by_cases k2 : k = "workbench.iconTheme"
    · rw [k2, h2]
      rfl
    · by_cases k3 : k = "workbench.productIconTheme"
      · rw [k3, h3]
        rfl
      · rw [hall k (by simp [k1, k2, k3])]
        simp [nordSettings, Doc.get, Ne.symm k1, Ne.symm k2, Ne.symm k3]

theorem nordOnlyLibs_codecReadsBack :
    codecReadsBack nordOnlyLibs.jsonMarshalIndent
      (fun x => nordOnlyLibs.jsonUnmarshal (stripJSONComments x)) := by
  constructor
  · intro m m' h
    simp only [nordOnlyLibs]
    rw [isNordSettings_same m m' h]
  · intro m x h
    simp only [nordOnlyLibs] at h ⊢
    by_cases hn : isNordSettings m = true
    · simp only [hn, if_true, Except.ok.injEq] at h
      subst h
      refine ⟨nordSettings, ?_, same_of_isNordSettings m hn⟩
      have : stripJSONComments "nord" = "nord" := by decide
      rw [this]
      rfl
    · simp [hn] at h

/-! ## Applying twice -/

/-- Counterexample to C3 as stated: the built-in theme Nord applied twice by
the Zed adapter to an existing, readable `settings.json` when the Nord
extension is not installed. Both calls return the error, the target is
unchanged, neither call writes a file, and afterwards there is no
`settings.json.backup`: not one backup file, none. -/
theorem zed_apply_twice_without_extension_leaves_no_backup :
    (exampleFS [("/home/u/.config/zed/settings.json", ⟨"\x7b\x7d", true⟩)]).readFile
        "/home/u/.config/zed/settings.json" = ReadResult.ok "\x7b\x7d"
    ∧ (exampleZed.Apply exampleLibs (GetBuiltInThemes.getD 0 default)
        (exampleFS [("/home/u/.config/zed/settings.json", ⟨"\x7b\x7d", true⟩)])).err
        = some "extension not installed"
    ∧ (exampleZed.Apply exampleLibs (GetBuiltInThemes.getD 0 default)
        (exampleZed.Apply exampleLibs (GetBuiltInThemes.getD 0 default)
          (exampleFS [("/home/u/.config/zed/settings.json", ⟨"\x7b\x7d", true⟩)])).fs).err
        = some "extension not installed"
    ∧ (exampleZed.Apply exampleLibs (GetBuiltInThemes.getD 0 default)
        (exampleFS [("/home/u/.config/zed/settings.json", ⟨"\x7b\x7d", true⟩)])).writes
      ++ (exampleZed.Apply exampleLibs (GetBuiltInThemes.getD 0 default)
        (exampleZed.Apply exampleLibs (GetBuiltInThemes.getD 0 default)
          (exampleFS [("/home/u/.config/zed/settings.json", ⟨"\x7b\x7d", true⟩)])).fs).writes = []
    ∧ (exampleZed.Apply exampleLibs (GetBuiltInThemes.getD 0 default)
        (exampleZed.Apply exampleLibs (GetBuiltInThemes.getD 0 default)
          (exampleFS [("/home/u/.config/zed/settings.json", ⟨"\x7b\x7d", true⟩)])).fs).fs.file
        "/home/u/.config/zed/settings.json.backup" = none := by
  decide

/-- Claim C3, amended. For every theme, every file system and each of the six
adapters, `Apply` followed by `Apply` on the file system the first left: the
target is after the second call what it was after the first; every
`os.WriteFile` of the two calls goes to the target or to `<path>.backup`, so
the adapter overwrites the one backup sibling and makes no second one; when
neither call wrote `<path>.backup` it is what it was before the first call, so
that a backup is there only if one was there already, and likewise the target
when neither call wrote it; and when the second call returns `nil` over a
target that was readable and not empty, the backup sibling exists and holds
the bytes of the target. The statement is about the target and its backup
sibling: the programs an `Apply` starts (`git clone`, `PlistBuddy`, the
extension installer of the editor) are taken not to touch these two paths, and
what they do to other files is no part of it. For the three adapters that
decode the target the codec is assumed to read back what it wrote, and for
Alacritty the paths of the theme repository are assumed to be other paths than
the target and its backup. -/
theorem apply_twice_settles_target_with_one_backup :
    (∀ (libs : Libs) (p : String) (t : Theme) (fs : FS),
      codecReadsBack libs.jsonMarshalIndent
        (fun x => libs.jsonUnmarshal (stripJSONComments x)) →
      applyTwiceSettles (VSCodeIntegration.Apply libs p t) fs p)
    ∧ (∀ (z : ZedIntegration) (libs : Libs) (t : Theme) (fs : FS),
      codecReadsBack libs.jsonMarshalIndent
        (fun x => libs.jsonUnmarshal (zedStripJSONComments x)) →
      applyTwiceSettles (z.Apply libs t) fs z.configPath)
    ∧ (∀ (a : AlacrittyIntegration) (libs : Libs) (tools : Tools) (t : Theme) (fs : FS),
      libs.filepathJoin [a.themesPath, "alacritty"] ≠ a.themesPath →
      alacrittyOfficialThemePath a libs t ≠ a.configPath →
      alacrittyOfficialThemePath a libs t ≠ a.configPath ++ ".backup" →
      codecReadsBack (alacrittyEncode a libs) (alacrittyDecode a libs) →
      applyTwiceSettles (a.Apply libs tools t) fs a.configPath)
    ∧ (∀ (libs : Libs) (p : String) (t : Theme) (fs : FS),
      applyTwiceSettles (StarshipIntegration.Apply libs p t) fs p)
    ∧ (∀ (libs : Libs) (details : String → String) (themesPath : String) (t : Theme) (fs : FS),
      applyTwiceSettles (WarpIntegration.Apply libs details themesPath t) fs
        (libs.filepathJoin [themesPath, SanitizeFileName t.Name ++ ".yaml"]))
    ∧ (∀ (libs : Libs) (tools : Tools) (preset : Theme → String) (themesPath : String)
        (t : Theme) (fs : FS),
      applyTwiceSettles (ITerm2Integration.Apply libs tools preset themesPath t) fs
        (libs.filepathJoin [themesPath, SanitizeFileName t.Name ++ ".itermcolors"])) := by
  refine ⟨?_, ?_, ?_, ?_, ?_, ?_⟩
  · intro libs p t fs hc
    exact applyTwiceSettles_of_shape _ fs p (vscodeApply_hasShape libs p t fs)
      (vscodeApply_hasShape libs p t _) (vscodeApply_again libs p t fs hc.1 hc.2)
  · intro z libs t fs hc
    exact applyTwiceSettles_of_shape _ fs _ (zedApply_hasShape z libs t fs)
      (zedApply_hasShape z libs t _) (zedApply_again z libs t fs hc.1 hc.2)
  · intro a libs tools t fs hrepo hotp hotpb hc
    exact applyTwiceSettles_of_shape _ fs _ (alacrittyApply_hasShape a libs tools t fs)
      (alacrittyApply_hasShape a libs tools t _)
      (alacrittyApply_again a libs tools t fs hrepo hotp hotpb hc.1 hc.2)
  · intro libs p t fs
    exact applyTwiceSettles_of_shape _ fs p (starshipApply_hasShape libs p t fs)
      (starshipApply_hasShape libs p t _) (starshipApply_again libs p t fs)
  · intro libs details themesPath t fs
    exact applyTwiceSettles_of_shape _ fs _ (warpApply_hasShape libs details themesPath t fs)
      (warpApply_hasShape libs details themesPath t _)
      (warpApply_again libs details themesPath t fs)
  · intro libs tools preset themesPath t fs
    exact applyTwiceSettles_of_shape _ fs _
      (iterm2Apply_hasShape libs tools preset themesPath t fs)
      (iterm2Apply_hasShape libs tools preset themesPath t _)
      (iterm2Apply_again libs tools preset themesPath t fs)

/-- Witness for the amended C3: the VS Code adapter with a codec that reads
back what it wrote, applying Nord twice where there is no `settings.json`
yet. The first call creates the file without a backup, the second backs it up
and writes the same bytes again. -/
theorem apply_twice_settles_target_with_one_backup_witness :
    codecReadsBack nordOnlyLibs.jsonMarshalIndent
        (fun x => nordOnlyLibs.jsonUnmarshal (stripJSONComments x))
    ∧ applyTwiceSettles
        (VSCodeIntegration.Apply nordOnlyLibs "/home/u/settings.json"
          (GetBuiltInThemes.getD 0 default))
        (exampleFS []) "/home/u/settings.json"
    ∧ (VSCodeIntegration.Apply nordOnlyLibs "/home/u/settings.json"
        (GetBuiltInThemes.getD 0 default) (exampleFS [])).writes = ["/home/u/settings.json"]
    ∧ (VSCodeIntegration.Apply nordOnlyLibs "/home/u/settings.json"
        (GetBuiltInThemes.getD 0 default)
        (VSCodeIntegration.Apply nordOnlyLibs "/home/u/settings.json"
          (GetBuiltInThemes.getD 0 default) (exampleFS [])).fs).writes
        = ["/home/u/settings.json.backup", "/home/u/settings.json"]
    ∧ (VSCodeIntegration.Apply nordOnlyLibs "/home/u/settings.json"
        (GetBuiltInThemes.getD 0 default)
        (VSCodeIntegration.Apply nordOnlyLibs "/home/u/settings.json"
          (GetBuiltInThemes.getD 0 default) (exampleFS [])).fs).fs.file "/home/u/settings.json"
        = some ⟨"nord", true⟩ :=
  ⟨nordOnlyLibs_codecReadsBack,
    apply_twice_settles_target_with_one_backup.1 nordOnlyLibs "/home/u/settings.json"
      (GetBuiltInThemes.getD 0 default) (exampleFS []) nordOnlyLibs_codecReadsBack,
    by decide, by decide, by decide⟩

/-! ## The apply command -/

/-- With every selected index in range the loop of `applyThemes` does not
panic; it appends one report line per selected entry, in the order of the
entries, each made from the name of its target, and asks every selected
target, in that order, whether it is installed. -/
theorem applyLoop_spec {W : Type} (apps : List (AppIntegration W)) (theme : Theme)
    (entries : List (Nat × Bool)) (w : W)
    (hidx : ∀ e ∈ entries, e.2 = true → e.1 < apps.length) :
    ∃ report calls w', applyLoop apps theme entries w = some (report, calls, w')
      ∧ report.map Prod.fst = (entries.filter (fun e => e.2)).map Prod.fst
      ∧ calls.filterMap Call.installedIdx = (entries.filter (fun e => e.2)).map Prod.fst
      ∧ (∀ idx line, (idx, line) ∈ report →
          ∃ app w'', apps[idx]? = some app
            ∧ (line = notInstalledLine (app.Name w'') ∨ line = successLine (app.Name w'')
                ∨ ∃ e, line = failedLine (app.Name w'') e)) := by
  induction entries generalizing w with
  | nil => exact ⟨[], [], w, rfl, rfl, rfl, by simp⟩
  | cons e rest ih =>
    obtain ⟨idx, selected⟩ := e
    have hrest : ∀ e ∈ rest, e.2 = true → e.1 < apps.length := fun e he =>
      hidx e (List.mem_cons_of_mem _ he)
    cases selected with
    | false =>
      obtain ⟨report, calls, w', h1, h2, h3, h4⟩ := ih w hrest
      exact ⟨report, calls, w', by simp [applyLoop, h1], by simp [h2], by simp [h3], h4⟩
    | true =>
      have hlt : idx < apps.length := hidx (idx, true) (List.mem_cons_self _ _) rfl
      have happ : apps[idx]? = some apps[idx] := List.getElem?_eq_getElem hlt
      by_cases hinst : (apps[idx]).IsInstalled w = true
      · obtain ⟨report, calls, w', h1, h2, h3, h4⟩ := ih ((apps[idx]).Apply theme w).2 hrest
        refine ⟨(idx, match ((apps[idx]).Apply theme w).1 with
            | some err => failedLine ((apps[idx]).Name ((apps[idx]).Apply theme w).2) err
            | Option.none => successLine ((apps[idx]).Name ((apps[idx]).Apply theme w).2)) :: report,
          Call.isInstalled idx :: Call.apply idx :: calls, w', ?_, ?_, ?_, ?_⟩
        · simp [applyLoop, happ, hinst, h1]
        · simp [h2]
        · simp [Call.installedIdx, h3]
        · intro i line hmem
          rcases List.mem_cons.mp hmem with heq | hin
          · cases heq
            refine ⟨apps[idx], ((apps[idx]).Apply theme w).2, happ, ?_⟩
            cases ((apps[idx]).Apply theme w).1 with
            | none => exact Or.inr (Or.inl rfl)
            | some err => exact Or.inr (Or.inr ⟨err, rfl⟩)
          · exact h4 i line hin
      · obtain ⟨report, calls, w', h1, h2, h3, h4⟩ := ih w hrest
        refine ⟨(idx, notInstalledLine ((apps[idx]).Name w)) :: report,
          Call.isInstalled idx :: calls, w', ?_, ?_, ?_, ?_⟩
        · simp [applyLoop, happ, hinst, h1]
        · simp [h2]
        · simp [Call.installedIdx, h3]
        · intro i line hmem
          rcases List.mem_cons.mp hmem with heq | hin
          · cases heq
            exact ⟨apps[idx], w, happ, Or.inl rfl⟩
          · exact h4 i line hin

/-- With no selected entry the loop of `applyThemes` reports nothing, calls no
adapter and leaves the world as it is. -/
theorem applyLoop_none_selected {W : Type} (apps : List (AppIntegration W)) (theme : Theme)
    (entries : List (Nat × Bool)) (w : W) (h : ∀ e ∈ entries, e.2 = false) :
    applyLoop apps theme entries w = some ([], [], w) := by
  induction entries with
  | nil => rfl
  | cons e rest ih =>
    obtain ⟨idx, selected⟩ := e
    have hsel : selected = false := h (idx, selected) (List.mem_cons_self _ _)
    subst hsel
    simp [applyLoop, ih (fun e he => h e (List.mem_cons_of_mem _ he))]

theorem findVSCodeSelected_none_selected {W : Type} (apps : List (AppIntegration W)) (w : W)
    (entries : List (Nat × Bool)) (h : ∀ e ∈ entries, e.2 = false) :
    findVSCodeSelected apps w entries = some none := by
  induction entries with
  | nil => rfl
  | cons e rest ih =>
    obtain ⟨idx, selected⟩ := e
    have hsel : selected = false := h (idx, selected) (List.mem_cons_self _ _)
    subst hsel
    simp [findVSCodeSelected, ih (fun e he => h e (List.mem_cons_of_mem _ he))]

theorem selectedGet_selectedSet_self (s : List (Nat × Bool)) (idx : Nat) (v : Bool) :
    selectedGet (selectedSet s idx v) idx = v := by
  induction s with
  | nil => simp [selectedSet, selectedGet]
  | cons e rest ih =>
    obtain ⟨k, v'⟩ := e
    by_cases h : k = idx
    · simp [selectedSet, selectedGet, h]
    · simp [selectedSet, selectedGet, h, ih]

/-- A confirm in the target-selection state that returns an apply command
returns it for the selection, the targets and the theme of the model. -/
theorem updateEnter_applyThemes_model {W : Type} (m m' cmdModel : model W)
    (entries : List (Nat × Bool)) (w w1 : W) (hs : m.state = State.selectingApps)
    (h : Update m (Msg.key "enter") entries w = some (m', Cmd.applyThemes cmdModel, w1)) :
    cmdModel.selectedApps = m.selectedApps ∧ cmdModel.apps = m.apps
      ∧ cmdModel.themes = m.themes ∧ cmdModel.selectedTheme = m.selectedTheme := by
  have hk1 : ¬ (("enter" : String) = "ctrl+c" ∨ ("enter" : String) = "q") := by decide
  have hk2 : ¬ (("enter" : String) = "up" ∨ ("enter" : String) = "k") := by decide
  have hk3 : ¬ (("enter" : String) = "down" ∨ ("enter" : String) = "j") := by decide
  simp only [Update, hk1, hk2, hk3, if_false, if_true] at h
  unfold updateEnter at h
  simp only [hs] at h
  cases hf : findVSCodeSelected m.apps w entries with
  | none => simp [hf] at h
  | some found =>
    cases found with
    | none =>
      simp only [hf, Option.some.injEq, Prod.mk.injEq, Cmd.applyThemes.injEq] at h
      obtain ⟨_, h2, _⟩ := h
      subst h2
      exact ⟨rfl, rfl, rfl, rfl⟩
    | some vscodeIdx =>
      simp only [hf] at h
      by_cases hv : m.vscodeVariants.length > 1
      · rw [if_pos hv] at h
        simp at h
      · rw [if_neg hv] at h
        by_cases hv1 : m.vscodeVariants.length = 1
        · rw [if_pos hv1] at h
          obtain ⟨w2, _, h2⟩ := Option.map_eq_some'.mp h
          simp only [Prod.mk.injEq, Cmd.applyThemes.injEq] at h2
          obtain ⟨_, h3, _⟩ := h2
          subst h3
          exact ⟨rfl, rfl, rfl, rfl⟩
        · rw [if_neg hv1] at h
          simp only [Option.some.injEq, Prod.mk.injEq, Cmd.applyThemes.injEq] at h
          obtain ⟨_, h2, _⟩ := h
          subst h2
          exact ⟨rfl, rfl, rfl, rfl⟩

theorem applyLoop_cons_selected {W : Type} (apps : List (AppIntegration W)) (theme : Theme)
    (idx : Nat) (rest : List (Nat × Bool)) (w : W) (app : AppIntegration W)
    (happ : apps[idx]? = some app) :
    applyLoop apps theme ((idx, true) :: rest) w
      = if ¬ app.IsInstalled w then
          (applyLoop apps theme rest w).map fun r =>
            ((idx, notInstalledLine (app.Name w)) :: r.1, Call.isInstalled idx :: r.2.1, r.2.2)
        else
          (applyLoop apps theme rest (app.Apply theme w).2).map fun r =>
            ((idx, reportLine app theme w) :: r.1,
              Call.isInstalled idx :: Call.apply idx :: r.2.1, r.2.2) := by
  simp only [applyLoop, if_true, happ]
  by_cases hinst : app.IsInstalled w = true
  · rw [if_neg (not_not.mpr hinst), if_neg (not_not.mpr hinst)]
    unfold reportLine
    rw [if_neg (not_not.mpr hinst)]
  · rw [if_pos hinst, if_pos hinst]

/-- The loop of `applyThemes` on a sequence of entries in two parts: the
second part runs on the world the first part left, and the reports and the
calls follow each other. -/
theorem applyLoop_append {W : Type} (apps : List (AppIntegration W)) (theme : Theme)
    (pre post : List (Nat × Bool)) (w : W) :
    applyLoop apps theme (pre ++ post) w
      = (applyLoop apps theme pre w).bind fun r1 =>
          (applyLoop apps theme post r1.2.2).map fun r2 =>
            (r1.1 ++ r2.1, r1.2.1 ++ r2.2.1, r2.2.2) := by
  induction pre generalizing w with
  | nil =>
    simp only [List.nil_append, applyLoop, Option.some_bind, List.nil_append]
    cases applyLoop apps theme post w <;> rfl
  | cons e rest ih =>
    obtain ⟨idx, selected⟩ := e
    cases selected with
    | false =>
      have e1 : applyLoop apps theme ((idx, false) :: (rest ++ post)) w
          = applyLoop apps theme (rest ++ post) w := by
        simp only [applyLoop, Bool.false_eq_true, if_false]
      have e2 : applyLoop apps theme ((idx, false) :: rest) w = applyLoop apps theme rest w := by
        simp only [applyLoop, Bool.false_eq_true, if_false]
      rw [List.cons_append, e1, e2]
      exact ih w
    | true =>
      rw [List.cons_append]
      cases happ : apps[idx]? with
      | none =>
        have e1 : applyLoop apps theme ((idx, true) :: (rest ++ post)) w = none := by
          simp only [applyLoop, if_true, happ]
        have e2 : applyLoop apps theme ((idx, true) :: rest) w = none := by
          simp only [applyLoop, if_true, happ]
        rw [e1, e2]
        rfl
      | some app =>
        rw [applyLoop_cons_selected apps theme idx _ w app happ,
          applyLoop_cons_selected apps theme idx _ w app happ]
        by_cases hinst : app.IsInstalled w = true
        · rw [if_neg (not_not.mpr hinst), if_neg (not_not.mpr hinst), ih]
          cases applyLoop apps theme rest (app.Apply theme w).2 with
          | none => rfl
          | some r1 =>
            simp only [Option.some_bind, Option.map_some']
            cases applyLoop apps theme post r1.2.2 <;> simp
        · rw [if_pos hinst, if_pos hinst, ih]
          cases applyLoop apps theme rest w with
          | none => rfl
          | some r1 =>
            simp only [Option.some_bind, Option.map_some']
            cases applyLoop apps theme post r1.2.2 <;> simp

/-- The turn of one selected entry in the loop of `applyThemes`: whatever the
entries before did, the target is asked whether it is installed in the world
they left, its `Apply` is called exactly when it says yes, and its report line
is the line of its own outcome. -/
theorem applyLoop_turn {W : Type} (apps : List (AppIntegration W)) (theme : Theme)
    (pre post : List (Nat × Bool)) (idx : Nat) (w : W)
    (report : List (Nat × String)) (calls : List Call) (w' : W)
    (h : applyLoop apps theme (pre ++ (idx, true) :: post) w = some (report, calls, w')) :
    ∃ app report1 calls1 w1 report2 calls2,
      apps[idx]? = some app
      ∧ applyLoop apps theme pre w = some (report1, calls1, w1)
      ∧ applyLoop apps theme post (if app.IsInstalled w1 then (app.Apply theme w1).2 else w1)
          = some (report2, calls2, w')
      ∧ report = report1 ++ (idx, reportLine app theme w1) :: report2
      ∧ calls = calls1
          ++ (Call.isInstalled idx :: (if app.IsInstalled w1 then [Call.apply idx] else []))
          ++ calls2 := by
  rw [applyLoop_append] at h
  obtain ⟨r1, hr1, h⟩ := Option.bind_eq_some.mp h
  obtain ⟨r2, hr2, h⟩ := Option.map_eq_some'.mp h
  obtain ⟨report1, calls1, w1⟩ := r1
  obtain ⟨report2', calls2', w2⟩ := r2
  simp only [Prod.mk.injEq] at h
  obtain ⟨hrep, hcalls, hw⟩ := h
  cases happ : apps[idx]? with
  | none => simp [applyLoop, happ] at hr2
  | some app =>
    rw [applyLoop_cons_selected apps theme idx _ w1 app happ] at hr2
    by_cases hinst : app.IsInstalled w1 = true
    · rw [if_neg (not_not.mpr hinst)] at hr2
      obtain ⟨r3, hr3, h3⟩ := Option.map_eq_some'.mp hr2
      obtain ⟨report3, calls3, w3⟩ := r3
      simp only [Prod.mk.injEq] at h3
      obtain ⟨h3a, h3b, h3c⟩ := h3
      refine ⟨app, report1, calls1, w1, report3, calls3, rfl, hr1, ?_, ?_, ?_⟩
      · rw [if_pos hinst, hr3, ← hw, ← h3c]
      · rw [← hrep, ← h3a]
      · rw [← hcalls, ← h3b, if_pos hinst]
        simp
    · rw [if_pos hinst] at hr2
      obtain ⟨r3, hr3, h3⟩ := Option.map_eq_some'.mp hr2
      obtain ⟨report3, calls3, w3⟩ := r3
      simp only [Prod.mk.injEq] at h3
      obtain ⟨h3a, h3b, h3c⟩ := h3
      refine ⟨app, report1, calls1, w1, report3, calls3, rfl, hr1, ?_, ?_, ?_⟩
      · rw [if_neg hinst, hr3, ← hw, ← h3c]
      · rw [← hrep, ← h3a]
        unfold reportLine
        rw [if_pos hinst]
      · rw [← hcalls, ← h3b, if_neg hinst]
        simp

/-- Claim C8. The apply command of a model, run on the entries of
`selectedApps` in any order, with the theme index and the selected indices in
range: it does not panic and sends the completion message with one report line
per entry whose flag is true, each line made from the name of its target; every
selected target is asked whether it is installed, whatever `Apply` returned
for the others. At the turn of each selected entry, whatever the entries
before it did and reported, the target is asked whether it is installed in the
world they left, its `Apply` is called exactly when it says yes, its report
line is the line of its own outcome, and the loop goes on with the entries
after it; so a target that is installed in every world has its `Apply` called
whatever the others returned. The completion message puts the model in the
`complete` state with that report; with no flag true the report is empty and
no adapter is called. A confirm in the target-selection state that returns the
apply command returns it for the selection of the model, and does so at once
when VS Code is not among the selected targets. Toggling a target twice
restores its flag. -/
theorem applyThemes_reports_every_selected_target {W : Type} (m : model W)
    (entries : List (Nat × Bool)) (w : W) (hentries : entries.Perm m.selectedApps)
    (htheme : m.selectedTheme < m.themes.length)
    (hidx : ∀ e ∈ m.selectedApps, e.2 = true → e.1 < m.apps.length) :
    ∃ report calls w',
      applyThemes m entries w
          = some (Msg.applyCompleteMsg (report.map Prod.snd) none, calls, w')
      ∧ (report.map Prod.fst).Perm ((m.selectedApps.filter (fun e => e.2)).map Prod.fst)
      ∧ (∀ idx line, (idx, line) ∈ report →
          ∃ app w'', m.apps[idx]? = some app
            ∧ (line = notInstalledLine (app.Name w'') ∨ line = successLine (app.Name w'')
                ∨ ∃ e, line = failedLine (app.Name w'') e))
      ∧ (calls.filterMap Call.installedIdx).Perm
          ((m.selectedApps.filter (fun e => e.2)).map Prod.fst)
      ∧ (∀ pre idx post, entries = pre ++ (idx, true) :: post →
          ∃ app report1 calls1 w1 report2 calls2,
            m.apps[idx]? = some app
            ∧ applyLoop m.apps (m.themes[m.selectedTheme]) pre w = some (report1, calls1, w1)
            ∧ applyLoop m.apps (m.themes[m.selectedTheme]) post
                (if app.IsInstalled w1 then (app.Apply (m.themes[m.selectedTheme]) w1).2 else w1)
                = some (report2, calls2, w')
            ∧ report = report1 ++ (idx, reportLine app (m.themes[m.selectedTheme]) w1) :: report2
            ∧ calls = calls1
                ++ (Call.isInstalled idx :: (if app.IsInstalled w1 then [Call.apply idx] else []))
                ++ calls2)
      ∧ (∀ idx app, (idx, true) ∈ m.selectedApps → m.apps[idx]? = some app →
          (∀ w0, app.IsInstalled w0 = true) →
          Call.apply idx ∈ calls
            ∧ ∃ w1, (idx, reportLine app (m.themes[m.selectedTheme]) w1) ∈ report
              ∧ reportLine app (m.themes[m.selectedTheme]) w1 ≠ notInstalledLine (app.Name w1))
      ∧ (∀ entries2, Update m (Msg.applyCompleteMsg (report.map Prod.snd) none) entries2 w'
          = some ({ m with state := State.complete, results := report.map Prod.snd, err := none },
              Cmd.none, w'))
      ∧ ((∀ e ∈ m.selectedApps, e.2 = false) → report = [] ∧ calls = [] ∧ w' = w)
      ∧ (∀ m' cmdModel w1, m.state = State.selectingApps →
          Update m (Msg.key "enter") entries w = some (m', Cmd.applyThemes cmdModel, w1) →
          cmdModel.selectedApps = m.selectedApps ∧ cmdModel.apps = m.apps
            ∧ cmdModel.themes = m.themes ∧ cmdModel.selectedTheme = m.selectedTheme)
      ∧ (m.state = State.selectingApps → findVSCodeSelected m.apps w entries = some none →
          Update m (Msg.key "enter") entries w = some (m, Cmd.applyThemes m, w))
      ∧ (∀ c, selectedGet (selectedSet (selectedSet m.selectedApps c (!(selectedGet m.selectedApps c)))
            c (!(selectedGet (selectedSet m.selectedApps c (!(selectedGet m.selectedApps c))) c))) c
          = selectedGet m.selectedApps c) := by
  have hidx' : ∀ e ∈ entries, e.2 = true → e.1 < m.apps.length := fun e he =>
    hidx e (hentries.subset he)
  have hth : m.themes[m.selectedTheme]? = some m.themes[m.selectedTheme] :=
    List.getElem?_eq_getElem htheme
  obtain ⟨report, calls, w', h1, h2, h3, h4⟩ :=
    applyLoop_spec m.apps (m.themes[m.selectedTheme]) entries w hidx'
  have hperm : ((entries.filter (fun e => e.2)).map Prod.fst).Perm
      ((m.selectedApps.filter (fun e => e.2)).map Prod.fst) :=
    (hentries.filter _).map _
  have hturn : ∀ pre idx post, entries = pre ++ (idx, true) :: post →
      ∃ app report1 calls1 w1 report2 calls2,
        m.apps[idx]? = some app
        ∧ applyLoop m.apps (m.themes[m.selectedTheme]) pre w = some (report1, calls1, w1)
        ∧ applyLoop m.apps (m.themes[m.selectedTheme]) post
            (if app.IsInstalled w1 then (app.Apply (m.themes[m.selectedTheme]) w1).2 else w1)
            = some (report2, calls2, w')
        ∧ report = report1 ++ (idx, reportLine app (m.themes[m.selectedTheme]) w1) :: report2
        ∧ calls = calls1
            ++ (Call.isInstalled idx :: (if app.IsInstalled w1 then [Call.apply idx] else []))
            ++ calls2 := by
    intro pre idx post hsplit
    rw [hsplit] at h1
    exact applyLoop_turn m.apps _ pre post idx w report calls w' h1
  refine ⟨report, calls, w', ?_, h2 ▸ hperm, h4, h3 ▸ hperm, hturn, ?_, ?_, ?_, ?_, ?_, ?_⟩
  · simp [applyThemes, hth, h1]
  · intro idx app hmem happ hinst
    obtain ⟨pre, post, hsplit⟩ := List.append_of_mem (hentries.symm.subset hmem)
    obtain ⟨app', report1, calls1, w1, report2, calls2, happ', _, _, hrep, hcalls⟩ :=
      hturn pre idx post hsplit
    rw [happ] at happ'
    cases happ'
    refine ⟨?_, w1, ?_, ?_⟩
    · rw [hcalls, if_pos (hinst w1)]
      simp
    · rw [hrep]
      simp
    · unfold reportLine
      rw [if_neg (not_not.mpr (hinst w1))]
      cases (app.Apply (m.themes[m.selectedTheme]) w1).1 with
      | none =>
        intro h
        have := congrArg String.data h
        simp [successLine, notInstalledLine] at this
      | some err =>
        intro h
        have := congrArg String.data h
        simp [failedLine, notInstalledLine] at this
  · intro entries2
    rfl
  · intro hnone
    have hn : ∀ e ∈ entries, e.2 = false := fun e he => hnone e (hentries.subset he)
    rw [applyLoop_none_selected m.apps _ entries w hn] at h1
    simp only [Option.some.injEq, Prod.mk.injEq] at h1
    exact ⟨h1.1.symm, h1.2.1.symm, h1.2.2.symm⟩
  · intro m' cmdModel w1 hs h
    exact updateEnter_applyThemes_model m m' cmdModel entries w w1 hs h
  · intro hs hf
    have hk1 : ¬ (("enter" : String) = "ctrl+c" ∨ ("enter" : String) = "q") := by decide
    have hk2 : ¬ (("enter" : String) = "up" ∨ ("enter" : String) = "k") := by decide
    have hk3 : ¬ (("enter" : String) = "down" ∨ ("enter" : String) = "j") := by decide
    simp only [Update, hk1, hk2, hk3, if_false, if_true]
    unfold updateEnter
    simp only [hs, hf]
  · intro c
    rw [selectedGet_selectedSet_self, selectedGet_selectedSet_self]
    simp

/-- Witness for C8: three selected targets, visited in the order 0, 1, 2: the
first fails in `Apply`, the second is not installed, the third is installed.
The report has the three lines, and the failure of Alacritty did not keep the
`Apply` of Starship from being called. -/
theorem applyThemes_reports_every_selected_target_witness :
    (List.Perm [((0 : Nat), true), (1, true), (2, true)] exampleModel.selectedApps
      ∧ exampleModel.selectedTheme < exampleModel.themes.length
      ∧ ∀ e ∈ exampleModel.selectedApps, e.2 = true → e.1 < exampleModel.apps.length)
    ∧ (∃ (report : List (Nat × String)) (calls : List Call) (w' : List String),
        applyThemes exampleModel [(0, true), (1, true), (2, true)] []
          = some (Msg.applyCompleteMsg (report.map Prod.snd) none, calls, w')
        ∧ (report.map Prod.fst).Perm [0, 1, 2]
        ∧ Call.apply 2 ∈ calls)
    ∧ applyThemes exampleModel [(0, true), (1, true), (2, true)] []
        = some (Msg.applyCompleteMsg
            [failedLine "Alacritty" "failed to read config", notInstalledLine "Warp",
              successLine "Starship"] none,
            [Call.isInstalled 0, Call.apply 0, Call.isInstalled 1, Call.isInstalled 2,
              Call.apply 2],
            ["Alacritty", "Starship"]) := by
  have hp : List.Perm [((0 : Nat), true), (1, true), (2, true)] exampleModel.selectedApps := by
    decide
  have ht : exampleModel.selectedTheme < exampleModel.themes.length := by decide
  have hi : ∀ e ∈ exampleModel.selectedApps, e.2 = true → e.1 < exampleModel.apps.length := by
    decide
  refine ⟨⟨hp, ht, hi⟩, ?_, by rfl⟩
  obtain ⟨report, calls, w', h1, h2, _, _, _, h6, _⟩ :=
    applyThemes_reports_every_selected_target exampleModel [(0, true), (1, true), (2, true)] []
      hp ht hi
  exact ⟨report, calls, w', h1, h2,
    (h6 2 (exampleApp "Starship" true none) (by decide) rfl (fun _ => rfl)).1⟩

/-! ## Targets that are not installed -/

/-- For a target that never reports itself installed and whose index is the
key of at most one entry: the loop of `applyThemes` never calls its `Apply`,
and it has exactly one report line, the not-installed one, when its entry is
selected, and none otherwise. -/
theorem applyLoop_not_installed {W : Type} (apps : List (AppIntegration W)) (theme : Theme)
    (idx : Nat) (app : AppIntegration W) (happ : apps[idx]? = some app)
    (hnot : ∀ w, app.IsInstalled w = false) (entries : List (Nat × Bool)) (w : W)
    (hkeys : (entries.map Prod.fst).Nodup)
    (report : List (Nat × String)) (calls : List Call) (w' : W)
    (h : applyLoop apps theme entries w = some (report, calls, w')) :
    Call.apply idx ∉ calls
      ∧ ((idx, true) ∈ entries →
          ∃ wAt, report.filter (fun r => decide (r.1 = idx))
            = [(idx, notInstalledLine (app.Name wAt))])
      ∧ ((idx, true) ∉ entries → report.filter (fun r => decide (r.1 = idx)) = []) := by
  induction entries generalizing w report calls w' with
  | nil =>
    simp only [applyLoop, Option.some.injEq, Prod.mk.injEq] at h
    obtain ⟨rfl, rfl, _⟩ := h
    simp
  | cons e rest ih =>
    obtain ⟨i, selected⟩ := e
    simp only [List.map_cons, List.nodup_cons] at hkeys
    obtain ⟨hi, hrest⟩ := hkeys
    have hnotin : ∀ b, i = idx → (idx, b) ∉ rest := by
      intro b hib hmem
      apply hi
      rw [hib]
      exact List.mem_map.mpr ⟨(idx, b), hmem, rfl⟩
    cases selected with
    | false =>
      simp only [applyLoop, Bool.false_eq_true, if_false] at h
      obtain ⟨h1, h2, h3⟩ := ih w hrest report calls w' h
      refine ⟨h1, ?_, ?_⟩
      · intro hm
        rcases List.mem_cons.mp hm with heq | hin
        · simp at heq
        · exact h2 hin
      · intro hm
        exact h3 (fun hin => hm (List.mem_cons_of_mem _ hin))
    | true =>
      simp only [applyLoop, if_true] at h
      cases hget : apps[i]? with
      | none => simp [hget] at h
      | some app' =>
        simp only [hget] at h
        by_cases hinst : app'.IsInstalled w = true
        · have hne : i ≠ idx := by
            rintro rfl
            rw [happ] at hget
            cases hget
            rw [hnot w] at hinst
            cases hinst
          simp only [hinst, not_true_eq_false, if_false] at h
          obtain ⟨r, hr, hreq⟩ := Option.map_eq_some'.mp h
          obtain ⟨report0, calls0, w0⟩ := r
          simp only [Prod.mk.injEq] at hreq
          obtain ⟨rfl, rfl, rfl⟩ := hreq
          obtain ⟨h1, h2, h3⟩ := ih _ hrest report0 calls0 w0 hr
          refine ⟨?_, ?_, ?_⟩
          · simp [h1, hne, Ne.symm hne]
          · intro hm
            rcases List.mem_cons.mp hm with heq | hin
            · simp only [Prod.mk.injEq] at heq
              exact absurd heq.1.symm hne
            · obtain ⟨wAt, hw⟩ := h2 hin
              exact ⟨wAt, by simp [List.filter, hne, hw]⟩
          · intro hm
            have := h3 (fun hin => hm (List.mem_cons_of_mem _ hin))
            simp [List.filter, hne, this]
        · simp only [hinst, not_false_eq_true, if_true] at h
          obtain ⟨r, hr, hreq⟩ := Option.map_eq_some'.mp h
          obtain ⟨report0, calls0, w0⟩ := r
          simp only [Prod.mk.injEq] at hreq
          obtain ⟨rfl, rfl, rfl⟩ := hreq
          obtain ⟨h1, h2, h3⟩ := ih _ hrest report0 calls0 w0 hr
          by_cases hii : i = idx
          · subst hii
            rw [happ] at hget
            cases hget
            refine ⟨by simp [h1], ?_, ?_⟩
            · intro _
              refine ⟨w, ?_⟩
              have := h3 (hnotin true rfl)
              simp [List.filter, this]
            · intro hm
              exact absurd (List.mem_cons_self _ _) hm
          · refine ⟨by simp [h1], ?_, ?_⟩
            · intro hm
              rcases List.mem_cons.mp hm with heq | hin
              · simp only [Prod.mk.injEq] at heq
                exact absurd heq.1.symm hii
              · obtain ⟨wAt, hw⟩ := h2 hin
                exact ⟨wAt, by simp [List.filter, hii, hw]⟩
            · intro hm
              have := h3 (fun hin => hm (List.mem_cons_of_mem _ hin))
              simp [List.filter, hii, this]

/-- Claim C9. For a selected target whose `IsInstalled` returns false,
`applyThemes` adds exactly one report line for it, the not-installed one, and
never calls its `Apply`; at its turn in the loop, whenever its `IsInstalled`
answers false there, the only call made is that `IsInstalled` and the world
is handed on unchanged to the remaining targets. -/
theorem applyThemes_skips_target_not_installed {W : Type} (m : model W)
    (entries : List (Nat × Bool)) (w : W) (idx : Nat) (app : AppIntegration W)
    (hentries : entries.Perm m.selectedApps)
    (hkeys : (m.selectedApps.map Prod.fst).Nodup)
    (htheme : m.selectedTheme < m.themes.length)
    (hidx : ∀ e ∈ m.selectedApps, e.2 = true → e.1 < m.apps.length)
    (hsel : (idx, true) ∈ m.selectedApps) (happ : m.apps[idx]? = some app)
    (hnot : ∀ w, app.IsInstalled w = false) :
    (∃ (report : List (Nat × String)) (calls : List Call) (w' : W),
      applyLoop m.apps (m.themes[m.selectedTheme]) entries w = some (report, calls, w')
      ∧ applyThemes m entries w
          = some (Msg.applyCompleteMsg (report.map Prod.snd) none, calls, w')
      ∧ Call.apply idx ∉ calls
      ∧ ∃ wAt, report.filter (fun r => decide (r.1 = idx))
          = [(idx, notInstalledLine (app.Name wAt))])
    ∧ (∀ (theme : Theme) (rest : List (Nat × Bool)) (w0 : W), app.IsInstalled w0 = false →
        applyLoop m.apps theme ((idx, true) :: rest) w0
          = (applyLoop m.apps theme rest w0).map fun r =>
              ((idx, notInstalledLine (app.Name w0)) :: r.1, Call.isInstalled idx :: r.2.1, r.2.2)) := by
  have hidx' : ∀ e ∈ entries, e.2 = true → e.1 < m.apps.length := fun e he =>
    hidx e (hentries.subset he)
  have hth : m.themes[m.selectedTheme]? = some m.themes[m.selectedTheme] :=
    List.getElem?_eq_getElem htheme
  obtain ⟨report, calls, w', h1, _⟩ :=
    applyLoop_spec m.apps (m.themes[m.selectedTheme]) entries w hidx'
  have hk : (entries.map Prod.fst).Nodup := (hentries.map Prod.fst).nodup_iff.mpr hkeys
  obtain ⟨hc, hr, _⟩ := applyLoop_not_installed m.apps (m.themes[m.selectedTheme]) idx app happ
    hnot entries w hk report calls w' h1
  refine ⟨⟨report, calls, w', h1, by simp [applyThemes, hth, h1], hc,
    hr (hentries.symm.subset hsel)⟩, ?_⟩
  intro theme rest w0 h0
  simp [applyLoop, happ, h0]

/-- Witness for C9: Warp, the target of the example model that is not
installed. -/
theorem applyThemes_skips_target_not_installed_witness :
    (List.Perm [((2 : Nat), true), (0, true), (1, true)] exampleModel.selectedApps
      ∧ (exampleModel.selectedApps.map Prod.fst).Nodup
      ∧ exampleModel.selectedTheme < exampleModel.themes.length
      ∧ (∀ e ∈ exampleModel.selectedApps, e.2 = true → e.1 < exampleModel.apps.length)
      ∧ ((1 : Nat), true) ∈ exampleModel.selectedApps
      ∧ exampleModel.apps[1]? = some (exampleApp "Warp" false none)
      ∧ ∀ w, (exampleApp "Warp" false none).IsInstalled w = false)
    ∧ ∃ (report : List (Nat × String)) (calls : List Call) (w' : List String),
        applyThemes exampleModel [(2, true), (0, true), (1, true)] []
          = some (Msg.applyCompleteMsg (report.map Prod.snd) none, calls, w')
        ∧ Call.apply 1 ∉ calls
        ∧ ∃ wAt, report.filter (fun r => decide (r.1 = 1))
            = [(1, notInstalledLine ((exampleApp "Warp" false none).Name wAt))] := by
  have hp : List.Perm [((2 : Nat), true), (0, true), (1, true)] exampleModel.selectedApps := by
    decide
  have hk : (exampleModel.selectedApps.map Prod.fst).Nodup := by decide
  have ht : exampleModel.selectedTheme < exampleModel.themes.length := by decide
  have hi : ∀ e ∈ exampleModel.selectedApps, e.2 = true → e.1 < exampleModel.apps.length := by
    decide
  have hs : ((1 : Nat), true) ∈ exampleModel.selectedApps := by decide
  have ha : exampleModel.apps[1]? = some (exampleApp "Warp" false none) := rfl
  have hn : ∀ w, (exampleApp "Warp" false none).IsInstalled w = false := fun _ => rfl
  refine ⟨⟨hp, hk, ht, hi, hs, ha, hn⟩, ?_⟩
  obtain ⟨⟨report, calls, w', _, h2, h3, h4⟩, _⟩ :=
    applyThemes_skips_target_not_installed exampleModel [(2, true), (0, true), (1, true)] []
      1 (exampleApp "Warp" false none) hp hk ht hi hs ha hn
  exact ⟨report, calls, w', h2, h3, h4⟩

/-! ## Newlines and comment removal -/

theorem chSlash_ne_chLF : chSlash ≠ chLF := by decide
theorem chStar_ne_chLF : chStar ≠ chLF := by decide
theorem chQuote_ne_chLF : chQuote ≠ chLF := by decide

theorem newlineCount_eq_zero_of_all (lineEnd : Char → Bool) (hLF : lineEnd chLF = true)
    (body : List Char) (h : body.all (fun c => !lineEnd c) = true) : newlineCount body = 0 := by
  unfold newlineCount
  rw [List.count_eq_zero]
  intro hm
  have := List.all_eq_true.mp h chLF hm
  simp [hLF] at this

theorem newlineCount_append (a b : List Char) :
    newlineCount (a ++ b) = newlineCount a + newlineCount b := by
  simp [newlineCount]

theorem sourceText_append (pre post : List Segment) :
    sourceText (pre ++ post) = sourceText pre ++ sourceText post := by
  induction pre with
  | nil => rfl
  | cons s rest ih => simp [sourceText, ih]

theorem keptText_append (pre post : List Segment) :
    keptText (pre ++ post) = keptText pre ++ keptText post := by
  induction pre with
  | nil => rfl
  | cons s rest ih => simp [keptText, ih]

theorem newlineCount_cons_slash (s : List Char) : newlineCount (chSlash :: s) = newlineCount s := by
  have h : (chSlash == chLF) = false := by decide
  simp [newlineCount, List.count_cons, h]

theorem newlineCount_cons_star (s : List Char) : newlineCount (chStar :: s) = newlineCount s := by
  have h : (chStar == chLF) = false := by decide
  simp [newlineCount, List.count_cons, h]

theorem newlineCount_nil : newlineCount [] = 0 := rfl

/-- In a lexical reading, what is kept of an initial part has the newlines of
that part but the ones inside its block comments. -/
theorem newlineCount_kept_prefix (lineEnd : Char → Bool) (hLF : lineEnd chLF = true)
    (pre post : List Segment) (h : wellFormed lineEnd (pre ++ post) = true) :
    newlineCount (keptText pre) + blockCommentNewlines pre = newlineCount (sourceText pre) := by
  induction pre with
  | nil => rfl
  | cons s rest ih =>
    cases s with
    | plain c =>
      simp only [List.cons_append, wellFormed, Bool.and_eq_true] at h
      have := ih h.2
      simp only [keptText, sourceText, Segment.kept, Segment.text, blockCommentNewlines,
        newlineCount_append]
      omega
    | string body =>
      simp only [List.cons_append, wellFormed, Bool.and_eq_true] at h
      have := ih h.2
      simp only [keptText, sourceText, Segment.kept, Segment.text, blockCommentNewlines,
        newlineCount_append]
      omega
    | openString body =>
      simp only [List.cons_append, wellFormed, Bool.and_eq_true, List.isEmpty_iff] at h
      have hr : rest = [] := (List.append_eq_nil.mp h.2).1
      subst hr
      simp [keptText, sourceText, Segment.kept, Segment.text, blockCommentNewlines]
    | lineComment body nl =>
      simp only [List.cons_append, wellFormed, Bool.and_eq_true] at h
      have := ih h.2
      have hb := newlineCount_eq_zero_of_all lineEnd hLF body h.1.1
      have h2 : newlineCount (chSlash :: chSlash :: (body ++ [nl])) = newlineCount [nl] := by
        rw [newlineCount_cons_slash, newlineCount_cons_slash, newlineCount_append, hb]
        omega
      show newlineCount ([nl] ++ keptText rest) + blockCommentNewlines rest
        = newlineCount ((chSlash :: chSlash :: (body ++ [nl])) ++ sourceText rest)
      rw [newlineCount_append, newlineCount_append, h2]
      omega
    | openLineComment body =>
      simp only [List.cons_append, wellFormed, Bool.and_eq_true, List.isEmpty_iff] at h
      have hr : rest = [] := (List.append_eq_nil.mp h.2).1
      subst hr
      have hb := newlineCount_eq_zero_of_all lineEnd hLF body h.1
      simp only [keptText, sourceText, Segment.kept, Segment.text, blockCommentNewlines,
        List.append_nil, newlineCount_cons_slash, hb, newlineCount_nil]
    | blockComment body =>
      simp only [List.cons_append, wellFormed, Bool.and_eq_true] at h
      have := ih h.2
      have h2 : newlineCount (chSlash :: chStar :: (body ++ [chStar, chSlash]))
          = newlineCount body := by
        rw [newlineCount_cons_slash, newlineCount_cons_star, newlineCount_append,
          newlineCount_cons_star, newlineCount_cons_slash, newlineCount_nil]
        omega
      show newlineCount ([] ++ keptText rest) + (newlineCount body + blockCommentNewlines rest)
        = newlineCount ((chSlash :: chStar :: (body ++ [chStar, chSlash])) ++ sourceText rest)
      rw [newlineCount_append, newlineCount_append, h2, newlineCount_nil]
      omega
    | openBlockComment body =>
      simp only [List.cons_append, wellFormed, Bool.and_eq_true, List.isEmpty_iff] at h
      have hr : rest = [] := (List.append_eq_nil.mp h.2).1
      subst hr
      simp only [keptText, sourceText, Segment.kept, Segment.text, blockCommentNewlines,
        List.append_nil, newlineCount_cons_slash, newlineCount_cons_star, newlineCount_nil]
      omega


theorem stripJSONComments_segments (segs : List Segment)
    (h : wellFormed vscodeLineEnd segs = true) :
    stripJSONComments (String.mk (sourceText segs)) = String.mk (keptText segs) := by
  simp [stripJSONComments, vscodeScan_segments segs h]

theorem zedStripJSONComments_segments (segs : List Segment)
    (h : wellFormed zedLineEnd segs = true) :
    zedStripJSONComments (String.mk (sourceText segs)) = String.mk (keptText segs) := by
  simp [zedStripJSONComments, zedScan_segments segs h]

/-- Claim C11. For every lexical reading of an input, the output of both
`stripJSONComments` implementations has the newlines of the input but the
ones inside block comments: the count of the output plus the count inside
block comments is the count of the input (the newline that ends a line
comment is counted in the output). Every input has such a reading. -/
theorem stripJSONComments_newline_count :
    (∀ segs, wellFormed vscodeLineEnd segs = true →
        newlineCount (stripJSONComments (String.mk (sourceText segs))).data
            + blockCommentNewlines segs
          = newlineCount (sourceText segs))
    ∧ (∀ segs, wellFormed zedLineEnd segs = true →
        newlineCount (zedStripJSONComments (String.mk (sourceText segs))).data
            + blockCommentNewlines segs
          = newlineCount (sourceText segs))
    ∧ (∀ s : String, ∃ segs, wellFormed vscodeLineEnd segs = true ∧ sourceText segs = s.data
        ∧ newlineCount (stripJSONComments s).data + blockCommentNewlines segs
            = newlineCount s.data)
    ∧ (∀ s : String, ∃ segs, wellFormed zedLineEnd segs = true ∧ sourceText segs = s.data
        ∧ newlineCount (zedStripJSONComments s).data + blockCommentNewlines segs
            = newlineCount s.data) := by
  have hv : ∀ segs, wellFormed vscodeLineEnd segs = true →
      newlineCount (stripJSONComments (String.mk (sourceText segs))).data
          + blockCommentNewlines segs
        = newlineCount (sourceText segs) := by
    intro segs h
    rw [stripJSONComments_segments segs h]
    exact newlineCount_kept_prefix vscodeLineEnd (by decide) segs [] (by simpa using h)
  have hz : ∀ segs, wellFormed zedLineEnd segs = true →
      newlineCount (zedStripJSONComments (String.mk (sourceText segs))).data
          + blockCommentNewlines segs
        = newlineCount (sourceText segs) := by
    intro segs h
    rw [zedStripJSONComments_segments segs h]
    exact newlineCount_kept_prefix zedLineEnd (by decide) segs [] (by simpa using h)
  refine ⟨hv, hz, ?_, ?_⟩
  · intro s
    obtain ⟨segs, hwf, htext⟩ :=
      exists_segments_of_length vscodeLineEnd s.data.length s.data (Nat.le_refl _)
    refine ⟨segs, hwf, htext, ?_⟩
    have := hv segs hwf
    rw [htext] at this
    exact this
  · intro s
    obtain ⟨segs, hwf, htext⟩ :=
      exists_segments_of_length zedLineEnd s.data.length s.data (Nat.le_refl _)
    refine ⟨segs, hwf, htext, ?_⟩
    have := hz segs hwf
    rw [htext] at this
    exact this

/-- Witness for C11: a string, a line comment and a block comment over two
lines: the newline of the line comment is in the output, the one of the block
comment is not. -/
theorem stripJSONComments_newline_count_witness :
    wellFormed vscodeLineEnd
        [Segment.string "a//b".data, Segment.lineComment " c".data chLF,
          Segment.blockComment " d\n ".data, Segment.plain (Char.ofNat 125)] = true
      ∧ blockCommentNewlines
          [Segment.string "a//b".data, Segment.lineComment " c".data chLF,
            Segment.blockComment " d\n ".data, Segment.plain (Char.ofNat 125)] = 1
      ∧ newlineCount (sourceText
          [Segment.string "a//b".data, Segment.lineComment " c".data chLF,
            Segment.blockComment " d\n ".data, Segment.plain (Char.ofNat 125)]) = 2
      ∧ newlineCount (stripJSONComments (String.mk (sourceText
          [Segment.string "a//b".data, Segment.lineComment " c".data chLF,
            Segment.blockComment " d\n ".data, Segment.plain (Char.ofNat 125)]))).data
          + blockCommentNewlines
            [Segment.string "a//b".data, Segment.lineComment " c".data chLF,
              Segment.blockComment " d\n ".data, Segment.plain (Char.ofNat 125)]
        = newlineCount (sourceText
          [Segment.string "a//b".data, Segment.lineComment " c".data chLF,
            Segment.blockComment " d\n ".data, Segment.plain (Char.ofNat 125)]) :=
  ⟨by decide, by decide, by decide, stripJSONComments_newline_count.1 _ (by decide)⟩

/-- Counterexample to C12 as stated: a block comment over two lines before a
value. The input has two newlines and the value on its third line; the output
of both scanners has one newline and the value on its second line. -/
theorem stripJSONComments_block_comment_shifts_lines :
    newlineCount "/* a\n b */\n1".data = 2
    ∧ stripJSONComments "/* a\n b */\n1" = "\n1"
    ∧ zedStripJSONComments "/* a\n b */\n1" = "\n1"
    ∧ newlineCount (stripJSONComments "/* a\n b */\n1").data = 1
    ∧ newlineCount (zedStripJSONComments "/* a\n b */\n1").data = 1 := by
  decide

/-- Claim C12, amended. For every lexical reading of an input cut in two
parts, the output of both `stripJSONComments` implementations is what is kept
of the first part followed by what is kept of the second, and what is kept of
the first part has the newlines of that part but the ones inside its block
comments. So the text after the cut starts in the output on the line it has
in the input exactly when no block comment before the cut holds a newline, and
otherwise that many lines higher; with the cut at the end, the output has as
many newlines as the input exactly when no block comment holds one. -/
theorem stripJSONComments_lines_after_block_comments :
    (∀ pre post, wellFormed vscodeLineEnd (pre ++ post) = true →
        (stripJSONComments (String.mk (sourceText pre ++ sourceText post))).data
            = keptText pre ++ keptText post
        ∧ newlineCount (keptText pre) + blockCommentNewlines pre = newlineCount (sourceText pre)
        ∧ (newlineCount (keptText pre) = newlineCount (sourceText pre)
            ↔ blockCommentNewlines pre = 0))
    ∧ (∀ pre post, wellFormed zedLineEnd (pre ++ post) = true →
        (zedStripJSONComments (String.mk (sourceText pre ++ sourceText post))).data
            = keptText pre ++ keptText post
        ∧ newlineCount (keptText pre) + blockCommentNewlines pre = newlineCount (sourceText pre)
        ∧ (newlineCount (keptText pre) = newlineCount (sourceText pre)
            ↔ blockCommentNewlines pre = 0)) := by
  constructor
  · intro pre post h
    have hc := newlineCount_kept_prefix vscodeLineEnd (by decide) pre post h
    refine ⟨?_, hc, by omega⟩
    rw [← sourceText_append, stripJSONComments_segments _ h, keptText_append]
  · intro pre post h
    have hc := newlineCount_kept_prefix zedLineEnd (by decide) pre post h
    refine ⟨?_, hc, by omega⟩
    rw [← sourceText_append, zedStripJSONComments_segments _ h, keptText_append]

/-- Witness for the amended C12: the input of the counterexample, cut before
the value. -/
theorem stripJSONComments_lines_after_block_comments_witness :
    wellFormed vscodeLineEnd
        ([Segment.blockComment " a\n b ".data, Segment.plain chLF] ++ [Segment.plain '1']) = true
    ∧ String.mk (sourceText [Segment.blockComment " a\n b ".data, Segment.plain chLF]
        ++ sourceText [Segment.plain '1']) = "/* a\n b */\n1"
    ∧ (stripJSONComments (String.mk
          (sourceText [Segment.blockComment " a\n b ".data, Segment.plain chLF]
            ++ sourceText [Segment.plain '1']))).data
        = keptText [Segment.blockComment " a\n b ".data, Segment.plain chLF]
          ++ keptText [Segment.plain '1']
    ∧ newlineCount (keptText [Segment.blockComment " a\n b ".data, Segment.plain chLF]) + 1
        = newlineCount (sourceText [Segment.blockComment " a\n b ".data, Segment.plain chLF]) := by
  have h := stripJSONComments_lines_after_block_comments.1
    [Segment.blockComment " a\n b ".data, Segment.plain chLF] [Segment.plain '1'] (by decide)
  exact ⟨by decide, by decide, h.1, h.2.1⟩

/-! ## A target that is not a JSON object -/

/-- Claim C13, the failing input. A `settings.json` that holds the JSON value
`null`, which the decoder accepts, leaving the map nil. The VS Code `Apply`
and the Zed `Apply` (with the Nord extension installed) do not return a parse
error: they write `settings.json.backup` and then stop in the panic of the
assignment into the nil map. -/
theorem apply_on_null_settings_writes_backup_then_panics :
    exampleLibsNull.jsonUnmarshal (stripJSONComments "null") = Except.ok none
    ∧ (VSCodeIntegration.Apply exampleLibsNull "/home/u/settings.json"
        (GetBuiltInThemes.getD 0 default)
        (exampleFS [("/home/u/settings.json", ⟨"null", true⟩)])).err = some nilMapPanic
    ∧ (VSCodeIntegration.Apply exampleLibsNull "/home/u/settings.json"
        (GetBuiltInThemes.getD 0 default)
        (exampleFS [("/home/u/settings.json", ⟨"null", true⟩)])).writes
        = ["/home/u/settings.json.backup"]
    ∧ (VSCodeIntegration.Apply exampleLibsNull "/home/u/settings.json"
        (GetBuiltInThemes.getD 0 default)
        (exampleFS [("/home/u/settings.json", ⟨"null", true⟩)])).fs.file
        "/home/u/settings.json.backup" = some ⟨"null", true⟩
    ∧ exampleLibsNull.jsonUnmarshal (zedStripJSONComments "null") = Except.ok none
    ∧ (exampleZed.Apply exampleLibsNull (GetBuiltInThemes.getD 0 default)
        (exampleFSWithDirs [("/home/u/.config/zed/settings.json", ⟨"null", true⟩)]
          ["/home/u/.local/share/zed/extensions/installed/nord"])).err = some nilMapPanic
    ∧ (exampleZed.Apply exampleLibsNull (GetBuiltInThemes.getD 0 default)
        (exampleFSWithDirs [("/home/u/.config/zed/settings.json", ⟨"null", true⟩)]
          ["/home/u/.local/share/zed/extensions/installed/nord"])).writes
        = ["/home/u/.config/zed/settings.json.backup"]
    ∧ (exampleZed.Apply exampleLibsNull (GetBuiltInThemes.getD 0 default)
        (exampleFSWithDirs [("/home/u/.config/zed/settings.json", ⟨"null", true⟩)]
          ["/home/u/.local/share/zed/extensions/installed/nord"])).fs.file
        "/home/u/.config/zed/settings.json.backup" = some ⟨"null", true⟩ := by
  refine ⟨by rfl, by decide, by decide, by decide, by rfl, by decide, by decide, by decide⟩


/-- When the decoder leaves the map nil, the VS Code `Apply` writes the backup
of a non-empty target and stops in the panic of the assignment into the nil
map. -/
theorem vscodeApply_of_nil_map (libs : Libs) (p : String) (t : Theme) (fs : FS) (data : String)
    (hr : fs.readFile p = ReadResult.ok data)
    (hd : libs.jsonUnmarshal (stripJSONComments data) = Except.ok none) (hdata : data ≠ "")
    (hw : fs.writable (p ++ ".backup") = true) :
    (VSCodeIntegration.Apply libs p t fs).err = some nilMapPanic
      ∧ (VSCodeIntegration.Apply libs p t fs).writes = [p ++ ".backup"] := by
  have hlen : data.length > 0 := length_pos_of_ne_empty data hdata
  rw [vscodeApply_of_decoded libs p t fs data none hr hd]
  unfold vscodeBackupMergeWrite FS.writeFile
  simp [hlen, hw]

/-- The same for the Zed `Apply`. -/
theorem zedApply_of_nil_map (z : ZedIntegration) (libs : Libs) (t : Theme) (fs : FS)
    (themeExt : ZedExtension) (data : String)
    (hx : zedThemeExtensions t.Name = some themeExt)
    (hi : z.IsExtensionInstalled libs fs themeExt.ExtensionID = true)
    (hr : fs.readFile z.configPath = ReadResult.ok data)
    (hd : libs.jsonUnmarshal (zedStripJSONComments data) = Except.ok none) (hdata : data ≠ "")
    (hw : fs.writable (z.configPath ++ ".backup") = true) :
    (z.Apply libs t fs).err = some nilMapPanic
      ∧ (z.Apply libs t fs).writes = [z.configPath ++ ".backup"] := by
  have hlen : data.length > 0 := length_pos_of_ne_empty data hdata
  rw [zedApply_of_decoded z libs t fs themeExt data none hx hi hr hd]
  unfold zedBackupMergeWrite FS.writeFile
  simp [hlen, hw]

/-! ## An empty target -/

theorem stripJSONComments_empty : stripJSONComments "" = "" := by decide

theorem zedStripJSONComments_empty : zedStripJSONComments "" = "" := by decide

theorem hasShape_no_backup_of_empty (r : ApplyResult) (fs : FS) (p : String)
    (h : r.hasShape fs p) (hr : fs.readFile p = ReadResult.ok "") :
    p ++ ".backup" ∉ r.writes ∧ r.fs.file (p ++ ".backup") = fs.file (p ++ ".backup") := by
  rcases h with ⟨hf, hw, _⟩ | ⟨fs0, content, hf, hfs, hw, _⟩
  · rw [hw, hf]
    simp
  · rw [hr] at hfs hw
    simp only [ReadResult.dataOrEmpty] at hfs hw
    rw [hw, hfs, ← hf]
    exact backupThenWrite_no_backup fs0 p content

theorem vscodeMerge_nil_keys (t : Theme) (k : String) (h : (vscodeMerge t []).get k ≠ none) :
    k ∈ ["workbench.colorTheme", "workbench.iconTheme", "workbench.productIconTheme",
      "workbench.colorCustomizations"] := by
  by_contra hk
  simp only [List.mem_cons, List.mem_singleton, not_or, List.not_mem_nil, or_false] at hk
  apply h
  rw [vscodeMerge_get_other t [] k hk.1 hk.2.1 hk.2.2.1 hk.2.2.2]
  rfl

theorem zedMerge_nil_keys (themeExt : ZedExtension) (k : String)
    (h : (zedMerge themeExt []).get k ≠ none) : k = "theme" := by
  by_contra hk
  apply h
  rw [zedMerge_get_other themeExt [] k hk]
  rfl

theorem alacrittyMerge_nil_keys (t : Theme) (officialTheme : Option String) (isTOML exist : Bool)
    (k : String) (h : (alacrittyMerge t officialTheme isTOML exist []).get k ≠ none) :
    k ∈ ["colors", "general"] := by
  by_contra hk
  simp only [List.mem_cons, List.mem_singleton, not_or, List.not_mem_nil, or_false] at hk
  apply h
  rw [alacrittyMerge_get_other t officialTheme isTOML exist [] k hk.1 hk.2]
  rfl

/-- Counterexample to C14 as stated: the VS Code `Apply` of Nord with a JSON
decoder that, as `encoding/json` does, rejects the empty text. Where there is
no `settings.json` the call returns `nil` and writes the file; where there is
an empty `settings.json` the call returns the parse error and writes nothing,
and the file stays empty. -/
theorem vscode_apply_rejects_empty_settings :
    (VSCodeIntegration.Apply nordOnlyLibs "/home/u/settings.json"
        (GetBuiltInThemes.getD 0 default) (exampleFS [])).err = none
    ∧ (VSCodeIntegration.Apply nordOnlyLibs "/home/u/settings.json"
        (GetBuiltInThemes.getD 0 default) (exampleFS [])).writes = ["/home/u/settings.json"]
    ∧ nordOnlyLibs.jsonUnmarshal (stripJSONComments "") = Except.error "invalid character"
    ∧ (VSCodeIntegration.Apply nordOnlyLibs "/home/u/settings.json"
        (GetBuiltInThemes.getD 0 default)
        (exampleFS [("/home/u/settings.json", ⟨"", true⟩)])).err
        = some "failed to parse settings: invalid character"
    ∧ (VSCodeIntegration.Apply nordOnlyLibs "/home/u/settings.json"
        (GetBuiltInThemes.getD 0 default)
        (exampleFS [("/home/u/settings.json", ⟨"", true⟩)])).writes = []
    ∧ (VSCodeIntegration.Apply nordOnlyLibs "/home/u/settings.json"
        (GetBuiltInThemes.getD 0 default)
        (exampleFS [("/home/u/settings.json", ⟨"", true⟩)])).fs.file "/home/u/settings.json"
        = some ⟨"", true⟩ := by
  refine ⟨by decide, by decide, by rfl, by decide, by decide, by decide⟩

/-- Claim C14, amended. An existing empty config file is not taken for an
absent one: `Apply` hands its (empty) content to the decoder. For VS Code, Zed
and Alacritty: no backup is written; when the decoder rejects the empty text,
`Apply` returns the parse error and writes nothing; when the decoder accepts
it, `Apply` goes on with the map the decoder left, which for the empty map is
what it does for an absent file. The document built from the empty map holds
only keys the adapter sets. -/
theorem apply_on_empty_target :
    (∀ (libs : Libs) (p : String) (t : Theme) (fs : FS), fs.readFile p = ReadResult.ok "" →
      (p ++ ".backup" ∉ (VSCodeIntegration.Apply libs p t fs).writes
        ∧ (VSCodeIntegration.Apply libs p t fs).fs.file (p ++ ".backup")
            = fs.file (p ++ ".backup"))
      ∧ (∀ e, libs.jsonUnmarshal "" = Except.error e →
          VSCodeIntegration.Apply libs p t fs
            = ⟨some ("failed to parse settings: " ++ e), fs, []⟩)
      ∧ (∀ s, libs.jsonUnmarshal "" = Except.ok s →
          VSCodeIntegration.Apply libs p t fs = vscodeBackupMergeWrite libs p t fs "" s))
    ∧ (∀ (libs : Libs) (p : String) (t : Theme) (fs : FS),
      fs.readFile p = ReadResult.notExist →
      VSCodeIntegration.Apply libs p t fs = vscodeBackupMergeWrite libs p t fs "" (some []))
    ∧ (∀ (z : ZedIntegration) (libs : Libs) (t : Theme) (fs : FS) (themeExt : ZedExtension),
      zedThemeExtensions t.Name = some themeExt →
      z.IsExtensionInstalled libs fs themeExt.ExtensionID = true →
      fs.readFile z.configPath = ReadResult.ok "" →
      (z.configPath ++ ".backup" ∉ (z.Apply libs t fs).writes
        ∧ (z.Apply libs t fs).fs.file (z.configPath ++ ".backup")
            = fs.file (z.configPath ++ ".backup"))
      ∧ (∀ e, libs.jsonUnmarshal "" = Except.error e →
          z.Apply libs t fs = ⟨some ("failed to parse settings: " ++ e), fs, []⟩)
      ∧ (∀ s, libs.jsonUnmarshal "" = Except.ok s →
          z.Apply libs t fs = zedBackupMergeWrite libs z.configPath themeExt fs "" s))
    ∧ (∀ (z : ZedIntegration) (libs : Libs) (t : Theme) (fs : FS) (themeExt : ZedExtension),
      zedThemeExtensions t.Name = some themeExt →
      z.IsExtensionInstalled libs fs themeExt.ExtensionID = true →
      fs.readFile z.configPath = ReadResult.notExist →
      z.Apply libs t fs = zedBackupMergeWrite libs z.configPath themeExt fs "" (some []))
    ∧ (∀ (a : AlacrittyIntegration) (libs : Libs) (tools : Tools) (t : Theme) (fs : FS),
      (a.ensureThemeRepo libs tools fs).1 = none →
      fs.readFile a.configPath = ReadResult.ok "" →
      (a.configPath ++ ".backup" ∉ (a.Apply libs tools t fs).writes
        ∧ (a.Apply libs tools t fs).fs.file (a.configPath ++ ".backup")
            = fs.file (a.configPath ++ ".backup"))
      ∧ (∀ e, alacrittyDecode a libs "" = Except.error e →
          (a.Apply libs tools t fs).err ≠ none ∧ (a.Apply libs tools t fs).writes = []
            ∧ (a.Apply libs tools t fs).fs.file = fs.file)
      ∧ (∀ s, alacrittyDecode a libs "" = Except.ok s →
          a.Apply libs tools t fs
            = alacrittyBackupMergeWrite a libs t (a.ensureThemeRepo libs tools fs).2 "" s))
    ∧ (∀ (a : AlacrittyIntegration) (libs : Libs) (tools : Tools) (t : Theme) (fs : FS),
      (a.ensureThemeRepo libs tools fs).1 = none →
      fs.readFile a.configPath = ReadResult.notExist →
      a.Apply libs tools t fs
        = alacrittyBackupMergeWrite a libs t (a.ensureThemeRepo libs tools fs).2 "" (some []))
    ∧ (∀ (t : Theme) (k : String), (vscodeMerge t []).get k ≠ none →
        k ∈ ["workbench.colorTheme", "workbench.iconTheme", "workbench.productIconTheme",
          "workbench.colorCustomizations"])
    ∧ (∀ (themeExt : ZedExtension) (k : String), (zedMerge themeExt []).get k ≠ none →
        k = "theme")
    ∧ (∀ (t : Theme) (officialTheme : Option String) (isTOML exist : Bool) (k : String),
        (alacrittyMerge t officialTheme isTOML exist []).get k ≠ none →
        k ∈ ["colors", "general"]) := by
  refine ⟨?_, ?_, ?_, ?_, ?_, ?_, vscodeMerge_nil_keys, zedMerge_nil_keys,
    alacrittyMerge_nil_keys⟩
  · intro libs p t fs hr
    refine ⟨hasShape_no_backup_of_empty _ fs p (vscodeApply_hasShape libs p t fs) hr, ?_, ?_⟩
    · intro e he
      exact vscodeApply_of_decode_error libs p t fs "" e hr (by rw [stripJSONComments_empty, he])
    · intro s hs
      exact vscodeApply_of_decoded libs p t fs "" s hr (by rw [stripJSONComments_empty, hs])
  · intro libs p t fs hr
    exact vscodeApply_of_notExist libs p t fs hr
  · intro z libs t fs themeExt hx hi hr
    refine ⟨hasShape_no_backup_of_empty _ fs _ (zedApply_hasShape z libs t fs) hr, ?_, ?_⟩
    · intro e he
      exact zedApply_of_decode_error z libs t fs themeExt "" e hx hi hr
        (by rw [zedStripJSONComments_empty, he])
    · intro s hs
      exact zedApply_of_decoded z libs t fs themeExt "" s hx hi hr
        (by rw [zedStripJSONComments_empty, hs])
  · intro z libs t fs themeExt hx hi hr
    exact zedApply_of_notExist z libs t fs themeExt hx hi hr
  · intro a libs tools t fs he hr
    refine ⟨hasShape_no_backup_of_empty _ fs _ (alacrittyApply_hasShape a libs tools t fs) hr,
      ?_, ?_⟩
    · intro e hd
      obtain ⟨h1, h2, h3⟩ := alacrittyApply_of_decode_error a libs tools t fs "" e he hr hd
      exact ⟨h1, h3, by rw [h2]; exact (a.ensureThemeRepo_env libs tools fs).1⟩
    · intro s hs
      exact alacrittyApply_of_decoded a libs tools t fs "" s he hr hs
  · intro a libs tools t fs he hr
    exact alacrittyApply_of_notExist a libs tools t fs he hr

/-- Witness for the amended C14: the empty `settings.json` of the
counterexample. -/
theorem apply_on_empty_target_witness :
    (exampleFS [("/home/u/settings.json", ⟨"", true⟩)]).readFile "/home/u/settings.json"
        = ReadResult.ok ""
    ∧ nordOnlyLibs.jsonUnmarshal "" = Except.error "invalid character"
    ∧ "/home/u/settings.json" ++ ".backup"
        ∉ (VSCodeIntegration.Apply nordOnlyLibs "/home/u/settings.json"
            (GetBuiltInThemes.getD 0 default)
            (exampleFS [("/home/u/settings.json", ⟨"", true⟩)])).writes
    ∧ VSCodeIntegration.Apply nordOnlyLibs "/home/u/settings.json"
          (GetBuiltInThemes.getD 0 default) (exampleFS [("/home/u/settings.json", ⟨"", true⟩)])
        = ⟨some ("failed to parse settings: " ++ "invalid character"),
            exampleFS [("/home/u/settings.json", ⟨"", true⟩)], []⟩ := by
  have h := apply_on_empty_target.1 nordOnlyLibs "/home/u/settings.json"
    (GetBuiltInThemes.getD 0 default) (exampleFS [("/home/u/settings.json", ⟨"", true⟩)])
    (by decide)
  exact ⟨by decide, by rfl, h.1.1, h.2.1 "invalid character" (by rfl)⟩

/-! ## Alacritty: import or inline colours -/

/-- When `AlacrittyIntegration.Apply` returns `nil`, the target holds the
encoding of the merge of the decoded map, done with the three tests as the
method makes them. -/
theorem alacrittyApply_ok_content (a : AlacrittyIntegration) (libs : Libs) (tools : Tools)
    (t : Theme) (fs : FS) (h : (a.Apply libs tools t fs).err = none) :
    ∃ data config x, readDecoded (alacrittyDecode a libs) fs a.configPath data (some config)
      ∧ alacrittyEncode a libs (alacrittyMerge t (alacrittyThemeMap t.Name)
          (hasTomlSuffix (libs.toLower a.configPath))
          (alacrittyThemeOnDisk a libs t (a.ensureThemeRepo libs tools fs).2 data) config)
        = Except.ok x
      ∧ ((a.Apply libs tools t fs).fs.file a.configPath).map File.data = some x := by
  cases he : (a.ensureThemeRepo libs tools fs).1 with
  | some e =>
    rw [alacrittyApply_of_repo_error a libs tools t fs e he] at h
    simp at h
  | none =>
    have hread : (a.Apply libs tools t fs).err ≠ none
        ∨ ∃ d s, readDecoded (alacrittyDecode a libs) fs a.configPath d s := by
      cases hr : fs.readFile a.configPath with
      | failed msg =>
        left
        rw [alacrittyApply_of_read_failed a libs tools t fs msg he hr]
        simp
      | notExist => exact Or.inr ⟨"", some [], Or.inl ⟨hr, rfl, rfl⟩⟩
      | ok data =>
        cases hd : alacrittyDecode a libs data with
        | error e' => exact Or.inl (alacrittyApply_of_decode_error a libs tools t fs data e' he hr hd).1
        | ok config => exact Or.inr ⟨data, config, Or.inr ⟨hr, hd⟩⟩
    rcases hread with hne | ⟨d, s, hread⟩
    · exact absurd h hne
    · have e1 := alacrittyApply_of_readDecoded a libs tools t fs d s he hread
      have s1 := alacrittyBackupMergeWrite_sameAs a libs t (a.ensureThemeRepo libs tools fs).2 d s
      rw [← e1] at s1
      have hw : a.configPath ∈ (backupThenWrite (a.ensureThemeRepo libs tools fs).2 a.configPath d
          (alacrittyContent a libs t (a.ensureThemeRepo libs tools fs).2 d s)).writes :=
        (backupThenWrite_err _ _ _ _).mp (s1.2.2.mp h)
      obtain ⟨x, hc, hfile⟩ := backupThenWrite_target _ _ _ _ hw
      cases s with
      | none => simp [alacrittyContent, encodedContent] at hc
      | some config =>
        refine ⟨d, config, x, hread, ?_, ?_⟩
        · simpa [alacrittyContent, encodedContent] using hc
        · rw [s1.1, hfile]
          rfl

/-- Claim C15. The merge of `AlacrittyIntegration.Apply` takes the import
branch exactly when the theme has an official theme file name, the config is
TOML and the theme file exists: then `general.import` is the list of the
one import path and there is no top-level `colors` key; in every other case
`colors` is the palette of the theme and the `general` table, when there is
one, has no `import` key. So the merged document never has both. When `Apply`
returns `nil`, the target holds the encoding of that merged document, the
three tests being the lookup in `alacrittyThemeMap`, the suffix of the config
path and the probe of the theme file. -/
theorem alacritty_import_or_inline_colors :
    (∀ (t : Theme) (officialTheme : Option String) (isTOML exist : Bool) (config : Doc),
      (officialTheme.isSome = true ∧ isTOML = true ∧ exist = true) →
      (∃ general : Doc,
        (alacrittyMerge t officialTheme isTOML exist config).get "general"
            = some (Value.obj general)
        ∧ Doc.get general "import" = some (Value.arr [Value.str
            ("~/.config/alacritty/themes/alacritty/themes/" ++ officialTheme.getD "")]))
      ∧ (alacrittyMerge t officialTheme isTOML exist config).get "colors" = none)
    ∧ (∀ (t : Theme) (officialTheme : Option String) (isTOML exist : Bool) (config : Doc),
      ¬ (officialTheme.isSome = true ∧ isTOML = true ∧ exist = true) →
      (alacrittyMerge t officialTheme isTOML exist config).get "colors"
          = some (Value.obj (generateAlacrittyColors t))
      ∧ ∀ general : Doc,
          ((alacrittyMerge t officialTheme isTOML exist config).get "general").bind Value.asObj?
            = some general →
          Doc.get general "import" = none)
    ∧ (∀ (t : Theme) (officialTheme : Option String) (isTOML exist : Bool) (config : Doc),
      ¬ ((alacrittyMerge t officialTheme isTOML exist config).get "colors" ≠ none
        ∧ ∃ general : Doc,
            ((alacrittyMerge t officialTheme isTOML exist config).get "general").bind
                Value.asObj? = some general
            ∧ Doc.get general "import" ≠ none))
    ∧ (∀ (a : AlacrittyIntegration) (libs : Libs) (tools : Tools) (t : Theme) (fs : FS),
      (a.Apply libs tools t fs).err = none →
      ∃ data config x, readDecoded (alacrittyDecode a libs) fs a.configPath data (some config)
        ∧ alacrittyEncode a libs (alacrittyMerge t (alacrittyThemeMap t.Name)
            (hasTomlSuffix (libs.toLower a.configPath))
            (alacrittyThemeOnDisk a libs t (a.ensureThemeRepo libs tools fs).2 data) config)
          = Except.ok x
        ∧ ((a.Apply libs tools t fs).fs.file a.configPath).map File.data = some x) := by
  have himp : ∀ (t : Theme) (officialTheme : Option String) (isTOML exist : Bool) (config : Doc),
      (officialTheme.isSome = true ∧ isTOML = true ∧ exist = true) →
      (∃ general : Doc,
        (alacrittyMerge t officialTheme isTOML exist config).get "general"
            = some (Value.obj general)
        ∧ Doc.get general "import" = some (Value.arr [Value.str
            ("~/.config/alacritty/themes/alacritty/themes/" ++ officialTheme.getD "")]))
      ∧ (alacrittyMerge t officialTheme isTOML exist config).get "colors" = none := by
    intro t officialTheme isTOML exist config hc
    rw [alacrittyMerge_get_import t officialTheme isTOML exist config "general" hc,
      alacrittyMerge_get_import t officialTheme isTOML exist config "colors" hc]
    have hgc : ("general" : String) ≠ "colors" := by decide
    refine ⟨⟨(((config.get "general").bind Value.asObj?).getD []).set "import"
      (Value.arr [Value.str
        ("~/.config/alacritty/themes/alacritty/themes/" ++ officialTheme.getD "")]),
      by simp [hgc], Doc.get_set_self _ _ _⟩, by simp⟩
  have hfb : ∀ (t : Theme) (officialTheme : Option String) (isTOML exist : Bool) (config : Doc),
      ¬ (officialTheme.isSome = true ∧ isTOML = true ∧ exist = true) →
      (alacrittyMerge t officialTheme isTOML exist config).get "colors"
          = some (Value.obj (generateAlacrittyColors t))
      ∧ ∀ general : Doc,
          ((alacrittyMerge t officialTheme isTOML exist config).get "general").bind Value.asObj?
            = some general →
          Doc.get general "import" = none := by
    intro t officialTheme isTOML exist config hc
    rw [alacrittyMerge_get_fallback t officialTheme isTOML exist config "general" hc,
      alacrittyMerge_get_fallback t officialTheme isTOML exist config "colors" hc]
    refine ⟨by simp, ?_⟩
    intro general hg
    have hgc : ("general" : String) ≠ "colors" := by decide
    simp only [hgc, if_false, if_true] at hg
    cases hx : (config.get "general").bind Value.asObj? with
    | none =>
      rw [hx] at hg
      simp only [] at hg
      rw [hx] at hg
      cases hg
    | some g =>
      rw [hx] at hg
      simp only [Option.bind, Value.asObj?, Option.some.injEq] at hg
      rw [← hg]
      exact Doc.get_delete_self g "import"
  refine ⟨himp, hfb, ?_, alacrittyApply_ok_content⟩
  intro t officialTheme isTOML exist config
  rintro ⟨hcol, general, hg, hi⟩
  by_cases hc : officialTheme.isSome = true ∧ isTOML = true ∧ exist = true
  · exact hcol (himp t officialTheme isTOML exist config hc).2
  · exact hi ((hfb t officialTheme isTOML exist config hc).2 general hg)

/-- Witness for C15: Nord, whose official theme file is `nord.toml`, on a TOML
config that has inline colours, with the theme file on disk. -/
theorem alacritty_import_or_inline_colors_witness :
    ((alacrittyThemeMap "Nord").isSome = true ∧ true = true ∧ true = true)
    ∧ (∃ general : Doc,
        (alacrittyMerge (GetBuiltInThemes.getD 0 default) (alacrittyThemeMap "Nord") true true
            [("colors", Value.obj [])]).get "general" = some (Value.obj general)
        ∧ Doc.get general "import" = some (Value.arr [Value.str
            ("~/.config/alacritty/themes/alacritty/themes/" ++ (alacrittyThemeMap "Nord").getD "")]))
    ∧ (alacrittyMerge (GetBuiltInThemes.getD 0 default) (alacrittyThemeMap "Nord") true true
        [("colors", Value.obj [])]).get "colors" = none
    ∧ "~/.config/alacritty/themes/alacritty/themes/" ++ (alacrittyThemeMap "Nord").getD ""
        = "~/.config/alacritty/themes/alacritty/themes/nord.toml" := by
  have h := alacritty_import_or_inline_colors.1 (GetBuiltInThemes.getD 0 default)
    (alacrittyThemeMap "Nord") true true [("colors", Value.obj [])] (by decide)
  exact ⟨by decide, h.1, h.2, by decide⟩

/-! ## Alacritty: the theme repository cannot be set up -/

/-- Counterexample to C16 as stated: a theme that needs no theme file, on a
machine where the theme repository is absent and the clone fails. `Apply`
returns the error of the setup, writes nothing, and the config is as it
was: no inline colours are written. -/
theorem alacritty_apply_fails_when_clone_fails :
    alacrittyThemeMap (Theme.mk "Solarized" "" (GetBuiltInThemes.getD 0 default).Colors).Name = none
    ∧ (exampleFS [("/home/u/.config/alacritty/alacritty.toml", ⟨"[window]\n", true⟩)]).stat
        (exampleLibs.filepathJoin [exampleAlacritty.themesPath, "alacritty"]) = false
    ∧ (exampleAlacritty.Apply exampleLibs offlineTools
        (Theme.mk "Solarized" "" (GetBuiltInThemes.getD 0 default).Colors)
        (exampleFS [("/home/u/.config/alacritty/alacritty.toml", ⟨"[window]\n", true⟩)])).err
        = some "failed to setup theme repository: failed to clone theme repository: exit status 128"
    ∧ (exampleAlacritty.Apply exampleLibs offlineTools
        (Theme.mk "Solarized" "" (GetBuiltInThemes.getD 0 default).Colors)
        (exampleFS [("/home/u/.config/alacritty/alacritty.toml", ⟨"[window]\n", true⟩)])).writes
        = []
    ∧ (exampleAlacritty.Apply exampleLibs offlineTools
        (Theme.mk "Solarized" "" (GetBuiltInThemes.getD 0 default).Colors)
        (exampleFS [("/home/u/.config/alacritty/alacritty.toml", ⟨"[window]\n", true⟩)])).fs.file
        "/home/u/.config/alacritty/alacritty.toml" = some ⟨"[window]\n", true⟩ := by
  refine ⟨by decide, by decide, by decide, by decide, by decide⟩

/-- Claim C16, amended. When the theme repository is absent and its setup
fails, because the themes directory cannot be created or because the clone
fails, `AlacrittyIntegration.Apply` returns the error "failed to setup theme
repository", makes no write and leaves every file as it was: it does not fall
back to inline colours. When the repository is there it is not cloned and
`Apply` goes on to read the config. -/
theorem alacritty_apply_stops_when_repo_setup_fails :
    (∀ (a : AlacrittyIntegration) (libs : Libs) (tools : Tools) (t : Theme) (fs : FS),
      fs.stat (libs.filepathJoin [a.themesPath, "alacritty"]) = false →
      (fs.mkdirAll a.themesPath = none
        ∨ ∃ e, tools.gitClone (libs.filepathJoin [a.themesPath, "alacritty"]) = Except.error e) →
      (∃ e, (a.Apply libs tools t fs).err = some ("failed to setup theme repository: " ++ e))
        ∧ (a.Apply libs tools t fs).writes = []
        ∧ (a.Apply libs tools t fs).fs.file = fs.file)
    ∧ (∀ (a : AlacrittyIntegration) (libs : Libs) (tools : Tools) (fs : FS),
      fs.stat (libs.filepathJoin [a.themesPath, "alacritty"]) = true →
      a.ensureThemeRepo libs tools fs = (none, fs)) := by
  constructor
  · intro a libs tools t fs hs hfail
    have he : ∃ e, (a.ensureThemeRepo libs tools fs).1 = some e := by
      unfold AlacrittyIntegration.ensureThemeRepo AlacrittyIntegration.cloneThemeRepo
      simp only [hs, Bool.false_eq_true, if_false]
      rcases hfail with hm | ⟨e, hg⟩
      · rw [hm]
        exact ⟨_, rfl⟩
      · cases hm : fs.mkdirAll a.themesPath with
        | none => exact ⟨_, rfl⟩
        | some fs1 =>
          simp only [hg]
          exact ⟨_, rfl⟩
    obtain ⟨e, he⟩ := he
    rw [alacrittyApply_of_repo_error a libs tools t fs e he]
    exact ⟨⟨e, rfl⟩, rfl, (a.ensureThemeRepo_env libs tools fs).1⟩
  · intro a libs tools fs hs
    unfold AlacrittyIntegration.ensureThemeRepo
    simp [hs]

/-- Witness for the amended C16: the input of the counterexample. -/
theorem alacritty_apply_stops_when_repo_setup_fails_witness :
    ((exampleFS [("/home/u/.config/alacritty/alacritty.toml", ⟨"[window]\n", true⟩)]).stat
        (exampleLibs.filepathJoin [exampleAlacritty.themesPath, "alacritty"]) = false
      ∧ ∃ e, offlineTools.gitClone (exampleLibs.filepathJoin [exampleAlacritty.themesPath,
          "alacritty"]) = Except.error e)
    ∧ (exampleAlacritty.Apply exampleLibs offlineTools (GetBuiltInThemes.getD 0 default)
        (exampleFS [("/home/u/.config/alacritty/alacritty.toml", ⟨"[window]\n", true⟩)])).writes
        = []
    ∧ (exampleAlacritty.Apply exampleLibs offlineTools (GetBuiltInThemes.getD 0 default)
        (exampleFS [("/home/u/.config/alacritty/alacritty.toml", ⟨"[window]\n", true⟩)])).fs.file
        = (exampleFS [("/home/u/.config/alacritty/alacritty.toml", ⟨"[window]\n", true⟩)]).file := by
  have hs : (exampleFS [("/home/u/.config/alacritty/alacritty.toml", ⟨"[window]\n", true⟩)]).stat
      (exampleLibs.filepathJoin [exampleAlacritty.themesPath, "alacritty"]) = false := by decide
  have hg : ∃ e, offlineTools.gitClone (exampleLibs.filepathJoin [exampleAlacritty.themesPath,
      "alacritty"]) = Except.error e := ⟨"exit status 128", rfl⟩
  have h := alacritty_apply_stops_when_repo_setup_fails.1 exampleAlacritty exampleLibs offlineTools
    (GetBuiltInThemes.getD 0 default)
    (exampleFS [("/home/u/.config/alacritty/alacritty.toml", ⟨"[window]\n", true⟩)]) hs
    (Or.inr hg)
  exact ⟨⟨hs, hg⟩, h.2.1, h.2.2⟩

/-! ## Confirming a theme family -/

theorem GetBuiltInThemes_eq_flattenThemes : GetBuiltInThemes = flattenThemes GetBuiltInBaseThemes :=
  rfl

/-- The index of a variant in the flattened list. -/
theorem flattenThemes_getElem? (baseThemes : List BaseTheme) (i j : Nat) (baseTheme : BaseTheme)
    (variant : ThemeVariant) (hb : baseThemes[i]? = some baseTheme)
    (hv : baseTheme.Variants[j]? = some variant) :
    (flattenThemes baseThemes)[((baseThemes.take i).map fun b => b.Variants.length).sum + j]?
      = some { Name := variant.FullName, Description := baseTheme.Description,
               Colors := variant.Colors } := by
  induction baseThemes generalizing i with
  | nil => simp at hb
  | cons b0 rest ih =>
    cases i with
    | zero =>
      simp only [List.getElem?_cons_zero, Option.some.injEq] at hb
      subst hb
      have hj : j < b0.Variants.length := by
        by_contra hn
        rw [List.getElem?_eq_none (Nat.le_of_not_lt hn)] at hv
        cases hv
      simp only [flattenThemes, List.flatMap_cons, List.take_zero, List.map_nil, List.sum_nil,
        Nat.zero_add]
      rw [List.getElem?_append_left (by simpa using hj), List.getElem?_map, hv]
      rfl
    | succ i =>
      simp only [List.getElem?_cons_succ] at hb
      have := ih i hb
      simp only [flattenThemes, List.flatMap_cons, List.take_succ_cons, List.map_cons,
        List.sum_cons] at this ⊢
      rw [List.getElem?_append_right (by simp; omega)]
      simp only [List.length_map]
      have e : b0.Variants.length + ((rest.take i).map fun b => b.Variants.length).sum + j
          - b0.Variants.length = ((rest.take i).map fun b => b.Variants.length).sum + j := by omega
      rw [e]
      exact this

theorem enter_ne_keys : ¬ (("enter" : String) = "ctrl+c" ∨ ("enter" : String) = "q")
    ∧ ¬ (("enter" : String) = "up" ∨ ("enter" : String) = "k")
    ∧ ¬ (("enter" : String) = "down" ∨ ("enter" : String) = "j") := by decide

theorem Update_enter {W : Type} (m : model W) (entries : List (Nat × Bool)) (w : W) :
    Update m (Msg.key "enter") entries w = updateEnter m entries w := by
  simp only [Update, enter_ne_keys.1, enter_ne_keys.2.1, enter_ne_keys.2.2, if_false, if_true]

/-- Claim C17. In the theme-selection state, `enter` on a family with exactly
one variant goes straight to the preview with `selectedVariant = 0` and
`selectedTheme` the number of variants of the families before, which is the
index of that variant in the flattened theme list; `enter` on a family with
more than one variant goes to the variant selection with the cursor at 0. -/
theorem enter_on_theme_family {W : Type} (m : model W) (entries : List (Nat × Bool)) (w : W)
    (baseTheme : BaseTheme) (hs : m.state = State.selectingTheme)
    (hb : m.baseThemes[m.cursor]? = some baseTheme) :
    (baseTheme.Variants.length = 1 →
      Update m (Msg.key "enter") entries w
        = some ({ m with selectedBaseTheme := m.cursor, selectedVariant := 0,
                         selectedTheme :=
                          ((m.baseThemes.take m.cursor).map fun b => b.Variants.length).sum,
                         state := State.previewingTheme }, Cmd.none, w)
      ∧ ∀ variant, baseTheme.Variants = [variant] →
          (flattenThemes m.baseThemes)[((m.baseThemes.take m.cursor).map
              fun b => b.Variants.length).sum]?
            = some { Name := variant.FullName, Description := baseTheme.Description,
                     Colors := variant.Colors })
    ∧ (baseTheme.Variants.length > 1 →
      Update m (Msg.key "enter") entries w
        = some ({ m with selectedBaseTheme := m.cursor, cursor := 0,
                         state := State.selectingVariant }, Cmd.none, w)) := by
  have hle : m.cursor ≤ m.baseThemes.length := by
    by_contra hn
    rw [List.getElem?_eq_none (by omega)] at hb
    cases hb
  constructor
  · intro h1
    constructor
    · rw [Update_enter]
      unfold updateEnter
      simp only [hs, hb, h1, if_true, calculateThemeIndex, hle, Option.map_some', Nat.add_zero]
    · intro variant hv
      have := flattenThemes_getElem? m.baseThemes m.cursor 0 baseTheme variant hb (by rw [hv]; rfl)
      simpa using this
  · intro h1
    have hne : baseTheme.Variants.length ≠ 1 := by omega
    rw [Update_enter]
    unfold updateEnter
    simp only [hs, hb, hne, if_false]

/-- Witness for C17: `enter` on Nord, a family with one variant, and on
Catppuccin, a family with four. -/
theorem enter_on_theme_family_witness :
    ((exampleThemeModel 0).state = State.selectingTheme
      ∧ (exampleThemeModel 1).state = State.selectingTheme
      ∧ ((exampleThemeModel 0).baseThemes[(exampleThemeModel 0).cursor]?).map
          (fun b => b.Variants.length) = some 1
      ∧ ((exampleThemeModel 1).baseThemes[(exampleThemeModel 1).cursor]?).map
          (fun b => b.Variants.length) = some 4)
    ∧ Update (exampleThemeModel 0) (Msg.key "enter") [] []
        = some ({ (exampleThemeModel 0) with
                    selectedBaseTheme := 0, selectedVariant := 0, selectedTheme := 0,
                    state := State.previewingTheme }, Cmd.none, [])
    ∧ Update (exampleThemeModel 1) (Msg.key "enter") [] []
        = some ({ (exampleThemeModel 1) with
                    selectedBaseTheme := 1, cursor := 0,
                    state := State.selectingVariant }, Cmd.none, []) := by
  refine ⟨⟨rfl, rfl, by decide, by decide⟩, ?_, ?_⟩
  · exact (enter_on_theme_family (exampleThemeModel 0) [] [] _
      rfl rfl).1 (by decide) |>.1
  · exact (enter_on_theme_family (exampleThemeModel 1) [] [] _
      rfl rfl).2 (by decide)
/-! ## Confirming the targets -/

/-- The search for the selected VS Code target: it ends, on the first selected
entry whose target is named "VS Code", or on none when there is no such
entry. -/
theorem findVSCodeSelected_spec {W : Type} (apps : List (AppIntegration W)) (w : W)
    (entries : List (Nat × Bool)) (hidx : ∀ e ∈ entries, e.2 = true → e.1 < apps.length) :
    ∃ found : Option Nat, findVSCodeSelected apps w entries = some found
      ∧ (∀ idx, found = some idx →
          (idx, true) ∈ entries ∧ ∃ app, apps[idx]? = some app ∧ app.Name w = "VS Code")
      ∧ (found = none →
          ∀ e ∈ entries, e.2 = true → ∀ app, apps[e.1]? = some app → app.Name w ≠ "VS Code") := by
  induction entries with
  | nil => exact ⟨none, rfl, by simp, by simp⟩
  | cons e rest ih =>
    obtain ⟨idx, selected⟩ := e
    have hrest : ∀ e ∈ rest, e.2 = true → e.1 < apps.length := fun e he =>
      hidx e (List.mem_cons_of_mem _ he)
    obtain ⟨found, hf, h1, h2⟩ := ih hrest
    cases selected with
    | false =>
      refine ⟨found, by simp [findVSCodeSelected, hf], ?_, ?_⟩
      · intro i hi
        obtain ⟨hm, happ⟩ := h1 i hi
        exact ⟨List.mem_cons_of_mem _ hm, happ⟩
      · intro hn e he hsel
        rcases List.mem_cons.mp he with heq | hin
        · rw [heq] at hsel
          cases hsel
        · exact h2 hn e hin hsel
    | true =>
      have hlt : idx < apps.length := hidx (idx, true) (List.mem_cons_self _ _) rfl
      have happ : apps[idx]? = some apps[idx] := List.getElem?_eq_getElem hlt
      by_cases hname : apps[idx].Name w = "VS Code"
      · refine ⟨some idx, by simp [findVSCodeSelected, happ, hname], ?_, by simp⟩
        intro i hi
        cases hi
        exact ⟨List.mem_cons_self _ _, apps[idx], happ, hname⟩
      · refine ⟨found, by simp [findVSCodeSelected, happ, hname, hf], ?_, ?_⟩
        · intro i hi
          obtain ⟨hm, happ'⟩ := h1 i hi
          exact ⟨List.mem_cons_of_mem _ hm, happ'⟩
        · intro hn e he hsel
          rcases List.mem_cons.mp he with heq | hin
          · rw [heq]
            intro app ha
            simp only at ha
            rw [happ] at ha
            cases ha
            exact hname
          · exact h2 hn e hin hsel

/-- Claim C18. On `enter` in the target-selection state: the search for the
selected VS Code target finds one exactly when a selected entry has a target
named "VS Code"; the new state is the selection of the VS Code variant exactly
when it finds one and more than one variant is cached; when it finds one and
exactly one variant is cached, `selectedVSCVariant` is 0, that variant is set
on the target by its `SetVariant` and the apply command is returned at once;
when it finds none, or no variant is cached, the apply command is returned at
once and nothing changes. `SetVariant` of the VS Code adapter makes its config
path `<ConfigDir>/User/settings.json`. -/
theorem confirm_targets_vscode_variant {W : Type} (m : model W) (entries : List (Nat × Bool))
    (w : W) (hs : m.state = State.selectingApps) (hentries : entries.Perm m.selectedApps)
    (hidx : ∀ e ∈ m.selectedApps, e.2 = true → e.1 < m.apps.length) :
    ∃ found : Option Nat, findVSCodeSelected m.apps w entries = some found
      ∧ (found.isSome = true ↔
          ∃ e ∈ m.selectedApps, e.2 = true
            ∧ ∃ app, m.apps[e.1]? = some app ∧ app.Name w = "VS Code")
      ∧ (∀ m' cmd w', Update m (Msg.key "enter") entries w = some (m', cmd, w') →
          (m'.state = State.selectingVSCodeVariant
            ↔ found.isSome = true ∧ m.vscodeVariants.length > 1))
      ∧ (found.isSome = true → m.vscodeVariants.length > 1 →
          Update m (Msg.key "enter") entries w
            = some ({ m with cursor := 0, state := State.selectingVSCodeVariant }, Cmd.none, w))
      ∧ (∀ idx variant, found = some idx → m.vscodeVariants = [variant] →
          ∃ app, m.apps[idx]? = some app ∧ app.Name w = "VS Code"
            ∧ Update m (Msg.key "enter") entries w
              = some ({ m with selectedVSCVariant := 0 },
                  Cmd.applyThemes { m with selectedVSCVariant := 0 },
                  match app.SetVariant with
                  | some setVariant => setVariant variant w
                  | none => w))
      ∧ ((found = none ∨ m.vscodeVariants = []) →
          Update m (Msg.key "enter") entries w = some (m, Cmd.applyThemes m, w))
      ∧ (∀ (libs : Libs) (v : VSCodeIntegration) (variant : VSCodeVariant),
          (v.SetVariant libs variant).configPath
              = libs.filepathJoin [variant.ConfigDir, "User", "settings.json"]
            ∧ (v.SetVariant libs variant).variant = variant)
      ∧ (∀ (libs : Libs) (home : Option String) (variant : VSCodeVariant)
          (world : VSCodeIntegration × FS),
          ∃ setVariant, (vscodeApp libs home).SetVariant = some setVariant
            ∧ (setVariant variant world).1.configPath
                = libs.filepathJoin [variant.ConfigDir, "User", "settings.json"]
            ∧ (setVariant variant world).2 = world.2) := by
  have hidx' : ∀ e ∈ entries, e.2 = true → e.1 < m.apps.length := fun e he =>
    hidx e (hentries.subset he)
  obtain ⟨found, hf, h1, h2⟩ := findVSCodeSelected_spec m.apps w entries hidx'
  have hnone : found = none →
      Update m (Msg.key "enter") entries w = some (m, Cmd.applyThemes m, w) := by
    intro h
    rw [h] at hf
    rw [Update_enter]
    unfold updateEnter
    simp only [hs, hf]
  have hsome : ∀ idx, found = some idx →
      Update m (Msg.key "enter") entries w
        = if m.vscodeVariants.length > 1 then
            some ({ m with cursor := 0, state := State.selectingVSCodeVariant }, Cmd.none, w)
          else if m.vscodeVariants.length = 1 then
            (updateVSCodeVariant { m with selectedVSCVariant := 0 } idx w).map fun w1 =>
              ({ m with selectedVSCVariant := 0 },
                Cmd.applyThemes { m with selectedVSCVariant := 0 }, w1)
          else
            some (m, Cmd.applyThemes m, w) := by
    intro idx h
    rw [h] at hf
    rw [Update_enter]
    unfold updateEnter
    simp only [hs, hf]
  refine ⟨found, hf, ?_, ?_, ?_, ?_, ?_, ?_, ?_⟩
  · constructor
    · intro hsome'
      obtain ⟨idx, hidx0⟩ := Option.isSome_iff_exists.mp hsome'
      obtain ⟨hm, app, happ, hname⟩ := h1 idx hidx0
      exact ⟨(idx, true), hentries.subset hm, rfl, app, happ, hname⟩
    · rintro ⟨e, he, hsel, app, happ, hname⟩
      cases hfound : found with
      | some idx => rfl
      | none => exact absurd hname (h2 hfound e (hentries.symm.subset he) hsel app happ)
  · intro m' cmd w' hu
    cases hfound : found with
    | none =>
      rw [hnone hfound] at hu
      simp only [Option.some.injEq, Prod.mk.injEq] at hu
      obtain ⟨rfl, _, _⟩ := hu
      simp [hs]
    | some idx =>
      rw [hsome idx hfound] at hu
      by_cases hv : m.vscodeVariants.length > 1
      · rw [if_pos hv] at hu
        simp only [Option.some.injEq, Prod.mk.injEq] at hu
        obtain ⟨rfl, _, _⟩ := hu
        simp [hv]
      · rw [if_neg hv] at hu
        by_cases hv1 : m.vscodeVariants.length = 1
        · rw [if_pos hv1] at hu
          obtain ⟨w1, _, hw1⟩ := Option.map_eq_some'.mp hu
          simp only [Prod.mk.injEq] at hw1
          obtain ⟨rfl, _, _⟩ := hw1
          simp [hs, hv]
        · rw [if_neg hv1] at hu
          simp only [Option.some.injEq, Prod.mk.injEq] at hu
          obtain ⟨rfl, _, _⟩ := hu
          simp [hs, hv]
  · intro hsome' hv
    obtain ⟨idx, hfound⟩ := Option.isSome_iff_exists.mp hsome'
    rw [hsome idx hfound, if_pos hv]
  · intro idx variant hfound hv
    obtain ⟨_, app, happ, hname⟩ := h1 idx hfound
    refine ⟨app, happ, hname, ?_⟩
    rw [hsome idx hfound]
    have hl1 : ¬ m.vscodeVariants.length > 1 := by simp [hv]
    have hl2 : m.vscodeVariants.length = 1 := by simp [hv]
    rw [if_neg hl1, if_pos hl2]
    unfold updateVSCodeVariant
    simp only [happ, hv]
    cases app.SetVariant <;> rfl
  · intro h
    rcases h with h | h
    · exact hnone h
    · cases hfound : found with
      | none => exact hnone hfound
      | some idx =>
        rw [hsome idx hfound]
        simp [h]
  · intro libs v variant
    exact ⟨rfl, rfl⟩
  · intro libs home variant world
    exact ⟨_, rfl, rfl, rfl⟩

/-- Witness for C18: VS Code selected and one variant cached, Cursor. After
`enter` the state is still the target selection (the apply command was
returned) and the config path of the adapter object is the one of Cursor. -/
theorem confirm_targets_vscode_variant_witness :
    ((exampleVSCodeModel [exampleVariant]).state = State.selectingApps
      ∧ List.Perm [((0 : Nat), true)] (exampleVSCodeModel [exampleVariant]).selectedApps
      ∧ ∀ e ∈ (exampleVSCodeModel [exampleVariant]).selectedApps, e.2 = true →
          e.1 < (exampleVSCodeModel [exampleVariant]).apps.length)
    ∧ (Update (exampleVSCodeModel [exampleVariant]) (Msg.key "enter") [(0, true)]
        (exampleVSCode, exampleFS [])).map (fun r => (r.1.state, r.1.selectedVSCVariant, r.2.2.1))
      = some (State.selectingApps, 0,
          ⟨"/home/u/Library/Application Support/Cursor/User/settings.json", exampleVariant⟩) := by
  have hs : (exampleVSCodeModel [exampleVariant]).state = State.selectingApps := rfl
  have hp : List.Perm [((0 : Nat), true)] (exampleVSCodeModel [exampleVariant]).selectedApps :=
    List.Perm.refl _
  have hi : ∀ e ∈ (exampleVSCodeModel [exampleVariant]).selectedApps, e.2 = true →
      e.1 < (exampleVSCodeModel [exampleVariant]).apps.length := by decide
  refine ⟨⟨hs, hp, hi⟩, ?_⟩
  obtain ⟨found, hf, _, _, _, h1, _⟩ := confirm_targets_vscode_variant
    (exampleVSCodeModel [exampleVariant]) [(0, true)] (exampleVSCode, exampleFS []) hs hp hi
  have hfound : found = some 0 := by
    have : findVSCodeSelected (exampleVSCodeModel [exampleVariant]).apps
        (exampleVSCode, exampleFS []) [(0, true)] = some (some 0) := by decide
    rw [this] at hf
    exact (Option.some.inj hf).symm
  obtain ⟨app, happ, _, hu⟩ := h1 0 exampleVariant hfound rfl
  have happ' : app = vscodeApp exampleLibs (some "/home/u") := by
    have : (exampleVSCodeModel [exampleVariant]).apps[0]?
        = some (vscodeApp exampleLibs (some "/home/u")) := rfl
    rw [this] at happ
    exact (Option.some.inj happ).symm
  subst happ'
  rw [hu]
  rfl
/-! ## Going back -/

theorem esc_ne_keys : ¬ (("esc" : String) = "ctrl+c" ∨ ("esc" : String) = "q")
    ∧ ¬ (("esc" : String) = "up" ∨ ("esc" : String) = "k")
    ∧ ¬ (("esc" : String) = "down" ∨ ("esc" : String) = "j")
    ∧ ("esc" : String) ≠ "enter" ∧ ("esc" : String) ≠ " " ∧ ("esc" : String) ≠ "p" := by decide

theorem Update_esc_selectingVariant {W : Type} (m : model W) (entries : List (Nat × Bool))
    (w : W) (hs : m.state = State.selectingVariant) :
    Update m (Msg.key "esc") entries w
      = some ({ m with state := State.selectingTheme, cursor := m.selectedBaseTheme },
          Cmd.none, w) := by
  simp only [Update, esc_ne_keys.1, esc_ne_keys.2.1, esc_ne_keys.2.2.1, esc_ne_keys.2.2.2.1,
    esc_ne_keys.2.2.2.2.1, esc_ne_keys.2.2.2.2.2, if_false, if_true, hs]

theorem Update_esc_previewingTheme {W : Type} (m : model W) (entries : List (Nat × Bool))
    (w : W) (baseTheme : BaseTheme) (hs : m.state = State.previewingTheme)
    (hb : m.baseThemes[m.selectedBaseTheme]? = some baseTheme) :
    Update m (Msg.key "esc") entries w
      = if baseTheme.Variants.length > 1 then
          some ({ m with state := State.selectingVariant, cursor := m.selectedVariant },
            Cmd.none, w)
        else
          some ({ m with state := State.selectingTheme, cursor := m.selectedBaseTheme },
            Cmd.none, w) := by
  have h1 : ¬ (State.previewingTheme = State.selectingVariant) := by decide
  simp only [Update, esc_ne_keys.1, esc_ne_keys.2.1, esc_ne_keys.2.2.1, esc_ne_keys.2.2.2.1,
    esc_ne_keys.2.2.2.2.1, esc_ne_keys.2.2.2.2.2, if_false, if_true, hs, h1, hb]

theorem Update_esc_selectingApps {W : Type} (m : model W) (entries : List (Nat × Bool))
    (w : W) (hs : m.state = State.selectingApps) :
    Update m (Msg.key "esc") entries w
      = some ({ m with state := State.previewingTheme, cursor := 0, selectedApps := [] },
          Cmd.none, w) := by
  have h1 : ¬ (State.selectingApps = State.selectingVariant) := by decide
  have h2 : ¬ (State.selectingApps = State.previewingTheme) := by decide
  simp only [Update, esc_ne_keys.1, esc_ne_keys.2.1, esc_ne_keys.2.2.1, esc_ne_keys.2.2.2.1,
    esc_ne_keys.2.2.2.2.1, esc_ne_keys.2.2.2.2.2, if_false, if_true, hs, h1, h2]

theorem Update_esc_selectingVSCodeVariant {W : Type} (m : model W)
    (entries : List (Nat × Bool)) (w : W) (hs : m.state = State.selectingVSCodeVariant) :
    Update m (Msg.key "esc") entries w
      = some ({ m with cursor := 0, state := State.selectingApps }, Cmd.none, w) := by
  have h1 : ¬ (State.selectingVSCodeVariant = State.selectingVariant) := by decide
  have h2 : ¬ (State.selectingVSCodeVariant = State.previewingTheme) := by decide
  have h3 : ¬ (State.selectingVSCodeVariant = State.selectingApps) := by decide
  simp only [Update, esc_ne_keys.1, esc_ne_keys.2.1, esc_ne_keys.2.2.1, esc_ne_keys.2.2.2.1,
    esc_ne_keys.2.2.2.2.1, esc_ne_keys.2.2.2.2.2, if_false, if_true, hs, h1, h2, h3]

/-- Counterexample to C19 as stated: the target selection is confirmed with
the cursor on the second target, VS Code, and two variants cached, which
opens the variant selection; `esc` there comes back to the target selection
with the cursor at 0, on the first target, not on the second. -/
theorem esc_from_vscode_variant_resets_cursor :
    exampleVariantModel.state = State.selectingApps
    ∧ exampleVariantModel.cursor = 1
    ∧ (Update exampleVariantModel (Msg.key "enter") [(1, true)] []).map
        (fun r => (r.1.state, r.1.cursor)) = some (State.selectingVSCodeVariant, 0)
    ∧ ((Update exampleVariantModel (Msg.key "enter") [(1, true)] []).bind
        (fun r => Update r.1 (Msg.key "esc") [(1, true)] r.2.2)).map
        (fun r => (r.1.state, r.1.cursor)) = some (State.selectingApps, 0) := by
  refine ⟨rfl, rfl, by decide, by decide⟩

/-- Claim C19, amended. `esc` in the variant selection goes back to the theme
selection with the cursor on the chosen family; `esc` in the preview goes back
to the variant selection with the cursor on the chosen variant when the chosen
family has more than one, and otherwise to the theme selection with the cursor
on the chosen family; `esc` in the selection of the VS Code variant goes back
to the target selection with the cursor at 0, whatever it was when the targets
were confirmed; `esc` in the target selection goes back to the preview with
the cursor at 0 and the selection emptied. The chosen family and variant are
the ones `enter` recorded: `enter` then `esc` on a family with several
variants leaves the cursor where it was, and so does `enter` then `esc` on a
variant. -/
theorem esc_restores_chosen_index_except_for_targets {W : Type} (m : model W)
    (entries : List (Nat × Bool)) (w : W) :
    (m.state = State.selectingVariant →
      Update m (Msg.key "esc") entries w
        = some ({ m with state := State.selectingTheme, cursor := m.selectedBaseTheme },
            Cmd.none, w))
    ∧ (m.state = State.previewingTheme → ∀ baseTheme,
        m.baseThemes[m.selectedBaseTheme]? = some baseTheme →
        (baseTheme.Variants.length > 1 →
          Update m (Msg.key "esc") entries w
            = some ({ m with state := State.selectingVariant, cursor := m.selectedVariant },
                Cmd.none, w))
        ∧ (¬ baseTheme.Variants.length > 1 →
          Update m (Msg.key "esc") entries w
            = some ({ m with state := State.selectingTheme, cursor := m.selectedBaseTheme },
                Cmd.none, w)))
    ∧ (m.state = State.selectingVSCodeVariant →
      Update m (Msg.key "esc") entries w
        = some ({ m with cursor := 0, state := State.selectingApps }, Cmd.none, w))
    ∧ (m.state = State.selectingApps →
      Update m (Msg.key "esc") entries w
        = some ({ m with state := State.previewingTheme, cursor := 0, selectedApps := [] },
            Cmd.none, w))
    ∧ (m.state = State.selectingTheme → ∀ baseTheme,
        m.baseThemes[m.cursor]? = some baseTheme → baseTheme.Variants.length > 1 →
        ((Update m (Msg.key "enter") entries w).bind
            (fun r => Update r.1 (Msg.key "esc") entries r.2.2)).map
            (fun r => (r.1.state, r.1.cursor))
          = some (State.selectingTheme, m.cursor))
    ∧ (m.state = State.selectingVariant → ∀ baseTheme,
        m.baseThemes[m.selectedBaseTheme]? = some baseTheme → baseTheme.Variants.length > 1 →
        ((Update m (Msg.key "enter") entries w).bind
            (fun r => Update r.1 (Msg.key "esc") entries r.2.2)).map
            (fun r => (r.1.state, r.1.cursor))
          = some (State.selectingVariant, m.cursor))
    ∧ (m.state = State.selectingApps → ∀ idx,
        findVSCodeSelected m.apps w entries = some (some idx) → m.vscodeVariants.length > 1 →
        ((Update m (Msg.key "enter") entries w).bind
            (fun r => Update r.1 (Msg.key "esc") entries r.2.2)).map
            (fun r => (r.1.state, r.1.cursor))
          = some (State.selectingApps, 0)) := by
  refine ⟨?_, ?_, ?_, ?_, ?_, ?_, ?_⟩
  · intro hs
    exact Update_esc_selectingVariant m entries w hs
  · intro hs baseTheme hb
    constructor
    · intro hv
      rw [Update_esc_previewingTheme m entries w baseTheme hs hb, if_pos hv]
    · intro hv
      rw [Update_esc_previewingTheme m entries w baseTheme hs hb, if_neg hv]
  · intro hs
    exact Update_esc_selectingVSCodeVariant m entries w hs
  · intro hs
    exact Update_esc_selectingApps m entries w hs
  · intro hs baseTheme hb hv
    have hne : baseTheme.Variants.length ≠ 1 := by omega
    have he : Update m (Msg.key "enter") entries w
        = some ({ m with selectedBaseTheme := m.cursor, cursor := 0,
                         state := State.selectingVariant }, Cmd.none, w) := by
      rw [Update_enter]
      unfold updateEnter
      simp only [hs, hb, hne, if_false]
    rw [he]
    simp only [Option.some_bind]
    rw [Update_esc_selectingVariant _ entries w rfl]
    rfl
  · intro hs baseTheme hb hv
    have hle : m.selectedBaseTheme ≤ m.baseThemes.length := by
      by_contra hn
      rw [List.getElem?_eq_none (by omega)] at hb
      cases hb
    have he : Update m (Msg.key "enter") entries w
        = some ({ m with selectedVariant := m.cursor,
                         selectedTheme :=
                          ((m.baseThemes.take m.selectedBaseTheme).map
                            fun b => b.Variants.length).sum + m.cursor,
                         state := State.previewingTheme }, Cmd.none, w) := by
      rw [Update_enter]
      unfold updateEnter
      simp only [hs, calculateThemeIndex, hle, if_true, Option.map_some']
    rw [he]
    simp only [Option.some_bind]
    have hesc := Update_esc_previewingTheme
      { m with selectedVariant := m.cursor,
               selectedTheme :=
                ((m.baseThemes.take m.selectedBaseTheme).map
                  fun b => b.Variants.length).sum + m.cursor,
               state := State.previewingTheme } entries w baseTheme rfl hb
    rw [hesc, if_pos hv]
    rfl
  · intro hs idx hf hv
    have he : Update m (Msg.key "enter") entries w
        = some ({ m with cursor := 0, state := State.selectingVSCodeVariant }, Cmd.none, w) := by
      rw [Update_enter]
      unfold updateEnter
      simp only [hs, hf, hv, if_true]
    rw [he]
    simp only [Option.some_bind]
    rw [Update_esc_selectingVSCodeVariant _ entries w rfl]
    rfl

/-- Witness for the amended C19: the model of the counterexample, and the
theme selection with the cursor on Catppuccin, a family with four variants. -/
theorem esc_restores_chosen_index_except_for_targets_witness :
    (exampleVariantModel.state = State.selectingApps
      ∧ findVSCodeSelected exampleVariantModel.apps [] [(1, true)] = some (some 1)
      ∧ exampleVariantModel.vscodeVariants.length > 1
      ∧ (exampleThemeModel 1).state = State.selectingTheme)
    ∧ ((Update exampleVariantModel (Msg.key "enter") [(1, true)] []).bind
          (fun r => Update r.1 (Msg.key "esc") [(1, true)] r.2.2)).map
          (fun r => (r.1.state, r.1.cursor))
        = some (State.selectingApps, 0)
    ∧ ((Update (exampleThemeModel 1) (Msg.key "enter") [] []).bind
          (fun r => Update r.1 (Msg.key "esc") [] r.2.2)).map
          (fun r => (r.1.state, r.1.cursor))
        = some (State.selectingTheme, (exampleThemeModel 1).cursor) := by
  refine ⟨⟨rfl, by decide, by decide, rfl⟩, ?_, ?_⟩
  · exact (esc_restores_chosen_index_except_for_targets exampleVariantModel [(1, true)]
      []).2.2.2.2.2.2 rfl 1 (by decide) (by decide)
  · exact (esc_restores_chosen_index_except_for_targets (exampleThemeModel 1) []
      []).2.2.2.2.1 rfl _ rfl (by decide)

/-! ## The order of the report -/

theorem reportLine_fixed {W : Type} (apps : List (AppIntegration W)) (theme : Theme)
    (h : fixedOutcomes apps theme) (app : AppIntegration W) (ha : app ∈ apps) (w w' : W) :
    reportLine app theme w = reportLine app theme w' := by
  obtain ⟨h1, h2, h3⟩ := h app ha w w'
  unfold reportLine
  rw [h1, h2, h3, (h app ha (app.Apply theme w).2 (app.Apply theme w').2).2.1]

/-- With fixed outcomes the report of the loop is, entry after entry, the line
of the target of each selected entry. -/
theorem applyLoop_fixed {W : Type} (apps : List (AppIntegration W)) (theme : Theme)
    (h : fixedOutcomes apps theme) (w0 : W) (entries : List (Nat × Bool)) (w : W)
    (report : List (Nat × String)) (calls : List Call) (w' : W)
    (hl : applyLoop apps theme entries w = some (report, calls, w')) :
    report = (entries.filter (fun e => e.2)).filterMap
      (fun e => (apps[e.1]?).map (fun app => (e.1, reportLine app theme w0))) := by
  induction entries generalizing w report calls w' with
  | nil =>
    simp only [applyLoop, Option.some.injEq, Prod.mk.injEq] at hl
    rw [← hl.1]
    rfl
  | cons e rest ih =>
    obtain ⟨idx, selected⟩ := e
    cases selected with
    | false =>
      simp only [applyLoop, Bool.false_eq_true, if_false] at hl
      have := ih w report calls w' hl
      simpa using this
    | true =>
      simp only [applyLoop, if_true] at hl
      cases hget : apps[idx]? with
      | none => simp [hget] at hl
      | some app =>
        have hmem : app ∈ apps := List.mem_iff_getElem?.mpr ⟨idx, hget⟩
        simp only [hget] at hl
        by_cases hinst : app.IsInstalled w = true
        · simp only [hinst, not_true_eq_false, if_false] at hl
          obtain ⟨r, hr, hreq⟩ := Option.map_eq_some'.mp hl
          obtain ⟨report0, calls0, w1⟩ := r
          simp only [Prod.mk.injEq] at hreq
          obtain ⟨hrep, _, _⟩ := hreq
          have := ih _ report0 calls0 w1 hr
          rw [← hrep, this]
          simp only [List.filter_cons, if_true, List.filterMap_cons, hget, Option.map_some']
          congr 2
          rw [reportLine_fixed apps theme h app hmem w0 w]
          unfold reportLine
          simp only [hinst, not_true_eq_false, if_false]
        · rw [if_pos hinst] at hl
          obtain ⟨r, hr, hreq⟩ := Option.map_eq_some'.mp hl
          obtain ⟨report0, calls0, w1⟩ := r
          simp only [Prod.mk.injEq] at hreq
          obtain ⟨hrep, _, _⟩ := hreq
          have := ih _ report0 calls0 w1 hr
          rw [← hrep, this]
          simp only [List.filter_cons, if_true, List.filterMap_cons, hget, Option.map_some']
          congr 2
          rw [reportLine_fixed apps theme h app hmem w0 w]
          unfold reportLine
          simp [hinst]

/-- Counterexample to C20 as stated: the same model, theme, selection and
outcomes, with the entries of `selectedApps` yielded in two orders the `range`
statement may take. The report lines come out in two different orders. -/
theorem applyThemes_report_order_varies :
    List.Perm [((0 : Nat), true), (1, true), (2, true)] exampleModel.selectedApps
    ∧ List.Perm [((2 : Nat), true), (0, true), (1, true)] exampleModel.selectedApps
    ∧ (applyThemes exampleModel [(0, true), (1, true), (2, true)] []).map Prod.fst
        = some (Msg.applyCompleteMsg
            [failedLine "Alacritty" "failed to read config", notInstalledLine "Warp",
              successLine "Starship"] none)
    ∧ (applyThemes exampleModel [(2, true), (0, true), (1, true)] []).map Prod.fst
        = some (Msg.applyCompleteMsg
            [successLine "Starship", failedLine "Alacritty" "failed to read config",
              notInstalledLine "Warp"] none)
    ∧ (applyThemes exampleModel [(0, true), (1, true), (2, true)] []).map Prod.fst
        ≠ (applyThemes exampleModel [(2, true), (0, true), (1, true)] []).map Prod.fst := by
  refine ⟨by decide, by decide, by rfl, by rfl, by decide⟩

/-- Claim C20, amended. For a fixed theme, selection and outcomes of the
targets, the report is determined up to the order of its lines: for any two
orders in which the `range` statement yields the entries of `selectedApps`,
`applyThemes` returns reports that are rearrangements of each other, line by
line with the same target, each selected target having the line of its own
outcome; for one and the same order the report is the same sequence. -/
theorem applyThemes_report_up_to_order {W : Type} (m : model W)
    (entries1 entries2 : List (Nat × Bool)) (w : W)
    (hp1 : entries1.Perm m.selectedApps) (hp2 : entries2.Perm m.selectedApps)
    (htheme : m.selectedTheme < m.themes.length)
    (hidx : ∀ e ∈ m.selectedApps, e.2 = true → e.1 < m.apps.length)
    (hfixed : fixedOutcomes m.apps (m.themes[m.selectedTheme])) :
    ∃ report1 report2 calls1 calls2 w1 w2,
      applyLoop m.apps (m.themes[m.selectedTheme]) entries1 w = some (report1, calls1, w1)
      ∧ applyLoop m.apps (m.themes[m.selectedTheme]) entries2 w = some (report2, calls2, w2)
      ∧ applyThemes m entries1 w
          = some (Msg.applyCompleteMsg (report1.map Prod.snd) none, calls1, w1)
      ∧ applyThemes m entries2 w
          = some (Msg.applyCompleteMsg (report2.map Prod.snd) none, calls2, w2)
      ∧ report1.Perm report2
      ∧ (report1.map Prod.snd).Perm (report2.map Prod.snd)
      ∧ (∀ idx line, (idx, line) ∈ report1 →
          ∃ app, m.apps[idx]? = some app
            ∧ line = reportLine app (m.themes[m.selectedTheme]) w)
      ∧ (entries1 = entries2 → report1 = report2) := by
  have hth : m.themes[m.selectedTheme]? = some m.themes[m.selectedTheme] :=
    List.getElem?_eq_getElem htheme
  obtain ⟨report1, calls1, w1, h1, _⟩ := applyLoop_spec m.apps (m.themes[m.selectedTheme])
    entries1 w (fun e he => hidx e (hp1.subset he))
  obtain ⟨report2, calls2, w2, h2, _⟩ := applyLoop_spec m.apps (m.themes[m.selectedTheme])
    entries2 w (fun e he => hidx e (hp2.subset he))
  have e1 := applyLoop_fixed m.apps _ hfixed w entries1 w report1 calls1 w1 h1
  have e2 := applyLoop_fixed m.apps _ hfixed w entries2 w report2 calls2 w2 h2
  have hperm : report1.Perm report2 := by
    rw [e1, e2]
    exact ((hp1.trans hp2.symm).filter _).filterMap _
  refine ⟨report1, report2, calls1, calls2, w1, w2, h1, h2, by simp [applyThemes, hth, h1],
    by simp [applyThemes, hth, h2], hperm, hperm.map _, ?_, ?_⟩
  · intro idx line hmem
    rw [e1] at hmem
    simp only [List.mem_filterMap, List.mem_filter, Option.map_eq_some', Prod.mk.injEq] at hmem
    obtain ⟨e, _, app, happ, hi, hline⟩ := hmem
    subst hi
    exact ⟨app, happ, hline.symm⟩
  · intro he
    subst he
    rw [h1] at h2
    simp only [Option.some.injEq, Prod.mk.injEq] at h2
    exact h2.1

/-- Witness for the amended C20: the two orders of the counterexample. -/
theorem applyThemes_report_up_to_order_witness :
    (List.Perm [((0 : Nat), true), (1, true), (2, true)] exampleModel.selectedApps
      ∧ List.Perm [((2 : Nat), true), (0, true), (1, true)] exampleModel.selectedApps
      ∧ exampleModel.selectedTheme < exampleModel.themes.length
      ∧ (∀ e ∈ exampleModel.selectedApps, e.2 = true → e.1 < exampleModel.apps.length)
      ∧ fixedOutcomes exampleModel.apps (GetBuiltInThemes.getD 0 default))
    ∧ ∃ (report1 report2 : List (Nat × String)),
        (applyThemes exampleModel [(0, true), (1, true), (2, true)] []).map Prod.fst
          = some (Msg.applyCompleteMsg (report1.map Prod.snd) none)
        ∧ (applyThemes exampleModel [(2, true), (0, true), (1, true)] []).map Prod.fst
          = some (Msg.applyCompleteMsg (report2.map Prod.snd) none)
        ∧ report1.Perm report2 := by
  have hp1 : List.Perm [((0 : Nat), true), (1, true), (2, true)] exampleModel.selectedApps := by
    decide
  have hp2 : List.Perm [((2 : Nat), true), (0, true), (1, true)] exampleModel.selectedApps := by
    decide
  have ht : exampleModel.selectedTheme < exampleModel.themes.length := by decide
  have hi : ∀ e ∈ exampleModel.selectedApps, e.2 = true → e.1 < exampleModel.apps.length := by
    decide
  have hf : fixedOutcomes exampleModel.apps (GetBuiltInThemes.getD 0 default) := by
    intro app ha w w'
    simp only [exampleModel, List.mem_cons, List.mem_singleton, List.not_mem_nil, or_false] at ha
    rcases ha with rfl | rfl | rfl <;> exact ⟨rfl, rfl, rfl⟩
  refine ⟨⟨hp1, hp2, ht, hi, hf⟩, ?_⟩
  obtain ⟨report1, report2, calls1, calls2, w1, w2, _, _, h3, h4, h5, _⟩ :=
    applyThemes_report_up_to_order exampleModel [(0, true), (1, true), (2, true)]
      [(2, true), (0, true), (1, true)] [] hp1 hp2 ht hi hf
  exact ⟨report1, report2, by rw [h3]; rfl, by rw [h4]; rfl, h5⟩

/-! ## File names -/

theorem sanitizeChar_eq (c : Char) :
    sanitizeChar c = if inFileNameClass c then [c] else if c = ' ' then ['_'] else [] := by
  unfold sanitizeChar inFileNameClass
  have e1 : Char.ofNat 97 = 'a' := rfl
  have e2 : Char.ofNat 122 = 'z' := rfl
  have e3 : Char.ofNat 65 = 'A' := rfl
  have e4 : Char.ofNat 90 = 'Z' := rfl
  have e5 : Char.ofNat 48 = '0' := rfl
  have e6 : Char.ofNat 57 = '9' := rfl
  have e7 : Char.ofNat 45 = '-' := rfl
  have e8 : Char.ofNat 95 = '_' := rfl
  have e9 : Char.ofNat 32 = ' ' := rfl
  rw [e1, e2, e3, e4, e5, e6, e7, e8, e9]
  simp only [Bool.or_eq_true, Bool.and_eq_true, decide_eq_true_eq, beq_iff_eq, or_assoc]

theorem flatMap_sanitizeChar (l : List Char) :
    l.flatMap sanitizeChar
      = l.filterMap fun c =>
          if inFileNameClass c then some c else if c = ' ' then some '_' else none := by
  induction l with
  | nil => rfl
  | cons c rest ih =>
    rw [List.flatMap_cons, ih, sanitizeChar_eq]
    by_cases h1 : inFileNameClass c = true
    · simp [h1]
    · by_cases h2 : c = ' '
      · subst h2
        simp [h1]
      · simp [h1, h2]

/-- Claim C21. `SanitizeFileName` goes through the name in order, keeps every
character of `[A-Za-z0-9_-]`, replaces every space by an underscore and drops
every other character; the result has only characters of `[A-Za-z0-9_-]`;
"Catppuccin Mocha" gives "Catppuccin_Mocha" and "Rosé Pine" gives
"Ros_Pine". -/
theorem SanitizeFileName_keeps_class_maps_space (name : String) :
    (SanitizeFileName name).data
        = name.data.filterMap (fun c =>
            if inFileNameClass c then some c else if c = ' ' then some '_' else none)
    ∧ (∀ c ∈ (SanitizeFileName name).data, inFileNameClass c = true)
    ∧ SanitizeFileName "Catppuccin Mocha" = "Catppuccin_Mocha"
    ∧ SanitizeFileName "Rosé Pine" = "Ros_Pine" := by
  have h : (SanitizeFileName name).data
        = name.data.filterMap (fun c =>
            if inFileNameClass c then some c else if c = ' ' then some '_' else none) := by
    unfold SanitizeFileName
    exact flatMap_sanitizeChar name.data
  refine ⟨h, ?_, by decide, by decide⟩
  intro c hc
  rw [h, List.mem_filterMap] at hc
  obtain ⟨a, _, ha⟩ := hc
  by_cases h1 : inFileNameClass a = true
  · simp only [h1, if_true, Option.some.injEq] at ha
    rw [← ha]
    exact h1
  · by_cases h2 : a = ' '
    · subst h2
      simp [h1] at ha
      rw [← ha]
      decide
    · simp [h1, h2] at ha

/-- Counterexample to C22 as stated: a tab is white space and yields no
underscore; it is dropped, and so are a line feed and a no-break space. -/
theorem SanitizeFileName_drops_tab :
    SanitizeFileName "a\tb" = "ab"
    ∧ ("a\tb".data.filter Char.isWhitespace).length = 1
    ∧ "a\tb".data.count '_' = 0
    ∧ (SanitizeFileName "a\tb").data.count '_' = 0
    ∧ SanitizeFileName "a\nb" = "ab"
    ∧ SanitizeFileName "a\u00a0b" = "ab" := by
  decide

/-- Claim C22, amended. `SanitizeFileName` maps the space character to an
underscore and no other white space: every space of the name yields one
underscore, every underscore of the name is kept, and every other character
outside `[A-Za-z0-9_-]`, a tab or a line feed included, yields nothing; so the
result has as many underscores as the name has spaces plus underscores. -/
theorem SanitizeFileName_underscores (name : String) :
    (SanitizeFileName name).data.count '_'
        = name.data.count ' ' + name.data.count '_'
    ∧ sanitizeChar ' ' = ['_']
    ∧ sanitizeChar '_' = ['_']
    ∧ ∀ c, c ≠ ' ' → inFileNameClass c = false → sanitizeChar c = [] := by
  refine ⟨?_, by decide, by decide, ?_⟩
  · unfold SanitizeFileName
    show (name.data.flatMap sanitizeChar).count '_' = _
    induction name.data with
    | nil => rfl
    | cons c rest ih =>
      rw [List.flatMap_cons, List.count_append, ih, sanitizeChar_eq]
      by_cases hs : c = ' '
      · subst hs
        simp [inFileNameClass]
        omega
      · by_cases hu : c = '_'
        · subst hu
          simp [inFileNameClass]
          omega
        · by_cases h1 : inFileNameClass c = true
          · simp [h1, hs, hu, List.count_cons, Ne.symm hs, Ne.symm hu]
          · simp [h1, hs, hu, List.count_cons, Ne.symm hs, Ne.symm hu]
  · intro c hs h1
    rw [sanitizeChar_eq]
    simp [h1, hs]

/-! ## Scanning twice -/

/-- Outside strings and comments the first character written is the first
character read, unless that one is a slash. -/
theorem vscodeScan_head (e : Bool) (rest : List Char) (h : rest.head? ≠ some chSlash) :
    (vscodeScan ⟨false, false, false, e⟩ false rest).head? = rest.head? := by
  cases rest with
  | nil => rfl
  | cons c r =>
    have hc : c ≠ chSlash := fun hc => h (by rw [hc]; rfl)
    by_cases hq : c = chQuote
    · simp [vscodeScan, hq]
    · simp [vscodeScan, hq, hc]

theorem zedScan_head (e : Bool) (rest : List Char) (h : rest.head? ≠ some chSlash) :
    (zedScan ⟨false, false, false, e⟩ false rest).head? = rest.head? := by
  cases rest with
  | nil => rfl
  | cons c r =>
    have hc : c ≠ chSlash := fun hc => h (by rw [hc]; rfl)
    by_cases hq : c = chQuote
    · subst hq
      simp [zedScan, chQuote_ne_chSlash]
    · simp [zedScan, hq, hc]

theorem vscodeScan_again (l : List Char) : ∀ (st : ScanState) (skip : Bool),
    (st.inString = true → st.inSingleLineComment = false ∧ st.inMultiLineComment = false) →
    vscodeScan st.outsideComment false (vscodeScan st skip l) = vscodeScan st skip l := by
  induction l with
  | nil =>
    intro st skip _
    simp [vscodeScan]
  | cons ch rest ih =>
    intro st skip hst
    cases skip with
    | true =>
      simp only [vscodeScan]
      exact ih st false hst
    | false =>
      obtain ⟨s, c1, c2, e⟩ := st
      cases s with
      | true =>
        obtain ⟨h1, h2⟩ := hst rfl
        simp only at h1 h2
        subst h1 h2
        cases e with
        | true =>
          have := ih ⟨true, false, false, false⟩ false (fun _ => ⟨rfl, rfl⟩)
          simp only [ScanState.outsideComment] at this
          simp [vscodeScan, ScanState.outsideComment, this]
        | false =>
          by_cases hb : ch = chBackslash
          · have := ih ⟨true, false, false, true⟩ false (fun _ => ⟨rfl, rfl⟩)
            simp only [ScanState.outsideComment] at this
            simp [vscodeScan, ScanState.outsideComment, this, hb]
          · by_cases hq : ch = chQuote
            · have := ih ⟨false, false, false, false⟩ false (fun h => by cases h)
              simp only [ScanState.outsideComment] at this
              subst hq
              simp [vscodeScan, ScanState.outsideComment, this, chQuote_ne_chBackslash]
            · have := ih ⟨true, false, false, false⟩ false (fun _ => ⟨rfl, rfl⟩)
              simp only [ScanState.outsideComment] at this
              simp [vscodeScan, ScanState.outsideComment, this, hb, hq]
      | false =>
        cases c2 with
        | true =>
          -- inside a block comment (a quote does not start a string)
          by_cases hend : ch = chStar ∧ rest.head? = some chSlash
          · have := ih ⟨false, c1, false, e⟩ true (fun h => by cases h)
            simp only [ScanState.outsideComment] at this
            simp [vscodeScan, ScanState.outsideComment, this, hend]
          · have := ih ⟨false, c1, true, e⟩ false (fun h => by cases h)
            simp only [ScanState.outsideComment] at this
            have hout : vscodeScan ⟨false, c1, true, e⟩ false (ch :: rest)
                = vscodeScan ⟨false, c1, true, e⟩ false rest := by
              simp [vscodeScan, hend]
            rw [hout]
            exact this
        | false =>
          cases c1 with
          | true =>
            by_cases hnl : ch = chLF ∨ ch = chCR
            · have := ih ⟨false, false, false, e⟩ false (fun h => by cases h)
              simp only [ScanState.outsideComment] at this
              have hq : ch ≠ chQuote := by rcases hnl with h | h <;> (rw [h]; decide)
              have hs : ch ≠ chSlash := by rcases hnl with h | h <;> (rw [h]; decide)
              simp [vscodeScan, ScanState.outsideComment, this, hnl, hq, hs]
            · have := ih ⟨false, true, false, e⟩ false (fun h => by cases h)
              simp only [ScanState.outsideComment] at this
              have hout : vscodeScan ⟨false, true, false, e⟩ false (ch :: rest)
                  = vscodeScan ⟨false, true, false, e⟩ false rest := by
                simp [vscodeScan, hnl]
              rw [hout]
              exact this
          | false =>
            by_cases hq : ch = chQuote
            · have := ih ⟨true, false, false, e⟩ false (fun _ => ⟨rfl, rfl⟩)
              simp only [ScanState.outsideComment] at this
              simp [vscodeScan, ScanState.outsideComment, this, hq]
            · by_cases hl : ch = chSlash ∧ rest.head? = some chSlash
              · have := ih ⟨false, true, false, e⟩ true (fun h => by cases h)
                simp only [ScanState.outsideComment] at this
                simp [vscodeScan, ScanState.outsideComment, this, hl, chSlash_ne_chQuote]
              · by_cases hb : ch = chSlash ∧ rest.head? = some chStar
                · have := ih ⟨false, false, true, e⟩ true (fun h => by cases h)
                  simp only [ScanState.outsideComment] at this
                  simp [vscodeScan, ScanState.outsideComment, this, hb, chSlash_ne_chQuote,
                    chStar_ne_chSlash]
                · have := ih ⟨false, false, false, e⟩ false (fun h => by cases h)
                  simp only [ScanState.outsideComment] at this
                  have hout : vscodeScan ⟨false, false, false, e⟩ false (ch :: rest)
                      = ch :: vscodeScan ⟨false, false, false, e⟩ false rest := by
                    simp [vscodeScan, hq, hl, hb]
                  rw [hout]
                  have hl' : ¬ (ch = chSlash ∧ (vscodeScan ⟨false, false, false, e⟩ false rest).head?
                      = some chSlash) := by
                    rintro ⟨hc, hh⟩
                    by_cases hr : rest.head? = some chSlash
                    · exact hl ⟨hc, hr⟩
                    · rw [vscodeScan_head e rest hr] at hh
                      exact hr hh
                  have hb' : ¬ (ch = chSlash ∧ (vscodeScan ⟨false, false, false, e⟩ false rest).head?
                      = some chStar) := by
                    rintro ⟨hc, hh⟩
                    by_cases hr : rest.head? = some chSlash
                    · exact hl ⟨hc, hr⟩
                    · rw [vscodeScan_head e rest hr] at hh
                      exact hb ⟨hc, hh⟩
                  simp only [ScanState.outsideComment]
                  rw [vscodeScan]
                  simp only [Bool.false_eq_true, if_false, hq, false_and, hl', hb']
                  rw [this]

theorem zedScan_again (l : List Char) : ∀ (st : ScanState) (skip : Bool),
    (st.inString = true → st.inSingleLineComment = false ∧ st.inMultiLineComment = false) →
    zedScan st.outsideComment false (zedScan st skip l) = zedScan st skip l := by
  induction l with
  | nil =>
    intro st skip _
    simp [zedScan]
  | cons ch rest ih =>
    intro st skip hst
    cases skip with
    | true =>
      simp only [zedScan]
      exact ih st false hst
    | false =>
      obtain ⟨s, c1, c2, e⟩ := st
      cases s with
      | true =>
        obtain ⟨h1, h2⟩ := hst rfl
        simp only at h1 h2
        subst h1 h2
        cases e with
        | true =>
          have := ih ⟨true, false, false, false⟩ false (fun _ => ⟨rfl, rfl⟩)
          simp only [ScanState.outsideComment] at this
          simp [zedScan, ScanState.outsideComment, this]
        | false =>
          by_cases hb : ch = chBackslash
          · have := ih ⟨true, false, false, true⟩ false (fun _ => ⟨rfl, rfl⟩)
            simp only [ScanState.outsideComment] at this
            simp [zedScan, ScanState.outsideComment, this, hb]
          · by_cases hq : ch = chQuote
            · have := ih ⟨false, false, false, false⟩ false (fun h => by cases h)
              simp only [ScanState.outsideComment] at this
              subst hq
              simp [zedScan, ScanState.outsideComment, this, chQuote_ne_chBackslash]
            · have := ih ⟨true, false, false, false⟩ false (fun _ => ⟨rfl, rfl⟩)
              simp only [ScanState.outsideComment] at this
              simp [zedScan, ScanState.outsideComment, this, hb, hq]
      | false =>
        cases c2 with
        | true =>
          by_cases hend : ch = chStar ∧ rest.head? = some chSlash
          · have := ih ⟨false, c1, false, e⟩ true (fun h => by cases h)
            simp only [ScanState.outsideComment] at this
            simp [zedScan, ScanState.outsideComment, this, hend]
          · have := ih ⟨false, c1, true, e⟩ false (fun h => by cases h)
            simp only [ScanState.outsideComment] at this
            have hout : zedScan ⟨false, c1, true, e⟩ false (ch :: rest)
                = zedScan ⟨false, c1, true, e⟩ false rest := by
              simp [zedScan, hend]
            rw [hout]
            exact this
        | false =>
          cases c1 with
          | true =>
            by_cases hnl : ch = chLF
            · have := ih ⟨false, false, false, e⟩ false (fun h => by cases h)
              simp only [ScanState.outsideComment] at this
              subst hnl
              have hq : chLF ≠ chQuote := by decide
              have hs : chLF ≠ chSlash := by decide
              simp [zedScan, ScanState.outsideComment, this, hq, hs]
            · have := ih ⟨false, true, false, e⟩ false (fun h => by cases h)
              simp only [ScanState.outsideComment] at this
              have hout : zedScan ⟨false, true, false, e⟩ false (ch :: rest)
                  = zedScan ⟨false, true, false, e⟩ false rest := by
                simp [zedScan, hnl]
              rw [hout]
              exact this
          | false =>
            by_cases hl : ch = chSlash ∧ rest.head? = some chSlash
            · have := ih ⟨false, true, false, e⟩ true (fun h => by cases h)
              simp only [ScanState.outsideComment] at this
              simp [zedScan, ScanState.outsideComment, this, hl]
            · by_cases hb : ch = chSlash ∧ rest.head? = some chStar
              · have := ih ⟨false, false, true, e⟩ true (fun h => by cases h)
                simp only [ScanState.outsideComment] at this
                simp [zedScan, ScanState.outsideComment, this, hb, chStar_ne_chSlash]
              · by_cases hq : ch = chQuote
                · have := ih ⟨true, false, false, e⟩ false (fun _ => ⟨rfl, rfl⟩)
                  simp only [ScanState.outsideComment] at this
                  subst hq
                  simp [zedScan, ScanState.outsideComment, this, chQuote_ne_chSlash]
                · have := ih ⟨false, false, false, e⟩ false (fun h => by cases h)
                  simp only [ScanState.outsideComment] at this
                  have hout : zedScan ⟨false, false, false, e⟩ false (ch :: rest)
                      = ch :: zedScan ⟨false, false, false, e⟩ false rest := by
                    simp [zedScan, hq, hl, hb]
                  rw [hout]
                  have hl' : ¬ (ch = chSlash ∧ (zedScan ⟨false, false, false, e⟩ false rest).head?
                      = some chSlash) := by
                    rintro ⟨hc, hh⟩
                    by_cases hr : rest.head? = some chSlash
                    · exact hl ⟨hc, hr⟩
                    · rw [zedScan_head e rest hr] at hh
                      exact hr hh
                  have hb' : ¬ (ch = chSlash ∧ (zedScan ⟨false, false, false, e⟩ false rest).head?
                      = some chStar) := by
                    rintro ⟨hc, hh⟩
                    by_cases hr : rest.head? = some chSlash
                    · exact hl ⟨hc, hr⟩
                    · rw [zedScan_head e rest hr] at hh
                      exact hb ⟨hc, hh⟩
                  simp only [ScanState.outsideComment]
                  rw [zedScan]
                  simp only [Bool.false_eq_true, if_false, hq, hl', hb']
                  rw [this]

/-- Claim C29. `stripJSONComments` is idempotent, in `vscode.go` and in
`zed.go`: stripping the comments of a stripped text gives the same text, for
every input. -/
theorem stripJSONComments_idempotent (s : String) :
    stripJSONComments (stripJSONComments s) = stripJSONComments s
    ∧ zedStripJSONComments (zedStripJSONComments s) = zedStripJSONComments s := by
  constructor
  · unfold stripJSONComments
    have := vscodeScan_again s.data ScanState.init false (fun h => by cases h)
    simp only [ScanState.outsideComment, ScanState.init] at this ⊢
    rw [this]
  · unfold zedStripJSONComments
    have := zedScan_again s.data ScanState.init false (fun h => by cases h)
    simp only [ScanState.outsideComment, ScanState.init] at this ⊢
    rw [this]

/-! ## The built-in catalog -/

/-- Claim C25. `GetBuiltInThemes` is the flattening, in order, of
`GetBuiltInBaseThemes` and has 8 themes, 1 of Nord, 4 of Catppuccin and 3 of
Rose Pine; for a family index and a variant index in range,
`calculateThemeIndex` returns an index below 8 at which the theme has the full
name and the colours of the variant and the description of the family; a call
on the cache the first call left returns the list the first call returned. -/
theorem GetBuiltInThemes_flattened_and_cached {W : Type} (m : model W) (baseTheme : BaseTheme)
    (variant : ThemeVariant) (hbase : m.baseThemes = GetBuiltInBaseThemes)
    (hthemes : m.themes = GetBuiltInThemes)
    (hb : m.baseThemes[m.selectedBaseTheme]? = some baseTheme)
    (hv : baseTheme.Variants[m.selectedVariant]? = some variant) :
    GetBuiltInThemes = flattenThemes GetBuiltInBaseThemes
    ∧ GetBuiltInThemes.length = 8
    ∧ GetBuiltInBaseThemes.map (fun b => (b.Name, b.Variants.length))
        = [("Nord", 1), ("Catppuccin", 4), ("Rose Pine", 3)]
    ∧ (∃ i, calculateThemeIndex m = some i ∧ i < 8
        ∧ m.themes[i]? = some { Name := variant.FullName, Description := baseTheme.Description,
                                Colors := variant.Colors })
    ∧ (GetBuiltInThemesCached none).1 = GetBuiltInThemes
    ∧ (GetBuiltInThemesCached (GetBuiltInThemesCached none).2).1
        = (GetBuiltInThemesCached none).1
    ∧ (GetBuiltInThemesCached (GetBuiltInThemesCached none).2).2
        = (GetBuiltInThemesCached none).2 := by
  have hlen : GetBuiltInThemes.length = 8 := by decide
  refine ⟨rfl, hlen, by decide, ?_, rfl, rfl, rfl⟩
  have hle : m.selectedBaseTheme ≤ m.baseThemes.length := by
    by_contra hn
    rw [List.getElem?_eq_none (by omega)] at hb
    cases hb
  have hget := flattenThemes_getElem? m.baseThemes m.selectedBaseTheme m.selectedVariant
    baseTheme variant hb hv
  have hcalc : calculateThemeIndex m
      = some (((m.baseThemes.take m.selectedBaseTheme).map fun b => b.Variants.length).sum
          + m.selectedVariant) := by
    simp only [calculateThemeIndex, hle, if_true]
  have hflat : flattenThemes m.baseThemes = m.themes := by rw [hbase, hthemes]; rfl
  rw [hflat] at hget
  refine ⟨_, hcalc, ?_, hget⟩
  by_contra hn
  have h8 : m.themes.length = 8 := by rw [hthemes]; exact hlen
  rw [List.getElem?_eq_none (by omega)] at hget
  cases hget

/-- Witness for C25: the model of the built-in catalog with Catppuccin and its
fourth variant chosen; the index is 4 and the theme there is Catppuccin
Mocha. -/
theorem GetBuiltInThemes_flattened_and_cached_witness :
    ∃ i, calculateThemeIndex { exampleModel with selectedBaseTheme := 1, selectedVariant := 3 }
          = some i
      ∧ i = 4
      ∧ (GetBuiltInThemes[i]?).map (fun t => t.Name) = some "Catppuccin Mocha" := by
  obtain ⟨_, _, _, ⟨i, h1, _, h3⟩, _⟩ := GetBuiltInThemes_flattened_and_cached
    { exampleModel with selectedBaseTheme := 1, selectedVariant := 3 }
    _ _ rfl rfl rfl rfl
  have h4 : calculateThemeIndex { exampleModel with selectedBaseTheme := 1, selectedVariant := 3 }
      = some 4 := by decide
  have hi : i = 4 := by
    rw [h4] at h1
    exact (Option.some.inj h1).symm
  refine ⟨i, h1, hi, ?_⟩
  subst hi
  decide

/-- Claim C26. Every theme of `GetBuiltInThemes` has a name and a description
that are not empty, and each of the 18 slots of its palette is `#` followed by
exactly six hexadecimal digits. -/
theorem builtin_themes_well_formed (t : Theme) (ht : t ∈ GetBuiltInThemes) :
    t.Name ≠ "" ∧ t.Description ≠ ""
    ∧ t.Colors.slots.length = 18
    ∧ ∀ slot ∈ t.Colors.slots, isHexColor slot = true := by
  have h : ∀ t ∈ GetBuiltInThemes, t.Name ≠ "" ∧ t.Description ≠ ""
      ∧ t.Colors.slots.length = 18 ∧ ∀ slot ∈ t.Colors.slots, isHexColor slot = true := by
    decide
  exact h t ht

/-- Witness for C26: Catppuccin Mocha, whose background is `#1e1e2e`. -/
theorem builtin_themes_well_formed_witness :
    (GetBuiltInThemes.getD 4 default).Name = "Catppuccin Mocha"
    ∧ (GetBuiltInThemes.getD 4 default).Colors.Background = "#1e1e2e"
    ∧ isHexColor (GetBuiltInThemes.getD 4 default).Colors.Background = true :=
  ⟨by decide, by decide,
    (builtin_themes_well_formed (GetBuiltInThemes.getD 4 default) (by decide)).2.2.2 _
      (by decide)⟩

/-! ## The name-keyed tables cover the catalog -/

theorem head?_append_of_head? (a b : String) (c : Char) (h : a.data.head? = some c) :
    (a ++ b).data.head? = some c := by
  rw [String.data_append]
  cases ha : a.data with
  | nil => rw [ha] at h; cases h
  | cons x xs =>
    rw [ha] at h
    exact h

/-- The errors of the Zed `Apply` on a theme that has an extension start with
`e`, `f` or `p`. -/
theorem zedApply_err_head (z : ZedIntegration) (libs : Libs) (t : Theme) (fs : FS)
    (themeExt : ZedExtension) (hext : zedThemeExtensions t.Name = some themeExt) (e : String)
    (he : (z.Apply libs t fs).err = some e) :
    e.data.head? = some 'e' ∨ e.data.head? = some 'f' ∨ e.data.head? = some 'p' := by
  unfold ZedIntegration.Apply at he
  simp only [hext] at he
  have hbmw : ∀ (fs : FS) (data : String) (settings : Option Doc),
      (zedBackupMergeWrite libs z.configPath themeExt fs data settings).err = some e →
      e.data.head? = some 'e' ∨ e.data.head? = some 'f' ∨ e.data.head? = some 'p' := by
    intro fs data settings h
    unfold zedBackupMergeWrite at h
    simp only at h
    split at h
    · simp only [Option.some.injEq] at h
      rw [← h]
      exact Or.inr (Or.inl rfl)
    · split at h
      · simp only [Option.some.injEq] at h
        rw [← h]
        exact Or.inr (Or.inr rfl)
      · unfold encodeAndWrite at h
        split at h
        · simp only [Option.some.injEq] at h
          rw [← h]
          exact Or.inr (Or.inl (head?_append_of_head? _ _ _
            (head?_append_of_head? _ _ _ (head?_append_of_head? _ _ _ rfl))))
        · split at h
          · simp only [Option.some.injEq] at h
            rw [← h]
            exact Or.inr (Or.inl rfl)
          · cases h
  split at he
  · simp only [Option.some.injEq] at he
    rw [← he]
    exact Or.inl rfl
  · split at he
    · simp only [Option.some.injEq] at he
      rw [← he]
      exact Or.inr (Or.inl (head?_append_of_head? _ _ _ rfl))
    · exact hbmw _ _ _ he
    · split at he
      · simp only [Option.some.injEq] at he
        rw [← he]
        exact Or.inr (Or.inl (head?_append_of_head? _ _ _ rfl))
      · exact hbmw _ _ _ he

/-- The errors of the Starship `Apply` on a theme that has a configuration
start with `f`. -/
theorem starshipApply_err_head (libs : Libs) (configPath : String) (t : Theme) (fs : FS)
    (config : String) (hc : starshipConfigContent t.Name = some config) (e : String)
    (he : (StarshipIntegration.Apply libs configPath t fs).err = some e) :
    e.data.head? = some 'f' := by
  unfold StarshipIntegration.Apply at he
  split at he
  · simp only [Option.some.injEq] at he
    rw [← he]
    rfl
  · split at he
    · simp only [Option.some.injEq] at he
      rw [← he]
      rfl
    · simp only [hc] at he
      split at he
      · simp only [Option.some.injEq] at he
        rw [← he]
        rfl
      · cases he

/-- Each of the eight Starship configurations selects a palette and defines
it. -/
theorem starship_palettes_defined :
    (hasInfix (paletteSelection "nord").data getNordConfig.data = true
      ∧ hasInfix (paletteDefinition "nord").data getNordConfig.data = true)
    ∧ (hasInfix (paletteSelection "catppuccin_latte").data (getCatppuccinConfig "latte").data = true
      ∧ hasInfix (paletteDefinition "catppuccin_latte").data (getCatppuccinConfig "latte").data
          = true)
    ∧ (hasInfix (paletteSelection "catppuccin_frappe").data (getCatppuccinConfig "frappe").data
          = true
      ∧ hasInfix (paletteDefinition "catppuccin_frappe").data (getCatppuccinConfig "frappe").data
          = true)
    ∧ (hasInfix (paletteSelection "catppuccin_macchiato").data
          (getCatppuccinConfig "macchiato").data = true
      ∧ hasInfix (paletteDefinition "catppuccin_macchiato").data
          (getCatppuccinConfig "macchiato").data = true)
    ∧ (hasInfix (paletteSelection "catppuccin_mocha").data (getCatppuccinConfig "mocha").data = true
      ∧ hasInfix (paletteDefinition "catppuccin_mocha").data (getCatppuccinConfig "mocha").data
          = true)
    ∧ (hasInfix (paletteSelection "rose_pine").data (getRosePineConfig "default").data = true
      ∧ hasInfix (paletteDefinition "rose_pine").data (getRosePineConfig "default").data = true)
    ∧ (hasInfix (paletteSelection "rose_pine_moon").data (getRosePineConfig "moon").data = true
      ∧ hasInfix (paletteDefinition "rose_pine_moon").data (getRosePineConfig "moon").data = true)
    ∧ (hasInfix (paletteSelection "rose_pine_dawn").data (getRosePineConfig "dawn").data = true
      ∧ hasInfix (paletteDefinition "rose_pine_dawn").data (getRosePineConfig "dawn").data
          = true) := by
  refine ⟨⟨by decide!, by decide!⟩, ⟨by decide!, by decide!⟩, ⟨by decide!, by decide!⟩,
    ⟨by decide!, by decide!⟩, ⟨by decide!, by decide!⟩, ⟨by decide!, by decide!⟩,
    ⟨by decide!, by decide!⟩, ⟨by decide!, by decide!⟩⟩

/-- Claim C30. For every theme of `GetBuiltInThemes` the name is a key of
`alacrittyThemeMap`, `vscodeThemeExtensions` and `zedThemeExtensions` and a
case of the `switch` of the Starship `Apply`; so that `Apply` never returns
"unsupported theme", the Zed `Apply` never returns "no Zed extension
available", and the Starship configuration of the theme selects a palette
that the same configuration defines. -/
theorem builtin_themes_in_every_table (t : Theme) (ht : t ∈ GetBuiltInThemes) :
    (alacrittyThemeMap t.Name).isSome = true
    ∧ (vscodeThemeExtensions t.Name).isSome = true
    ∧ (zedThemeExtensions t.Name).isSome = true
    ∧ (starshipConfigContent t.Name).isSome = true
    ∧ (∀ (libs : Libs) (configPath : String) (fs : FS),
        (StarshipIntegration.Apply libs configPath t fs).err
          ≠ some ("unsupported theme: " ++ t.Name))
    ∧ (∀ (z : ZedIntegration) (libs : Libs) (fs : FS),
        (z.Apply libs t fs).err ≠ some ("no Zed extension available for theme: " ++ t.Name))
    ∧ ∃ config paletteName, starshipConfigContent t.Name = some config
        ∧ hasInfix (paletteSelection paletteName).data config.data = true
        ∧ hasInfix (paletteDefinition paletteName).data config.data = true := by
  have htab : ∀ t ∈ GetBuiltInThemes, (alacrittyThemeMap t.Name).isSome = true
      ∧ (vscodeThemeExtensions t.Name).isSome = true
      ∧ (zedThemeExtensions t.Name).isSome = true
      ∧ (starshipConfigContent t.Name).isSome = true := by
    decide
  obtain ⟨h1, h2, h3, h4⟩ := htab t ht
  refine ⟨h1, h2, h3, h4, ?_, ?_, ?_⟩
  · intro libs configPath fs he
    obtain ⟨config, hc⟩ := Option.isSome_iff_exists.mp h4
    have := starshipApply_err_head libs configPath t fs config hc _ he
    rw [head?_append_of_head? "unsupported theme: " t.Name 'u' rfl] at this
    exact absurd this (by decide)
  · intro z libs fs he
    obtain ⟨themeExt, hext⟩ := Option.isSome_iff_exists.mp h3
    have := zedApply_err_head z libs t fs themeExt hext _ he
    rw [head?_append_of_head? "no Zed extension available for theme: " t.Name 'n' rfl] at this
    rcases this with h | h | h <;> exact absurd h (by decide)
  · have hname : ∀ t ∈ GetBuiltInThemes, t.Name ∈ ["Nord", "Catppuccin Latte", "Catppuccin Frappe",
        "Catppuccin Macchiato", "Catppuccin Mocha", "Rose Pine", "Rose Pine Moon",
        "Rose Pine Dawn"] := by
      decide
    have := hname t ht
    simp only [List.mem_cons, List.mem_singleton, List.not_mem_nil, or_false] at this
    rcases this with h | h | h | h | h | h | h | h <;> rw [h]
    · exact ⟨_, "nord", rfl, starship_palettes_defined.1⟩
    · exact ⟨_, "catppuccin_latte", rfl, starship_palettes_defined.2.1⟩
    · exact ⟨_, "catppuccin_frappe", rfl, starship_palettes_defined.2.2.1⟩
    · exact ⟨_, "catppuccin_macchiato", rfl, starship_palettes_defined.2.2.2.1⟩
    · exact ⟨_, "catppuccin_mocha", rfl, starship_palettes_defined.2.2.2.2.1⟩
    · exact ⟨_, "rose_pine", rfl, starship_palettes_defined.2.2.2.2.2.1⟩
    · exact ⟨_, "rose_pine_moon", rfl, starship_palettes_defined.2.2.2.2.2.2.1⟩
    · exact ⟨_, "rose_pine_dawn", rfl, starship_palettes_defined.2.2.2.2.2.2.2⟩

/-- Witness for C30: Rose Pine Moon, whose Starship configuration selects and
defines the palette `rose_pine_moon`. -/
theorem builtin_themes_in_every_table_witness :
    (GetBuiltInThemes.getD 6 default).Name = "Rose Pine Moon"
    ∧ (zedThemeExtensions "Rose Pine Moon").isSome = true
    ∧ (StarshipIntegration.Apply exampleLibs "/home/u/.config/starship.toml"
        (GetBuiltInThemes.getD 6 default) (exampleFS [])).err
        ≠ some ("unsupported theme: " ++ (GetBuiltInThemes.getD 6 default).Name) :=
  ⟨by decide,
    (builtin_themes_in_every_table (GetBuiltInThemes.getD 6 default) (by decide)).2.2.1,
    (builtin_themes_in_every_table (GetBuiltInThemes.getD 6 default) (by decide)).2.2.2.2.1 _ _ _⟩

/-! ## The preview key -/

/-- Claim C27 fails on the code: from the initial model, with the cursor moved
to the third family, Rose Pine, the key `p` opens the preview with
`selectedTheme = 2`, the family index, and the theme at index 2 of the
flattened list is Catppuccin Frappe, which is no variant of Rose Pine; a
following `enter` carries that theme into the target selection. -/
theorem preview_key_takes_family_index_as_theme_index :
    ((pressKeys (initialModel exampleTargets []) [] ["down", "down"]).map
        fun r => (r.1.state, r.1.cursor, (r.1.baseThemes[r.1.cursor]?).map fun b => b.Name))
      = some (State.selectingTheme, 2, some "Rose Pine")
    ∧ ((pressKeys (initialModel exampleTargets []) [] ["down", "down", "p"]).map
        fun r => (r.1.state, r.1.selectedTheme, (r.1.themes[r.1.selectedTheme]?).map fun t => t.Name))
      = some (State.previewingTheme, 2, some "Catppuccin Frappe")
    ∧ ((pressKeys (initialModel exampleTargets []) [] ["down", "down", "p", "enter"]).map
        fun r => (r.1.state, r.1.selectedTheme, (r.1.themes[r.1.selectedTheme]?).map fun t => t.Name))
      = some (State.selectingApps, 2, some "Catppuccin Frappe")
    ∧ (GetBuiltInBaseThemes[2]?).map (fun b => b.Variants.map fun v => v.FullName)
      = some ["Rose Pine", "Rose Pine Moon", "Rose Pine Dawn"]
    ∧ (∀ b ∈ GetBuiltInBaseThemes[2]?, ∀ t ∈ GetBuiltInThemes[2]?, t ∉ flattenThemes [b]) := by
  refine ⟨by decide, by decide, by decide, by decide, by decide⟩

/-! ## Index safety -/

/-- Claim C28 fails on the code: from the initial model, thirteen keys lead to
the variant selection of Rose Pine, which has three variants, with the cursor
at 3; `enter` there sets `selectedTheme` to 8, the length of the theme list,
so that `View` indexes `m.themes` out of range, and so does `applyThemes`
once a target is selected and confirmed. -/
theorem key_sequence_leaves_index_range :
    ((pressKeys (initialModel exampleTargets []) [] staleVariantKeys).map
        fun r => (r.1.state, r.1.cursor, r.1.selectedBaseTheme,
          (r.1.baseThemes[r.1.selectedBaseTheme]?).map fun b => b.Variants.length))
      = some (State.selectingVariant, 3, 2, some 3)
    ∧ ((pressKeys (initialModel exampleTargets []) [] (staleVariantKeys ++ ["enter"])).map
        fun r => (r.1.state, r.1.selectedTheme, r.1.themes.length, viewIndexesInRange r.1))
      = some (State.previewingTheme, 8, 8, false)
    ∧ ((pressKeys (initialModel exampleTargets []) []
          (staleVariantKeys ++ ["enter", "enter", " ", "enter"])).bind
        fun r => applyThemes r.1 r.1.selectedApps r.2)
      = none := by
  refine ⟨by decide, by decide, by rfl⟩

/-! ## Rounding to binary64 -/

theorem roundHalfEven_error (x : ℚ) : |(roundHalfEven x : ℚ) - x| ≤ 1 / 2 := by
  unfold roundHalfEven
  have h1 := Int.floor_le x
  have h2 := Int.lt_floor_add_one x
  split_ifs with h3 h4 h5
  · rw [abs_le]; constructor <;> linarith
  · push_cast; rw [abs_le]; constructor <;> linarith
  · rw [abs_le]; constructor <;> linarith
  · push_cast; rw [abs_le]; constructor <;> linarith

theorem abs_eq_natAbs_div_den (x : ℚ) : |x| = (x.num.natAbs : ℚ) / (x.den : ℚ) := by
  have h := Rat.num_div_den x
  have hd : (0 : ℚ) < x.den := by exact_mod_cast x.den_pos
  conv_lhs => rw [← h]
  rw [abs_div, abs_of_pos hd, Nat.cast_natAbs, Int.cast_abs]

/-- The binary exponent is not above the value. -/
theorem binaryExponent_le (x : ℚ) (hx : x ≠ 0) : (2 : ℚ) ^ binaryExponent x ≤ |x| := by
  unfold binaryExponent
  split_ifs with h
  · exact h
  · have hp : x.num.natAbs ≠ 0 := by
      intro h0
      exact hx (Rat.zero_of_num_zero (Int.natAbs_eq_zero.mp h0))
    have h1 := Nat.log2_self_le hp
    have h2 := @Nat.lt_log2_self x.den
    have h1' : (2 : ℚ) ^ x.num.natAbs.log2 ≤ (x.num.natAbs : ℚ) := by exact_mod_cast h1
    have h2' : (x.den : ℚ) ≤ (2 : ℚ) ^ (x.den.log2 + 1) := by exact_mod_cast h2.le
    have hd : (0 : ℚ) < x.den := by exact_mod_cast x.den_pos
    rw [abs_eq_natAbs_div_den]
    have e : (2 : ℚ) ^ ((x.num.natAbs.log2 : ℤ) - (x.den.log2 : ℤ) - 1)
        = (2 : ℚ) ^ x.num.natAbs.log2 / (2 : ℚ) ^ (x.den.log2 + 1) := by
      rw [show (x.num.natAbs.log2 : ℤ) - (x.den.log2 : ℤ) - 1
        = (x.num.natAbs.log2 : ℤ) - ((x.den.log2 + 1 : ℕ) : ℤ) by push_cast; ring]
      rw [zpow_sub₀ (by norm_num : (2 : ℚ) ≠ 0), zpow_natCast, zpow_natCast]
    rw [e]
    exact div_le_div₀ (by positivity) h1' hd h2'

/-- The rounding `roundF64` has a relative error of at most `2 ^ (-53)`. -/
theorem roundF64_error : IsBinary64Rounding roundF64 := by
  intro x
  unfold roundF64
  split_ifs with h0
  · simp [h0]
  · have he := binaryExponent_le x h0
    have hr := roundHalfEven_error (x * (2 : ℚ) ^ (52 - binaryExponent x))
    have h2 : (0 : ℚ) < (2 : ℚ) ^ (binaryExponent x - 52) := by positivity
    have hx : x * (2 : ℚ) ^ (52 - binaryExponent x) * (2 : ℚ) ^ (binaryExponent x - 52) = x := by
      rw [mul_assoc, ← zpow_add₀ (by norm_num : (2 : ℚ) ≠ 0)]
      simp
    have hdiff : (roundHalfEven (x * (2 : ℚ) ^ (52 - binaryExponent x)) : ℚ)
          * (2 : ℚ) ^ (binaryExponent x - 52) - x
        = ((roundHalfEven (x * (2 : ℚ) ^ (52 - binaryExponent x)) : ℚ)
            - x * (2 : ℚ) ^ (52 - binaryExponent x)) * (2 : ℚ) ^ (binaryExponent x - 52) := by
      rw [sub_mul, hx]
    rw [hdiff, abs_mul, abs_of_pos h2]
    have e53 : (2 : ℚ) ^ (binaryExponent x - 52) = (2 : ℚ) ^ binaryExponent x / 2 ^ 52 := by
      rw [zpow_sub₀ (by norm_num : (2 : ℚ) ≠ 0)]
      norm_num
    rw [e53]
    calc |(roundHalfEven (x * (2 : ℚ) ^ (52 - binaryExponent x)) : ℚ)
            - x * (2 : ℚ) ^ (52 - binaryExponent x)| * ((2 : ℚ) ^ binaryExponent x / 2 ^ 52)
        ≤ 1 / 2 * ((2 : ℚ) ^ binaryExponent x / 2 ^ 52) :=
          mul_le_mul_of_nonneg_right hr (by positivity)
      _ = (2 : ℚ) ^ binaryExponent x / 2 ^ 53 := by ring
      _ ≤ |x| / 2 ^ 53 := div_le_div_of_nonneg_right he (by positivity)

/-! ## Error of the computed luminance -/

/-- Rounding a value of size at most 4 adds at most `10 ^ (-15)` to the
distance from the exact value. -/
theorem rnd_near (rnd : ℚ → ℚ) (H : IsBinary64Rounding rnd) (x' x ε : ℚ)
    (h : |x' - x| ≤ ε) (hb : |x'| ≤ 4) : |rnd x' - x| ≤ ε + 1 / 10 ^ 15 := by
  have h1 := H x'
  have h2 : |x'| / 2 ^ 53 ≤ 1 / 10 ^ 15 := by
    have : |x'| / 2 ^ 53 ≤ 4 / 2 ^ 53 := div_le_div_of_nonneg_right hb (by positivity)
    refine this.trans ?_
    norm_num
  have h3 : |rnd x' - x| ≤ |rnd x' - x'| + |x' - x| := by
    have := abs_add (rnd x' - x') (x' - x)
    simpa using this
  linarith

/-- A constant of size at most 16 is rounded within `2 * 10 ^ (-15)`. -/
theorem rnd_const (rnd : ℚ → ℚ) (H : IsBinary64Rounding rnd) (c : ℚ) (hc : |c| ≤ 16) :
    |rnd c - c| ≤ 2 / 10 ^ 15 := by
  have h1 := H c
  have h2 : |c| / 2 ^ 53 ≤ 2 / 10 ^ 15 := by
    have : |c| / 2 ^ 53 ≤ 16 / 2 ^ 53 := div_le_div_of_nonneg_right hc (by positivity)
    refine this.trans ?_
    norm_num
  linarith

theorem mul_near (x' x y' y εx εy Bx By : ℚ) (hx : |x' - x| ≤ εx) (hy : |y' - y| ≤ εy)
    (hBx : |x| ≤ Bx) (hBy : |y'| ≤ By) :
    |x' * y' - x * y| ≤ εx * By + Bx * εy := by
  have e : x' * y' - x * y = (x' - x) * y' + x * (y' - y) := by ring
  rw [e]
  have h1 : |(x' - x) * y'| ≤ εx * By := by
    rw [abs_mul]
    exact mul_le_mul hx hBy (abs_nonneg _) ((abs_nonneg _).trans hx)
  have h2 : |x * (y' - y)| ≤ Bx * εy := by
    rw [abs_mul]
    exact mul_le_mul hBx hy (abs_nonneg _) ((abs_nonneg _).trans hBx)
  exact (abs_add _ _).trans (add_le_add h1 h2)

theorem div_near (x' x k' k εx εk Bx : ℚ) (hx : |x' - x| ≤ εx) (hk : |k' - k| ≤ εk)
    (hk1 : 1 ≤ k) (hk1' : 1 ≤ k') (hBx : |x| ≤ Bx) :
    |x' / k' - x / k| ≤ εx + Bx * εk := by
  have hk0 : (0 : ℚ) < k := by linarith
  have hk0' : (0 : ℚ) < k' := by linarith
  have e : x' / k' - x / k = (x' - x) * (1 / k') + x * ((k - k') * (1 / (k * k'))) := by
    field_simp
    ring
  rw [e]
  have hinv : |1 / k'| ≤ 1 := by
    rw [abs_of_pos (by positivity)]
    rw [div_le_one hk0']
    exact hk1'
  have hinv2 : |1 / (k * k')| ≤ 1 := by
    rw [abs_of_pos (by positivity)]
    rw [div_le_one (by positivity)]
    nlinarith
  have h1 : |(x' - x) * (1 / k')| ≤ εx := by
    rw [abs_mul]
    calc |x' - x| * |1 / k'| ≤ εx * 1 :=
          mul_le_mul hx hinv (abs_nonneg _) ((abs_nonneg _).trans hx)
      _ = εx := mul_one _
  have hkk : |(k - k') * (1 / (k * k'))| ≤ εk := by
    rw [abs_mul]
    have : |k - k'| ≤ εk := by rw [abs_sub_comm]; exact hk
    calc |k - k'| * |1 / (k * k')| ≤ εk * 1 :=
          mul_le_mul this hinv2 (abs_nonneg _) ((abs_nonneg _).trans this)
      _ = εk := mul_one _
  have h2 : |x * ((k - k') * (1 / (k * k')))| ≤ Bx * εk := by
    rw [abs_mul]
    exact mul_le_mul hBx hkk (abs_nonneg _) ((abs_nonneg _).trans hBx)
  exact (abs_add _ _).trans (add_le_add h1 h2)

theorem add_near (x' x y' y εx εy : ℚ) (hx : |x' - x| ≤ εx) (hy : |y' - y| ≤ εy) :
    |x' + y' - (x + y)| ≤ εx + εy := by
  have e : x' + y' - (x + y) = (x' - x) + (y' - y) := by ring
  rw [e]
  exact (abs_add _ _).trans (add_le_add hx hy)

theorem abs_le_of_near (x' x ε B : ℚ) (h : |x' - x| ≤ ε) (hB : |x| ≤ B) : |x'| ≤ B + ε := by
  have : |x'| ≤ |x' - x| + |x| := by
    have := abs_add (x' - x) x
    simpa using this
  linarith

theorem squareLinear_bounds (a : ℚ) (h0 : 0 ≤ a) (h1 : a ≤ 1) :
    0 ≤ squareLinear a ∧ squareLinear a ≤ 1 := by
  unfold squareLinear
  split_ifs with h
  · constructor
    · positivity
    · rw [div_le_one (by norm_num)]
      linarith
  · constructor
    · positivity
    · have ht0 : 0 ≤ (a + 0.055) / 1.055 := by positivity
      have ht1 : (a + 0.055) / 1.055 ≤ 1 := by
        rw [div_le_one (by norm_num)]
        linarith
      calc ((a + 0.055) / 1.055) ^ 2 ≤ 1 ^ 2 := pow_le_pow_left₀ ht0 ht1 2
        _ = 1 := one_pow 2

/-- The value the code computes for a channel is within `10 ^ (-13)` of the
exact linearisation with the square. -/
theorem gammaCorrection_near (rnd : ℚ → ℚ) (H : IsBinary64Rounding rnd) (c : ℕ) (hc : c ≤ 255) :
    |gammaCorrection rnd (rnd ((c : ℚ) / 255.0)) - squareLinear ((c : ℚ) / 255)| ≤ 1 / 10 ^ 13 := by
  have e255 : ((c : ℚ) / 255.0) = (c : ℚ) / 255 := by norm_num
  rw [e255]
  have hc' : (c : ℚ) ≤ 255 := by exact_mod_cast hc
  have hc0 : (0 : ℚ) ≤ c := by positivity
  have ha0 : (0 : ℚ) ≤ (c : ℚ) / 255 := by positivity
  have ha1 : (c : ℚ) / 255 ≤ 1 := by
    rw [div_le_one (by norm_num)]
    exact hc'
  have haabs : |(c : ℚ) / 255| ≤ 1 := by rw [abs_of_nonneg ha0]; exact ha1
  have ha' : |rnd ((c : ℚ) / 255) - (c : ℚ) / 255| ≤ 0 + 1 / 10 ^ 15 :=
    rnd_near rnd H _ _ 0 (by simp) (haabs.trans (by norm_num))
  have hk1 := rnd_const rnd H 0.03928 (by rw [abs_of_nonneg (by norm_num)]; norm_num)
  have hk2 := rnd_const rnd H 12.92 (by rw [abs_of_nonneg (by norm_num)]; norm_num)
  have hk3 := rnd_const rnd H 0.055 (by rw [abs_of_nonneg (by norm_num)]; norm_num)
  have hk4 := rnd_const rnd H 1.055 (by rw [abs_of_nonneg (by norm_num)]; norm_num)
  obtain ⟨ha'l, ha'u⟩ := abs_le.mp ha'
  obtain ⟨hk1l, hk1u⟩ := abs_le.mp hk1
  obtain ⟨hk2l, hk2u⟩ := abs_le.mp hk2
  obtain ⟨hk4l, hk4u⟩ := abs_le.mp hk4
  unfold gammaCorrection squareLinear
  by_cases hc10 : c ≤ 10
  · have hc10' : (c : ℚ) ≤ 10 := by exact_mod_cast hc10
    have ha10 : (c : ℚ) / 255 ≤ 10 / 255 := div_le_div_of_nonneg_right hc10' (by norm_num)
    have hbranch : rnd ((c : ℚ) / 255) ≤ rnd 0.03928 := by
      norm_num at ha'l ha'u hk1l hk1u ha10 ⊢
      linarith
    have hs : (c : ℚ) / 255 ≤ 0.03928 := by
      norm_num at ha10 ⊢
      linarith
    rw [if_pos hbranch, if_pos hs]
    have hk1' : (1 : ℚ) ≤ rnd 12.92 := by
      norm_num at hk2l ⊢
      linarith
    have hd := div_near (rnd ((c : ℚ) / 255)) ((c : ℚ) / 255) (rnd 12.92) 12.92 _ _ 1 ha' hk2
      (by norm_num) hk1' haabs
    have hexact : |(c : ℚ) / 255 / 12.92| ≤ 1 := by
      rw [abs_of_nonneg (by positivity), div_le_one (by norm_num)]
      linarith
    have hbd := abs_le_of_near _ _ _ _ hd hexact
    have := rnd_near rnd H _ _ _ hd (hbd.trans (by norm_num))
    refine this.trans ?_
    norm_num
  · have hc11 : (11 : ℚ) ≤ c := by
      have : 11 ≤ c := by omega
      exact_mod_cast this
    have ha11 : (11 : ℚ) / 255 ≤ (c : ℚ) / 255 := div_le_div_of_nonneg_right hc11 (by norm_num)
    have hbranch : ¬ rnd ((c : ℚ) / 255) ≤ rnd 0.03928 := by
      norm_num at ha'l ha'u hk1l hk1u ha11 ⊢
      linarith
    have hs : ¬ (c : ℚ) / 255 ≤ 0.03928 := by
      norm_num at ha11 ⊢
      linarith
    rw [if_neg hbranch, if_neg hs]
    simp only []
    -- the sum
    have hsum := add_near _ _ _ _ _ _ ha' hk3
    have hsabs : |(c : ℚ) / 255 + 0.055| ≤ 2 := by
      rw [abs_of_nonneg (by positivity)]
      norm_num at ha1 ⊢
      linarith
    have hsum' := rnd_near rnd H _ _ _ hsum
      ((abs_le_of_near _ _ _ _ hsum hsabs).trans (by norm_num))
    -- the quotient
    have hk4' : (1 : ℚ) ≤ rnd 1.055 := by
      norm_num at hk4l ⊢
      linarith
    have hquot := div_near _ _ (rnd 1.055) 1.055 _ _ 2 hsum' hk4 (by norm_num) hk4' hsabs
    have ht0 : 0 ≤ ((c : ℚ) / 255 + 0.055) / 1.055 := by positivity
    have ht1 : ((c : ℚ) / 255 + 0.055) / 1.055 ≤ 1 := by
      rw [div_le_one (by norm_num)]
      norm_num at ha1 ⊢
      linarith
    have htabs : |((c : ℚ) / 255 + 0.055) / 1.055| ≤ 1 := by
      rw [abs_of_nonneg ht0]
      exact ht1
    have hquot' := rnd_near rnd H _ _ _ hquot
      ((abs_le_of_near _ _ _ _ hquot htabs).trans (by norm_num))
    have ht'abs := abs_le_of_near _ _ _ _ hquot' htabs
    -- the square
    have hsq := mul_near _ _ _ _ _ _ 1 _ hquot' hquot' htabs ht'abs
    have hsqabs : |((c : ℚ) / 255 + 0.055) / 1.055 * (((c : ℚ) / 255 + 0.055) / 1.055)| ≤ 1 := by
      rw [abs_mul]
      calc |((c : ℚ) / 255 + 0.055) / 1.055| * |((c : ℚ) / 255 + 0.055) / 1.055|
          ≤ 1 * 1 := mul_le_mul htabs htabs (abs_nonneg _) (by norm_num)
        _ = 1 := one_mul 1
    have hsq' := rnd_near rnd H _ _ _ hsq
      ((abs_le_of_near _ _ _ _ hsq hsqabs).trans (by norm_num))
    rw [pow_two]
    refine hsq'.trans ?_
    norm_num

/-- One weighted channel: the rounded product of the rounded weight and the
computed channel is within `2 * 10 ^ (-13)` of the exact product. -/
theorem weighted_near (rnd : ℚ → ℚ) (H : IsBinary64Rounding rnd) (w X' X : ℚ)
    (hw0 : 0 ≤ w) (hw1 : w ≤ 1) (hX : |X' - X| ≤ 1 / 10 ^ 13) (hX0 : 0 ≤ X) (hX1 : X ≤ 1) :
    |rnd (rnd w * X') - w * X| ≤ 2 / 10 ^ 13 := by
  have hwabs : |w| ≤ 1 := by rw [abs_of_nonneg hw0]; exact hw1
  have hXabs : |X| ≤ 1 := by rw [abs_of_nonneg hX0]; exact hX1
  have hk := rnd_const rnd H w (hwabs.trans (by norm_num))
  have hX'abs := abs_le_of_near _ _ _ _ hX hXabs
  have hm := mul_near _ _ _ _ _ _ 1 _ hk hX hwabs hX'abs
  have hexact : |w * X| ≤ 1 := by
    rw [abs_mul]
    calc |w| * |X| ≤ 1 * 1 := mul_le_mul hwabs hXabs (abs_nonneg _) (by norm_num)
      _ = 1 := one_mul 1
  have := rnd_near rnd H _ _ _ hm ((abs_le_of_near _ _ _ _ hm hexact).trans (by norm_num))
  refine this.trans ?_
  norm_num

/-- The luminance the code computes is within `10 ^ (-12)` of the exact
luminance with the square. -/
theorem relativeLuminance_near (rnd : ℚ → ℚ) (H : IsBinary64Rounding rnd) (r g b : ℕ)
    (hr : r ≤ 255) (hg : g ≤ 255) (hb : b ≤ 255) :
    |relativeLuminance rnd r g b - squareLuminance r g b| ≤ 1 / 10 ^ 12 := by
  have hR := gammaCorrection_near rnd H r hr
  have hG := gammaCorrection_near rnd H g hg
  have hB := gammaCorrection_near rnd H b hb
  have bnd : ∀ c : ℕ, c ≤ 255 →
      0 ≤ squareLinear ((c : ℚ) / 255) ∧ squareLinear ((c : ℚ) / 255) ≤ 1 := by
    intro c hc
    have hc' : (c : ℚ) ≤ 255 := by exact_mod_cast hc
    exact squareLinear_bounds _ (by positivity) (by rw [div_le_one (by norm_num)]; exact hc')
  obtain ⟨hR0, hR1⟩ := bnd r hr
  obtain ⟨hG0, hG1⟩ := bnd g hg
  obtain ⟨hB0, hB1⟩ := bnd b hb
  have h1 := weighted_near rnd H 0.2126 _ _ (by norm_num) (by norm_num) hR hR0 hR1
  have h2 := weighted_near rnd H 0.7152 _ _ (by norm_num) (by norm_num) hG hG0 hG1
  have h3 := weighted_near rnd H 0.0722 _ _ (by norm_num) (by norm_num) hB hB0 hB1
  have h12 := add_near _ _ _ _ _ _ h1 h2
  have h12abs : |0.2126 * squareLinear ((r : ℚ) / 255) + 0.7152 * squareLinear ((g : ℚ) / 255)|
      ≤ 1 := by
    rw [abs_of_nonneg (by positivity)]
    norm_num at hR1 hG1 ⊢
    linarith
  have h12' := rnd_near rnd H _ _ _ h12
    ((abs_le_of_near _ _ _ _ h12 h12abs).trans (by norm_num))
  have h123 := add_near _ _ _ _ _ _ h12' h3
  have h123abs : |0.2126 * squareLinear ((r : ℚ) / 255) + 0.7152 * squareLinear ((g : ℚ) / 255)
      + 0.0722 * squareLinear ((b : ℚ) / 255)| ≤ 1 := by
    rw [abs_of_nonneg (by positivity)]
    norm_num at hR1 hG1 hB1 ⊢
    linarith
  have h123' := rnd_near rnd H _ _ _ h123
    ((abs_le_of_near _ _ _ _ h123 h123abs).trans (by norm_num))
  unfold relativeLuminance squareLuminance
  simp only []
  refine h123'.trans ?_
  norm_num

/-! ## No colour has its exact luminance close to the half -/

theorem linScaled_eq (c : ℕ) : squareLinear ((c : ℚ) / 255) = (linScaled c : ℚ) / 2200183299 := by
  unfold squareLinear linScaled
  by_cases hc : c ≤ 10
  · have hc' : (c : ℚ) ≤ 10 := by exact_mod_cast hc
    have hs : (c : ℚ) / 255 ≤ 0.03928 := by
      have : (c : ℚ) / 255 ≤ 10 / 255 := div_le_div_of_nonneg_right hc' (by norm_num)
      norm_num at this ⊢
      linarith
    have hble : Nat.ble c 10 = true := Nat.ble_eq_true_of_le hc
    rw [if_pos hs, hble, cond_true]
    push_cast
    norm_num
    ring
  · have hc' : (11 : ℚ) ≤ c := by
      have : 11 ≤ c := by omega
      exact_mod_cast this
    have hs : ¬ (c : ℚ) / 255 ≤ 0.03928 := by
      have : (11 : ℚ) / 255 ≤ (c : ℚ) / 255 := div_le_div_of_nonneg_right hc' (by norm_num)
      norm_num at this ⊢
      linarith
    have hble : Nat.ble c 10 = false := by
      cases h : Nat.ble c 10
      · rfl
      · exact absurd (Nat.le_of_ble_eq_true h) hc
    rw [if_neg hs, hble, cond_false]
    push_cast
    norm_num
    ring

theorem lumScaled_eq (r g b : ℕ) :
    squareLuminance r g b = (lumScaled r g b : ℚ) / 22001832990000 := by
  unfold squareLuminance lumScaled
  rw [linScaled_eq, linScaled_eq, linScaled_eq]
  push_cast
  norm_num
  ring

theorem linScaled_mono (c c' : ℕ) (h : c ≤ c') : linScaled c ≤ linScaled c' := by
  unfold linScaled
  by_cases h1 : c' ≤ 10
  · have h0 : c ≤ 10 := h.trans h1
    rw [Nat.ble_eq_true_of_le h0, Nat.ble_eq_true_of_le h1, cond_true, cond_true]
    exact Nat.mul_le_mul_left _ h
  · have hble' : Nat.ble c' 10 = false := by
      cases hh : Nat.ble c' 10
      · rfl
      · exact absurd (Nat.le_of_ble_eq_true hh) h1
    rw [hble', cond_false]
    by_cases h0 : c ≤ 10
    · rw [Nat.ble_eq_true_of_le h0, cond_true]
      have h11 : 11 ≤ c' := by omega
      have : 40 * 11 + 561 ≤ 40 * c' + 561 := by omega
      have hsq : (40 * 11 + 561) * (40 * 11 + 561) ≤ (40 * c' + 561) * (40 * c' + 561) :=
        Nat.mul_le_mul this this
      have : 667815 * c ≤ 667815 * 10 := Nat.mul_le_mul_left _ h0
      omega
    · have hble : Nat.ble c 10 = false := by
        cases hh : Nat.ble c 10
        · rfl
        · exact absurd (Nat.le_of_ble_eq_true hh) h0
      rw [hble, cond_false]
      have : 40 * c + 561 ≤ 40 * c' + 561 := by omega
      exact Nat.mul_le_mul_left _ (Nat.mul_le_mul this this)

theorem lumScaled_mono_green (r b g g' : ℕ) (h : g ≤ g') : lumScaled r g b ≤ lumScaled r g' b := by
  unfold lumScaled
  have := linScaled_mono g g' h
  omega

theorem bandFreeWith_sound (r b g : ℕ) (h : bandFreeWith r b g = true) (g' : ℕ) (hg' : g' < 256) :
    lumScaled r g' b + 300000 ≤ 11000916495000
      ∨ 11000916495000 + 300000 ≤ lumScaled r g' b := by
  unfold bandFreeWith at h
  rw [Bool.and_eq_true, Bool.or_eq_true, Bool.or_eq_true] at h
  obtain ⟨h1, h2⟩ := h
  by_cases hlt : g' < g
  · left
    rcases h1 with h1 | h1
    · have : g = 0 := Nat.eq_of_beq_eq_true h1
      omega
    · have := Nat.le_of_ble_eq_true h1
      have hm := lumScaled_mono_green r b g' (g - 1) (by omega)
      omega
  · right
    rcases h2 with h2 | h2
    · have : g = 256 := Nat.eq_of_beq_eq_true h2
      omega
    · have := Nat.le_of_ble_eq_true h2
      have hm := lumScaled_mono_green r b g g' (by omega)
      omega

theorem stairWalk_sound (r : ℕ) : ∀ (fuel g b : ℕ), stairWalk r fuel g b = true →
    ∀ b', b ≤ b' → b' < 256 → ∃ g', bandFreeWith r b' g' = true := by
  intro fuel
  induction fuel with
  | zero =>
    intro g b h b' h1 h2
    simp only [stairWalk] at h
    have := Nat.le_of_ble_eq_true h
    omega
  | succ fuel ih =>
    intro g b h b' h1 h2
    rw [stairWalk] at h
    cases hb : Nat.ble 256 b with
    | true =>
      have := Nat.le_of_ble_eq_true hb
      omega
    | false =>
      rw [hb, cond_false] at h
      cases hw : bandFreeWith r b g with
      | true =>
        rw [hw, cond_true] at h
        by_cases heq : b' = b
        · exact ⟨g, by rw [heq]; exact hw⟩
        · exact ih g (b + 1) h b' (by omega) h2
      | false =>
        rw [hw, cond_false] at h
        cases hz : Nat.beq g 0 with
        | true =>
          rw [hz, cond_true] at h
          cases h
        | false =>
          rw [hz, cond_false] at h
          exact ih (g - 1) b h b' h1 h2

theorem allBelow_sound (p : ℕ → Bool) : ∀ n, allBelow p n = true → ∀ k, k < n → p k = true := by
  intro n
  induction n with
  | zero =>
    intro _ k hk
    omega
  | succ n ih =>
    intro h k hk
    rw [allBelow, Bool.and_eq_true] at h
    by_cases hkn : k = n
    · rw [hkn]
      exact h.1
    · exact ih h.2 k (by omega)

set_option maxRecDepth 100000 in
theorem stairWalk_rows_0 : allBelow (fun r => stairWalk (0 + r) 600 256 0) 32 = true := by
  decide!

set_option maxRecDepth 100000 in
theorem stairWalk_rows_1 : allBelow (fun r => stairWalk (32 + r) 600 256 0) 32 = true := by
  decide!

set_option maxRecDepth 100000 in
theorem stairWalk_rows_2 : allBelow (fun r => stairWalk (64 + r) 600 256 0) 32 = true := by
  decide!

set_option maxRecDepth 100000 in
theorem stairWalk_rows_3 : allBelow (fun r => stairWalk (96 + r) 600 256 0) 32 = true := by
  decide!

set_option maxRecDepth 100000 in
theorem stairWalk_rows_4 : allBelow (fun r => stairWalk (128 + r) 600 256 0) 32 = true := by
  decide!

set_option maxRecDepth 100000 in
theorem stairWalk_rows_5 : allBelow (fun r => stairWalk (160 + r) 600 256 0) 32 = true := by
  decide!

set_option maxRecDepth 100000 in
theorem stairWalk_rows_6 : allBelow (fun r => stairWalk (192 + r) 600 256 0) 32 = true := by
  decide!

set_option maxRecDepth 100000 in
theorem stairWalk_rows_7 : allBelow (fun r => stairWalk (224 + r) 600 256 0) 32 = true := by
  decide!

theorem stairWalk_all (r : ℕ) (hr : r < 256) : stairWalk r 600 256 0 = true := by
  have key : ∀ (base : ℕ), allBelow (fun r => stairWalk (base + r) 600 256 0) 32 = true →
      base ≤ r → r < base + 32 → stairWalk r 600 256 0 = true := by
    intro base h h1 h2
    have := allBelow_sound _ 32 h (r - base) (by omega)
    simp only at this
    rwa [show base + (r - base) = r by omega] at this
  by_cases h1 : r < 32
  · exact key 0 stairWalk_rows_0 (by omega) (by omega)
  by_cases h2 : r < 64
  · exact key 32 stairWalk_rows_1 (by omega) (by omega)
  by_cases h3 : r < 96
  · exact key 64 stairWalk_rows_2 (by omega) (by omega)
  by_cases h4 : r < 128
  · exact key 96 stairWalk_rows_3 (by omega) (by omega)
  by_cases h5 : r < 160
  · exact key 128 stairWalk_rows_4 (by omega) (by omega)
  by_cases h6 : r < 192
  · exact key 160 stairWalk_rows_5 (by omega) (by omega)
  by_cases h7 : r < 224
  · exact key 192 stairWalk_rows_6 (by omega) (by omega)
  · exact key 224 stairWalk_rows_7 (by omega) (by omega)

/-- No colour has its exact luminance with the square within `10 ^ (-8)` of
the half. -/
theorem squareLuminance_off_half (r g b : ℕ) (hr : r < 256) (hg : g < 256) (hb : b < 256) :
    squareLuminance r g b ≤ 1 / 2 - 1 / 10 ^ 8 ∨ 1 / 2 + 1 / 10 ^ 8 ≤ squareLuminance r g b := by
  obtain ⟨g0, hg0⟩ := stairWalk_sound r 600 256 0 (stairWalk_all r hr) b (Nat.zero_le _) hb
  rw [lumScaled_eq]
  rcases bandFreeWith_sound r b g0 hg0 g hg with h | h
  · left
    have h' : ((lumScaled r g b : ℕ) : ℚ) + 300000 ≤ 11000916495000 := by exact_mod_cast h
    rw [div_le_iff₀ (by norm_num)]
    norm_num
    linarith
  · right
    have h' : (11000916495000 : ℚ) + 300000 ≤ ((lumScaled r g b : ℕ) : ℚ) := by exact_mod_cast h
    rw [le_div_iff₀ (by norm_num)]
    norm_num
    linarith

theorem char_le_iff (a b : Char) : a ≤ b ↔ a.toNat ≤ b.toNat := by
  rw [Char.le_def, UInt32.le_def, BitVec.le_def]
  rfl

theorem utf8Size_of_toNat_le (c : Char) (h : c.toNat ≤ 127) : c.utf8Size = 1 := by
  unfold Char.utf8Size
  have : c.val ≤ UInt32.ofNatCore 127 (by decide) := by
    rw [UInt32.le_def, BitVec.le_def]
    exact h
  simp only []
  exact if_pos this

theorem hexDigitValue_facts (c : Char) (v : ℕ) (h : hexDigitValue c = some v) :
    v ≤ 15 ∧ c.utf8Size = 1 ∧ c ≠ '#' := by
  unfold hexDigitValue at h
  simp only [char_le_iff] at h
  have e0 : ('0' : Char).toNat = 48 := rfl
  have e9 : ('9' : Char).toNat = 57 := rfl
  have ea : ('a' : Char).toNat = 97 := rfl
  have ef : ('f' : Char).toNat = 102 := rfl
  have eA : ('A' : Char).toNat = 65 := rfl
  have eF : ('F' : Char).toNat = 70 := rfl
  rw [e0, e9, ea, ef, eA, eF] at h
  have hne : ∀ n, 48 ≤ n → c.toNat = n → c ≠ '#' := by
    intro n hn hc heq
    rw [heq] at hc
    have : ('#' : Char).toNat = 35 := rfl
    omega
  split_ifs at h with h1 h2 h3
  · simp only [Option.some.injEq] at h
    exact ⟨by omega, utf8Size_of_toNat_le c (by omega), hne _ h1.1 rfl⟩
  · simp only [Option.some.injEq] at h
    exact ⟨by omega, utf8Size_of_toNat_le c (by omega), hne _ (by omega) rfl⟩
  · simp only [Option.some.injEq] at h
    exact ⟨by omega, utf8Size_of_toNat_le c (by omega), hne _ (by omega) rfl⟩

/-- On six hexadecimal digits, with or without the `#`, `determineThemeDetails`
compares the luminance computed for the three bytes with the half. -/
theorem determineThemeDetails_of_digits (rnd : ℚ → ℚ) (d1 d2 d3 d4 d5 d6 : Char)
    (v1 v2 v3 v4 v5 v6 : ℕ) (h1 : hexDigitValue d1 = some v1) (h2 : hexDigitValue d2 = some v2)
    (h3 : hexDigitValue d3 = some v3) (h4 : hexDigitValue d4 = some v4)
    (h5 : hexDigitValue d5 = some v5) (h6 : hexDigitValue d6 = some v6) :
    determineThemeDetails rnd (String.mk ('#' :: [d1, d2, d3, d4, d5, d6]))
        = some (if relativeLuminance rnd (16 * v1 + v2) (16 * v3 + v4) (16 * v5 + v6) < 0.5
            then "darker" else "lighter")
    ∧ determineThemeDetails rnd (String.mk [d1, d2, d3, d4, d5, d6])
        = some (if relativeLuminance rnd (16 * v1 + v2) (16 * v3 + v4) (16 * v5 + v6) < 0.5
            then "darker" else "lighter") := by
  obtain ⟨_, s1, n1⟩ := hexDigitValue_facts d1 v1 h1
  obtain ⟨_, s2, _⟩ := hexDigitValue_facts d2 v2 h2
  obtain ⟨_, s3, _⟩ := hexDigitValue_facts d3 v3 h3
  obtain ⟨_, s4, _⟩ := hexDigitValue_facts d4 v4 h4
  obtain ⟨_, s5, _⟩ := hexDigitValue_facts d5 v5 h5
  obtain ⟨_, s6, _⟩ := hexDigitValue_facts d6 v6 h6
  have hsize : (String.mk [d1, d2, d3, d4, d5, d6]).utf8ByteSize = 6 := by
    simp only [String.utf8ByteSize, String.utf8ByteSize.go, s1, s2, s3, s4, s5, s6]
  have hscan : sscanfHexBytes [d1, d2, d3, d4, d5, d6]
      = some (16 * v1 + v2, 16 * v3 + v4, 16 * v5 + v6) := by
    simp only [sscanfHexBytes, h1, h2, h3, h4, h5, h6]
  constructor
  · unfold determineThemeDetails
    simp only [List.head?_cons, List.tail_cons, if_true, hsize, hscan, Option.map_some']
  · unfold determineThemeDetails
    have hhead : ¬ ((String.mk [d1, d2, d3, d4, d5, d6]).data.head? = some '#') := by
      simp only [List.head?_cons, Option.some.injEq]
      exact n1
    simp only [hhead, if_false, hsize, if_true, hscan, Option.map_some']

/-- The comparison of the computed luminance with the half gives what the
exact luminance with the square gives. -/
theorem relativeLuminance_lt_half_iff (rnd : ℚ → ℚ) (H : IsBinary64Rounding rnd) (r g b : ℕ)
    (hr : r < 256) (hg : g < 256) (hb : b < 256) :
    relativeLuminance rnd r g b < 0.5 ↔ squareLuminance r g b < 0.5 := by
  have hnear := relativeLuminance_near rnd H r g b (by omega) (by omega) (by omega)
  obtain ⟨hl, hu⟩ := abs_le.mp hnear
  rcases squareLuminance_off_half r g b hr hg hb with h | h
  · constructor
    · intro _
      norm_num at h ⊢
      linarith
    · intro _
      norm_num at h hl hu ⊢
      linarith
  · constructor
    · intro h'
      norm_num at h hl hu h' ⊢
      linarith
    · intro h'
      norm_num at h h' ⊢
      linarith

/-- The helper behind C23 and C24: on six hexadecimal digits the result is
decided by the exact luminance with the square. -/
theorem determineThemeDetails_by_squareLuminance (rnd : ℚ → ℚ) (H : IsBinary64Rounding rnd)
    (d1 d2 d3 d4 d5 d6 : Char) (v1 v2 v3 v4 v5 v6 : ℕ)
    (h1 : hexDigitValue d1 = some v1) (h2 : hexDigitValue d2 = some v2)
    (h3 : hexDigitValue d3 = some v3) (h4 : hexDigitValue d4 = some v4)
    (h5 : hexDigitValue d5 = some v5) (h6 : hexDigitValue d6 = some v6) :
    determineThemeDetails rnd (String.mk ('#' :: [d1, d2, d3, d4, d5, d6]))
        = some (if squareLuminance (16 * v1 + v2) (16 * v3 + v4) (16 * v5 + v6) < 0.5
            then "darker" else "lighter")
    ∧ determineThemeDetails rnd (String.mk [d1, d2, d3, d4, d5, d6])
        = some (if squareLuminance (16 * v1 + v2) (16 * v3 + v4) (16 * v5 + v6) < 0.5
            then "darker" else "lighter") := by
  obtain ⟨b1, _, _⟩ := hexDigitValue_facts d1 v1 h1
  obtain ⟨b2, _, _⟩ := hexDigitValue_facts d2 v2 h2
  obtain ⟨b3, _, _⟩ := hexDigitValue_facts d3 v3 h3
  obtain ⟨b4, _, _⟩ := hexDigitValue_facts d4 v4 h4
  obtain ⟨b5, _, _⟩ := hexDigitValue_facts d5 v5 h5
  obtain ⟨b6, _, _⟩ := hexDigitValue_facts d6 v6 h6
  have hiff := relativeLuminance_lt_half_iff rnd H (16 * v1 + v2) (16 * v3 + v4) (16 * v5 + v6)
    (by omega) (by omega) (by omega)
  obtain ⟨e1, e2⟩ := determineThemeDetails_of_digits rnd d1 d2 d3 d4 d5 d6 v1 v2 v3 v4 v5 v6
    h1 h2 h3 h4 h5 h6
  rw [e1, e2]
  by_cases h : squareLuminance (16 * v1 + v2) (16 * v3 + v4) (16 * v5 + v6) < 0.5
  · rw [if_pos h, if_pos (hiff.mpr h)]
    exact ⟨rfl, rfl⟩
  · rw [if_neg h, if_neg (fun h' => h (hiff.mp h'))]
    exact ⟨rfl, rfl⟩

/-! ## Dark and light backgrounds -/

/-- Claim C23. `determineThemeDetails` reads `#1e1e2e` as the bytes 30, 30, 46
and returns "darker", the luminance it computes being below 0.5; it reads
`#eff1f5` as the bytes 239, 241, 245 and returns "lighter", the luminance it
computes being at least 0.5. This holds for every rounding with a relative
error of at most `2 ^ (-53)`. -/
theorem determineThemeDetails_dark_and_light_example (rnd : ℚ → ℚ)
    (H : IsBinary64Rounding rnd) :
    sscanfHexBytes "1e1e2e".data = some (30, 30, 46)
    ∧ determineThemeDetails rnd "#1e1e2e" = some "darker"
    ∧ relativeLuminance rnd 30 30 46 < 0.5
    ∧ sscanfHexBytes "eff1f5".data = some (239, 241, 245)
    ∧ determineThemeDetails rnd "#eff1f5" = some "lighter"
    ∧ 0.5 ≤ relativeLuminance rnd 239 241 245 := by
  have hdark : squareLuminance 30 30 46 < 0.5 := by
    rw [lumScaled_eq]
    have : lumScaled 30 30 46 = 625753352240 := by decide
    rw [this]
    norm_num
  have hlight : ¬ squareLuminance 239 241 245 < 0.5 := by
    rw [lumScaled_eq]
    have : lumScaled 239 241 245 = 19750936363120 := by decide
    rw [this]
    norm_num
  have h1 := (determineThemeDetails_by_squareLuminance rnd H '1' 'e' '1' 'e' '2' 'e'
    1 14 1 14 2 14 rfl rfl rfl rfl rfl rfl).1
  have h2 := (determineThemeDetails_by_squareLuminance rnd H 'e' 'f' 'f' '1' 'f' '5'
    14 15 15 1 15 5 rfl rfl rfl rfl rfl rfl).1
  have hiff1 := relativeLuminance_lt_half_iff rnd H 30 30 46 (by omega) (by omega) (by omega)
  have hiff2 := relativeLuminance_lt_half_iff rnd H 239 241 245 (by omega) (by omega) (by omega)
  refine ⟨rfl, ?_, hiff1.mpr hdark, rfl, ?_, ?_⟩
  · rw [show ("#1e1e2e" : String) = String.mk ('#' :: ['1', 'e', '1', 'e', '2', 'e']) from rfl, h1]
    exact congrArg some (if_pos hdark)
  · rw [show ("#eff1f5" : String) = String.mk ('#' :: ['e', 'f', 'f', '1', 'f', '5']) from rfl, h2]
    exact congrArg some (if_neg hlight)
  · exact not_lt.mp (fun h => hlight (hiff2.mp h))

/-- Witness for C23: the rounding to nearest of binary64. -/
theorem determineThemeDetails_dark_and_light_example_witness :
    IsBinary64Rounding roundF64
    ∧ determineThemeDetails roundF64 "#1e1e2e" = some "darker"
    ∧ determineThemeDetails roundF64 "#eff1f5" = some "lighter" :=
  ⟨roundF64_error,
    (determineThemeDetails_dark_and_light_example roundF64 roundF64_error).2.1,
    (determineThemeDetails_dark_and_light_example roundF64 roundF64_error).2.2.2.2.1⟩

theorem wcag_grey_180_below_half :
    ((((180 : ℕ) : ℝ) / 255 + 0.055) / 1.055) ^ (2.4 : ℝ) < 0.5 := by
  have hx0 : (0 : ℝ) ≤ (((180 : ℕ) : ℝ) / 255 + 0.055) / 1.055 := by positivity
  have hv0 : (0 : ℝ) ≤ ((((180 : ℕ) : ℝ) / 255 + 0.055) / 1.055) ^ (2.4 : ℝ) :=
    Real.rpow_nonneg hx0 _
  have h5 : (((((180 : ℕ) : ℝ) / 255 + 0.055) / 1.055) ^ (2.4 : ℝ)) ^ 5
      = ((((180 : ℕ) : ℝ) / 255 + 0.055) / 1.055) ^ 12 := by
    rw [← Real.rpow_natCast _ 5, ← Real.rpow_mul hx0]
    have : (2.4 : ℝ) * ((5 : ℕ) : ℝ) = ((12 : ℕ) : ℝ) := by norm_num
    rw [this, Real.rpow_natCast]
  by_contra hge
  rw [not_lt] at hge
  have hpow := pow_le_pow_left₀ (by norm_num : (0 : ℝ) ≤ 0.5) hge 5
  rw [h5] at hpow
  norm_num at hpow

/-- Counterexample to C24 as stated: for the grey `#b4b4b4`, bytes 180, 180,
180, the WCAG relative luminance, with the power 2.4, is below 0.5 (about
0.456), and `determineThemeDetails` returns "lighter": with the square the
luminance is about 0.520. -/
theorem determineThemeDetails_differs_from_wcag :
    sscanfHexBytes "b4b4b4".data = some (180, 180, 180)
    ∧ wcagLuminanceBelowHalf 180 180 180
    ∧ determineThemeDetails roundF64 "#b4b4b4" = some "lighter" := by
  refine ⟨rfl, ?_, ?_⟩
  · refine ⟨_, _, _, ⟨?_, fun _ => rfl⟩, ⟨?_, fun _ => rfl⟩, ⟨?_, fun _ => rfl⟩, ?_⟩
    · intro h
      norm_num at h
    · intro h
      norm_num at h
    · intro h
      norm_num at h
    · have := wcag_grey_180_below_half
      linarith
  · have hlight : ¬ squareLuminance 180 180 180 < 0.5 := by
      rw [lumScaled_eq]
      have : lumScaled 180 180 180 = 11444292990000 := by decide
      rw [this]
      norm_num
    have h := (determineThemeDetails_by_squareLuminance roundF64 roundF64_error
      'b' '4' 'b' '4' 'b' '4' 11 4 11 4 11 4 rfl rfl rfl rfl rfl rfl).1
    rw [show ("#b4b4b4" : String) = String.mk ('#' :: ['b', '4', 'b', '4', 'b', '4']) from rfl, h]
    exact congrArg some (if_neg hlight)

/-- Claim C24, amended. For every colour of six hexadecimal digits, with or
without the `#`, `determineThemeDetails` returns "darker" exactly when the
luminance `0.2126 R + 0.7152 G + 0.0722 B`, each channel `c` in `[0, 1]` being
linearised as `c / 12.92` if `c ≤ 0.03928` and `((c + 0.055) / 1.055) ^ 2`
otherwise, is below 0.5, and "lighter" otherwise. This holds for every rounding
with a relative error of at most `2 ^ (-53)`: no colour has that luminance
within `10 ^ (-8)` of 0.5. -/
theorem determineThemeDetails_square_luminance (rnd : ℚ → ℚ) (H : IsBinary64Rounding rnd)
    (d1 d2 d3 d4 d5 d6 : Char) (v1 v2 v3 v4 v5 v6 : ℕ)
    (h1 : hexDigitValue d1 = some v1) (h2 : hexDigitValue d2 = some v2)
    (h3 : hexDigitValue d3 = some v3) (h4 : hexDigitValue d4 = some v4)
    (h5 : hexDigitValue d5 = some v5) (h6 : hexDigitValue d6 = some v6) :
    sscanfHexBytes [d1, d2, d3, d4, d5, d6] = some (16 * v1 + v2, 16 * v3 + v4, 16 * v5 + v6)
    ∧ (determineThemeDetails rnd (String.mk ('#' :: [d1, d2, d3, d4, d5, d6])) = some "darker"
        ↔ squareLuminance (16 * v1 + v2) (16 * v3 + v4) (16 * v5 + v6) < 0.5)
    ∧ (determineThemeDetails rnd (String.mk ('#' :: [d1, d2, d3, d4, d5, d6])) = some "lighter"
        ↔ ¬ squareLuminance (16 * v1 + v2) (16 * v3 + v4) (16 * v5 + v6) < 0.5)
    ∧ determineThemeDetails rnd (String.mk [d1, d2, d3, d4, d5, d6])
        = determineThemeDetails rnd (String.mk ('#' :: [d1, d2, d3, d4, d5, d6]))
    ∧ (squareLuminance (16 * v1 + v2) (16 * v3 + v4) (16 * v5 + v6) ≤ 1 / 2 - 1 / 10 ^ 8
        ∨ 1 / 2 + 1 / 10 ^ 8 ≤ squareLuminance (16 * v1 + v2) (16 * v3 + v4) (16 * v5 + v6)) := by
  obtain ⟨b1, _, _⟩ := hexDigitValue_facts d1 v1 h1
  obtain ⟨b2, _, _⟩ := hexDigitValue_facts d2 v2 h2
  obtain ⟨b3, _, _⟩ := hexDigitValue_facts d3 v3 h3
  obtain ⟨b4, _, _⟩ := hexDigitValue_facts d4 v4 h4
  obtain ⟨b5, _, _⟩ := hexDigitValue_facts d5 v5 h5
  obtain ⟨b6, _, _⟩ := hexDigitValue_facts d6 v6 h6
  obtain ⟨e1, e2⟩ := determineThemeDetails_by_squareLuminance rnd H d1 d2 d3 d4 d5 d6
    v1 v2 v3 v4 v5 v6 h1 h2 h3 h4 h5 h6
  refine ⟨by simp only [sscanfHexBytes, h1, h2, h3, h4, h5, h6], ?_, ?_, by rw [e1, e2],
    squareLuminance_off_half _ _ _ (by omega) (by omega) (by omega)⟩
  · rw [e1]
    by_cases h : squareLuminance (16 * v1 + v2) (16 * v3 + v4) (16 * v5 + v6) < 0.5
    · simp [h]
    · simp [h]
  · rw [e1]
    by_cases h : squareLuminance (16 * v1 + v2) (16 * v3 + v4) (16 * v5 + v6) < 0.5
    · simp [h]
    · simp [h]

/-- Witness for the amended C24: the rounding to nearest of binary64 and the
colour `#e8a362`, whose luminance with the square is the closest to 0.5 of all
colours, above it by less than `5 * 10 ^ (-8)`. -/
theorem determineThemeDetails_square_luminance_witness :
    IsBinary64Rounding roundF64
    ∧ sscanfHexBytes "e8a362".data = some (232, 163, 98)
    ∧ squareLuminance 232 163 98 - 1 / 2 = 1333 / 28949780250
    ∧ determineThemeDetails roundF64 "#e8a362" = some "lighter" := by
  have hval : squareLuminance 232 163 98 - 1 / 2 = 1333 / 28949780250 := by
    rw [lumScaled_eq]
    have : lumScaled 232 163 98 = 11000917508080 := by decide
    rw [this]
    norm_num
  have hlight : ¬ squareLuminance 232 163 98 < 0.5 := by
    intro h
    norm_num at h
    linarith
  refine ⟨roundF64_error, rfl, hval, ?_⟩
  exact (determineThemeDetails_square_luminance roundF64 roundF64_error 'e' '8' 'a' '3' '6' '2'
    14 8 10 3 6 2 rfl rfl rfl rfl rfl rfl).2.2.1.mpr hlight

end Zakaranda
